import Mathlib

/-! # KLib: robust ellipse estimation (`cv/matching/EllipseEstimator.h`)

A shallow embedding of `K::EllipseEstimator` and the properties of its
least-squares fitter, its two RANSAC loops, its iterative trimming and its two
scoring routines, followed by the convolution kernels of `cv/Kernel.h`, the
line-number decoding of `cv/stereo/StructuredLight.h`, the pixel interpolation
of `cv/filter/Interpolation.h` and the buffered reads of
`streams/BufferedInputStream.h`.

Conventions of the embedding

* `float` values are exact elements of a linearly ordered field `R`.  Where a
  `float` result is converted to `int` or decides a branch of the embedded
  code (`minInliers`, `outlinePixelsApx`, `deg`, the coverage of `getStats`,
  the brightness differences of `getLineNumbers`), the operations round with
  `roundFloat` and the `float` constants have their binary values; elsewhere
  the statements are about exact arithmetic.  A not-a-number value is
  modelled only where the code tests for it: the semi-axes `a`, `b` of
  `GeometricParams` are `Option R`, `none` standing for NaN, so that the C++
  test `geo.a != geo.a` is `geo.a = none`.
* A conversion of a `float` to `int` has a value only when the truncated
  number is a value of the 32-bit `int`, and so has the sum of two `int`
  values in `bicubic`; a left shift of an `int` wraps modulo `2^32` (the rule
  of C++20), and a shift by 32 or more positions has no value.
* `Eigen::JacobiSVD`, `std::sort`, `RandomIterator`,
  `Ellipse::CanonicalParams::toGeometric`, `GeometricParams::getRatio` and the
  scoring routines are collaborators of the embedded functions; they are
  parameters of the definitions that call them.  `CanonicalParams::fixF` and
  `CanonicalParams::getError` are modelled from the spec.
* The products `points.size() * 0.15` and `points.size() * 0.04` are taken
  exactly; floating-point rounding is not modelled.
* A `for` loop whose body may execute `--i; continue;` is run with fuel; the
  result is `none` when the fuel does not suffice.
* An operation without a defined value (an array access out of bounds, the
  conversion of a not-a-number to `int`, a quotient by zero in exact
  arithmetic) makes the result of the embedded function `none`.
-/

/-! # Machine numbers: `float` rounding and the range of `int` -/

section MachineNumbers

variable {R : Type} [LinearOrderedField R]

/-- The C++ conversion `(int) x` of a floating value: truncation toward zero. -/
def truncToInt [FloorRing R] (x : R) : ℤ := if 0 ≤ x then ⌊x⌋ else ⌈x⌉

/-- The nearest integer of `y`, the even one of the two when `y` lies halfway
between two integers. -/
def roundHalfEven [FloorRing R] (y : R) : ℤ :=
  if y - (⌊y⌋ : R) < 1 / 2 then ⌊y⌋
  else if 1 / 2 < y - (⌊y⌋ : R) then ⌊y⌋ + 1
  else if ⌊y⌋ % 2 = 0 then ⌊y⌋ else ⌊y⌋ + 1

/-- The exponent of the `float` binade of `x`: the `e` with `2^e ≤ |x| < 2^(e+1)`,
and `-126` for the subnormal numbers below `2^(-126)`.  At `x = 0` the value (`0`)
plays no part: zero rounds to zero whatever the spacing. -/
def floatExponent [FloorRing R] (x : R) : ℤ := max (Int.log 2 |x|) (-126)

/-- The spacing `2^(e - 23)` of the `float` numbers in the binade of `x` (24
significant binary digits). -/
def floatUlp [FloorRing R] (x : R) : R := 2 ^ (floatExponent x - 23)

/-- The result of a `float` operation whose exact result is `x`: the `float`
nearest to `x`, the one with the even last digit when `x` lies halfway (IEEE 754
binary32, round to nearest even).  The exponent has no upper bound here: where
the C++ result is an infinity the model has a number of at least `2^128`. -/
def roundFloat [FloorRing R] (x : R) : R :=
  (roundHalfEven (x / floatUlp x) : R) * floatUlp x

/-- The number `n` is a value of the 32-bit type `int`. -/
def fitsInt (n : ℤ) : Bool := decide (-2147483648 ≤ n) && decide (n ≤ 2147483647)

/-- The conversion of the `float` value `x` to `int`: truncation toward zero
when the truncated value is a value of `int`; undefined (`none`) otherwise. -/
def intOfFloat [FloorRing R] (x : R) : Option ℤ :=
  if fitsInt (truncToInt x) then some (truncToInt x) else none

/-- The value of the type `int` congruent to `n` modulo `2^32` (two's
complement). -/
def wrapInt (n : ℤ) : ℤ := (n + 2147483648) % 4294967296 - 2147483648

/-- The number `x` is a value of `float`: rounding leaves it as it is. -/
def IsFloat [FloorRing R] (x : R) : Prop := roundFloat x = x

/-- Whether a number is a value of `float` can be computed. -/
instance [FloorRing R] (x : R) : Decidable (IsFloat x) :=
  inferInstanceAs (Decidable (roundFloat x = x))

end MachineNumbers

namespace EllipseEstimator

variable {R : Type} [LinearOrderedField R]

/-! ## Data model -/

/-- A point `Point2<Scalar>` with coordinates `x`, `y`. -/
structure Point2 (R : Type) where
  x : R
  y : R
deriving DecidableEq, Repr

/-- Modelled from the spec: `Ellipse::CanonicalParams` (declared in
`geo/Ellipse.h`) holds the six coefficients of `A x² + B xy + C y² + D x + E y + F = 0`. -/
structure CanonicalParams (R : Type) where
  A : R
  B : R
  C : R
  D : R
  E : R
  F : R
deriving DecidableEq, Repr

/-- Modelled from the spec: `Ellipse::GeometricParams` (declared in
`geo/Ellipse.h`).  Only the semi-axes are read by the estimator; `none` is a
not-a-number axis. -/
structure GeometricParams (R : Type) where
  a : Option R
  b : Option R
deriving DecidableEq, Repr

/-- `Estimation`: the raw parameters A,B,C,D,E,F as a 6-vector. -/
structure Estimation (R : Type) where
  params : Fin 6 → R

/-- The default constructor `Estimation()`: `params << 0,0,0,0,0,1`. -/
def Estimation.default : Estimation R := ⟨![0, 0, 0, 0, 0, 1]⟩

/-- `Estimation::fromSVD(vec)`: stores the vector unchanged. -/
def Estimation.fromSVD (vec : Fin 6 → R) : Estimation R := ⟨vec⟩

/-- `Estimation::toEllipse()`: the canonical parameters
`(vec(0), vec(1), vec(2), vec(3), vec(4), vec(5))`, with no rescaling and no
sign change. -/
def Estimation.toEllipse (est : Estimation R) : CanonicalParams R :=
  ⟨est.params 0, est.params 1, est.params 2, est.params 3, est.params 4, est.params 5⟩

/-- Modelled from the spec: `CanonicalParams::fixF()` (in `geo/Ellipse.h`): if the
F coefficient is negative, negate the entire coefficient vector. -/
def CanonicalParams.fixF (c : CanonicalParams R) : CanonicalParams R :=
  if c.F < 0 then ⟨-c.A, -c.B, -c.C, -c.D, -c.E, -c.F⟩ else c

/-- Modelled from the spec: `CanonicalParams::getError(x, y)` (in `geo/Ellipse.h`)
evaluates the algebraic residual `A x² + B xy + C y² + D x + E y + F`. -/
def CanonicalParams.getError (c : CanonicalParams R) (x y : R) : R :=
  c.A * x * x + c.B * x * y + c.C * y * y + c.D * x + c.E * y + c.F

/-! ## The least-squares fitter `getParams` -/

/-- The part of an `Eigen::JacobiSVD` result that the fitter reads:
`matrixV()` and `singularValues()`. -/
structure JacobiSVD (R : Type) where
  matrixV : Matrix (Fin 6) (Fin 6) R
  singularValues : Fin 6 → R

/-- The row `x*x, x*y, y*y, x, y, 1` that `getParams` appends for a point. -/
def designRow (p : Point2 R) : Fin 6 → R :=
  ![p.x * p.x, p.x * p.y, p.y * p.y, p.x, p.y, 1]

/-- The matrix `mat` of `getParams`: one row (one equation) per point. -/
def designMatrix (points : List (Point2 R)) : Matrix (Fin points.length) (Fin 6) R :=
  Matrix.of fun i j => designRow (points.get i) j

/-- `getParams(points)`: build `mat`, run the SVD, return column 5 of `V`.
The SVD routine is the parameter `svd`. -/
def getParams (svd : (n : ℕ) → Matrix (Fin n) (Fin 6) R → JacobiSVD R)
    (points : List (Point2 R)) : Estimation R :=
  Estimation.fromSVD fun j => (svd points.length (designMatrix points)).matrixV j 5

/-- `get(points)`: `getParams(points).toEllipse()`. -/
def get (svd : (n : ℕ) → Matrix (Fin n) (Fin 6) R → JacobiSVD R)
    (points : List (Point2 R)) : CanonicalParams R :=
  (getParams svd points).toEllipse

/-! ## The contract of the SVD and the quantities of the least-squares problem -/

/-- The contract of `Eigen::JacobiSVD` for the matrix `M`, as far as the fitter
reads the result: the columns of `V` are orthonormal, the singular values are
non-negative and sorted in decreasing order, and the columns of `M V` are
mutually orthogonal with the singular values as lengths (that is, `M V = U Σ`
for a `U` with orthonormal columns). -/
def IsSVD {n : ℕ} (M : Matrix (Fin n) (Fin 6) R) (r : JacobiSVD R) : Prop :=
  r.matrixV.transpose * r.matrixV = 1 ∧
  (∀ i, 0 ≤ r.singularValues i) ∧
  (∀ i j, i ≤ j → r.singularValues j ≤ r.singularValues i) ∧
  (M * r.matrixV).transpose * (M * r.matrixV)
    = Matrix.diagonal fun i => r.singularValues i ^ 2

/-- The coefficient 6-vector `(A, B, C, D, E, F)` of a conic. -/
def CanonicalParams.toVec (c : CanonicalParams R) : Fin 6 → R :=
  ![c.A, c.B, c.C, c.D, c.E, c.F]

/-- The squared Euclidean norm of the coefficient vector. -/
def CanonicalParams.normSq (c : CanonicalParams R) : R :=
  c.A ^ 2 + c.B ^ 2 + c.C ^ 2 + c.D ^ 2 + c.E ^ 2 + c.F ^ 2

/-- The total squared algebraic residual
`Σ (A xᵢ² + B xᵢyᵢ + C yᵢ² + D xᵢ + E yᵢ + F)²` of a conic over a point list. -/
def residual (points : List (Point2 R)) (c : CanonicalParams R) : R :=
  (points.map fun p => (c.getError p.x p.y) ^ 2).sum

/-- The matrix `matᵀ mat` of the design matrix, entry by entry as a sum over the
point list. -/
def gramMatrix (points : List (Point2 R)) : Matrix (Fin 6) (Fin 6) R :=
  Matrix.of fun a b => (points.map fun p => designRow p a * designRow p b).sum

/-! ## Counted loops -/

/-- The loop `for (int i = 0; i < numRuns; ++i) { body }` of both RANSAC
estimators.  `body k st` is the `k`-th execution of the loop body (it sees the
`k`-th random sample); it returns the new state together with a flag that is
`true` when the body ended with `--i; continue;`, in which case the `++i` of the
loop header leaves `i` unchanged.  The result pairs the number of executed
bodies with the final state, or is `none` when the fuel runs out. -/
def forLoop {σ : Type} (numRuns : ℤ) (body : ℕ → σ → Bool × σ) :
    ℕ → ℤ → ℕ → σ → Option (ℕ × σ)
  | fuel, i, k, st =>
    if i < numRuns then
      match fuel with
      | 0 => none
      | fuel + 1 =>
        let r := body k st
        forLoop numRuns body fuel (if r.1 then i else i + 1) (k + 1) r.2
    else some (k, st)

/-! ## Point-inlier RANSAC -/

namespace RANSAC

/-- `RANSAC::MatchStats`. -/
structure MatchStats (R : Type) where
  numInliers : ℤ
  outlineCoverage : R
deriving DecidableEq, Repr

/-- The default-initialised `MatchStats`: `numInliers = 0`, `outlineCoverage = 0`. -/
def MatchStats.zero : MatchStats R := ⟨0, 0⟩

/-- The configuration members of `class RANSAC`, with their initial values in
`Config.default`. -/
structure Config (R : Type) where
  stepSize : ℤ
  numRuns : ℤ
  numSamples : ℤ
  minCoverage : R
  minMatchRate : R
  maxDistance : R

/-- The member initialisers of `class RANSAC`. -/
def Config.default : Config R :=
  { stepSize := 1, numRuns := 64, numSamples := 6 + 4, minCoverage := 1 / 2,
    minMatchRate := 1 / 2, maxDistance := 7 / 4 }

/-- The collaborators of `RANSAC::get`: the sample drawn by the `k`-th call of
`it.randomize()`, the SVD routine, `CanonicalParams::toGeometric` and the
scoring routine `getStats(geo, maxDistance, allPoints, stepSize)`. -/
structure Env (R : Type) where
  sample : ℕ → List (Point2 R)
  svd : (n : ℕ) → Matrix (Fin n) (Fin 6) R → JacobiSVD R
  toGeometric : CanonicalParams R → GeometricParams R
  getStats : GeometricParams R → R → List (Point2 R) → ℤ → MatchStats R

/-- `minInliers = (int)(minMatchRate * (float)allPoints.size() / stepSize)`: the
size and the step are converted to `float`, the product and the quotient are
`float` operations, and the quotient is truncated.  The value is the one of the
C++ expression whenever that has one, see `MinInliersDefined`. -/
def minInliers [FloorRing R] (cfg : Config R) (allPoints : List (Point2 R)) : ℤ :=
  truncToInt (roundFloat (roundFloat (cfg.minMatchRate * roundFloat (allPoints.length : R))
    / roundFloat (cfg.stepSize : R)))

/-- The C++ expression for `minInliers` has a value: the divisor `stepSize` is
not zero and the truncated quotient is a value of `int`. -/
def MinInliersDefined [FloorRing R] (cfg : Config R) (allPoints : List (Point2 R)) : Prop :=
  cfg.stepSize ≠ 0 ∧ fitsInt (minInliers cfg allPoints) = true

/-- The variables the loop of `RANSAC::get` updates: `bestVal`, `bestParams`
and the caller's `bestStats` object. -/
structure Best (R : Type) where
  bestVal : ℤ
  bestParams : Estimation R
  bestStats : MatchStats R

/-- One execution of the loop body of `RANSAC::get`. -/
def body [FloorRing R] (env : Env R) (cfg : Config R) (allPoints : List (Point2 R))
    (k : ℕ) (st : Best R) : Bool × Best R :=
  let params := getParams env.svd (env.sample k)
  let canon := params.toEllipse
  if canon.F ≤ 0 then (false, st) else
  let geo := env.toGeometric canon
  if geo.a = none then (true, st) else
  if geo.b = none then (true, st) else
  let stats := env.getStats geo cfg.maxDistance allPoints cfg.stepSize
  if stats.numInliers > st.bestVal ∧ stats.numInliers ≥ minInliers cfg allPoints
      ∧ stats.outlineCoverage ≥ cfg.minCoverage then
    (false, ⟨stats.numInliers, params, stats⟩)
  else (false, st)

/-- `RANSAC::get(rndPoints, allPoints, bestStats)` run with `fuel`: the number of
executed loop bodies, the returned conic `bestParams.toEllipse()` and the
contents of the caller's `bestStats` object after the call.  The object is
passed by reference and holds `bestStats0` on entry. -/
def get [FloorRing R] (env : Env R) (cfg : Config R) (allPoints : List (Point2 R))
    (bestStats0 : MatchStats R) (fuel : ℕ) :
    Option (ℕ × CanonicalParams R × MatchStats R) :=
  (forLoop cfg.numRuns (body env cfg allPoints) fuel 0 0
      ⟨0, Estimation.default, bestStats0⟩).map
    fun r => (r.1, r.2.bestParams.toEllipse, r.2.bestStats)

end RANSAC

/-! ## Image-brightness RANSAC -/

/-- `ImageMatchStats`: `outlineCoverage` and `matchValue`, both initially 0. -/
structure ImageMatchStats (R : Type) where
  outlineCoverage : R
  matchValue : R
deriving DecidableEq, Repr

/-- The default-initialised `ImageMatchStats`. -/
def ImageMatchStats.zero : ImageMatchStats R := ⟨0, 0⟩

namespace RANSACPixel

/-- The sentinel `const float IGNORE = -1`. -/
def IGNORE : R := -1

/-- The configuration members of `class RANSACPixel`. -/
structure Config (R : Type) where
  numRuns : ℤ
  numSamples : ℤ
  minCoverage : R
  threshold : R
  minSize : R
  maxSize : R
  minRatio : R
  maxRatio : R

/-- The member initialisers of `class RANSACPixel`. -/
def Config.default : Config R :=
  { numRuns := 64, numSamples := 6 + 4, minCoverage := 1 / 2, threshold := 1 / 2,
    minSize := IGNORE, maxSize := IGNORE, minRatio := IGNORE, maxRatio := IGNORE }

/-- The collaborators of `RANSACPixel::get`: the sample drawn by the `k`-th call
of `it.randomize()`, the SVD routine, `toGeometric`, `GeometricParams::getRatio`
and `Helper::getImageStats(geo, img, threshold)` for the image of the call. -/
structure Env (R : Type) where
  sample : ℕ → List (Point2 R)
  svd : (n : ℕ) → Matrix (Fin n) (Fin 6) R → JacobiSVD R
  toGeometric : CanonicalParams R → GeometricParams R
  getRatio : GeometricParams R → R
  getImageStats : GeometricParams R → R → ImageMatchStats R

/-- The variables the loop of `RANSACPixel::get` updates: the local
`bestStats` and `bestParams`. -/
structure Best (R : Type) where
  bestStats : ImageMatchStats R
  bestParams : Estimation R

/-- One execution of the loop body of `RANSACPixel::get`. -/
def body (env : Env R) (cfg : Config R) (k : ℕ) (st : Best R) : Bool × Best R :=
  let params := getParams env.svd (env.sample k)
  let canon := params.toEllipse.fixF
  if canon.F ≤ 0 then (false, st) else
  let geo := env.toGeometric canon
  match geo.a, geo.b with
  | none, _ => (true, st)
  | some _, none => (true, st)
  | some a, some b =>
    if cfg.minRatio ≠ IGNORE ∧ env.getRatio geo < cfg.minRatio then (false, st) else
    if cfg.maxRatio ≠ IGNORE ∧ env.getRatio geo > cfg.maxRatio then (false, st) else
    let size := a + b
    if cfg.minSize ≠ IGNORE ∧ size < cfg.minSize then (false, st) else
    if cfg.maxSize ≠ IGNORE ∧ size > cfg.maxSize then (false, st) else
    let stats := env.getImageStats geo cfg.threshold
    if cfg.minCoverage ≠ IGNORE ∧ stats.outlineCoverage < cfg.minCoverage then (false, st) else
    if stats.matchValue < st.bestStats.matchValue then (false, st) else
    (false, ⟨stats, params⟩)

/-- `RANSACPixel::get(rndPoints, img, _bestStats)` run with `fuel`: the number of
executed loop bodies, the returned conic `bestParams.toEllipse()` and the value
assigned to `_bestStats`. -/
def get (env : Env R) (cfg : Config R) (fuel : ℕ) :
    Option (ℕ × CanonicalParams R × ImageMatchStats R) :=
  (forLoop cfg.numRuns (body env cfg) fuel 0 0 ⟨ImageMatchStats.zero, Estimation.default⟩).map
    fun r => (r.1, r.2.bestParams.toEllipse, r.2.bestStats)

end RANSACPixel

/-! ## Bookkeeping for the counted loops -/

/-- The loop state after the first `k` executions of the body. -/
def stateAfter {σ : Type} (body : ℕ → σ → Bool × σ) (st0 : σ) : ℕ → σ
  | 0 => st0
  | k + 1 => (body k (stateAfter body st0 k)).2

/-- The value of the loop counter `i` after the first `k` executions of the
body, when the `j`-th execution ends with `--i; continue;` exactly if `redo j`:
the number of executions among the first `k` that were not redone. -/
def countedBefore (redo : ℕ → Bool) : ℕ → ℕ
  | 0 => 0
  | k + 1 => countedBefore redo k + (if redo k then 0 else 1)

/-- The number of executions among the first `k` that ended with `--i; continue;`. -/
def redoneBefore (redo : ℕ → Bool) : ℕ → ℕ
  | 0 => 0
  | k + 1 => redoneBefore redo k + (if redo k then 1 else 0)

/-- The loop leaves after exactly `k` executions of the body: the counter has
reached `numRuns` after `k` executions and not before. -/
def StopsAt (numRuns : ℤ) (redo : ℕ → Bool) (k : ℕ) : Prop :=
  numRuns ≤ (countedBefore redo k : ℤ) ∧ ∀ j, j < k → (countedBefore redo j : ℤ) < numRuns

/-! ## Naming the trials of a run -/

namespace RANSAC

/-- The estimation fitted in the `k`-th execution of the loop body. -/
def trialParams (env : Env R) (k : ℕ) : Estimation R := getParams env.svd (env.sample k)

/-- The geometric form computed in the `k`-th execution of the loop body. -/
def trialGeo (env : Env R) (k : ℕ) : GeometricParams R :=
  env.toGeometric (trialParams env k).toEllipse

/-- The statistics `getStats` returns in the `k`-th execution of the loop body. -/
def trialStats (env : Env R) (cfg : Config R) (allPoints : List (Point2 R)) (k : ℕ) :
    MatchStats R :=
  env.getStats (trialGeo env k) cfg.maxDistance allPoints cfg.stepSize

/-- The `k`-th trial is rejected by the test `canon.F <= 0`. -/
def fRejected (env : Env R) (k : ℕ) : Bool := decide ((trialParams env k).toEllipse.F ≤ 0)

/-- The `k`-th trial is rejected by one of the tests `geo.a != geo.a`,
`geo.b != geo.b` (which follow the test of F). -/
def nanRejected (env : Env R) (k : ℕ) : Bool :=
  !fRejected env k && ((trialGeo env k).a.isNone || (trialGeo env k).b.isNone)

/-- The `k`-th trial passes validation: it reaches `getStats`. -/
def Valid (env : Env R) (k : ℕ) : Prop :=
  0 < (trialParams env k).toEllipse.F ∧ (trialGeo env k).a ≠ none ∧ (trialGeo env k).b ≠ none

/-- The `k`-th trial passes validation, has at least one inlier, and meets the
minimum inlier count `minInliers` and the minimum coverage. -/
def Qualifies [FloorRing R] (env : Env R) (cfg : Config R) (allPoints : List (Point2 R))
    (k : ℕ) : Prop :=
  Valid env k ∧ 0 < (trialStats env cfg allPoints k).numInliers ∧
    minInliers cfg allPoints ≤ (trialStats env cfg allPoints k).numInliers ∧
    cfg.minCoverage ≤ (trialStats env cfg allPoints k).outlineCoverage

/-- The acceptance constraints as the spec words them, without the requirement
of at least one inlier. -/
def MeetsConstraints [FloorRing R] (env : Env R) (cfg : Config R)
    (allPoints : List (Point2 R)) (k : ℕ) : Prop :=
  Valid env k ∧
    minInliers cfg allPoints ≤ (trialStats env cfg allPoints k).numInliers ∧
    cfg.minCoverage ≤ (trialStats env cfg allPoints k).outlineCoverage

end RANSAC

namespace RANSACPixel

/-- The estimation fitted in the `k`-th execution of the loop body. -/
def trialParams (env : Env R) (k : ℕ) : Estimation R := getParams env.svd (env.sample k)

/-- The sign-fixed canonical parameters of the `k`-th execution. -/
def trialCanon (env : Env R) (k : ℕ) : CanonicalParams R := (trialParams env k).toEllipse.fixF

/-- The geometric form computed in the `k`-th execution of the loop body. -/
def trialGeo (env : Env R) (k : ℕ) : GeometricParams R := env.toGeometric (trialCanon env k)

/-- The statistics `getImageStats` returns in the `k`-th execution. -/
def trialStats (env : Env R) (cfg : Config R) (k : ℕ) : ImageMatchStats R :=
  env.getImageStats (trialGeo env k) cfg.threshold

/-- The `k`-th trial is rejected by the test `canon.F <= 0`. -/
def fRejected (env : Env R) (k : ℕ) : Bool := decide ((trialCanon env k).F ≤ 0)

/-- The `k`-th trial is rejected by one of the tests `geo.a != geo.a`,
`geo.b != geo.b` (which follow the test of F). -/
def nanRejected (env : Env R) (k : ℕ) : Bool :=
  !fRejected env k && ((trialGeo env k).a.isNone || (trialGeo env k).b.isNone)

/-- The `k`-th trial is accepted: it passes the F test, the NaN tests, the
ratio and size constraints and the coverage constraint, so that only the
comparison of `matchValue` remains. -/
def Accepted (env : Env R) (cfg : Config R) (k : ℕ) : Prop :=
  0 < (trialCanon env k).F ∧
  ∃ a b, (trialGeo env k).a = some a ∧ (trialGeo env k).b = some b ∧
    ¬ (cfg.minRatio ≠ IGNORE ∧ env.getRatio (trialGeo env k) < cfg.minRatio) ∧
    ¬ (cfg.maxRatio ≠ IGNORE ∧ env.getRatio (trialGeo env k) > cfg.maxRatio) ∧
    ¬ (cfg.minSize ≠ IGNORE ∧ a + b < cfg.minSize) ∧
    ¬ (cfg.maxSize ≠ IGNORE ∧ a + b > cfg.maxSize) ∧
    ¬ (cfg.minCoverage ≠ IGNORE ∧ (trialStats env cfg k).outlineCoverage < cfg.minCoverage)

end RANSACPixel

/-! ## Iterative trimming `getRemoveWorst` -/

/-- `const int toRemove = points.size() * 0.15;` for `n` points: the product is
taken exactly and converted with `(int)`. -/
def toRemove (n : ℕ) : ℤ := truncToInt ((n : ℚ) * (15 / 100))

/-- `const int removePerRun = points.size() * 0.04;` for `n` points. -/
def removePerRun (n : ℕ) : ℤ := truncToInt ((n : ℚ) * (4 / 100))

/-- The C++ quotient `a / b` of two `int`s: truncated, and undefined (`none`)
when the divisor is zero. -/
def intDiv (a b : ℤ) : Option ℤ := if b = 0 then none else some (Int.tdiv a b)

/-- The comparator of `getRemoveWorst`:
`params.getError(p1.x,p1.y) > params.getError(p2.x,p2.y)`. -/
def errorComp (params : CanonicalParams R) (p1 p2 : Point2 R) : Bool :=
  decide (params.getError p1.x p1.y > params.getError p2.x p2.y)

/-- One round of `getRemoveWorst` on the current `points`: fit, sort by the
comparator, `resize` to `size - removePerRun`.  The sorting routine `std::sort`
is the parameter `sort`.  The result is the fitted conic and the resized list. -/
def removeWorstRound (svd : (n : ℕ) → Matrix (Fin n) (Fin 6) R → JacobiSVD R)
    (sort : (Point2 R → Point2 R → Bool) → List (Point2 R) → List (Point2 R))
    (perRun : ℤ) (points : List (Point2 R)) : CanonicalParams R × List (Point2 R) :=
  let params := get svd points
  let sorted := sort (errorComp params) points
  (params, sorted.take (sorted.length - perRun.toNat))

/-- The points that the `resize` of a round cuts off: the last `removePerRun`
entries of the sorted list. -/
def removedInRound (svd : (n : ℕ) → Matrix (Fin n) (Fin 6) R → JacobiSVD R)
    (sort : (Point2 R → Point2 R → Bool) → List (Point2 R) → List (Point2 R))
    (perRun : ℤ) (points : List (Point2 R)) : List (Point2 R) :=
  let sorted := sort (errorComp (get svd points)) points
  sorted.drop (sorted.length - perRun.toNat)

/-- The variables `params` and `points` after `rounds` rounds of the loop of
`getRemoveWorst`, started from `st`. -/
def removeWorstLoop (svd : (n : ℕ) → Matrix (Fin n) (Fin 6) R → JacobiSVD R)
    (sort : (Point2 R → Point2 R → Bool) → List (Point2 R) → List (Point2 R))
    (perRun : ℤ) : ℕ → CanonicalParams R × List (Point2 R) → CanonicalParams R × List (Point2 R)
  | 0, st => st
  | rounds + 1, st =>
    removeWorstRound svd sort perRun (removeWorstLoop svd sort perRun rounds st).2

/-- `getRemoveWorst(_points)`.  `params0` is the default-constructed
`Ellipse::CanonicalParams params`.  The loop bound `toRemove/removePerRun` is
evaluated by `intDiv`; the result is `none` when that division is undefined. -/
def getRemoveWorst (svd : (n : ℕ) → Matrix (Fin n) (Fin 6) R → JacobiSVD R)
    (sort : (Point2 R → Point2 R → Bool) → List (Point2 R) → List (Point2 R))
    (params0 : CanonicalParams R) (_points : List (Point2 R)) : Option (CanonicalParams R) :=
  match intDiv (toRemove _points.length) (removePerRun _points.length) with
  | none => none
  | some bound =>
    some (removeWorstLoop svd sort (removePerRun _points.length) bound.toNat
      (params0, _points)).1

/-- A sorting routine for the examples: insertion sort that places `a` before
`b` unless the comparator puts `b` first. -/
def insertionStdSort (comp : Point2 ℚ → Point2 ℚ → Bool) (l : List (Point2 ℚ)) :
    List (Point2 ℚ) :=
  l.insertionSort fun a b => comp b a = false

/-! ## The scoring routines -/

/-- The constant `(float)M_PI`: the single-precision number nearest to π, which
is `13176795 / 2^22`. -/
def floatPi : R := 13176795 / 4194304

namespace RANSAC

/-- Modelled from the spec: the part of `EllipseDistance::AlignedSplit::Result`
(declared in `geo/EllipseDistance.h`) that `getStats` reads: the `distance` of the
query point to the ellipse and the outline angle `getOrigRad()`, in radians. -/
structure DistanceResult (R : Type) where
  distance : R
  origRad : R

/-- `std::max(geo.a, geo.b)`, that is `(a < b) ? b : a`, on values that may be
not-a-number: a comparison with a not-a-number is false, so the first argument
is returned unless both are numbers and the second is larger. -/
def stdMax : Option R → Option R → Option R
  | some x, some y => if x < y then some y else some x
  | a, _ => a

/-- `const int outlinePixelsApx = 2.0f * (float)M_PI * std::max(geo.a, geo.b);`
The two products are `float` operations.  The conversion to `int` of a
not-a-number, or of a value outside the range of `int`, is undefined (`none`). -/
def outlinePixelsApx [FloorRing R] (geo : GeometricParams R) : Option ℤ :=
  (stdMax geo.a geo.b).bind fun m => intOfFloat (roundFloat (roundFloat (2 * floatPi) * m))

/-- `const int segments = std::min(200, std::max(1, outlinePixelsApx / 4));` -/
def segments (outlinePixelsApx : ℤ) : ℤ := min 200 (max 1 (Int.tdiv outlinePixelsApx 4))

/-- The value of `deg` after
`if (deg < 0) {deg = 360+deg;}  if (deg > 360) {deg %= 360;}`. -/
def normalisedDeg (deg : ℤ) : ℤ :=
  let deg1 := if deg < 0 then 360 + deg else deg
  if deg1 > 360 then Int.tmod deg1 360 else deg1

/-- `const int seg = deg * segments / 360;` for the normalised `deg`. -/
def seg (deg segments : ℤ) : ℤ := Int.tdiv (normalisedDeg deg * segments) 360

/-- `int deg = res.getOrigRad() * 180 / (float)M_PI;`: the product and the
quotient are `float` operations; the conversion of the quotient to `int` is
undefined (`none`) outside the range of `int`. -/
def degOf [FloorRing R] (origRad : R) : Option ℤ :=
  intOfFloat (roundFloat (roundFloat (origRad * 180) / floatPi))

/-- The summand `1.0f / segments` of the coverage: `segments` is converted to
`float` and the quotient is a `float` operation. -/
def coverageShare [FloorRing R] (segments : ℤ) : R :=
  roundFloat (1 / roundFloat (segments : R))

/-- The body of the loop of `getStats` for one visited point with oracle result
`res`, on the pair of `stats` and the array `degCovered`.  An access
`degCovered[seg]` outside the array is undefined (`none`).  The update
`stats.outlineCoverage += 1.0f / segments` is a `float` addition. -/
def countPoint [FloorRing R] (res : DistanceResult R) (distance : R) (segments : ℤ)
    (st : MatchStats R × List Bool) : Option (MatchStats R × List Bool) :=
  if res.distance < distance then
    match degOf res.origRad with
    | none => none
    | some deg =>
      let s := seg deg segments
      if s < 0 then none else
      match st.2[s.toNat]? with
      | none => none
      | some true => some (⟨st.1.numInliers + 1, st.1.outlineCoverage⟩, st.2)
      | some false =>
        some (⟨st.1.numInliers + 1,
            roundFloat (st.1.outlineCoverage + coverageShare segments)⟩,
          st.2.set s.toNat true)
  else some st

/-- The points `points[i]` that the loop
`for (int i = 0; i < (int) points.size(); i += stepSize)` visits: those at the
indices below the size that are multiples of `stepSize`.  On a non-empty list a
`stepSize` of zero never leaves the loop and a negative one indexes before the
start of the vector; there is no result then (`none`). -/
def visited {α : Type} : List α → ℤ → Option (List α)
  | [], _ => some []
  | p :: ps, stepSize =>
    if stepSize ≤ 0 then none
    else some ((List.range (p :: ps).length).filterMap fun i =>
      if i % stepSize.toNat = 0 then (p :: ps)[i]? else none)

/-- `RANSAC::getStats(geo, distance, points, stepSize)`.  The distance oracle
`EllipseDistance::AlignedSplit(geo, 8).getBest(p)` is the parameter `getBest`. -/
def getStats [FloorRing R] (getBest : GeometricParams R → Point2 R → DistanceResult R)
    (geo : GeometricParams R) (distance : R) (points : List (Point2 R)) (stepSize : ℤ) :
    Option (MatchStats R) :=
  match outlinePixelsApx geo with
  | none => none
  | some apx =>
    match visited points stepSize with
    | none => none
    | some ps =>
      (ps.foldlM (fun st p => countPoint (getBest geo p) distance (segments apx) st)
        (MatchStats.zero, List.replicate (segments apx).toNat false)).map Prod.fst

end RANSAC

namespace Helper

/-- Modelled from the spec: the part of `K::ImageChannel` (declared in
`cv/ImageChannel.h`) that `getImageStats` uses: the bounds-checked containment
test `contains(x, y)` and the value lookup `get(x, y)`. -/
structure ImageChannel (R : Type) where
  contains : R → R → Bool
  get : R → R → R

/-- The body of the loop of `getImageStats` for one `step`, on `stats`. -/
def sampleStep (getPointFor : GeometricParams R → R → Point2 R) (geo : GeometricParams R)
    (img : ImageChannel R) (threshold : R) (stats : ImageMatchStats R) (step : ℕ) :
    ImageMatchStats R :=
  let rad := 2 * floatPi * (step : R) / 360
  let pt := getPointFor geo rad
  if img.contains pt.x pt.y = false then stats else
  let val := img.get pt.x pt.y
  if val ≥ threshold then ⟨stats.outlineCoverage + 1, stats.matchValue + val⟩ else stats

/-- `Helper::getImageStats(geo, img, threshold)`.  The outline parametrisation
`GeometricParams::getPointFor(rad)` is the parameter `getPointFor`. -/
def getImageStats (getPointFor : GeometricParams R → R → Point2 R) (geo : GeometricParams R)
    (img : ImageChannel R) (threshold : R) : ImageMatchStats R :=
  let stats := (List.range 360).foldl (sampleStep getPointFor geo img threshold)
    ImageMatchStats.zero
  ⟨stats.outlineCoverage / 360, stats.matchValue⟩

end Helper

/-! ## Reference definitions of the scoring routines -/

namespace RANSAC

/-- The points at the indices `0, k, 2k, …` of a list. -/
def everyKth {α : Type} (k : ℕ) (points : List α) : List α :=
  (List.range points.length).filterMap fun j => points[j * k]?

/-- The segment index `seg` that `getStats` computes for the point `p`, for a
given number of segments; `none` when the degree of the point has no value. -/
def segmentOf [FloorRing R] (getBest : GeometricParams R → Point2 R → DistanceResult R)
    (geo : GeometricParams R) (segments : ℤ) (p : Point2 R) : Option ℤ :=
  (degOf (getBest geo p).origRad).map fun deg => seg deg segments

/-- The inliers among the points at the indices `0, k, 2k, …`: those whose
oracle distance is strictly below the threshold. -/
def inliersOf (getBest : GeometricParams R → Point2 R → DistanceResult R)
    (geo : GeometricParams R) (distance : R) (points : List (Point2 R)) (k : ℕ) :
    List (Point2 R) :=
  (everyKth k points).filter fun p => decide ((getBest geo p).distance < distance)

/-- The number of distinct segments hit by at least one inlier. -/
def segmentsHit [FloorRing R] (getBest : GeometricParams R → Point2 R → DistanceResult R)
    (geo : GeometricParams R) (distance : R) (points : List (Point2 R)) (k : ℕ)
    (segments : ℤ) : ℕ :=
  ((inliersOf getBest geo distance points k).filterMap
    (segmentOf getBest geo segments)).toFinset.card

/-- The point-inlier score in the words of the spec: `numInliers` is the number
of points at the indices `0, k, 2k, …` whose oracle distance is strictly below
the threshold, and `outlineCoverage` is the number of distinct segments hit by
such an inlier over the number of segments. -/
def getStatsSpec [FloorRing R] (getBest : GeometricParams R → Point2 R → DistanceResult R)
    (geo : GeometricParams R) (distance : R) (points : List (Point2 R)) (k : ℕ)
    (segments : ℤ) : MatchStats R :=
  ⟨((inliersOf getBest geo distance points k).length : ℤ),
    (segmentsHit getBest geo distance points k segments : R) / (segments : R)⟩

/-- The `float` sum `0 + t + t + … + t` of `n` summands, added one at a time. -/
def floatSum [FloorRing R] (t : R) : ℕ → R
  | 0 => 0
  | n + 1 => roundFloat (floatSum t n + t)

/-- The point-inlier score with the coverage as the code accumulates it:
`numInliers` as in `getStatsSpec`, and `outlineCoverage` the `float` sum of one
summand `1.0f / segments` for every distinct segment hit by an inlier. -/
def getStatsFloatSpec [FloorRing R]
    (getBest : GeometricParams R → Point2 R → DistanceResult R)
    (geo : GeometricParams R) (distance : R) (points : List (Point2 R)) (k : ℕ)
    (segments : ℤ) : MatchStats R :=
  ⟨((inliersOf getBest geo distance points k).length : ℤ),
    floatSum (coverageShare segments) (segmentsHit getBest geo distance points k segments)⟩

/-- The segment count in the words of the spec, for a value `pi` of the
constant: the outline length `L = floor(2 * pi * max(a, b))` divided by 4
(integer division) and clamped to `[1, 200]`. -/
def segmentsSpec [FloorRing R] (pi a b : R) : ℤ :=
  min 200 (max 1 (⌊2 * pi * max a b⌋ / 4))

end RANSAC

namespace Helper

/-- The image-brightness score in the words of the spec: of the 360 outline
samples at the angles `2 * pi * step / 360`, those inside the image with a
brightness of at least the threshold are counted; `outlineCoverage` is their
number over 360 and `matchValue` the sum of their brightness. -/
def getImageStatsSpec (getPointFor : GeometricParams R → R → Point2 R)
    (geo : GeometricParams R) (img : ImageChannel R) (threshold : R) : ImageMatchStats R :=
  let samples := (List.range 360).map fun (step : ℕ) =>
    getPointFor geo (2 * floatPi * (step : R) / 360)
  let counted := samples.filter fun pt =>
    img.contains pt.x pt.y && decide (threshold ≤ img.get pt.x pt.y)
  ⟨(counted.length : R) / 360, (counted.map fun pt => img.get pt.x pt.y).sum⟩

end Helper

/-! ## Concrete collaborators used in the examples -/

/-- A stand-in for the SVD routine: on a matrix with `n` rows it returns a `V`
whose column 5 is `v n` (the other columns are zero). -/
def columnSVD (v : ℕ → Fin 6 → ℚ) : (n : ℕ) → Matrix (Fin n) (Fin 6) ℚ → JacobiSVD ℚ :=
  fun n _ => ⟨Matrix.of fun i j => if j = 5 then v n i else 0, 0⟩

/-- A sampler whose `k`-th sample consists of `k` copies of the origin, so that
`columnSVD v` fits `v k` in the `k`-th execution of a loop body. -/
def countingSample (k : ℕ) : List (Point2 ℚ) := List.replicate k ⟨0, 0⟩

/-- Point-inlier collaborators: trial `k` fits `v k`, has the semi-axes `axes k`
for both `a` and `b`, and scores `stats k`. -/
def RANSAC.tableEnv (v : ℕ → Fin 6 → ℚ) (axes : ℚ → Option ℚ)
    (stats : ℚ → RANSAC.MatchStats ℚ) : RANSAC.Env ℚ :=
  { sample := countingSample
    svd := columnSVD v
    toGeometric := fun c => ⟨axes c.A, axes c.A⟩
    getStats := fun g _ _ _ => match g.a with
      | some a => stats a
      | none => ⟨0, 0⟩ }

/-- Image-brightness collaborators: trial `k` fits `v k`, has the semi-axes
`axes A` for both `a` and `b` (`A` the first coefficient), the ratio 1, and scores `stats a`. -/
def RANSACPixel.tableEnv (v : ℕ → Fin 6 → ℚ) (axes : ℚ → Option ℚ)
    (stats : ℚ → ImageMatchStats ℚ) : RANSACPixel.Env ℚ :=
  { sample := countingSample
    svd := columnSVD v
    toGeometric := fun c => ⟨axes c.A, axes c.A⟩
    getRatio := fun _ => 1
    getImageStats := fun g _ => match g.a with
      | some a => stats a
      | none => ⟨0, 0⟩ }

/-- A point-inlier run with one trial that passes validation and scores no inlier. -/
def RANSAC.zeroInlierEnv : RANSAC.Env ℚ :=
  RANSAC.tableEnv (fun _ => ![2, 0, 2, 0, 0, 1]) (fun a => some a) (fun _ => ⟨0, 0⟩)

/-- One run, no minimum match rate, no minimum coverage. -/
def RANSAC.zeroCfg : RANSAC.Config ℚ :=
  { stepSize := 1, numRuns := 1, numSamples := 10, minCoverage := 0, minMatchRate := 0,
    maxDistance := 7 / 4 }

/-- A point-inlier run whose trials all pass validation and all score 3 inliers
with full coverage; trial `k` fits the conic with `A = k + 1`. -/
def RANSAC.tieEnv : RANSAC.Env ℚ :=
  RANSAC.tableEnv (fun k => ![(k : ℚ) + 1, 0, 2, 0, 0, 1]) (fun a => some a) (fun _ => ⟨3, 1⟩)

/-- Two runs with the minimum match rate `0.7f`, the `float` `11744051 / 2^24`. -/
def RANSAC.seventyPercentCfg : RANSAC.Config ℚ :=
  { stepSize := 1, numRuns := 2, numSamples := 10, minCoverage := 1 / 2,
    minMatchRate := 11744051 / 16777216, maxDistance := 7 / 4 }

/-- A point-inlier run whose trials all pass validation with full coverage;
trial `k` fits the conic with `A = k + 1` and scores `6 + k` inliers. -/
def RANSAC.risingEnv : RANSAC.Env ℚ :=
  RANSAC.tableEnv (fun k => ![(k : ℚ) + 1, 0, 2, 0, 0, 1]) (fun a => some a)
    (fun a => ⟨⌊a⌋ + 5, 1⟩)

/-- Ten points. -/
def tenOrigins : List (Point2 ℚ) := List.replicate 10 ⟨0, 0⟩

/-- The default configuration with two runs. -/
def RANSAC.twoRunsCfg : RANSAC.Config ℚ :=
  { stepSize := 1, numRuns := 2, numSamples := 10, minCoverage := 1 / 2, minMatchRate := 1 / 2,
    maxDistance := 7 / 4 }

/-- The default point-inlier configuration with a single run. -/
def RANSAC.oneRunCfg : RANSAC.Config ℚ :=
  { stepSize := 1, numRuns := 1, numSamples := 10, minCoverage := 1 / 2, minMatchRate := 1 / 2,
    maxDistance := 7 / 4 }

/-- A point-inlier run whose first fit has `F = -1`; every later trial passes
validation and scores 3 inliers with full coverage. -/
def RANSAC.fRejectEnv : RANSAC.Env ℚ :=
  RANSAC.tableEnv (fun k => if k = 0 then ![0, 0, 0, 0, 0, -1] else ![2, 0, 2, 0, 0, 1])
    (fun a => some a) (fun _ => ⟨3, 1⟩)

/-- A point-inlier run in which every fit has `F > 0` and not-a-number semi-axes. -/
def RANSAC.nanEnv : RANSAC.Env ℚ :=
  RANSAC.tableEnv (fun _ => ![2, 0, 2, 0, 0, 1]) (fun _ => none) (fun _ => ⟨3, 1⟩)

/-- The default image-brightness configuration with two runs. -/
def RANSACPixel.twoRunsCfg : RANSACPixel.Config ℚ :=
  { numRuns := 2, numSamples := 10, minCoverage := 1 / 2, threshold := 1 / 2,
    minSize := -1, maxSize := -1, minRatio := -1, maxRatio := -1 }

/-- The default image-brightness configuration with a single run. -/
def RANSACPixel.oneRunCfg : RANSACPixel.Config ℚ :=
  { numRuns := 1, numSamples := 10, minCoverage := 1 / 2, threshold := 1 / 2,
    minSize := -1, maxSize := -1, minRatio := -1, maxRatio := -1 }

/-- An image-brightness run whose trials are all accepted with full coverage and
the same `matchValue` 10; trial `k` fits the conic with `A = k + 1`. -/
def RANSACPixel.tieEnv : RANSACPixel.Env ℚ :=
  RANSACPixel.tableEnv (fun k => ![(k : ℚ) + 1, 0, 2, 0, 0, 1]) (fun a => some a)
    (fun _ => ⟨1, 10⟩)

/-- An image-brightness run whose first fit has `F = 0`; every later trial is
accepted with `matchValue` 10. -/
def RANSACPixel.fRejectEnv : RANSACPixel.Env ℚ :=
  RANSACPixel.tableEnv (fun k => if k = 0 then ![1, 0, 0, 0, 0, 0] else ![2, 0, 2, 0, 0, 1])
    (fun a => some a) (fun _ => ⟨1, 10⟩)

/-- An image-brightness run in which every fit has `F > 0` and not-a-number semi-axes. -/
def RANSACPixel.nanEnv : RANSACPixel.Env ℚ :=
  RANSACPixel.tableEnv (fun _ => ![2, 0, 2, 0, 0, 1]) (fun _ => none) (fun _ => ⟨1, 10⟩)

/-- A stand-in fitter for the examples of the trimming rounds: it always fits the
unit circle `x² + y² - 1 = 0`. -/
def circleSVD : (n : ℕ) → Matrix (Fin n) (Fin 6) ℚ → JacobiSVD ℚ :=
  columnSVD fun _ => ![1, 0, 1, 0, 0, -1]

/-- Three points with the residuals -1, 0 and 3 against the unit circle. -/
def threePoints : List (Point2 ℚ) := [⟨0, 0⟩, ⟨1, 0⟩, ⟨2, 0⟩]

/-- A stand-in fitter that tells point sets of different sizes apart: on `n`
points it fits the conic with `A = n`. -/
def sizeSVD : (n : ℕ) → Matrix (Fin n) (Fin 6) ℚ → JacobiSVD ℚ :=
  columnSVD fun n => ![(n : ℚ), 0, 1, 0, 0, -1]

/-- The twenty-five points `(x, y)` of the grid `x, y ∈ {0, …, 4}`. -/
def gridPoints : List (Point2 ℚ) :=
  (List.range 25).map fun (i : ℕ) => Point2.mk ((i % 5 : ℕ) : ℚ) ((i / 5 : ℕ) : ℚ)

/-- Thirty points on the ellipse `3 x² + 4 y² = 12`: the vertices `(±2, 0)` seven
times each and the four points `(±1, ±3/2)` four times each. -/
def ellipseSample : List (Point2 R) :=
  List.replicate 7 ⟨2, 0⟩ ++ List.replicate 7 ⟨-2, 0⟩ ++ List.replicate 4 ⟨1, 3 / 2⟩ ++
    List.replicate 4 ⟨1, -(3 / 2)⟩ ++ List.replicate 4 ⟨-1, 3 / 2⟩ ++
    List.replicate 4 ⟨-1, -(3 / 2)⟩

/-- The right singular vectors of the design matrix of `ellipseSample`, as
columns, for the singular values `√273, √78, √72, 6, 6, 0`. -/
def ellipseSampleV : Matrix (Fin 6) (Fin 6) R :=
  !![12 / 13, -(4 / 13), 0, 0, 0, 3 / 13;
     0, 0, 0, 1, 0, 0;
     3 / 13, 12 / 13, 0, 0, 0, 4 / 13;
     0, 0, 1, 0, 0, 0;
     0, 0, 0, 0, 1, 0;
     4 / 13, 3 / 13, 0, 0, 0, -(12 / 13)]

/-- Fifty-one points on the parabola `y = x²`. -/
def parabolaPoints : List (Point2 ℚ) :=
  (List.range 51).map fun (i : ℕ) => Point2.mk (i : ℚ) ((i : ℚ) * (i : ℚ))

/-- A point-inlier run of which every trial fits `s` times the vector
`(2, 0, 2, 0, 0, 1)`; the geometry does not depend on the sign `s`, and every
scored trial has 3 inliers with full coverage. -/
def RANSAC.signEnv (s : ℚ) : RANSAC.Env ℚ :=
  RANSAC.tableEnv (fun _ => ![2 * s, 0, 2 * s, 0, 0, s]) (fun a => some |a|) (fun _ => ⟨3, 1⟩)

/-- A point-inlier run whose first trial passes the test of F and has
not-a-number semi-axes; every later trial passes validation and scores 3 inliers
with full coverage.  Trial `k` fits the conic with `A = k + 1`. -/
def RANSAC.nanFirstEnv : RANSAC.Env ℚ :=
  RANSAC.tableEnv (fun k => ![(k : ℚ) + 1, 0, 2, 0, 0, 1])
    (fun a => if a = 1 then none else some a) (fun _ => ⟨3, 1⟩)

/-- An image-brightness run whose first trial passes the test of F and has
not-a-number semi-axes; every later trial is accepted with `matchValue` 10.
Trial `k` fits the conic with `A = k + 1`. -/
def RANSACPixel.nanFirstEnv : RANSACPixel.Env ℚ :=
  RANSACPixel.tableEnv (fun k => ![(k : ℚ) + 1, 0, 2, 0, 0, 1])
    (fun a => if a = 1 then none else some a) (fun _ => ⟨1, 10⟩)

/-- An image-brightness run whose trials all have the semi-axes `a = b = 3` and
the ratio 1 and score full coverage with `matchValue` 10. -/
def RANSACPixel.sizeSixEnv : RANSACPixel.Env ℚ :=
  RANSACPixel.tableEnv (fun _ => ![3, 0, 3, 0, 0, 1]) (fun a => some a) (fun _ => ⟨1, 10⟩)

/-- One run with the upper size bound `maxSize` and the lower size bound and
both ratio bounds switched off. -/
def RANSACPixel.sizeCfg (maxSize : ℚ) : RANSACPixel.Config ℚ :=
  { numRuns := 1, numSamples := 10, minCoverage := 1 / 2, threshold := 1 / 2,
    minSize := -1, maxSize := maxSize, minRatio := -1, maxRatio := -1 }

/-- Nine copies of the origin. -/
def originSample : List (Point2 R) := List.replicate 9 ⟨0, 0⟩

/-- Right singular vectors of the design matrix of `originSample`, as columns,
for the singular values `3, 0, 0, 0, 0, 0`; column 5 is the unit vector of the
ellipse `x² + 2 y² + 2 x = 0`. -/
def originSampleV : Matrix (Fin 6) (Fin 6) R :=
  !![0, 0, 0, 2 / 3, 2 / 3, 1 / 3;
     0, 1, 0, 0, 0, 0;
     0, 0, 0, 1 / 3, -(2 / 3), 2 / 3;
     0, 0, 0, -(2 / 3), 1 / 3, 2 / 3;
     0, 0, 1, 0, 0, 0;
     1, 0, 0, 0, 0, 0]

/-- A distance oracle for the examples: every point lies on the ellipse
(distance 0) at the outline angle `origRad = p.x`. -/
def angleOracle : GeometricParams ℚ → Point2 ℚ → RANSAC.DistanceResult ℚ :=
  fun _ p => ⟨0, p.x⟩

/-- The circle of radius 1; its outline is divided into one segment. -/
def unitCircle : GeometricParams ℚ := ⟨some 1, some 1⟩

/-- The circle of radius 2; its outline is divided into three segments. -/
def circleTwo : GeometricParams ℚ := ⟨some 2, some 2⟩

/-- Five points whose outline angles under `angleOracle` are 0, 1, 3, 1 and 1
radians. -/
def anglePoints : List (Point2 ℚ) := [⟨0, 0⟩, ⟨1, 0⟩, ⟨3, 0⟩, ⟨1, 0⟩, ⟨1, 0⟩]

/-- The circle of radius 7; its outline is divided into ten segments. -/
def circleSeven : GeometricParams ℚ := ⟨some 7, some 7⟩

/-- Ten points whose outline angles under `angleOracle` are the `float` values
`5/16, 15/16, …, 95/16` radians, one in each of the ten segments of
`circleSeven`. -/
def tenPoints : List (Point2 ℚ) :=
  [⟨5 / 16, 0⟩, ⟨15 / 16, 0⟩, ⟨25 / 16, 0⟩, ⟨35 / 16, 0⟩, ⟨45 / 16, 0⟩, ⟨55 / 16, 0⟩,
    ⟨65 / 16, 0⟩, ⟨75 / 16, 0⟩, ⟨85 / 16, 0⟩, ⟨95 / 16, 0⟩]

/-- An image for the examples: it contains the points with `x ≥ 0`, and the
brightness at `(x, y)` is `y`. -/
def halfPlaneImage : Helper.ImageChannel ℚ := ⟨fun x _ => decide (0 ≤ x), fun _ y => y⟩

end EllipseEstimator

/-! # Convolution kernels (`cv/Kernel.h`) -/

/-- Modelled from the spec: `K::Kernel`, a `DataMatrix<float>` (declared in
`cv/DataMatrix.h`): the dimensions `width`, `height` and the array `data`, which
`DataMatrix` allocates with `width * height` entries. -/
structure Kernel (R : Type) where
  width : ℕ
  height : ℕ
  data : List R
deriving DecidableEq, Repr

namespace Kernel

variable {R : Type} [LinearOrderedField R]

/-- `Kernel::getSum()`: the sum of `data[i]` for `i < width*height`. -/
def getSum (k : Kernel R) : R := (k.data.take (k.width * k.height)).sum

/-- `Kernel::normalize()`: `data[i] /= sum` for `i < width*height`, with
`sum = getSum()`.  In exact arithmetic the quotient by a zero sum has no value
(the `float` division yields infinities and not-a-numbers); the result is then
`none`.  With `width*height = 0` the loop body is not executed. -/
def normalize (k : Kernel R) : Option (Kernel R) :=
  if k.width * k.height = 0 then some k
  else if k.getSum = 0 then none
  else some
    { k with data := (k.data.take (k.width * k.height)).map (fun x => x / k.getSum)
        ++ k.data.drop (k.width * k.height) }

end Kernel

/-- The 3×1 kernel `1 2 1`. -/
def Kernel.binomial3 : Kernel ℚ := ⟨3, 1, [1, 2, 1]⟩

/-- The 3×1 derivative kernel `-1 0 1`. -/
def Kernel.derivative3 : Kernel ℚ := ⟨3, 1, [-1, 0, 1]⟩

/-! # Structured light (`cv/stereo/StructuredLight.h`) -/

/-- Modelled from the spec: `K::DataMatrix<T>` (declared in `cv/DataMatrix.h`), a
two-dimensional array with `getWidth()`, `getHeight()`, `get(x, y)` and
`set(x, y, v)`.  The storage layout is not modelled: `cell x y` is the entry at
`(x, y)`. -/
structure DataMatrix (α : Type) where
  width : ℕ
  height : ℕ
  cell : ℕ → ℕ → α

namespace DataMatrix

variable {α : Type}

/-- `get(x, y)`. -/
def get (m : DataMatrix α) (x y : ℕ) : α := m.cell x y

/-- `set(x, y, v)`. -/
def set (m : DataMatrix α) (x y : ℕ) (v : α) : DataMatrix α :=
  { m with cell := fun x' y' => if x' = x ∧ y' = y then v else m.cell x' y' }

end DataMatrix

namespace StructuredLight

variable {R : Type} [LinearOrderedField R] [FloorRing R]

/-- `struct Dataset`: the reference image and one image per pattern.  An image
(`K::ImageChannel`) is a `DataMatrix` of brightness values. -/
structure Dataset (R : Type) where
  ref : DataMatrix R
  levels : List (DataMatrix R)

/-- `const float minBrightness = 0.15f;`: the `float` nearest to 0.15, which is
`5033165 / 2^25`. -/
def minBrightness : R := 5033165 / 33554432

/-- `const float dDarker = 0.10f;`: the `float` nearest to 0.1, which is
`13421773 / 2^27`. -/
def dDarker : R := 13421773 / 134217728

/-- `const float dSame = 0.03f;`: the `float` nearest to 0.03, which is
`16106127 / 2^29`. -/
def dSame : R := 16106127 / 536870912

/-- `const int UNKNOWN_LINE_NUMBER = -1;` -/
def UNKNOWN_LINE_NUMBER : ℤ := -1

/-- `getNumLines(numLevels)`: `1 << numLevels` on the 32-bit `int`, for the
number of level images as the callers pass it.  A shift by 32 or more positions
has no value; the shift by 31 positions wraps to `-2^31` (the rule of C++20,
and what earlier standards leave to a two's-complement implementation). -/
def getNumLines (numLevels : ℕ) : Option ℤ :=
  if numLevels < 32 then some (wrapInt ((1 : ℤ) <<< (numLevels : ℤ))) else none

/-- `getBest(ref, img, x, y)`: `img.get(x, y)`. -/
def getBest (_ref : R) (img : DataMatrix R) (x y : ℕ) : R := img.get x y

/-- The loop `for (int i = 0; i < numLevels; ++i)` of `getLineNumbers` for the
pixel `(x, y)`, over the level images that remain, from the current `lineNr`;
the result is the value of `lineNr` after the loop.  The shift `lineNr << 1` is
the shift of the 32-bit `int`, wrapping modulo `2^32` (the rule of C++20; under
earlier standards a shift that overflows has no defined value); the difference
`levelVal - refVal` is one `float` subtraction. -/
def levelLoop (refVal : R) (x y : ℕ) : List (DataMatrix R) → ℤ → ℤ
  | [], lineNr => lineNr
  | img :: images, lineNr =>
    let lineNr1 := wrapInt (lineNr <<< (1 : ℤ))
    let levelVal := getBest refVal img x y
    let diff := roundFloat (levelVal - refVal)
    if diff < -dDarker then levelLoop refVal x y images (Int.lor lineNr1 1)
    else if diff > dSame then UNKNOWN_LINE_NUMBER
    else levelLoop refVal x y images lineNr1

/-- The value that the body of the pixel loops of `getLineNumbers` stores at
`(x, y)`. -/
def lineNumberAt (ref : DataMatrix R) (images : List (DataMatrix R)) (x y : ℕ) : ℤ :=
  let refVal := ref.get x y
  if refVal < minBrightness then UNKNOWN_LINE_NUMBER
  else levelLoop refVal x y images 0

/-- `getLineNumbers(ref, images)`.  The entries of the fresh matrix
`lineNumbers(ref.getWidth(), ref.getHeight())`, which are not read, are taken
as 0. -/
def getLineNumbers (ref : DataMatrix R) (images : List (DataMatrix R)) : DataMatrix ℤ :=
  (List.range ref.height).foldl
    (fun lineNumbers y =>
      (List.range ref.width).foldl
        (fun lineNumbers x => lineNumbers.set x y (lineNumberAt ref images x y)) lineNumbers)
    ⟨ref.width, ref.height, fun _ _ => 0⟩

/-- The body of the inner loop of the gap fixing in `calibrate`, for the entry
`(x, y)` of `xyToLineNr`. -/
def fixGapAt (y : ℕ) (xyToLineNr : DataMatrix ℤ) (x : ℕ) : DataMatrix ℤ :=
  let ln0 := xyToLineNr.get (x - 1) y
  let ln1 := xyToLineNr.get x y
  if ln1 < ln0 then xyToLineNr.set x y ln0 else xyToLineNr

/-- The gap-fixing loops of `calibrate`:
`for (y = 2; y < getHeight()-2; ++y) for (x = 2; x < getWidth()-2; ++x) …`. -/
def fixGaps (xyToLineNr : DataMatrix ℤ) : DataMatrix ℤ :=
  (List.range' 2 (xyToLineNr.height - 4)).foldl
    (fun m y => (List.range' 2 (m.width - 4)).foldl (fixGapAt y) m) xyToLineNr

/-- The member `xyToLineNr` after the gap-fixing pass of `calibrate(ds)`: the
result of `getLineNumbers(ds.ref, ds.levels)` with the gaps fixed. -/
def calibrate (ds : Dataset R) : DataMatrix ℤ :=
  fixGaps (getLineNumbers ds.ref ds.levels)

/-- The number with the given binary digits, the first digit being the most
significant: digit `i` of `L` digits counts `2^(L-1-i)`. -/
def bitsToNumber (bits : List Bool) : ℤ :=
  ∑ i in Finset.range bits.length, if bits.getD i false then 2 ^ (bits.length - 1 - i) else 0

/-- The brightness of a level against the reference as the program forms it:
the `float` difference `level - ref`. -/
def brightnessDiff (level ref : R) : R := roundFloat (level - ref)

/-- The line number of a pixel in the words of the spec: unknown (`-1`) when the
reference is darker than `minBrightness` or some level is brighter than the
reference by more than `dSame`; otherwise the number whose digit `i` is 1
exactly when level `i` is darker than the reference by more than `dDarker`.
The differences are exact. -/
def lineNumberSpec (ref : DataMatrix R) (images : List (DataMatrix R)) (x y : ℕ) : ℤ :=
  if ref.get x y < minBrightness ∨ ∃ img ∈ images, img.get x y - ref.get x y > dSame then -1
  else bitsToNumber (images.map fun img => decide (ref.get x y - img.get x y > dDarker))

/-- The line number of a pixel in the words of the spec, with the differences
as the program forms them: "brighter by more than `d`" is
`brightnessDiff level ref > d` and "darker by more than `d`" is
`brightnessDiff level ref < -d`. -/
def lineNumberFloatSpec (ref : DataMatrix R) (images : List (DataMatrix R)) (x y : ℕ) : ℤ :=
  if ref.get x y < minBrightness
      ∨ ∃ img ∈ images, brightnessDiff (img.get x y) (ref.get x y) > dSame then -1
  else bitsToNumber
    (images.map fun img => decide (brightnessDiff (img.get x y) (ref.get x y) < -dDarker))

end StructuredLight

/-- A 5×5 reference image of brightness 1. -/
def StructuredLight.whiteRef : DataMatrix ℚ := ⟨5, 5, fun _ _ => 1⟩

/-- A 5×5 level image that is dark (0) in the column `x = 1` and as bright as
the reference elsewhere. -/
def StructuredLight.stripe : DataMatrix ℚ := ⟨5, 5, fun x _ => if x = 1 then 0 else 1⟩

/-- A 5×5 level image that is dark (0) in the column `x = 2`, brighter than the
reference (2) in the column `x = 3` and as bright as the reference elsewhere. -/
def StructuredLight.stripeTwo : DataMatrix ℚ :=
  ⟨5, 5, fun x _ => if x = 2 then 0 else if x = 3 then 2 else 1⟩

/-- The dataset of `whiteRef` with the levels `stripe` and `stripeTwo`. -/
def StructuredLight.stripeData : StructuredLight.Dataset ℚ :=
  ⟨StructuredLight.whiteRef, [StructuredLight.stripe, StructuredLight.stripeTwo]⟩

/-- A 1×1 image of brightness 1. -/
def StructuredLight.whitePixel : DataMatrix ℚ := ⟨1, 1, fun _ _ => 1⟩

/-- A 1×1 image of brightness 0. -/
def StructuredLight.darkPixel : DataMatrix ℚ := ⟨1, 1, fun _ _ => 0⟩

/-- A 1×1 image of brightness `0.2f`, the `float` `13421773 / 2^26`. -/
def StructuredLight.fifthPixel : DataMatrix ℚ := ⟨1, 1, fun _ _ => 13421773 / 67108864⟩

/-- A 1×1 image of brightness `0.1f`, the `float` `13421773 / 2^27`. -/
def StructuredLight.tenthPixel : DataMatrix ℚ := ⟨1, 1, fun _ _ => 13421773 / 134217728⟩

/-! # Pixel interpolation (`cv/filter/Interpolation.h`) -/

namespace Interpolation

variable {R : Type} [LinearOrderedField R]

/-- `Interpolation::Bilinear::get(img, x, y)`.  The bounds-clamped pixel lookup
`img.getClamped(x, y)` of `K::ImageChannel` is the parameter `getClamped`.  The
conversions `(int) std::floor(x)`, `(int) std::ceil(x)` have a value only when
the whole number is a value of `int`; the arithmetic on the brightness values
is exact. -/
def Bilinear.get [FloorRing R] (getClamped : ℤ → ℤ → R) (x y : R) : Option R :=
  (intOfFloat ((⌊x⌋ : ℤ) : R)).bind fun x1 =>
  (intOfFloat ((⌈x⌉ : ℤ) : R)).bind fun x2 =>
  (intOfFloat ((⌊y⌋ : ℤ) : R)).bind fun y1 =>
  (intOfFloat ((⌈y⌉ : ℤ) : R)).bind fun y2 =>
    let px1 : R := (x2 : R) - x
    let py1 : R := (y2 : R) - y
    let vy1 : R := getClamped x1 y1 * px1 + getClamped x2 y1 * (1 - px1)
    let vy2 : R := getClamped x1 y2 * px1 + getClamped x2 y2 * (1 - px1)
    some (vy1 * py1 + vy2 * (1 - py1))

/-- `Interpolation::bilinear(img, x, y)`. -/
def bilinear [FloorRing R] (getClamped : ℤ → ℤ → R) (x y : R) : Option R :=
  (intOfFloat ((⌊x⌋ : ℤ) : R)).bind fun x1 =>
  (intOfFloat ((⌈x⌉ : ℤ) : R)).bind fun x2 =>
  (intOfFloat ((⌊y⌋ : ℤ) : R)).bind fun y1 =>
  (intOfFloat ((⌈y⌉ : ℤ) : R)).bind fun y2 =>
    let px1 : R := (x2 : R) - x
    let py1 : R := (y2 : R) - y
    let vy1 : R := getClamped x1 y1 * px1 + getClamped x2 y1 * (1 - px1)
    let vy2 : R := getClamped x1 y2 * px1 + getClamped x2 y2 * (1 - px1)
    some (vy1 * py1 + vy2 * (1 - py1))

/-- `Interpolation::clamp(v, min, max)`. -/
def clamp (v min max : R) : R :=
  if v < min then min else if v > max then max else v

/-- `Interpolation::cubicInterpolate(p, x)`. -/
def cubicInterpolate (p : Fin 4 → R) (x : R) : R :=
  p 1 + 1 / 2 * x * (p 2 - p 0 + x * (2 * p 0 - 5 * p 1 + 4 * p 2 - p 3
    + x * (3 * (p 1 - p 2) + p 3 - p 0)))

/-- `Interpolation::bicubicInterpolate(p, x, y)`. -/
def bicubicInterpolate (p : Fin 4 → Fin 4 → R) (x y : R) : R :=
  let arr : Fin 4 → R :=
    ![cubicInterpolate (p 0) y, cubicInterpolate (p 1) y, cubicInterpolate (p 2) y,
      cubicInterpolate (p 3) y]
  cubicInterpolate arr x

/-- `Interpolation::bicubic(img, x, y)`.  The conversions `(int) std::floor(x)`
and `(int) std::floor(y)` have a value only when the whole number is a value of
`int`, and the `int` sums `ix+x1-1`, `iy+y1-1` for `x1, y1 = 0, …, 3` only when
`ix - 1`, `ix + 3`, `iy - 1` and `iy + 3` are. -/
def bicubic [FloorRing R] (getClamped : ℤ → ℤ → R) (x y : R) : Option R :=
  (intOfFloat ((⌊x⌋ : ℤ) : R)).bind fun ix =>
  (intOfFloat ((⌊y⌋ : ℤ) : R)).bind fun iy =>
    if fitsInt (ix - 1) && fitsInt (ix + 3) && fitsInt (iy - 1) && fitsInt (iy + 3) then
      let arr : Fin 4 → Fin 4 → R := fun x1 y1 =>
        getClamped (ix + ((x1 : ℕ) : ℤ) - 1) (iy + ((y1 : ℕ) : ℤ) - 1)
      some (clamp (bicubicInterpolate arr (x - (ix : R)) (y - (iy : R))) 0 1)
    else none

/-- The standard bilinear interpolant in the words of the spec, with
`fx = x - floor(x)` and `fy = y - floor(y)`. -/
def bilinearSpec [FloorRing R] (getClamped : ℤ → ℤ → R) (x y : R) : R :=
  let fx : R := x - (⌊x⌋ : R)
  let fy : R := y - (⌊y⌋ : R)
  (1 - fy) * ((1 - fx) * getClamped ⌊x⌋ ⌊y⌋ + fx * getClamped ⌈x⌉ ⌊y⌋)
    + fy * ((1 - fx) * getClamped ⌊x⌋ ⌈y⌉ + fx * getClamped ⌈x⌉ ⌈y⌉)

end Interpolation

/-- A clamped pixel lookup for the examples: the brightness at `(x, y)` is
`x + 10 y`. -/
def Interpolation.rampImage : ℤ → ℤ → ℚ := fun x y => (x : ℚ) + 10 * (y : ℚ)


/-! # Buffered input streams (`streams/BufferedInputStream.h`) -/

namespace BufferedInputStream

/-- A byte (`uint8_t`). -/
abbrev Byte : Type := Fin 256

/-- Modelled from the spec: the outcome of a call `is->read(data, len)` of the
underlying `InputStream` (declared in `streams/InputStream.h`): the bytes it
stored, at most `len` of them, or one of the codes `ERR_FAILED`,
`ERR_TRY_AGAIN`. -/
inductive Fetched (len : ℕ) where
  | bytes (data : List Byte) (h : data.length ≤ len)
  | failed
  | tryAgain

/-- The bytes that an outcome of the underlying stream delivers. -/
def Fetched.data {len : ℕ} : Fetched len → List Byte
  | .bytes data _ => data
  | .failed => []
  | .tryAgain => []

/-- The outcome is the code `ERR_FAILED`. -/
def Fetched.isFailed {len : ℕ} : Fetched len → Bool
  | .failed => true
  | _ => false

/-- The behaviour of the underlying stream: the outcome of its `k`-th call of
`read` (counted from 0) when `len` bytes are requested. -/
abbrev Underlying : Type := ℕ → (len : ℕ) → Fetched len

/-- What `read()`, `peek()` and `read(data, len)` return: a byte value, the
bytes copied to `data` (the returned number is their count), `ERR_FAILED` or
`ERR_TRY_AGAIN`. -/
inductive Result where
  | byte (b : Byte)
  | bytes (data : List Byte)
  | failed
  | tryAgain
deriving DecidableEq

/-- The state of a `BufferedInputStream`: the used part of `buffer`
(modelled from the spec: `Buffer<uint8_t>`, declared in `streams/Buffer.h`, a
queue of bytes), the flag `eof`, and the sizes requested from the underlying
stream so far, the most recent first. -/
structure State where
  buffer : List Byte
  eof : Bool
  requests : List ℕ

/-- The state after construction: empty buffer, `eof(false)`, nothing
requested. -/
def State.init : State := ⟨[], false, []⟩

/-- `fillBuffer(needed)`. -/
def fillBuffer (is : Underlying) (blockSize : ℕ) (needed : ℕ) (st : State) : State :=
  if st.buffer.length ≥ needed then st else
  let toFetch := if needed < blockSize then blockSize else needed
  match is st.requests.length toFetch with
  | .failed => { st with eof := true, requests := toFetch :: st.requests }
  | .tryAgain => { st with requests := toFetch :: st.requests }
  | .bytes data _ => { st with buffer := st.buffer ++ data, requests := toFetch :: st.requests }

/-- `read()`. -/
def read (is : Underlying) (blockSize : ℕ) (st : State) : Result × State :=
  let st1 := fillBuffer is blockSize 1 st
  match st1.buffer with
  | [] => (if st1.eof then .failed else .tryAgain, st1)
  | b :: rest => (.byte b, { st1 with buffer := rest })

/-- `peek()`. -/
def peek (is : Underlying) (blockSize : ℕ) (st : State) : Result × State :=
  let st1 := fillBuffer is blockSize 1 st
  match st1.buffer with
  | [] => (if st1.eof then .failed else .tryAgain, st1)
  | b :: _ => (.byte b, st1)

/-- `read(data, len)`. -/
def readInto (is : Underlying) (blockSize : ℕ) (len : ℕ) (st : State) : Result × State :=
  let st1 := fillBuffer is blockSize len st
  match st1.buffer with
  | [] => (if st1.eof then .failed else .bytes [], st1)
  | b :: rest =>
    let toRead := if len < (b :: rest).length then len else (b :: rest).length
    (.bytes ((b :: rest).take toRead), { st1 with buffer := (b :: rest).drop toRead })

/-- A call of one of the three reading operations. -/
inductive Call where
  | read
  | readInto (len : ℕ)
  | peek
deriving DecidableEq

/-- The effect of one call. -/
def step (is : Underlying) (blockSize : ℕ) (c : Call) (st : State) : Result × State :=
  match c with
  | .read => read is blockSize st
  | .readInto len => readInto is blockSize len st
  | .peek => peek is blockSize st

/-- A sequence of calls, from the state `st`: the calls with their results, and
the final state. -/
def run (is : Underlying) (blockSize : ℕ) : List Call → State → List (Call × Result) × State
  | [], st => ([], st)
  | c :: cs, st =>
    let r := step is blockSize c st
    let rest := run is blockSize cs r.2
    ((c, r.1) :: rest.1, rest.2)

/-- The bytes that a call hands to the caller for good: the byte of a `read()`,
the bytes of a `read(data, len)`; a `peek()` hands over nothing. -/
def consumedBy : Call × Result → List Byte
  | (.read, .byte b) => [b]
  | (.readInto _, .bytes data) => data
  | _ => []

/-- The concatenation of the bytes returned by the read calls of a trace. -/
def consumed (trace : List (Call × Result)) : List Byte :=
  (trace.map consumedBy).flatten

/-- The byte sequence that the underlying stream has delivered in answer to the
requests made so far (most recent first). -/
def delivered (is : Underlying) : List ℕ → List Byte
  | [] => []
  | len :: older => delivered is older ++ (is older.length len).data

/-- The underlying stream has answered one of the requests made so far with
`ERR_FAILED`. -/
def failureReported (is : Underlying) : List ℕ → Bool
  | [] => false
  | len :: older => (is older.length len).isFailed || failureReported is older

/-- The argument `needed` of the call `fillBuffer(needed)` that opens a reading
operation: 1 for `read()` and `peek()`, `len` for `read(data, len)`. -/
def Call.needed : Call → ℕ
  | .read => 1
  | .readInto len => len
  | .peek => 1

/-- The result of a call in the words of the spec, from the bytes `rest` that
the underlying stream has delivered and no read call has returned yet, and from
whether the underlying stream has reported a failure: `read()` and `peek()`
return the first byte of `rest`, `read(data, len)` returns the first `len`
bytes of `rest` (all of `rest` when it is shorter); with `rest` empty the
result is `ERR_FAILED` after a reported failure and otherwise `ERR_TRY_AGAIN`,
for `read(data, len)` zero bytes. -/
def resultSpec (c : Call) (rest : List Byte) (failed : Bool) : Result :=
  match c, rest with
  | .read, [] => if failed then .failed else .tryAgain
  | .peek, [] => if failed then .failed else .tryAgain
  | .readInto _, [] => if failed then .failed else .bytes []
  | .read, b :: _ => .byte b
  | .peek, b :: _ => .byte b
  | .readInto len, b :: bs => .bytes ((b :: bs).take len)

end BufferedInputStream

/-- An underlying stream for the examples: its first call delivers the bytes
1, 2, 3 (when at least 3 are requested), every other call fails. -/
def BufferedInputStream.threeBytes : BufferedInputStream.Underlying :=
  fun k len => if h : k = 0 ∧ 3 ≤ len then .bytes [1, 2, 3] h.2 else .failed

/-- An underlying stream for the examples: its call number `k` delivers the one
byte `k mod 256` when at least one byte is requested. -/
def BufferedInputStream.counting : BufferedInputStream.Underlying :=
  fun k len => if h : 1 ≤ len then .bytes [⟨k % 256, Nat.mod_lt k (by norm_num)⟩] h
    else .tryAgain

/-! # Properties of the machine numbers -/

section MachineNumbers

variable {R : Type} [LinearOrderedField R]

theorem roundHalfEven_of_floor [FloorRing R] (y : R) (f : ℤ) (hf : ⌊y⌋ = f) :
    roundHalfEven y = if y - (f : R) < 1 / 2 then f
      else if 1 / 2 < y - (f : R) then f + 1
      else if f % 2 = 0 then f else f + 1 := by
  unfold roundHalfEven
  rw [hf]

theorem roundHalfEven_intCast [FloorRing R] (n : ℤ) : roundHalfEven (n : R) = n := by
  unfold roundHalfEven
  simp

theorem roundHalfEven_eq_of_lt [FloorRing R] (y : R) (n : ℤ) (h1 : (n : R) - 1 / 2 < y)
    (h2 : y < (n : R) + 1 / 2) : roundHalfEven y = n := by
  unfold roundHalfEven
  by_cases hn : (n : R) ≤ y
  · have hf : ⌊y⌋ = n := Int.floor_eq_iff.mpr ⟨hn, by linarith⟩
    rw [hf, if_pos (by linarith)]
  · have hf : ⌊y⌋ = n - 1 := Int.floor_eq_iff.mpr ⟨by push_cast; linarith, by push_cast; linarith⟩
    rw [hf]
    push_cast
    rw [if_neg (by linarith), if_pos (by linarith)]
    ring

theorem floatExponent_eq [FloorRing R] (x : R) (e : ℤ) (he : -126 ≤ e)
    (h1 : (2 : R) ^ e ≤ |x|) (h2 : |x| < (2 : R) ^ (e + 1)) : floatExponent x = e := by
  have hpos : (0 : R) < |x| := lt_of_lt_of_le (zpow_pos (by norm_num) e) h1
  have hlog : Int.log 2 |x| = e := by
    apply le_antisymm
    · have := (Int.lt_zpow_iff_log_lt (b := 2) (by norm_num) hpos).mp (by exact_mod_cast h2)
      omega
    · exact (Int.zpow_le_iff_le_log (b := 2) (by norm_num) hpos).mp (by exact_mod_cast h1)
  unfold floatExponent
  rw [hlog]
  exact max_eq_left he

theorem roundFloat_eval [FloorRing R] (x : R) (e n : ℤ) (he : -126 ≤ e)
    (h1 : (2 : R) ^ e ≤ |x|) (h2 : |x| < (2 : R) ^ (e + 1))
    (hn : roundHalfEven (x / 2 ^ (e - 23)) = n) : roundFloat x = (n : R) * 2 ^ (e - 23) := by
  unfold roundFloat floatUlp
  rw [floatExponent_eq x e he h1 h2, hn]

theorem floatUlp_pos [FloorRing R] (x : R) : (0 : R) < floatUlp x :=
  zpow_pos (by norm_num) _

theorem roundFloat_of_div_eq_int [FloorRing R] (x : R) (j : ℤ) (h : x / floatUlp x = (j : R)) :
    roundFloat x = x := by
  unfold roundFloat
  rw [h, roundHalfEven_intCast, ← h]
  exact div_mul_cancel₀ x (floatUlp_pos x).ne'

theorem roundFloat_zero [FloorRing R] : roundFloat (0 : R) = 0 :=
  roundFloat_of_div_eq_int 0 0 (by simp)

/-- A number `m * 2^k` with `|m| < 2^24` and `k ≥ -149` is a `float`; rounding
leaves it as it is. -/
theorem roundFloat_int_mul_zpow [FloorRing R] (m k : ℤ) (hm : |m| < 2 ^ 24) (hk : -149 ≤ k) :
    roundFloat ((m : R) * 2 ^ k) = (m : R) * 2 ^ k := by
  by_cases hm0 : m = 0
  · subst hm0
    simp [roundFloat_zero]
  have h2 : (0 : R) < 2 := by norm_num
  have hxpos : (0 : R) < |(m : R) * 2 ^ k| := by
    rw [abs_pos]
    exact mul_ne_zero (by exact_mod_cast hm0) (zpow_pos h2 k).ne'
  have hlt : |(m : R) * 2 ^ k| < ((2 : ℕ) : R) ^ (k + 24) := by
    rw [abs_mul, abs_of_pos (zpow_pos h2 k), zpow_add₀ (by norm_num : ((2 : ℕ) : R) ≠ 0),
      mul_comm]
    push_cast
    apply mul_lt_mul_of_pos_left _ (zpow_pos h2 k)
    have : ((|m| : ℤ) : R) < ((2 ^ 24 : ℤ) : R) := by exact_mod_cast hm
    norm_num at this ⊢
    exact this
  have hlog : Int.log 2 |(m : R) * 2 ^ k| < k + 24 :=
    (Int.lt_zpow_iff_log_lt (b := 2) (by norm_num) hxpos).mp hlt
  have hexp : floatExponent ((m : R) * 2 ^ k) ≤ k + 23 := by
    unfold floatExponent
    exact max_le (by omega) (by omega)
  obtain ⟨j, hj⟩ : ∃ j : ℕ, (j : ℤ) = k - (floatExponent ((m : R) * 2 ^ k) - 23) :=
    ⟨(k - (floatExponent ((m : R) * 2 ^ k) - 23)).toNat, Int.toNat_of_nonneg (by omega)⟩
  apply roundFloat_of_div_eq_int _ (m * 2 ^ j)
  unfold floatUlp
  rw [mul_div_assoc, ← zpow_sub₀ h2.ne', ← hj]
  push_cast
  rw [zpow_natCast]

theorem roundFloat_intCast [FloorRing R] (m : ℤ) (hm : |m| < 2 ^ 24) :
    roundFloat (m : R) = (m : R) := by
  simpa using roundFloat_int_mul_zpow (R := R) m 0 hm (by norm_num)

theorem roundFloat_natCast [FloorRing R] (n : ℕ) (hn : n < 2 ^ 24) :
    roundFloat (n : R) = (n : R) := by
  have h := roundFloat_intCast (R := R) (n : ℤ) (by rw [abs_of_nonneg (by positivity)]; exact_mod_cast hn)
  simpa using h

theorem roundHalfEven_tie_even [FloorRing R] (y : R) (n : ℤ) (h : y = (n : R) + 1 / 2)
    (hn : n % 2 = 0) : roundHalfEven y = n := by
  have hf : ⌊y⌋ = n := Int.floor_eq_iff.mpr ⟨by rw [h]; linarith, by rw [h]; linarith⟩
  rw [roundHalfEven_of_floor y n hf, h]
  norm_num [hn]

theorem roundHalfEven_tie_odd [FloorRing R] (y : R) (n : ℤ) (h : y = (n : R) + 1 / 2)
    (hn : n % 2 = 1) : roundHalfEven y = n + 1 := by
  have hf : ⌊y⌋ = n := Int.floor_eq_iff.mpr ⟨by rw [h]; linarith, by rw [h]; linarith⟩
  rw [roundHalfEven_of_floor y n hf, h]
  norm_num [hn]

theorem truncToInt_intCast [FloorRing R] (n : ℤ) : truncToInt (n : R) = n := by
  unfold truncToInt
  split_ifs <;> simp

theorem truncToInt_zero [FloorRing R] : truncToInt (0 : R) = 0 := by
  simpa using truncToInt_intCast (R := R) 0

theorem truncToInt_of_nonneg [FloorRing R] (x : R) (n : ℤ) (h0 : 0 ≤ x) (h1 : (n : R) ≤ x)
    (h2 : x < (n : R) + 1) : truncToInt x = n := by
  unfold truncToInt
  rw [if_pos h0]
  exact Int.floor_eq_iff.mpr ⟨h1, h2⟩

theorem intOfFloat_eq_some [FloorRing R] (x : R) (n : ℤ) (h : truncToInt x = n)
    (hfit : fitsInt n = true) : intOfFloat x = some n := by
  unfold intOfFloat
  rw [h, if_pos hfit]

theorem intOfFloat_eq_some_iff [FloorRing R] (x : R) (n : ℤ) :
    intOfFloat x = some n ↔ truncToInt x = n ∧ fitsInt n = true := by
  unfold intOfFloat
  constructor
  · intro h
    split_ifs at h with hf
    · have hn : truncToInt x = n := Option.some.inj h
      exact ⟨hn, hn ▸ hf⟩
  · rintro ⟨h, hf⟩
    rw [h, if_pos hf]

theorem fitsInt_iff (n : ℤ) : fitsInt n = true ↔ -2147483648 ≤ n ∧ n ≤ 2147483647 := by
  unfold fitsInt
  simp

theorem roundFloat_eval_pos [FloorRing R] (x v : R) (e n : ℤ) (he : -126 ≤ e)
    (h1 : (2 : R) ^ e ≤ x) (h2 : x < (2 : R) ^ (e + 1))
    (hlo : (n : R) - 1 / 2 < x / 2 ^ (e - 23)) (hhi : x / 2 ^ (e - 23) < (n : R) + 1 / 2)
    (hv : (n : R) * 2 ^ (e - 23) = v) : roundFloat x = v := by
  have hpos : (0 : R) < x := lt_of_lt_of_le (zpow_pos (by norm_num) e) h1
  rw [← hv]
  exact roundFloat_eval x e n he (by rwa [abs_of_pos hpos]) (by rwa [abs_of_pos hpos])
    (roundHalfEven_eq_of_lt _ _ hlo hhi)

theorem roundFloat_eval_tie [FloorRing R] (x v : R) (e n r : ℤ) (he : -126 ≤ e)
    (h1 : (2 : R) ^ e ≤ x) (h2 : x < (2 : R) ^ (e + 1))
    (htie : x / 2 ^ (e - 23) = (n : R) + 1 / 2) (hr : r = if n % 2 = 0 then n else n + 1)
    (hv : (r : R) * 2 ^ (e - 23) = v) : roundFloat x = v := by
  have hpos : (0 : R) < x := lt_of_lt_of_le (zpow_pos (by norm_num) e) h1
  rw [← hv]
  apply roundFloat_eval x e r he (by rwa [abs_of_pos hpos]) (by rwa [abs_of_pos hpos])
  rw [hr]
  by_cases hn : n % 2 = 0
  · rw [if_pos hn]
    exact roundHalfEven_tie_even _ n htie hn
  · rw [if_neg hn]
    exact roundHalfEven_tie_odd _ n htie (by omega)

theorem roundHalfEven_nonneg [FloorRing R] (y : R) (hy : 0 ≤ y) : 0 ≤ roundHalfEven y := by
  have hf : 0 ≤ ⌊y⌋ := Int.floor_nonneg.mpr hy
  unfold roundHalfEven
  split_ifs <;> omega

theorem roundFloat_nonneg [FloorRing R] (x : R) (hx : 0 ≤ x) : 0 ≤ roundFloat x := by
  unfold roundFloat
  have hu := floatUlp_pos x
  have : 0 ≤ roundHalfEven (x / floatUlp x) := roundHalfEven_nonneg _ (div_nonneg hx hu.le)
  exact mul_nonneg (by exact_mod_cast this) hu.le

theorem roundFloat_one [FloorRing R] : roundFloat (1 : R) = 1 := by
  simpa using roundFloat_natCast (R := R) 1 (by norm_num)

theorem roundHalfEven_le_of_le [FloorRing R] (y : R) (j : ℤ) (h : y ≤ (j : R)) :
    roundHalfEven y ≤ j := by
  have hf : ⌊y⌋ ≤ j := Int.floor_le_iff.mpr (by linarith)
  by_cases hfj : ⌊y⌋ = j
  · have hy : y = (j : R) := le_antisymm h (by rw [← hfj]; exact Int.floor_le y)
    rw [hy, roundHalfEven_intCast]
  · have hlt : ⌊y⌋ + 1 ≤ j := by omega
    unfold roundHalfEven
    split_ifs <;> omega

theorem le_roundHalfEven_of_le [FloorRing R] (y : R) (j : ℤ) (h : (j : R) ≤ y) :
    j ≤ roundHalfEven y := by
  have hf : j ≤ ⌊y⌋ := Int.le_floor.mpr h
  unfold roundHalfEven
  split_ifs <;> omega

theorem abs_roundHalfEven_sub_le [FloorRing R] (y : R) :
    |(roundHalfEven y : R) - y| ≤ 1 / 2 := by
  have h1 := Int.floor_le y
  have h2 := Int.lt_floor_add_one y
  unfold roundHalfEven
  rw [abs_le]
  split_ifs with ha hb hc
  · constructor <;> linarith
  · push_cast
    constructor <;> linarith
  · have : y - (⌊y⌋ : R) = 1 / 2 := le_antisymm (not_lt.mp hb) (not_lt.mp ha)
    constructor <;> linarith
  · have : y - (⌊y⌋ : R) = 1 / 2 := le_antisymm (not_lt.mp hb) (not_lt.mp ha)
    push_cast
    constructor <;> linarith

theorem roundFloat_nonpos [FloorRing R] (x : R) (hx : x ≤ 0) : roundFloat x ≤ 0 := by
  unfold roundFloat
  have hu := floatUlp_pos x
  have : roundHalfEven (x / floatUlp x) ≤ 0 :=
    roundHalfEven_le_of_le _ 0 (by simpa using div_nonpos_of_nonpos_of_nonneg hx hu.le)
  exact mul_nonpos_of_nonpos_of_nonneg (by exact_mod_cast this) hu.le

/-- the rounding error is at most half a unit in the last place -/
theorem abs_roundFloat_sub_le_ulp [FloorRing R] (x : R) :
    |roundFloat x - x| ≤ floatUlp x / 2 := by
  have hu := floatUlp_pos x
  have h := abs_roundHalfEven_sub_le (x / floatUlp x)
  have e : roundFloat x - x = ((roundHalfEven (x / floatUlp x) : R) - x / floatUlp x)
      * floatUlp x := by
    unfold roundFloat
    rw [sub_mul, div_mul_cancel₀ x hu.ne']
  rw [e, abs_mul, abs_of_pos hu]
  calc |(roundHalfEven (x / floatUlp x) : R) - x / floatUlp x| * floatUlp x
      ≤ 1 / 2 * floatUlp x := mul_le_mul_of_nonneg_right h hu.le
    _ = floatUlp x / 2 := by ring

/-- the unit in the last place of a number other than zero is at most
`|x| * 2^(-23)`, or `2^(-149)` for the subnormal numbers -/
theorem floatUlp_le [FloorRing R] (x : R) (hx : x ≠ 0) :
    floatUlp x ≤ |x| * 2 ^ (-23 : ℤ) + 2 ^ (-149 : ℤ) := by
  have h2 : (0 : R) < 2 := by norm_num
  have hx0 : (0 : R) < |x| := abs_pos.mpr hx
  unfold floatUlp floatExponent
  by_cases hlog : -126 ≤ Int.log 2 |x|
  · rw [max_eq_left hlog]
    have hle : ((2 : ℕ) : R) ^ (Int.log 2 |x|) ≤ |x| := Int.zpow_log_le_self (by norm_num) hx0
    push_cast at hle
    rw [sub_eq_add_neg, zpow_add₀ h2.ne']
    have hp : (0 : R) < 2 ^ (-23 : ℤ) := zpow_pos h2 _
    have hq : (0 : R) < 2 ^ (-149 : ℤ) := zpow_pos h2 _
    have := mul_le_mul_of_nonneg_right hle hp.le
    linarith
  · rw [max_eq_right (by omega)]
    have : (2 : R) ^ ((-126 : ℤ) - 23) = 2 ^ (-149 : ℤ) := by norm_num
    rw [this]
    have hp : (0 : R) ≤ |x| * 2 ^ (-23 : ℤ) := mul_nonneg (abs_nonneg x) (zpow_pos h2 _).le
    linarith

/-- the relative rounding error of a `float` operation -/
theorem abs_roundFloat_sub_le [FloorRing R] (x : R) :
    |roundFloat x - x| ≤ |x| * 2 ^ (-24 : ℤ) + 2 ^ (-150 : ℤ) := by
  have h2 : (0 : R) < 2 := by norm_num
  by_cases hx : x = 0
  · subst hx
    rw [roundFloat_zero]
    simp only [sub_zero, abs_zero, zero_mul, zero_add]
    exact (zpow_pos h2 _).le
  have h1 := abs_roundFloat_sub_le_ulp x
  have h3 := floatUlp_le x hx
  have e1 : |x| * (2 : R) ^ (-24 : ℤ) = |x| * 2 ^ (-23 : ℤ) / 2 := by
    rw [show (2 : R) ^ (-24 : ℤ) = 2 ^ (-23 : ℤ) / 2 from by norm_num]
    ring
  have e2 : (2 : R) ^ (-150 : ℤ) = 2 ^ (-149 : ℤ) / 2 := by norm_num
  rw [e1, e2]
  generalize |x| * (2 : R) ^ (-23 : ℤ) = A at h3 ⊢
  generalize (2 : R) ^ (-149 : ℤ) = B at h3 ⊢
  linarith

theorem floatExponent_bounds [FloorRing R] (x : R) (hx : 0 < x) :
    x < (2 : R) ^ (floatExponent x + 1) ∧
      (floatExponent x = -126 ∨ (2 : R) ^ floatExponent x ≤ x) := by
  have hlt : x < ((2 : ℕ) : R) ^ (Int.log 2 x + 1) := Int.lt_zpow_succ_log_self (by norm_num) x
  have hle : ((2 : ℕ) : R) ^ (Int.log 2 x) ≤ x := Int.zpow_log_le_self (by norm_num) hx
  push_cast at hlt hle
  unfold floatExponent
  rw [abs_of_pos hx]
  constructor
  · refine lt_of_lt_of_le hlt ?_
    exact zpow_le_zpow_right₀ (by norm_num) (by omega)
  · by_cases h : -126 ≤ Int.log 2 x
    · right
      rw [max_eq_left h]
      exact hle
    · left
      exact max_eq_right (by omega)

theorem zpow_two_lt_imp [FloorRing R] (a b : ℤ) (h : (2 : R) ^ a < 2 ^ b) : a < b := by
  by_contra hcon
  have : (2 : R) ^ b ≤ 2 ^ a := zpow_le_zpow_right₀ (by norm_num) (by omega)
  linarith

/-- rounding does not fall below a whole number below `2^24` that the exact
value reaches -/
theorem natCast_le_roundFloat [FloorRing R] (N : ℕ) (hN : N < 2 ^ 24) (x : R)
    (h : (N : R) ≤ x) : (N : R) ≤ roundFloat x := by
  have h2 : (0 : R) < 2 := by norm_num
  by_cases hN0 : N = 0
  · subst hN0
    simp only [Nat.cast_zero] at h ⊢
    exact roundFloat_nonneg x h
  have hN1 : (1 : R) ≤ (N : R) := by exact_mod_cast Nat.one_le_iff_ne_zero.mpr hN0
  have hx : 0 < x := by linarith
  obtain ⟨_, hlow⟩ := floatExponent_bounds x hx
  have hu := floatUlp_pos x
  have hudef : floatUlp x = 2 ^ (floatExponent x - 23) := rfl
  have hpos : (2 : R) ^ floatExponent x ≤ x := by
    rcases hlow with he | hle
    · rw [he]
      have : (2 : R) ^ (-126 : ℤ) ≤ 1 := by norm_num
      linarith
    · exact hle
  by_cases hcase : (N : R) < 2 ^ floatExponent x
  · have hdiv : (((2 : ℤ) ^ 23 : ℤ) : R) ≤ x / floatUlp x := by
      rw [le_div_iff₀ hu, hudef,
        show (((2 : ℤ) ^ 23 : ℤ) : R) = (2 : R) ^ (23 : ℤ) from by norm_num,
        ← zpow_add₀ h2.ne']
      have : (23 : ℤ) + (floatExponent x - 23) = floatExponent x := by omega
      rw [this]
      exact hpos
    have hr := le_roundHalfEven_of_le _ _ hdiv
    have hr' : (((2 : ℤ) ^ 23 : ℤ) : R) ≤ (roundHalfEven (x / floatUlp x) : R) := by
      exact_mod_cast hr
    have hval : (((2 : ℤ) ^ 23 : ℤ) : R) * floatUlp x = 2 ^ floatExponent x := by
      rw [hudef, show (((2 : ℤ) ^ 23 : ℤ) : R) = (2 : R) ^ (23 : ℤ) from by norm_num,
        ← zpow_add₀ h2.ne']
      congr 1
      omega
    unfold roundFloat
    have := mul_le_mul_of_nonneg_right hr' hu.le
    rw [hval] at this
    linarith
  · have hle : (2 : R) ^ floatExponent x ≤ (N : R) := not_lt.mp hcase
    have he : floatExponent x < 24 := by
      apply zpow_two_lt_imp (R := R)
      have : (N : R) < (2 : R) ^ (24 : ℤ) := by
        have : (N : R) < ((2 ^ 24 : ℕ) : R) := by exact_mod_cast hN
        norm_num at this ⊢
        exact this
      linarith
    obtain ⟨k, hk⟩ : ∃ k : ℕ, (k : ℤ) = 23 - floatExponent x :=
      ⟨(23 - floatExponent x).toNat, Int.toNat_of_nonneg (by omega)⟩
    have hNu : (N : R) / floatUlp x = (((N : ℤ) * 2 ^ k : ℤ) : R) := by
      rw [hudef, div_eq_iff (zpow_pos h2 _).ne']
      push_cast
      rw [mul_assoc, ← zpow_natCast, ← zpow_add₀ h2.ne', hk]
      have : (23 - floatExponent x) + (floatExponent x - 23) = 0 := by omega
      rw [this, zpow_zero, mul_one]
    have hdiv : (((N : ℤ) * 2 ^ k : ℤ) : R) ≤ x / floatUlp x := by
      rw [← hNu]
      exact div_le_div_of_nonneg_right h hu.le
    have hr := le_roundHalfEven_of_le _ _ hdiv
    have hr' : (((N : ℤ) * 2 ^ k : ℤ) : R) ≤ (roundHalfEven (x / floatUlp x) : R) := by
      exact_mod_cast hr
    unfold roundFloat
    have := mul_le_mul_of_nonneg_right hr' hu.le
    rw [← hNu, div_mul_cancel₀ _ hu.ne'] at this
    exact this

/-- rounding does not rise above a whole number below `2^24` that bounds the
exact value -/
theorem roundFloat_le_natCast [FloorRing R] (N : ℕ) (hN : N < 2 ^ 24) (x : R) (h0 : 0 ≤ x)
    (h : x ≤ (N : R)) : roundFloat x ≤ (N : R) := by
  have h2 : (0 : R) < 2 := by norm_num
  rcases h0.eq_or_lt with h0 | hx
  · rw [← h0, roundFloat_zero]
    exact Nat.cast_nonneg N
  have hNpos : (0 : R) < (N : R) := lt_of_lt_of_le hx h
  have hN1 : (1 : R) ≤ (N : R) := by
    have : 0 < N := by exact_mod_cast hNpos
    exact_mod_cast this
  obtain ⟨hupp, hlow⟩ := floatExponent_bounds x hx
  have hu := floatUlp_pos x
  have hudef : floatUlp x = 2 ^ (floatExponent x - 23) := rfl
  by_cases hcase : (2 : R) ^ (floatExponent x + 1) ≤ (N : R)
  · have hval : (((2 : ℤ) ^ 24 : ℤ) : R) * floatUlp x = 2 ^ (floatExponent x + 1) := by
      rw [hudef, show (((2 : ℤ) ^ 24 : ℤ) : R) = (2 : R) ^ (24 : ℤ) from by norm_num,
        ← zpow_add₀ h2.ne']
      congr 1
      omega
    have hdiv : x / floatUlp x ≤ (((2 : ℤ) ^ 24 : ℤ) : R) := by
      rw [div_le_iff₀ hu, hval]
      exact hupp.le
    have hr := roundHalfEven_le_of_le _ _ hdiv
    have hr' : (roundHalfEven (x / floatUlp x) : R) ≤ (((2 : ℤ) ^ 24 : ℤ) : R) := by
      exact_mod_cast hr
    unfold roundFloat
    have := mul_le_mul_of_nonneg_right hr' hu.le
    rw [hval] at this
    linarith
  · have hlt : (N : R) < (2 : R) ^ (floatExponent x + 1) := not_le.mp hcase
    have he0 : 0 ≤ floatExponent x := by
      have : (2 : R) ^ (0 : ℤ) < 2 ^ (floatExponent x + 1) := by
        rw [zpow_zero]
        linarith
      have := zpow_two_lt_imp (R := R) _ _ this
      omega
    have hle : (2 : R) ^ floatExponent x ≤ x := by
      rcases hlow with he | hle
      · omega
      · exact hle
    have he : floatExponent x < 24 := by
      apply zpow_two_lt_imp (R := R)
      have : (N : R) < (2 : R) ^ (24 : ℤ) := by
        have : (N : R) < ((2 ^ 24 : ℕ) : R) := by exact_mod_cast hN
        norm_num at this ⊢
        exact this
      linarith
    obtain ⟨k, hk⟩ : ∃ k : ℕ, (k : ℤ) = 23 - floatExponent x :=
      ⟨(23 - floatExponent x).toNat, Int.toNat_of_nonneg (by omega)⟩
    have hNu : (N : R) / floatUlp x = (((N : ℤ) * 2 ^ k : ℤ) : R) := by
      rw [hudef, div_eq_iff (zpow_pos h2 _).ne']
      push_cast
      rw [mul_assoc, ← zpow_natCast, ← zpow_add₀ h2.ne', hk]
      have : (23 - floatExponent x) + (floatExponent x - 23) = 0 := by omega
      rw [this, zpow_zero, mul_one]
    have hdiv : x / floatUlp x ≤ (((N : ℤ) * 2 ^ k : ℤ) : R) := by
      rw [← hNu]
      exact div_le_div_of_nonneg_right h hu.le
    have hr := roundHalfEven_le_of_le _ _ hdiv
    have hr' : (roundHalfEven (x / floatUlp x) : R) ≤ (((N : ℤ) * 2 ^ k : ℤ) : R) := by
      exact_mod_cast hr
    unfold roundFloat
    have := mul_le_mul_of_nonneg_right hr' hu.le
    rw [← hNu, div_mul_cancel₀ _ hu.ne'] at this
    exact this

theorem roundHalfEven_neg [FloorRing R] (y : R) : roundHalfEven (-y) = -roundHalfEven y := by
  by_cases hint : (⌊y⌋ : R) = y
  · rw [← hint, ← Int.cast_neg, roundHalfEven_intCast, roundHalfEven_intCast]
  · have hlt : (⌊y⌋ : R) < y := lt_of_le_of_ne (Int.floor_le y) hint
    have hlt2 : y < ⌊y⌋ + 1 := Int.lt_floor_add_one y
    have hf : ⌊-y⌋ = -⌊y⌋ - 1 := by
      rw [Int.floor_eq_iff]
      push_cast
      constructor <;> linarith
    have e : -y - ((-⌊y⌋ - 1 : ℤ) : R) = 1 - (y - (⌊y⌋ : R)) := by
      push_cast
      ring
    rw [roundHalfEven_of_floor (-y) _ hf, roundHalfEven_of_floor y _ rfl, e]
    rcases lt_trichotomy (y - (⌊y⌋ : R)) (1 / 2) with h | h | h
    · rw [if_neg (by linarith), if_pos (by linarith), if_pos h]
      ring
    · have hr : (1 : R) - (y - (⌊y⌋ : R)) = 1 / 2 := by linarith
      rw [hr, h]
      simp only [lt_irrefl, if_false]
      split_ifs <;> omega
    · rw [if_pos (by linarith), if_neg (by linarith), if_pos h]
      ring

theorem floatUlp_neg [FloorRing R] (x : R) : floatUlp (-x) = floatUlp x := by
  unfold floatUlp floatExponent
  rw [abs_neg]

theorem roundFloat_neg [FloorRing R] (x : R) : roundFloat (-x) = -roundFloat x := by
  unfold roundFloat
  rw [floatUlp_neg, neg_div, roundHalfEven_neg]
  push_cast
  ring

/-- a positive `float` value `N * 2^k` lies on the grid of every `x` whose
binade is not above the binade that `k` allows -/
theorem float_div_ulp [FloorRing R] (N : ℕ) (k : ℤ) (x : R)
    (hk : floatExponent x - 23 ≤ k) :
    ∃ j : ℕ, ((N : R) * 2 ^ k) / floatUlp x = (((N : ℤ) * 2 ^ j : ℤ) : R) := by
  have h2 : (0 : R) < 2 := by norm_num
  obtain ⟨j, hj⟩ : ∃ j : ℕ, (j : ℤ) = k - (floatExponent x - 23) :=
    ⟨(k - (floatExponent x - 23)).toNat, Int.toNat_of_nonneg (by omega)⟩
  refine ⟨j, ?_⟩
  unfold floatUlp
  rw [mul_div_assoc, ← zpow_sub₀ h2.ne', ← hj]
  push_cast
  rw [zpow_natCast]

/-- rounding does not fall below a `float` value `N * 2^k` that the exact value
reaches -/
theorem le_roundFloat_of_float [FloorRing R] (N : ℕ) (k : ℤ) (hN : N < 2 ^ 24)
    (hk : -149 ≤ k) (x : R) (hx : 0 < x) (h : (N : R) * 2 ^ k ≤ x) :
    (N : R) * 2 ^ k ≤ roundFloat x := by
  have h2 : (0 : R) < 2 := by norm_num
  obtain ⟨_, hlow⟩ := floatExponent_bounds x hx
  have hu := floatUlp_pos x
  have hudef : floatUlp x = 2 ^ (floatExponent x - 23) := rfl
  by_cases hcase : floatExponent x - 23 ≤ k
  · obtain ⟨j, hj⟩ := float_div_ulp N k x hcase
    have hdiv : (((N : ℤ) * 2 ^ j : ℤ) : R) ≤ x / floatUlp x := by
      rw [← hj]
      exact div_le_div_of_nonneg_right h hu.le
    have hr := le_roundHalfEven_of_le _ _ hdiv
    have hr' : (((N : ℤ) * 2 ^ j : ℤ) : R) ≤ (roundHalfEven (x / floatUlp x) : R) := by
      exact_mod_cast hr
    unfold roundFloat
    have := mul_le_mul_of_nonneg_right hr' hu.le
    rw [← hj, div_mul_cancel₀ _ hu.ne'] at this
    exact this
  · have hpos : (2 : R) ^ floatExponent x ≤ x := by
      rcases hlow with he | hle
      · omega
      · exact hle
    have hdiv : (((2 : ℤ) ^ 23 : ℤ) : R) ≤ x / floatUlp x := by
      rw [le_div_iff₀ hu, hudef,
        show (((2 : ℤ) ^ 23 : ℤ) : R) = (2 : R) ^ (23 : ℤ) from by norm_num,
        ← zpow_add₀ h2.ne']
      have : (23 : ℤ) + (floatExponent x - 23) = floatExponent x := by omega
      rw [this]
      exact hpos
    have hr := le_roundHalfEven_of_le _ _ hdiv
    have hr' : (((2 : ℤ) ^ 23 : ℤ) : R) ≤ (roundHalfEven (x / floatUlp x) : R) := by
      exact_mod_cast hr
    have hval : (((2 : ℤ) ^ 23 : ℤ) : R) * floatUlp x = 2 ^ floatExponent x := by
      rw [hudef, show (((2 : ℤ) ^ 23 : ℤ) : R) = (2 : R) ^ (23 : ℤ) from by norm_num,
        ← zpow_add₀ h2.ne']
      congr 1
      omega
    have hN' : (N : R) ≤ (2 : R) ^ (24 : ℤ) := by
      have : (N : R) < ((2 ^ 24 : ℕ) : R) := by exact_mod_cast hN
      norm_num at this ⊢
      exact this.le
    have hc : (N : R) * 2 ^ k ≤ 2 ^ floatExponent x := by
      calc (N : R) * 2 ^ k ≤ (2 : R) ^ (24 : ℤ) * 2 ^ k :=
            mul_le_mul_of_nonneg_right hN' (zpow_pos h2 k).le
        _ = (2 : R) ^ (24 + k) := (zpow_add₀ h2.ne' _ _).symm
        _ ≤ 2 ^ floatExponent x := zpow_le_zpow_right₀ (by norm_num) (by omega)
    unfold roundFloat
    have := mul_le_mul_of_nonneg_right hr' hu.le
    rw [hval] at this
    linarith

/-- rounding does not rise above a `float` value `N * 2^k` that bounds the exact
value -/
theorem roundFloat_le_of_float [FloorRing R] (N : ℕ) (k : ℤ) (hN : N < 2 ^ 24)
    (hk : -149 ≤ k) (x : R) (hx : 0 < x) (h : x ≤ (N : R) * 2 ^ k) :
    roundFloat x ≤ (N : R) * 2 ^ k := by
  have h2 : (0 : R) < 2 := by norm_num
  obtain ⟨_, hlow⟩ := floatExponent_bounds x hx
  have hu := floatUlp_pos x
  have hcase : floatExponent x - 23 ≤ k := by
    by_contra hcon
    have hpos : (2 : R) ^ floatExponent x ≤ x := by
      rcases hlow with he | hle
      · omega
      · exact hle
    have hN' : (N : R) < (2 : R) ^ (24 : ℤ) := by
      have : (N : R) < ((2 ^ 24 : ℕ) : R) := by exact_mod_cast hN
      norm_num at this ⊢
      exact this
    have hc : (N : R) * 2 ^ k < 2 ^ floatExponent x := by
      calc (N : R) * 2 ^ k < (2 : R) ^ (24 : ℤ) * 2 ^ k :=
            mul_lt_mul_of_pos_right hN' (zpow_pos h2 k)
        _ = (2 : R) ^ (24 + k) := (zpow_add₀ h2.ne' _ _).symm
        _ ≤ 2 ^ floatExponent x := zpow_le_zpow_right₀ (by norm_num) (by omega)
    linarith
  obtain ⟨j, hj⟩ := float_div_ulp N k x hcase
  have hdiv : x / floatUlp x ≤ (((N : ℤ) * 2 ^ j : ℤ) : R) := by
    rw [← hj]
    exact div_le_div_of_nonneg_right h hu.le
  have hr := roundHalfEven_le_of_le _ _ hdiv
  have hr' : (roundHalfEven (x / floatUlp x) : R) ≤ (((N : ℤ) * 2 ^ j : ℤ) : R) := by
    exact_mod_cast hr
  unfold roundFloat
  have := mul_le_mul_of_nonneg_right hr' hu.le
  rw [← hj, div_mul_cancel₀ _ hu.ne'] at this
  exact this

/-- a `float` value of magnitude at least `2^j` is a whole multiple of
`2^(j - 23)` -/
theorem isFloat_grid [FloorRing R] (x : R) (hx : IsFloat x) (j : ℤ)
    (h : (2 : R) ^ j ≤ |x|) : ∃ m : ℤ, x = (m : R) * 2 ^ (j - 23) := by
  have h2 : (0 : R) < 2 := by norm_num
  have hpos : (0 : R) < |x| := lt_of_lt_of_le (zpow_pos h2 j) h
  have hlog : j ≤ Int.log 2 |x| :=
    (Int.zpow_le_iff_le_log (b := 2) (by norm_num) hpos).mp (by exact_mod_cast h)
  have he : j ≤ floatExponent x := le_trans hlog (le_max_left _ _)
  obtain ⟨i, hi⟩ : ∃ i : ℕ, (i : ℤ) = floatExponent x - j :=
    ⟨(floatExponent x - j).toNat, Int.toNat_of_nonneg (by omega)⟩
  refine ⟨roundHalfEven (x / floatUlp x) * 2 ^ i, ?_⟩
  have hx' : x = (roundHalfEven (x / floatUlp x) : R) * 2 ^ (floatExponent x - 23) := hx.symm
  calc x = (roundHalfEven (x / floatUlp x) : R) * 2 ^ (floatExponent x - 23) := hx'
    _ = ((roundHalfEven (x / floatUlp x) * 2 ^ i : ℤ) : R) * 2 ^ (j - 23) := by
      push_cast
      rw [mul_assoc, ← zpow_natCast, ← zpow_add₀ h2.ne', hi]
      congr 2
      omega

end MachineNumbers

namespace EllipseEstimator

variable {R : Type} [LinearOrderedField R]

/-! # Properties -/

theorem roundFloat_two_floatPi [FloorRing R] : roundFloat (2 * floatPi : R) = 2 * floatPi := by
  have h := roundFloat_int_mul_zpow (R := R) 13176795 (-21) (by norm_num) (by norm_num)
  have e : ((13176795 : ℤ) : R) * 2 ^ (-21 : ℤ) = 2 * floatPi := by
    unfold floatPi
    norm_num
  rwa [e] at h

/-- With no points the minimum inlier count is 0. -/
theorem RANSAC.minInliers_nil [FloorRing R] (cfg : RANSAC.Config R) :
    RANSAC.minInliers cfg [] = 0 := by
  unfold RANSAC.minInliers
  simp [roundFloat_zero, truncToInt_zero]

theorem countedBefore_add_redoneBefore (redo : ℕ → Bool) (k : ℕ) :
    countedBefore redo k + redoneBefore redo k = k := by
  induction k with
  | zero => rfl
  | succ k ih =>
    simp only [countedBefore, redoneBefore]
    cases redo k <;> simp <;> omega

theorem countedBefore_mono (redo : ℕ → Bool) {j k : ℕ} (h : j ≤ k) :
    countedBefore redo j ≤ countedBefore redo k := by
  induction h with
  | refl => exact le_rfl
  | step _ ih => exact le_trans ih (by simp [countedBefore])

theorem forLoop_sound {σ : Type} (numRuns : ℤ) (body : ℕ → σ → Bool × σ) (redo : ℕ → Bool)
    (hredo : ∀ k st, (body k st).1 = redo k) (st0 : σ) :
    ∀ (fuel k k' : ℕ) (s' : σ),
      forLoop numRuns body fuel (countedBefore redo k) k (stateAfter body st0 k) = some (k', s') →
      k ≤ k' ∧ k' ≤ k + fuel ∧ s' = stateAfter body st0 k' ∧
        numRuns ≤ (countedBefore redo k' : ℤ) ∧
        ∀ j, k ≤ j → j < k' → (countedBefore redo j : ℤ) < numRuns := by
  intro fuel
  induction fuel with
  | zero =>
    intro k k' s' h
    unfold forLoop at h
    by_cases hi : (countedBefore redo k : ℤ) < numRuns
    · simp [hi] at h
    · simp only [hi, if_false, Option.some.injEq, Prod.mk.injEq] at h
      obtain ⟨rfl, rfl⟩ := h
      refine ⟨le_rfl, by omega, rfl, not_lt.mp hi, ?_⟩
      intro j h1 h2; omega
  | succ fuel ih =>
    intro k k' s' h
    unfold forLoop at h
    by_cases hi : (countedBefore redo k : ℤ) < numRuns
    · simp only [hi, if_true] at h
      have hstep : (if (body k (stateAfter body st0 k)).1 then (countedBefore redo k : ℤ)
          else (countedBefore redo k : ℤ) + 1) = (countedBefore redo (k + 1) : ℤ) := by
        rw [hredo]
        simp only [countedBefore]
        cases redo k <;> simp
      rw [hstep] at h
      have h' := ih (k + 1) k' s' h
      obtain ⟨h1, h2, h3, h4, h5⟩ := h'
      refine ⟨by omega, by omega, h3, h4, ?_⟩
      intro j hj1 hj2
      rcases Nat.eq_or_lt_of_le hj1 with rfl | hlt
      · exact hi
      · exact h5 j hlt hj2
    · simp only [hi, if_false, Option.some.injEq, Prod.mk.injEq] at h
      obtain ⟨rfl, rfl⟩ := h
      refine ⟨le_rfl, by omega, rfl, not_lt.mp hi, ?_⟩
      intro j h1 h2; omega

theorem forLoop_complete {σ : Type} (numRuns : ℤ) (body : ℕ → σ → Bool × σ) (redo : ℕ → Bool)
    (hredo : ∀ k st, (body k st).1 = redo k) (st0 : σ) :
    ∀ (fuel k k' : ℕ), k ≤ k' → k' ≤ k + fuel →
      numRuns ≤ (countedBefore redo k' : ℤ) →
      (∀ j, k ≤ j → j < k' → (countedBefore redo j : ℤ) < numRuns) →
      forLoop numRuns body fuel (countedBefore redo k) k (stateAfter body st0 k)
        = some (k', stateAfter body st0 k') := by
  intro fuel
  induction fuel with
  | zero =>
    intro k k' h1 h2 h3 _
    have hk : k' = k := by omega
    subst hk
    unfold forLoop
    simp [not_lt.mpr h3]
  | succ fuel ih =>
    intro k k' h1 h2 h3 h4
    unfold forLoop
    rcases Nat.eq_or_lt_of_le h1 with rfl | hlt
    · simp [not_lt.mpr h3]
    · have hi := h4 k le_rfl hlt
      simp only [hi, if_true]
      have hstep : (if (body k (stateAfter body st0 k)).1 then (countedBefore redo k : ℤ)
          else (countedBefore redo k : ℤ) + 1) = (countedBefore redo (k + 1) : ℤ) := by
        rw [hredo]
        simp only [countedBefore]
        cases redo k <;> simp
      rw [hstep]
      exact ih (k + 1) k' hlt (by omega) h3 (fun j hj1 hj2 => h4 j (by omega) hj2)

/-- The counted loop returns after `k` executions exactly when the counter first
reaches `numRuns` there, and then its state is the one after `k` executions. -/
theorem forLoop_eq_some_iff {σ : Type} (numRuns : ℤ) (body : ℕ → σ → Bool × σ)
    (redo : ℕ → Bool) (hredo : ∀ k st, (body k st).1 = redo k) (st0 : σ)
    (fuel k : ℕ) (s : σ) :
    forLoop numRuns body fuel 0 0 st0 = some (k, s) ↔
      (StopsAt numRuns redo k ∧ k ≤ fuel ∧ s = stateAfter body st0 k) := by
  constructor
  · intro h
    have h' := forLoop_sound numRuns body redo hredo st0 fuel 0 k s (by simpa [countedBefore, stateAfter] using h)
    obtain ⟨_, h2, h3, h4, h5⟩ := h'
    exact ⟨⟨h4, fun j hj => h5 j (Nat.zero_le _) hj⟩, by omega, h3⟩
  · rintro ⟨⟨h1, h2⟩, h3, rfl⟩
    have := forLoop_complete numRuns body redo hredo st0 fuel 0 k (Nat.zero_le _) (by omega) h1
      (fun j _ hj => h2 j hj)
    simpa [countedBefore, stateAfter] using this

/-! ## The point-inlier loop -/

theorem truncToInt_le_iff_floor_le [FloorRing R] (x : R) (n : ℤ) (hn : 0 < n) :
    truncToInt x ≤ n ↔ ⌊x⌋ ≤ n := by
  unfold truncToInt
  split_ifs with h
  · exact Iff.rfl
  · have hx : x < 0 := not_le.mp h
    have h1 : ⌈x⌉ ≤ 0 := Int.ceil_le.mpr (by simpa using hx.le)
    have h2 : ⌊x⌋ ≤ ⌈x⌉ := Int.floor_le_ceil x
    constructor <;> intro _ <;> omega

theorem RANSAC.body_fst [FloorRing R] (env : RANSAC.Env R) (cfg : RANSAC.Config R)
    (allPoints : List (Point2 R)) (k : ℕ) (st : RANSAC.Best R) :
    (RANSAC.body env cfg allPoints k st).1 = RANSAC.nanRejected env k := by
  unfold RANSAC.body RANSAC.nanRejected RANSAC.fRejected RANSAC.trialGeo RANSAC.trialParams
  by_cases hF : (getParams env.svd (env.sample k)).toEllipse.F ≤ 0
  · simp [hF]
  · by_cases ha : (env.toGeometric (getParams env.svd (env.sample k)).toEllipse).a = none
    · simp [hF, ha]
    · by_cases hb : (env.toGeometric (getParams env.svd (env.sample k)).toEllipse).b = none
      · simp [hF, ha, hb]
      · simp only [hF, ha, hb, if_false]
        have ha' : (env.toGeometric (getParams env.svd (env.sample k)).toEllipse).a.isNone = false := by
          cases h : (env.toGeometric (getParams env.svd (env.sample k)).toEllipse).a
          · exact absurd h ha
          · rfl
        have hb' : (env.toGeometric (getParams env.svd (env.sample k)).toEllipse).b.isNone = false := by
          cases h : (env.toGeometric (getParams env.svd (env.sample k)).toEllipse).b
          · exact absurd h hb
          · rfl
        split_ifs <;> simp [ha', hb']

theorem RANSAC.body_snd_of_not_valid [FloorRing R] (env : RANSAC.Env R) (cfg : RANSAC.Config R)
    (allPoints : List (Point2 R)) (k : ℕ) (st : RANSAC.Best R) (h : ¬ RANSAC.Valid env k) :
    (RANSAC.body env cfg allPoints k st).2 = st := by
  unfold RANSAC.Valid RANSAC.trialGeo RANSAC.trialParams at h
  unfold RANSAC.body
  by_cases hF : (getParams env.svd (env.sample k)).toEllipse.F ≤ 0
  · simp [hF]
  · by_cases ha : (env.toGeometric (getParams env.svd (env.sample k)).toEllipse).a = none
    · simp [hF, ha]
    · by_cases hb : (env.toGeometric (getParams env.svd (env.sample k)).toEllipse).b = none
      · simp [hF, ha, hb]
      · exact absurd ⟨not_le.mp hF, ha, hb⟩ h

theorem RANSAC.body_snd_of_valid [FloorRing R] (env : RANSAC.Env R) (cfg : RANSAC.Config R)
    (allPoints : List (Point2 R)) (k : ℕ) (st : RANSAC.Best R) (h : RANSAC.Valid env k) :
    (RANSAC.body env cfg allPoints k st).2 =
      if (RANSAC.trialStats env cfg allPoints k).numInliers > st.bestVal ∧
          (RANSAC.trialStats env cfg allPoints k).numInliers ≥ RANSAC.minInliers cfg allPoints ∧
          (RANSAC.trialStats env cfg allPoints k).outlineCoverage ≥ cfg.minCoverage
      then ⟨(RANSAC.trialStats env cfg allPoints k).numInliers, RANSAC.trialParams env k,
        RANSAC.trialStats env cfg allPoints k⟩
      else st := by
  unfold RANSAC.Valid RANSAC.trialGeo RANSAC.trialParams at h
  obtain ⟨hF, ha, hb⟩ := h
  unfold RANSAC.body RANSAC.trialStats RANSAC.trialGeo RANSAC.trialParams
  simp only [not_le.mpr hF, ha, hb, if_false]
  split_ifs <;> rfl

/-- The best-candidate bookkeeping of `RANSAC::get` after `k` executions of the
body: either no trial so far qualifies and the state is the initial one, or the
state holds the earliest qualifying trial with the maximal number of inliers. -/
theorem RANSAC.stateAfter_best [FloorRing R] (env : RANSAC.Env R) (cfg : RANSAC.Config R)
    (allPoints : List (Point2 R)) (bestStats0 : RANSAC.MatchStats R) (k : ℕ) :
    ((∀ j, j < k → ¬ RANSAC.Qualifies env cfg allPoints j) ∧
      stateAfter (RANSAC.body env cfg allPoints) ⟨0, Estimation.default, bestStats0⟩ k
        = ⟨0, Estimation.default, bestStats0⟩) ∨
    (∃ j, j < k ∧ RANSAC.Qualifies env cfg allPoints j ∧
      stateAfter (RANSAC.body env cfg allPoints) ⟨0, Estimation.default, bestStats0⟩ k
        = ⟨(RANSAC.trialStats env cfg allPoints j).numInliers, RANSAC.trialParams env j,
            RANSAC.trialStats env cfg allPoints j⟩ ∧
      (∀ j', j' < k → RANSAC.Qualifies env cfg allPoints j' →
        (RANSAC.trialStats env cfg allPoints j').numInliers
          ≤ (RANSAC.trialStats env cfg allPoints j).numInliers) ∧
      (∀ j', j' < j → RANSAC.Qualifies env cfg allPoints j' →
        (RANSAC.trialStats env cfg allPoints j').numInliers
          < (RANSAC.trialStats env cfg allPoints j).numInliers)) := by
  induction k with
  | zero =>
    left
    exact ⟨fun j hj => absurd hj (Nat.not_lt_zero j), rfl⟩
  | succ k ih =>
    simp only [stateAfter]
    by_cases hv : RANSAC.Valid env k
    · rw [RANSAC.body_snd_of_valid env cfg allPoints k _ hv]
      rcases ih with ⟨hno, hst⟩ | ⟨j, hj, hq, hst, hmax, hfirst⟩
      · rw [hst]
        by_cases hc : (RANSAC.trialStats env cfg allPoints k).numInliers > 0 ∧
            (RANSAC.trialStats env cfg allPoints k).numInliers ≥ RANSAC.minInliers cfg allPoints ∧
            (RANSAC.trialStats env cfg allPoints k).outlineCoverage ≥ cfg.minCoverage
        · have hqk : RANSAC.Qualifies env cfg allPoints k :=
            ⟨hv, hc.1, hc.2.1, hc.2.2⟩
          right
          refine ⟨k, Nat.lt_succ_self k, hqk, by simp only [hc, and_self, if_true], ?_, ?_⟩
          · intro j' hj' hq'
            rcases Nat.lt_succ_iff_lt_or_eq.mp hj' with h | rfl
            · exact absurd hq' (hno j' h)
            · exact le_rfl
          · intro j' hj' hq'
            exact absurd hq' (hno j' hj')
        · left
          refine ⟨?_, by simp only [hc, if_false]⟩
          intro j' hj' hq'
          rcases Nat.lt_succ_iff_lt_or_eq.mp hj' with h | rfl
          · exact hno j' h hq'
          · exact hc ⟨hq'.2.1, hq'.2.2.1, hq'.2.2.2⟩
      · rw [hst]
        have hpos : 0 < (RANSAC.trialStats env cfg allPoints j).numInliers := hq.2.1
        by_cases hc : (RANSAC.trialStats env cfg allPoints k).numInliers
              > (RANSAC.trialStats env cfg allPoints j).numInliers ∧
            (RANSAC.trialStats env cfg allPoints k).numInliers ≥ RANSAC.minInliers cfg allPoints ∧
            (RANSAC.trialStats env cfg allPoints k).outlineCoverage ≥ cfg.minCoverage
        · have hk0 : 0 < (RANSAC.trialStats env cfg allPoints k).numInliers := lt_trans hpos hc.1
          have hqk : RANSAC.Qualifies env cfg allPoints k :=
            ⟨hv, hk0, hc.2.1, hc.2.2⟩
          right
          refine ⟨k, Nat.lt_succ_self k, hqk, by simp only [hc, and_self, if_true], ?_, ?_⟩
          · intro j' hj' hq'
            rcases Nat.lt_succ_iff_lt_or_eq.mp hj' with h | rfl
            · exact le_trans (hmax j' h hq') hc.1.le
            · exact le_rfl
          · intro j' hj' hq'
            exact lt_of_le_of_lt (hmax j' hj' hq') hc.1
        · right
          refine ⟨j, Nat.lt_succ_of_lt hj, hq, by simp only [hc, if_false], ?_, hfirst⟩
          intro j' hj' hq'
          rcases Nat.lt_succ_iff_lt_or_eq.mp hj' with h | rfl
          · exact hmax j' h hq'
          · by_contra hlt
            exact hc ⟨not_le.mp hlt,
              hq'.2.2.1, hq'.2.2.2⟩
    · rw [RANSAC.body_snd_of_not_valid env cfg allPoints k _ hv]
      rcases ih with ⟨hno, hst⟩ | ⟨j, hj, hq, hst, hmax, hfirst⟩
      · left
        refine ⟨?_, hst⟩
        intro j' hj' hq'
        rcases Nat.lt_succ_iff_lt_or_eq.mp hj' with h | rfl
        · exact hno j' h hq'
        · exact hv hq'.1
      · right
        refine ⟨j, Nat.lt_succ_of_lt hj, hq, hst, ?_, hfirst⟩
        intro j' hj' hq'
        rcases Nat.lt_succ_iff_lt_or_eq.mp hj' with h | rfl
        · exact hmax j' h hq'
        · exact absurd hq'.1 hv

/-! ## The image-brightness loop -/

theorem RANSACPixel.pixelBody_fst (env : RANSACPixel.Env R) (cfg : RANSACPixel.Config R)
    (k : ℕ) (st : RANSACPixel.Best R) :
    (RANSACPixel.body env cfg k st).1 = RANSACPixel.nanRejected env k := by
  unfold RANSACPixel.body RANSACPixel.nanRejected RANSACPixel.fRejected RANSACPixel.trialGeo
    RANSACPixel.trialCanon RANSACPixel.trialParams
  by_cases hF : (getParams env.svd (env.sample k)).toEllipse.fixF.F ≤ 0
  · simp [hF]
  · simp only [hF, if_false]
    cases ha : (env.toGeometric (getParams env.svd (env.sample k)).toEllipse.fixF).a with
    | none => simp
    | some a =>
      cases hb : (env.toGeometric (getParams env.svd (env.sample k)).toEllipse.fixF).b with
      | none => simp
      | some b =>
        simp only [Option.isNone_some, Bool.or_self, Bool.and_false, decide_False, Bool.not_false]
        split_ifs <;> rfl

theorem RANSACPixel.pixelBody_snd_of_not_accepted (env : RANSACPixel.Env R)
    (cfg : RANSACPixel.Config R) (k : ℕ) (st : RANSACPixel.Best R)
    (h : ¬ RANSACPixel.Accepted env cfg k) :
    (RANSACPixel.body env cfg k st).2 = st := by
  unfold RANSACPixel.Accepted RANSACPixel.trialStats RANSACPixel.trialGeo RANSACPixel.trialCanon
    RANSACPixel.trialParams at h
  unfold RANSACPixel.body
  by_cases hF : (getParams env.svd (env.sample k)).toEllipse.fixF.F ≤ 0
  · simp [hF]
  · simp only [hF, if_false]
    cases ha : (env.toGeometric (getParams env.svd (env.sample k)).toEllipse.fixF).a with
    | none => rfl
    | some a =>
      cases hb : (env.toGeometric (getParams env.svd (env.sample k)).toEllipse.fixF).b with
      | none => rfl
      | some b =>
        simp only
        split_ifs with h1 h2 h3 h4 h5 h6
        · rfl
        · rfl
        · rfl
        · rfl
        · rfl
        · rfl
        · exact absurd ⟨not_le.mp hF, a, b, ha, hb, h1, h2, h3, h4, h5⟩ h

theorem RANSACPixel.pixelBody_snd_of_accepted (env : RANSACPixel.Env R)
    (cfg : RANSACPixel.Config R) (k : ℕ) (st : RANSACPixel.Best R)
    (h : RANSACPixel.Accepted env cfg k) :
    (RANSACPixel.body env cfg k st).2 =
      if (RANSACPixel.trialStats env cfg k).matchValue < st.bestStats.matchValue then st
      else ⟨RANSACPixel.trialStats env cfg k, RANSACPixel.trialParams env k⟩ := by
  unfold RANSACPixel.Accepted RANSACPixel.trialStats RANSACPixel.trialGeo RANSACPixel.trialCanon
    RANSACPixel.trialParams at h
  obtain ⟨hF, a, b, ha, hb, h1, h2, h3, h4, h5⟩ := h
  unfold RANSACPixel.body RANSACPixel.trialStats RANSACPixel.trialGeo RANSACPixel.trialCanon
    RANSACPixel.trialParams
  simp only [not_le.mpr hF, if_false, ha, hb, h1, h2, h3, h4, h5]
  split_ifs <;> rfl

/-- The best-candidate bookkeeping of `RANSACPixel::get` after `k` executions of
the body: either no accepted trial so far has a non-negative `matchValue` and the
state is the initial one, or the state holds the latest accepted trial with the
maximal `matchValue`. -/
theorem RANSACPixel.pixelStateAfter_best (env : RANSACPixel.Env R) (cfg : RANSACPixel.Config R)
    (k : ℕ) :
    ((∀ j, j < k → ¬ (RANSACPixel.Accepted env cfg j ∧
          0 ≤ (RANSACPixel.trialStats env cfg j).matchValue)) ∧
      stateAfter (RANSACPixel.body env cfg) ⟨ImageMatchStats.zero, Estimation.default⟩ k
        = ⟨ImageMatchStats.zero, Estimation.default⟩) ∨
    (∃ j, j < k ∧ RANSACPixel.Accepted env cfg j ∧
      0 ≤ (RANSACPixel.trialStats env cfg j).matchValue ∧
      stateAfter (RANSACPixel.body env cfg) ⟨ImageMatchStats.zero, Estimation.default⟩ k
        = ⟨RANSACPixel.trialStats env cfg j, RANSACPixel.trialParams env j⟩ ∧
      (∀ j', j' < k → RANSACPixel.Accepted env cfg j' →
        (RANSACPixel.trialStats env cfg j').matchValue
          ≤ (RANSACPixel.trialStats env cfg j).matchValue) ∧
      (∀ j', j < j' → j' < k → RANSACPixel.Accepted env cfg j' →
        (RANSACPixel.trialStats env cfg j').matchValue
          < (RANSACPixel.trialStats env cfg j).matchValue)) := by
  induction k with
  | zero =>
    left
    exact ⟨fun j hj => absurd hj (Nat.not_lt_zero j), rfl⟩
  | succ k ih =>
    simp only [stateAfter]
    by_cases hv : RANSACPixel.Accepted env cfg k
    · rw [RANSACPixel.pixelBody_snd_of_accepted env cfg k _ hv]
      rcases ih with ⟨hno, hst⟩ | ⟨j, hj, hq, hj0, hst, hmax, hlast⟩
      · rw [hst]
        by_cases hc : (RANSACPixel.trialStats env cfg k).matchValue < 0
        · left
          refine ⟨?_, by simp [ImageMatchStats.zero, hc]⟩
          intro j' hj' hq'
          rcases Nat.lt_succ_iff_lt_or_eq.mp hj' with h | rfl
          · exact hno j' h hq'
          · exact absurd hq'.2 (not_le.mpr hc)
        · right
          have hk0 : 0 ≤ (RANSACPixel.trialStats env cfg k).matchValue := not_lt.mp hc
          refine ⟨k, Nat.lt_succ_self k, hv, hk0, by simp [ImageMatchStats.zero, hc], ?_, ?_⟩
          · intro j' hj' hq'
            rcases Nat.lt_succ_iff_lt_or_eq.mp hj' with h | rfl
            · by_contra hgt
              exact hno j' h ⟨hq', le_trans hk0 (not_le.mp hgt).le⟩
            · exact le_rfl
          · intro j' h1 h2 _
            omega
      · rw [hst]
        by_cases hc : (RANSACPixel.trialStats env cfg k).matchValue
            < (RANSACPixel.trialStats env cfg j).matchValue
        · right
          refine ⟨j, Nat.lt_succ_of_lt hj, hq, hj0, by simp only [hc, if_true], ?_, ?_⟩
          · intro j' hj' hq'
            rcases Nat.lt_succ_iff_lt_or_eq.mp hj' with h | rfl
            · exact hmax j' h hq'
            · exact hc.le
          · intro j' h1 h2 hq'
            rcases Nat.lt_succ_iff_lt_or_eq.mp h2 with h | rfl
            · exact hlast j' h1 h hq'
            · exact hc
        · right
          have hle := not_lt.mp hc
          refine ⟨k, Nat.lt_succ_self k, hv, le_trans hj0 hle, by simp only [hc, if_false], ?_, ?_⟩
          · intro j' hj' hq'
            rcases Nat.lt_succ_iff_lt_or_eq.mp hj' with h | rfl
            · exact le_trans (hmax j' h hq') hle
            · exact le_rfl
          · intro j' h1 h2 _
            omega
    · rw [RANSACPixel.pixelBody_snd_of_not_accepted env cfg k _ hv]
      rcases ih with ⟨hno, hst⟩ | ⟨j, hj, hq, hj0, hst, hmax, hlast⟩
      · left
        refine ⟨?_, hst⟩
        intro j' hj' hq'
        rcases Nat.lt_succ_iff_lt_or_eq.mp hj' with h | rfl
        · exact hno j' h hq'
        · exact hv hq'.1
      · right
        refine ⟨j, Nat.lt_succ_of_lt hj, hq, hj0, hst, ?_, ?_⟩
        · intro j' hj' hq'
          rcases Nat.lt_succ_iff_lt_or_eq.mp hj' with h | rfl
          · exact hmax j' h hq'
          · exact absurd hq' hv
        · intro j' h1 h2 hq'
          rcases Nat.lt_succ_iff_lt_or_eq.mp h2 with h | rfl
          · exact hlast j' h1 h hq'
          · exact absurd hq' hv

/-! ## Leaving the counted loop -/

theorem countedBefore_succ_le (redo : ℕ → Bool) (k : ℕ) :
    countedBefore redo (k + 1) ≤ countedBefore redo k + 1 := by
  simp only [countedBefore]
  cases redo k <;> simp

/-- If the counter reaches `numRuns` within `n` executions, the loop leaves at
some `k ≤ n`, and `k` is `numRuns` (when positive) plus the number of redone
executions. -/
theorem stopsAt_of_le (numRuns : ℤ) (redo : ℕ → Bool) (n : ℕ)
    (h : numRuns ≤ (countedBefore redo n : ℤ)) :
    ∃ k, k ≤ n ∧ StopsAt numRuns redo k ∧ (k : ℤ) = max numRuns 0 + redoneBefore redo k := by
  classical
  have hex : ∃ k, numRuns ≤ (countedBefore redo k : ℤ) := ⟨n, h⟩
  refine ⟨Nat.find hex, Nat.find_min' hex h, ⟨Nat.find_spec hex, ?_⟩, ?_⟩
  · intro j hj
    exact not_le.mp (Nat.find_min hex hj)
  · have hspec := Nat.find_spec hex
    have hsum := countedBefore_add_redoneBefore redo (Nat.find hex)
    rcases Nat.eq_zero_or_pos (Nat.find hex) with h0 | hpos
    · rw [h0] at hspec ⊢
      simp only [countedBefore, Nat.cast_zero] at hspec
      simp [redoneBefore, max_eq_right hspec]
    · have hprev : ¬ numRuns ≤ (countedBefore redo (Nat.find hex - 1) : ℤ) :=
        Nat.find_min hex (by omega)
      have hstep := countedBefore_succ_le redo (Nat.find hex - 1)
      have hk : Nat.find hex - 1 + 1 = Nat.find hex := by omega
      rw [hk] at hstep
      have hmax : max numRuns 0 = numRuns := max_eq_left (by omega)
      rw [hmax]
      omega

/-- If the counter never reaches `numRuns`, the loop never returns. -/
theorem forLoop_none_of_never {σ : Type} (numRuns : ℤ) (body : ℕ → σ → Bool × σ)
    (redo : ℕ → Bool) (hredo : ∀ k st, (body k st).1 = redo k) (st0 : σ)
    (h : ∀ k, (countedBefore redo k : ℤ) < numRuns) (fuel : ℕ) :
    forLoop numRuns body fuel 0 0 st0 = none := by
  cases hres : forLoop numRuns body fuel 0 0 st0 with
  | none => rfl
  | some r =>
    obtain ⟨k, s⟩ := r
    have := ((forLoop_eq_some_iff numRuns body redo hredo st0 fuel k s).mp hres).1.1
    exact absurd this (not_le.mpr (h k))

theorem RANSAC.get_eq_some_iff [FloorRing R] (env : RANSAC.Env R) (cfg : RANSAC.Config R)
    (allPoints : List (Point2 R)) (bestStats0 : RANSAC.MatchStats R) (fuel k : ℕ)
    (c : CanonicalParams R) (s : RANSAC.MatchStats R) :
    RANSAC.get env cfg allPoints bestStats0 fuel = some (k, c, s) ↔
      (StopsAt cfg.numRuns (RANSAC.nanRejected env) k ∧ k ≤ fuel ∧
        c = (stateAfter (RANSAC.body env cfg allPoints)
              ⟨0, Estimation.default, bestStats0⟩ k).bestParams.toEllipse ∧
        s = (stateAfter (RANSAC.body env cfg allPoints)
              ⟨0, Estimation.default, bestStats0⟩ k).bestStats) := by
  unfold RANSAC.get
  constructor
  · intro h
    rw [Option.map_eq_some'] at h
    obtain ⟨⟨k', s'⟩, h1, h2⟩ := h
    simp only [Prod.mk.injEq] at h2
    obtain ⟨rfl, rfl, rfl⟩ := h2
    have := (forLoop_eq_some_iff cfg.numRuns _ _ (RANSAC.body_fst env cfg allPoints)
      _ fuel k' s').mp h1
    obtain ⟨h3, h4, rfl⟩ := this
    exact ⟨h3, h4, rfl, rfl⟩
  · rintro ⟨h1, h2, rfl, rfl⟩
    have := (forLoop_eq_some_iff cfg.numRuns _ _ (RANSAC.body_fst env cfg allPoints)
      ⟨0, Estimation.default, bestStats0⟩ fuel k _).mpr ⟨h1, h2, rfl⟩
    rw [this]
    rfl

theorem RANSACPixel.pixelGet_eq_some_iff (env : RANSACPixel.Env R) (cfg : RANSACPixel.Config R)
    (fuel k : ℕ) (c : CanonicalParams R) (s : ImageMatchStats R) :
    RANSACPixel.get env cfg fuel = some (k, c, s) ↔
      (StopsAt cfg.numRuns (RANSACPixel.nanRejected env) k ∧ k ≤ fuel ∧
        c = (stateAfter (RANSACPixel.body env cfg)
              ⟨ImageMatchStats.zero, Estimation.default⟩ k).bestParams.toEllipse ∧
        s = (stateAfter (RANSACPixel.body env cfg)
              ⟨ImageMatchStats.zero, Estimation.default⟩ k).bestStats) := by
  unfold RANSACPixel.get
  constructor
  · intro h
    rw [Option.map_eq_some'] at h
    obtain ⟨⟨k', s'⟩, h1, h2⟩ := h
    simp only [Prod.mk.injEq] at h2
    obtain ⟨rfl, rfl, rfl⟩ := h2
    have := (forLoop_eq_some_iff cfg.numRuns _ _ (RANSACPixel.pixelBody_fst env cfg)
      _ fuel k' s').mp h1
    obtain ⟨h3, h4, rfl⟩ := this
    exact ⟨h3, h4, rfl, rfl⟩
  · rintro ⟨h1, h2, rfl, rfl⟩
    have := (forLoop_eq_some_iff cfg.numRuns _ _ (RANSACPixel.pixelBody_fst env cfg)
      ⟨ImageMatchStats.zero, Estimation.default⟩ fuel k _).mpr ⟨h1, h2, rfl⟩
    rw [this]
    rfl

/-! ## Evaluating the examples -/

theorem Estimation.toEllipse_mk (a b c d e f : ℚ) :
    (Estimation.mk ![a, b, c, d, e, f]).toEllipse = ⟨a, b, c, d, e, f⟩ := rfl

theorem Estimation.toEllipse_default :
    (Estimation.default : Estimation R).toEllipse = ⟨0, 0, 0, 0, 0, 1⟩ := rfl

theorem getParams_columnSVD (v : ℕ → Fin 6 → ℚ) (points : List (Point2 ℚ)) :
    getParams (columnSVD v) points = ⟨v points.length⟩ := by
  unfold getParams columnSVD Estimation.fromSVD
  simp

/-! ## C3: which trial the point-inlier estimator returns -/

/-- C3 (claim as stated fails): a run of one trial that passes validation and
meets the minimum inlier count and the minimum coverage with zero inliers. The
trial is the only one, yet the call returns the default conic `(0,0,0,0,0,1)`
and leaves the caller's stats `(5, 1)` untouched, not the trial's conic and stats. -/
theorem RANSAC.get_zero_inlier_trial_not_returned :
    RANSAC.MeetsConstraints RANSAC.zeroInlierEnv RANSAC.zeroCfg [] 0 ∧
    RANSAC.get RANSAC.zeroInlierEnv RANSAC.zeroCfg [] ⟨5, 1⟩ 1
      = some (1, ⟨0, 0, 0, 0, 0, 1⟩, ⟨5, 1⟩) ∧
    (RANSAC.trialParams RANSAC.zeroInlierEnv 0).toEllipse = ⟨2, 0, 2, 0, 0, 1⟩ ∧
    RANSAC.trialStats RANSAC.zeroInlierEnv RANSAC.zeroCfg [] 0 = ⟨0, 0⟩ := by
  refine ⟨?_, ?_, ?_, ?_⟩
  · simp [RANSAC.MeetsConstraints, RANSAC.Valid, RANSAC.trialStats, RANSAC.trialGeo,
      RANSAC.trialParams, RANSAC.zeroInlierEnv, RANSAC.zeroCfg, RANSAC.tableEnv,
      getParams_columnSVD, countingSample, Estimation.toEllipse_mk, RANSAC.minInliers_nil]
  · simp [RANSAC.get, forLoop, RANSAC.body, RANSAC.zeroInlierEnv, RANSAC.zeroCfg,
      RANSAC.tableEnv, getParams_columnSVD, countingSample, Estimation.toEllipse_mk,
      Estimation.toEllipse_default, RANSAC.minInliers_nil]
  · simp [RANSAC.trialParams, RANSAC.zeroInlierEnv, RANSAC.tableEnv, getParams_columnSVD,
      countingSample, Estimation.toEllipse_mk]
  · simp [RANSAC.trialStats, RANSAC.trialGeo, RANSAC.trialParams, RANSAC.zeroInlierEnv,
      RANSAC.tableEnv, getParams_columnSVD, countingSample, Estimation.toEllipse_mk]

/-- C3 (amended): let `minInliers` be the `float` expression
`minMatchRate * (float)|allPoints| / stepSize` truncated to `int`, where that has
a value (`stepSize` not zero, the result a value of `int`).  When the loop of
`RANSAC::get` leaves after `k` executions of its body and some executed trial
qualifies (passes validation, has at least one inlier, `numInliers >= minInliers`
and `outlineCoverage >= minCoverage`), the call returns, for every sufficient
fuel, the conic and the stats of the earliest qualifying trial whose `numInliers`
is maximal among the qualifying trials: every earlier qualifying trial has
strictly fewer inliers, so a tie keeps the first-found candidate. -/
theorem RANSAC.get_returns_earliest_best [FloorRing R] (env : RANSAC.Env R)
    (cfg : RANSAC.Config R) (allPoints : List (Point2 R)) (bestStats0 : RANSAC.MatchStats R)
    (k : ℕ) (_hdef : RANSAC.MinInliersDefined cfg allPoints)
    (hstop : StopsAt cfg.numRuns (RANSAC.nanRejected env) k)
    (hq : ∃ j, j < k ∧ RANSAC.Qualifies env cfg allPoints j) :
    ∃ j, j < k ∧ RANSAC.Qualifies env cfg allPoints j ∧
      (∀ j', j' < k → RANSAC.Qualifies env cfg allPoints j' →
        (RANSAC.trialStats env cfg allPoints j').numInliers
          ≤ (RANSAC.trialStats env cfg allPoints j).numInliers) ∧
      (∀ j', j' < j → RANSAC.Qualifies env cfg allPoints j' →
        (RANSAC.trialStats env cfg allPoints j').numInliers
          < (RANSAC.trialStats env cfg allPoints j).numInliers) ∧
      ∀ fuel, k ≤ fuel →
        RANSAC.get env cfg allPoints bestStats0 fuel
          = some (k, (RANSAC.trialParams env j).toEllipse, RANSAC.trialStats env cfg allPoints j) := by
  rcases RANSAC.stateAfter_best env cfg allPoints bestStats0 k with
    ⟨hno, _⟩ | ⟨j, hj, hqj, hst, hmax, hfirst⟩
  · obtain ⟨j, hj, hqj⟩ := hq
    exact absurd hqj (hno j hj)
  · refine ⟨j, hj, hqj, hmax, hfirst, ?_⟩
    intro fuel hfuel
    rw [RANSAC.get_eq_some_iff]
    refine ⟨hstop, hfuel, ?_, ?_⟩ <;> rw [hst]

theorem RANSAC.tieEnv_stopsAt : StopsAt RANSAC.twoRunsCfg.numRuns (RANSAC.nanRejected RANSAC.tieEnv) 2 := by
  constructor
  · simp [countedBefore, RANSAC.nanRejected, RANSAC.fRejected, RANSAC.trialParams,
      RANSAC.trialGeo, RANSAC.tieEnv, RANSAC.twoRunsCfg, RANSAC.tableEnv, getParams_columnSVD, countingSample,
      Estimation.toEllipse_mk]
  · intro j hj
    interval_cases j <;>
      simp [countedBefore, RANSAC.nanRejected, RANSAC.fRejected, RANSAC.trialParams,
        RANSAC.trialGeo, RANSAC.tieEnv, RANSAC.twoRunsCfg, RANSAC.tableEnv, getParams_columnSVD, countingSample,
        Estimation.toEllipse_mk]

theorem RANSAC.tieEnv_qualifies (j : ℕ) : RANSAC.Qualifies RANSAC.tieEnv RANSAC.twoRunsCfg [] j := by
  simp [RANSAC.Qualifies, RANSAC.Valid, RANSAC.trialStats, RANSAC.trialGeo,
      RANSAC.trialParams, RANSAC.tieEnv, RANSAC.twoRunsCfg, RANSAC.tableEnv,
      getParams_columnSVD, countingSample, Estimation.toEllipse_mk, RANSAC.minInliers_nil]
  norm_num

/-- the minimum inlier count for the rate `0.7f` and ten points: the exact
product `6.99999988…` rounds to the `float` 7, so seven inliers are required, where
the floor of the exact product is 6 -/
theorem RANSAC.minInliers_seventyPercent :
    RANSAC.minInliers RANSAC.seventyPercentCfg tenOrigins = 7 ∧
    ⌊RANSAC.seventyPercentCfg.minMatchRate * (tenOrigins.length : ℚ)
      / (RANSAC.seventyPercentCfg.stepSize : ℚ)⌋ = 6 := by
  have h10 : roundFloat (((10 : ℕ) : ℚ)) = 10 := by
    simpa using roundFloat_natCast (R := ℚ) 10 (by norm_num)
  have h1 : roundFloat (((1 : ℤ) : ℚ)) = 1 := by
    simpa using roundFloat_intCast (R := ℚ) 1 (by norm_num)
  have hprod : roundFloat ((11744051 / 16777216 : ℚ) * 10) = 7 :=
    roundFloat_eval_pos _ _ 2 14680064 (by norm_num) (by norm_num) (by norm_num) (by norm_num) (by norm_num) (by norm_num)
  have h7 : roundFloat ((7 : ℚ) / 1) = 7 := by
    rw [div_one]
    simpa using roundFloat_natCast (R := ℚ) 7 (by norm_num)
  have hlen : tenOrigins.length = 10 := rfl
  constructor
  · unfold RANSAC.minInliers
    rw [hlen, h10]
    simp only [RANSAC.seventyPercentCfg]
    rw [hprod, h1, h7]
    simpa using truncToInt_intCast (R := ℚ) 7
  · rw [hlen]
    simp only [RANSAC.seventyPercentCfg]
    rw [Int.floor_eq_iff]
    constructor <;> norm_num

theorem RANSAC.minInliersDefined_seventyPercent :
    RANSAC.MinInliersDefined RANSAC.seventyPercentCfg tenOrigins := by
  refine ⟨by simp [RANSAC.seventyPercentCfg], ?_⟩
  rw [RANSAC.minInliers_seventyPercent.1]
  rfl

theorem RANSAC.risingEnv_stopsAt :
    StopsAt RANSAC.seventyPercentCfg.numRuns (RANSAC.nanRejected RANSAC.risingEnv) 2 := by
  constructor
  · simp [countedBefore, RANSAC.nanRejected, RANSAC.fRejected, RANSAC.trialParams,
      RANSAC.trialGeo, RANSAC.risingEnv, RANSAC.seventyPercentCfg, RANSAC.tableEnv,
      getParams_columnSVD, countingSample, Estimation.toEllipse_mk]
  · intro j hj
    interval_cases j <;>
      simp [countedBefore, RANSAC.nanRejected, RANSAC.fRejected, RANSAC.trialParams,
        RANSAC.trialGeo, RANSAC.risingEnv, RANSAC.seventyPercentCfg, RANSAC.tableEnv,
        getParams_columnSVD, countingSample, Estimation.toEllipse_mk]

theorem RANSAC.risingEnv_trialStats (k : ℕ) :
    RANSAC.Valid RANSAC.risingEnv k ∧
    RANSAC.trialStats RANSAC.risingEnv RANSAC.seventyPercentCfg tenOrigins k
      = ⟨(k : ℤ) + 6, 1⟩ := by
  constructor
  · simp [RANSAC.Valid, RANSAC.trialGeo, RANSAC.trialParams, RANSAC.risingEnv,
      RANSAC.tableEnv, getParams_columnSVD, countingSample, Estimation.toEllipse_mk]
  · simp only [RANSAC.trialStats, RANSAC.trialGeo, RANSAC.trialParams, RANSAC.risingEnv,
      RANSAC.tableEnv, getParams_columnSVD, countingSample, Estimation.toEllipse_mk,
      List.length_replicate, Matrix.cons_val_zero, RANSAC.MatchStats.mk.injEq, and_true]
    have : ⌊(k : ℚ) + 1⌋ = (k : ℤ) + 1 := by
      rw [Int.floor_eq_iff]
      push_cast
      constructor <;> linarith
    rw [this]
    ring

/-- with the rate `0.7f` and ten points a trial with six inliers does not
qualify and a trial with seven inliers does -/
theorem RANSAC.risingEnv_qualifies :
    ¬ RANSAC.Qualifies RANSAC.risingEnv RANSAC.seventyPercentCfg tenOrigins 0 ∧
    RANSAC.Qualifies RANSAC.risingEnv RANSAC.seventyPercentCfg tenOrigins 1 := by
  unfold RANSAC.Qualifies
  rw [RANSAC.minInliers_seventyPercent.1, (RANSAC.risingEnv_trialStats 0).2,
    (RANSAC.risingEnv_trialStats 1).2]
  refine ⟨?_, (RANSAC.risingEnv_trialStats 1).1, ?_, ?_, ?_⟩
  · rintro ⟨_, _, h, _⟩
    norm_num at h
  · norm_num
  · norm_num
  · norm_num [RANSAC.seventyPercentCfg]

/-- C3 witness: the rate `0.7f`, ten points and two trials with six and seven
inliers; seven inliers are required, the second trial qualifies, and the
theorem yields an earliest best trial for this run. -/
theorem RANSAC.get_returns_earliest_best_witness :
    RANSAC.MinInliersDefined RANSAC.seventyPercentCfg tenOrigins ∧
    StopsAt RANSAC.seventyPercentCfg.numRuns (RANSAC.nanRejected RANSAC.risingEnv) 2 ∧
    (∃ j, j < 2 ∧ RANSAC.Qualifies RANSAC.risingEnv RANSAC.seventyPercentCfg tenOrigins j) ∧
    ∃ j, j < 2 ∧ RANSAC.Qualifies RANSAC.risingEnv RANSAC.seventyPercentCfg tenOrigins j ∧
      (∀ j', j' < 2 → RANSAC.Qualifies RANSAC.risingEnv RANSAC.seventyPercentCfg tenOrigins j' →
        (RANSAC.trialStats RANSAC.risingEnv RANSAC.seventyPercentCfg tenOrigins j').numInliers
          ≤ (RANSAC.trialStats RANSAC.risingEnv RANSAC.seventyPercentCfg tenOrigins j).numInliers) ∧
      (∀ j', j' < j → RANSAC.Qualifies RANSAC.risingEnv RANSAC.seventyPercentCfg tenOrigins j' →
        (RANSAC.trialStats RANSAC.risingEnv RANSAC.seventyPercentCfg tenOrigins j').numInliers
          < (RANSAC.trialStats RANSAC.risingEnv RANSAC.seventyPercentCfg tenOrigins j).numInliers) ∧
      ∀ fuel, 2 ≤ fuel →
        RANSAC.get RANSAC.risingEnv RANSAC.seventyPercentCfg tenOrigins ⟨0, 0⟩ fuel
          = some (2, (RANSAC.trialParams RANSAC.risingEnv j).toEllipse,
              RANSAC.trialStats RANSAC.risingEnv RANSAC.seventyPercentCfg tenOrigins j) :=
  ⟨RANSAC.minInliersDefined_seventyPercent, RANSAC.risingEnv_stopsAt,
    ⟨1, by decide, RANSAC.risingEnv_qualifies.2⟩,
    RANSAC.get_returns_earliest_best RANSAC.risingEnv RANSAC.seventyPercentCfg tenOrigins
      ⟨0, 0⟩ 2 RANSAC.minInliersDefined_seventyPercent RANSAC.risingEnv_stopsAt
      ⟨1, by decide, RANSAC.risingEnv_qualifies.2⟩⟩

/-! ## C4: which trial the image-brightness estimator returns -/

/-- C4 (claim as stated fails): two accepted trials with the same `matchValue` 10.
The call returns the conic of the later trial (`A = 2`), not of the earlier one
(`A = 1`): a tie replaces the best candidate. -/
theorem RANSACPixel.get_tie_returns_later :
    RANSACPixel.Accepted RANSACPixel.tieEnv RANSACPixel.twoRunsCfg 0 ∧
    RANSACPixel.Accepted RANSACPixel.tieEnv RANSACPixel.twoRunsCfg 1 ∧
    (RANSACPixel.trialStats RANSACPixel.tieEnv RANSACPixel.twoRunsCfg 0).matchValue
      = (RANSACPixel.trialStats RANSACPixel.tieEnv RANSACPixel.twoRunsCfg 1).matchValue ∧
    (RANSACPixel.trialParams RANSACPixel.tieEnv 0).toEllipse = ⟨1, 0, 2, 0, 0, 1⟩ ∧
    RANSACPixel.get RANSACPixel.tieEnv RANSACPixel.twoRunsCfg 2
      = some (2, ⟨2, 0, 2, 0, 0, 1⟩, ⟨1, 10⟩) := by
  refine ⟨?_, ?_, ?_, ?_, ?_⟩
  · simp [RANSACPixel.Accepted, RANSACPixel.trialStats, RANSACPixel.trialGeo,
      RANSACPixel.trialCanon, RANSACPixel.trialParams, RANSACPixel.tieEnv,
      RANSACPixel.twoRunsCfg, RANSACPixel.tableEnv, RANSACPixel.IGNORE, getParams_columnSVD,
      countingSample, Estimation.toEllipse_mk, CanonicalParams.fixF]
    norm_num
  · simp [RANSACPixel.Accepted, RANSACPixel.trialStats, RANSACPixel.trialGeo,
      RANSACPixel.trialCanon, RANSACPixel.trialParams, RANSACPixel.tieEnv,
      RANSACPixel.twoRunsCfg, RANSACPixel.tableEnv, RANSACPixel.IGNORE, getParams_columnSVD,
      countingSample, Estimation.toEllipse_mk, CanonicalParams.fixF]
    norm_num
  · simp [RANSACPixel.trialStats, RANSACPixel.trialGeo,
      RANSACPixel.trialCanon, RANSACPixel.trialParams, RANSACPixel.tieEnv,
      RANSACPixel.tableEnv, getParams_columnSVD,
      countingSample, Estimation.toEllipse_mk, CanonicalParams.fixF]
  · simp [RANSACPixel.trialParams, RANSACPixel.tieEnv,
      RANSACPixel.tableEnv, getParams_columnSVD,
      countingSample, Estimation.toEllipse_mk]
  · have h : forLoop RANSACPixel.twoRunsCfg.numRuns
        (RANSACPixel.body RANSACPixel.tieEnv RANSACPixel.twoRunsCfg) 2 0 0
        ⟨ImageMatchStats.zero, Estimation.default⟩
        = some (2, ⟨⟨1, 10⟩, ⟨![2, 0, 2, 0, 0, 1]⟩⟩) := by
      norm_num [forLoop, RANSACPixel.body, RANSACPixel.tieEnv,
        RANSACPixel.twoRunsCfg, RANSACPixel.tableEnv, RANSACPixel.IGNORE, getParams_columnSVD,
        countingSample, Estimation.toEllipse_mk, CanonicalParams.fixF, ImageMatchStats.zero]
    unfold RANSACPixel.get
    rw [h]
    rfl

/-- C4 (amended): when the loop of `RANSACPixel::get` leaves after `k` executions
of its body and some executed trial is accepted with a `matchValue` that is not
below the initial best value 0, the call returns, for every sufficient fuel, the
conic and the stats of the latest accepted trial whose `matchValue` is maximal
among the accepted trials: every later accepted trial has a strictly lower
`matchValue`, so a tie is replaced by the later trial. -/
theorem RANSACPixel.get_returns_latest_best (env : RANSACPixel.Env R)
    (cfg : RANSACPixel.Config R) (k : ℕ)
    (hstop : StopsAt cfg.numRuns (RANSACPixel.nanRejected env) k)
    (hq : ∃ j, j < k ∧ RANSACPixel.Accepted env cfg j ∧
      0 ≤ (RANSACPixel.trialStats env cfg j).matchValue) :
    ∃ j, j < k ∧ RANSACPixel.Accepted env cfg j ∧
      (∀ j', j' < k → RANSACPixel.Accepted env cfg j' →
        (RANSACPixel.trialStats env cfg j').matchValue
          ≤ (RANSACPixel.trialStats env cfg j).matchValue) ∧
      (∀ j', j < j' → j' < k → RANSACPixel.Accepted env cfg j' →
        (RANSACPixel.trialStats env cfg j').matchValue
          < (RANSACPixel.trialStats env cfg j).matchValue) ∧
      ∀ fuel, k ≤ fuel →
        RANSACPixel.get env cfg fuel
          = some (k, (RANSACPixel.trialParams env j).toEllipse, RANSACPixel.trialStats env cfg j) := by
  rcases RANSACPixel.pixelStateAfter_best env cfg k with
    ⟨hno, _⟩ | ⟨j, hj, hqj, _, hst, hmax, hlast⟩
  · obtain ⟨j, hj, hqj⟩ := hq
    exact absurd hqj (hno j hj)
  · refine ⟨j, hj, hqj, hmax, hlast, ?_⟩
    intro fuel hfuel
    rw [RANSACPixel.pixelGet_eq_some_iff]
    refine ⟨hstop, hfuel, ?_, ?_⟩ <;> rw [hst]

theorem RANSACPixel.pixelTieEnv_stopsAt :
    StopsAt RANSACPixel.twoRunsCfg.numRuns (RANSACPixel.nanRejected RANSACPixel.tieEnv) 2 := by
  constructor
  · norm_num [countedBefore, RANSACPixel.nanRejected, RANSACPixel.fRejected,
      RANSACPixel.trialCanon, RANSACPixel.trialParams, RANSACPixel.trialGeo, RANSACPixel.tieEnv,
      RANSACPixel.twoRunsCfg, RANSACPixel.tableEnv, getParams_columnSVD, countingSample,
      Estimation.toEllipse_mk, CanonicalParams.fixF]
  · intro j hj
    interval_cases j <;>
      norm_num [countedBefore, RANSACPixel.nanRejected, RANSACPixel.fRejected,
        RANSACPixel.trialCanon, RANSACPixel.trialParams, RANSACPixel.trialGeo,
        RANSACPixel.tieEnv, RANSACPixel.twoRunsCfg, RANSACPixel.tableEnv, getParams_columnSVD,
        countingSample, Estimation.toEllipse_mk, CanonicalParams.fixF]

theorem RANSACPixel.pixelTieEnv_accepted (j : ℕ) :
    RANSACPixel.Accepted RANSACPixel.tieEnv RANSACPixel.twoRunsCfg j ∧
      0 ≤ (RANSACPixel.trialStats RANSACPixel.tieEnv RANSACPixel.twoRunsCfg j).matchValue := by
  norm_num [RANSACPixel.Accepted, RANSACPixel.trialStats, RANSACPixel.trialGeo,
      RANSACPixel.trialCanon, RANSACPixel.trialParams, RANSACPixel.tieEnv,
      RANSACPixel.twoRunsCfg, RANSACPixel.tableEnv, RANSACPixel.IGNORE, getParams_columnSVD,
      countingSample, Estimation.toEllipse_mk, CanonicalParams.fixF]

/-- C4 witness: two accepted trials tie at `matchValue` 10; the hypotheses hold
and the theorem yields a latest best trial for this run. -/
theorem RANSACPixel.get_returns_latest_best_witness :
    StopsAt RANSACPixel.twoRunsCfg.numRuns (RANSACPixel.nanRejected RANSACPixel.tieEnv) 2 ∧
    (∃ j, j < 2 ∧ RANSACPixel.Accepted RANSACPixel.tieEnv RANSACPixel.twoRunsCfg j ∧
      0 ≤ (RANSACPixel.trialStats RANSACPixel.tieEnv RANSACPixel.twoRunsCfg j).matchValue) ∧
    ∃ j, j < 2 ∧ RANSACPixel.Accepted RANSACPixel.tieEnv RANSACPixel.twoRunsCfg j ∧
      (∀ j', j' < 2 → RANSACPixel.Accepted RANSACPixel.tieEnv RANSACPixel.twoRunsCfg j' →
        (RANSACPixel.trialStats RANSACPixel.tieEnv RANSACPixel.twoRunsCfg j').matchValue
          ≤ (RANSACPixel.trialStats RANSACPixel.tieEnv RANSACPixel.twoRunsCfg j).matchValue) ∧
      (∀ j', j < j' → j' < 2 →
        RANSACPixel.Accepted RANSACPixel.tieEnv RANSACPixel.twoRunsCfg j' →
        (RANSACPixel.trialStats RANSACPixel.tieEnv RANSACPixel.twoRunsCfg j').matchValue
          < (RANSACPixel.trialStats RANSACPixel.tieEnv RANSACPixel.twoRunsCfg j).matchValue) ∧
      ∀ fuel, 2 ≤ fuel →
        RANSACPixel.get RANSACPixel.tieEnv RANSACPixel.twoRunsCfg fuel
          = some (2, (RANSACPixel.trialParams RANSACPixel.tieEnv j).toEllipse,
              RANSACPixel.trialStats RANSACPixel.tieEnv RANSACPixel.twoRunsCfg j) :=
  ⟨RANSACPixel.pixelTieEnv_stopsAt,
    ⟨0, by decide, (RANSACPixel.pixelTieEnv_accepted 0).1, (RANSACPixel.pixelTieEnv_accepted 0).2⟩,
    RANSACPixel.get_returns_latest_best RANSACPixel.tieEnv RANSACPixel.twoRunsCfg 2
      RANSACPixel.pixelTieEnv_stopsAt
      ⟨0, by decide, (RANSACPixel.pixelTieEnv_accepted 0).1, (RANSACPixel.pixelTieEnv_accepted 0).2⟩⟩

/-! ## C5: the stats reported when no trial is accepted -/

/-- When no executed trial qualifies, `RANSAC::get` returns the default conic
`(0,0,0,0,0,1)` and the caller's stats object keeps the value it had on entry. -/
theorem RANSAC.get_of_no_candidate [FloorRing R] (env : RANSAC.Env R)
    (cfg : RANSAC.Config R) (allPoints : List (Point2 R)) (bestStats0 : RANSAC.MatchStats R)
    (k : ℕ) (hstop : StopsAt cfg.numRuns (RANSAC.nanRejected env) k)
    (hno : ∀ j, j < k → ¬ RANSAC.Qualifies env cfg allPoints j) (fuel : ℕ) (hfuel : k ≤ fuel) :
    RANSAC.get env cfg allPoints bestStats0 fuel = some (k, ⟨0, 0, 0, 0, 0, 1⟩, bestStats0) := by
  rcases RANSAC.stateAfter_best env cfg allPoints bestStats0 k with
    ⟨_, hst⟩ | ⟨j, hj, hqj, _⟩
  · rw [RANSAC.get_eq_some_iff]
    refine ⟨hstop, hfuel, ?_, ?_⟩ <;> rw [hst]
    exact Estimation.toEllipse_default.symm
  · exact absurd hqj (hno j hj)

/-- C5 (failing input): the default configuration with two runs, four points,
two trials that pass validation and score no inlier, and a caller's stats object
holding `(7, 1/2)` on entry. No trial meets the acceptance constraints, the
default conic is returned, and the stats reported to the caller are still
`(7, 1/2)`, not `(0, 0)`. -/
theorem RANSAC.get_reports_stale_stats :
    (∀ j, ¬ RANSAC.MeetsConstraints RANSAC.zeroInlierEnv RANSAC.twoRunsCfg
        [⟨0, 0⟩, ⟨1, 0⟩, ⟨0, 1⟩, ⟨1, 1⟩] j) ∧
    RANSAC.get RANSAC.zeroInlierEnv RANSAC.twoRunsCfg [⟨0, 0⟩, ⟨1, 0⟩, ⟨0, 1⟩, ⟨1, 1⟩]
        ⟨7, 1 / 2⟩ 2
      = some (2, ⟨0, 0, 0, 0, 0, 1⟩, ⟨7, 1 / 2⟩) := by
  constructor
  · intro j
    have hmin : RANSAC.minInliers RANSAC.twoRunsCfg
        [(⟨0, 0⟩ : Point2 ℚ), ⟨1, 0⟩, ⟨0, 1⟩, ⟨1, 1⟩] = 2 := by
      have h4 : roundFloat (4 : ℚ) = 4 := by
        simpa using roundFloat_natCast (R := ℚ) 4 (by norm_num)
      have h2 : roundFloat (2 : ℚ) = 2 := by
        simpa using roundFloat_natCast (R := ℚ) 2 (by norm_num)
      have h1 : roundFloat (1 : ℚ) = 1 := by
        simpa using roundFloat_natCast (R := ℚ) 1 (by norm_num)
      have e : (1 / 2 : ℚ) * 4 = 2 := by norm_num
      simp only [RANSAC.minInliers, RANSAC.twoRunsCfg, List.length_cons, List.length_nil]
      norm_num [h4, h2, h1, e]
      simpa using truncToInt_intCast (R := ℚ) 2
    norm_num [RANSAC.MeetsConstraints, RANSAC.Valid, RANSAC.trialStats, RANSAC.trialGeo,
      RANSAC.trialParams, RANSAC.zeroInlierEnv, RANSAC.tableEnv,
      getParams_columnSVD, countingSample, Estimation.toEllipse_mk, hmin]
  · refine RANSAC.get_of_no_candidate _ _ _ _ 2 ⟨?_, ?_⟩ ?_ 2 le_rfl
    · simp [countedBefore, RANSAC.nanRejected, RANSAC.fRejected, RANSAC.trialParams,
        RANSAC.trialGeo, RANSAC.zeroInlierEnv, RANSAC.twoRunsCfg, RANSAC.tableEnv,
        getParams_columnSVD, countingSample, Estimation.toEllipse_mk]
    · intro j hj
      interval_cases j <;>
        simp [countedBefore, RANSAC.nanRejected, RANSAC.fRejected, RANSAC.trialParams,
          RANSAC.trialGeo, RANSAC.zeroInlierEnv, RANSAC.twoRunsCfg, RANSAC.tableEnv,
          getParams_columnSVD, countingSample, Estimation.toEllipse_mk]
    · intro j _
      simp [RANSAC.Qualifies, RANSAC.trialStats, RANSAC.trialGeo,
        RANSAC.trialParams, RANSAC.zeroInlierEnv, RANSAC.tableEnv,
        getParams_columnSVD, countingSample, Estimation.toEllipse_mk]

/-! ## C6: which rejections consume a trial -/

/-- C6 (claim as stated fails): with `numRuns = 1` and a first fit rejected by
the test `F <= 0`, both estimators leave the loop after that single execution and
return the default conic; the rejected trial has consumed the only run, although
the next trial would have been accepted. -/
theorem f_rejection_consumes_the_trial :
    RANSAC.fRejected RANSAC.fRejectEnv 0 = true ∧
    RANSAC.Qualifies RANSAC.fRejectEnv RANSAC.oneRunCfg [] 1 ∧
    RANSAC.get RANSAC.fRejectEnv RANSAC.oneRunCfg [] ⟨0, 0⟩ 5
      = some (1, ⟨0, 0, 0, 0, 0, 1⟩, ⟨0, 0⟩) ∧
    RANSACPixel.fRejected RANSACPixel.fRejectEnv 0 = true ∧
    RANSACPixel.Accepted RANSACPixel.fRejectEnv RANSACPixel.oneRunCfg 1 ∧
    RANSACPixel.get RANSACPixel.fRejectEnv RANSACPixel.oneRunCfg 5
      = some (1, ⟨0, 0, 0, 0, 0, 1⟩, ⟨0, 0⟩) := by
  refine ⟨?_, ?_, ?_, ?_, ?_, ?_⟩
  · simp [RANSAC.fRejected, RANSAC.trialParams, RANSAC.fRejectEnv, RANSAC.tableEnv,
      getParams_columnSVD, countingSample, Estimation.toEllipse_mk]
  · simp [RANSAC.Qualifies, RANSAC.Valid, RANSAC.trialStats, RANSAC.trialGeo,
      RANSAC.trialParams, RANSAC.fRejectEnv, RANSAC.oneRunCfg, RANSAC.tableEnv,
      getParams_columnSVD, countingSample, Estimation.toEllipse_mk, RANSAC.minInliers_nil]
    norm_num
  · have h : forLoop RANSAC.oneRunCfg.numRuns
        (RANSAC.body RANSAC.fRejectEnv RANSAC.oneRunCfg []) 5 0 0
        ⟨0, Estimation.default, ⟨0, 0⟩⟩
        = some (1, ⟨0, Estimation.default, ⟨0, 0⟩⟩) := by
      simp [forLoop, RANSAC.body, RANSAC.fRejectEnv, RANSAC.oneRunCfg,
        RANSAC.tableEnv, getParams_columnSVD, countingSample, Estimation.toEllipse_mk]
    unfold RANSAC.get
    rw [h]
    rfl
  · simp [RANSACPixel.fRejected, RANSACPixel.trialCanon, RANSACPixel.trialParams,
      RANSACPixel.fRejectEnv, RANSACPixel.tableEnv,
      getParams_columnSVD, countingSample, Estimation.toEllipse_mk, CanonicalParams.fixF]
  · norm_num [RANSACPixel.Accepted, RANSACPixel.trialStats, RANSACPixel.trialGeo,
      RANSACPixel.trialCanon, RANSACPixel.trialParams, RANSACPixel.fRejectEnv,
      RANSACPixel.oneRunCfg, RANSACPixel.tableEnv, RANSACPixel.IGNORE, getParams_columnSVD,
      countingSample, Estimation.toEllipse_mk, CanonicalParams.fixF]
  · have h : forLoop RANSACPixel.oneRunCfg.numRuns
        (RANSACPixel.body RANSACPixel.fRejectEnv RANSACPixel.oneRunCfg) 5 0 0
        ⟨ImageMatchStats.zero, Estimation.default⟩
        = some (1, ⟨ImageMatchStats.zero, Estimation.default⟩) := by
      simp [forLoop, RANSACPixel.body, RANSACPixel.fRejectEnv, RANSACPixel.oneRunCfg,
        RANSACPixel.tableEnv, getParams_columnSVD, countingSample, Estimation.toEllipse_mk,
        CanonicalParams.fixF]
    unfold RANSACPixel.get
    rw [h]
    rfl

/-- C6 (amended): both estimators leave their loop after exactly `k` executions of
the body, where `k` is the first number for which the executions that were not
rejected for a not-a-number semi-axis reach `numRuns`. An execution rejected for
a not-a-number `a` or `b` leaves the count unchanged; every other execution,
among them the one rejected by `F <= 0`, adds one to it. -/
theorem trial_budget [FloorRing R] (env : RANSAC.Env R) (cfg : RANSAC.Config R)
    (allPoints : List (Point2 R)) (bestStats0 : RANSAC.MatchStats R)
    (envP : RANSACPixel.Env R) (cfgP : RANSACPixel.Config R) :
    (∀ k, (∃ fuel r, RANSAC.get env cfg allPoints bestStats0 fuel = some (k, r)) ↔
      StopsAt cfg.numRuns (RANSAC.nanRejected env) k) ∧
    (∀ k, (∃ fuel r, RANSACPixel.get envP cfgP fuel = some (k, r)) ↔
      StopsAt cfgP.numRuns (RANSACPixel.nanRejected envP) k) ∧
    (∀ j, countedBefore (RANSAC.nanRejected env) (j + 1)
      = countedBefore (RANSAC.nanRejected env) j +
        (if RANSAC.fRejected env j = true ∨
            ((RANSAC.trialGeo env j).a ≠ none ∧ (RANSAC.trialGeo env j).b ≠ none)
          then 1 else 0)) ∧
    (∀ j, countedBefore (RANSACPixel.nanRejected envP) (j + 1)
      = countedBefore (RANSACPixel.nanRejected envP) j +
        (if RANSACPixel.fRejected envP j = true ∨
            ((RANSACPixel.trialGeo envP j).a ≠ none ∧ (RANSACPixel.trialGeo envP j).b ≠ none)
          then 1 else 0)) := by
  refine ⟨?_, ?_, ?_, ?_⟩
  · intro k
    constructor
    · rintro ⟨fuel, ⟨c, s⟩, h⟩
      exact ((RANSAC.get_eq_some_iff env cfg allPoints bestStats0 fuel k c s).mp h).1
    · intro h
      exact ⟨k, _, (RANSAC.get_eq_some_iff env cfg allPoints bestStats0 k k _ _).mpr
        ⟨h, le_rfl, rfl, rfl⟩⟩
  · intro k
    constructor
    · rintro ⟨fuel, ⟨c, s⟩, h⟩
      exact ((RANSACPixel.pixelGet_eq_some_iff envP cfgP fuel k c s).mp h).1
    · intro h
      exact ⟨k, _, (RANSACPixel.pixelGet_eq_some_iff envP cfgP k k _ _).mpr ⟨h, le_rfl, rfl, rfl⟩⟩
  · intro j
    simp only [countedBefore, RANSAC.nanRejected]
    rcases Bool.eq_false_or_eq_true (RANSAC.fRejected env j) with hf | hf <;>
      by_cases ha : (RANSAC.trialGeo env j).a = none <;>
      by_cases hb : (RANSAC.trialGeo env j).b = none <;>
      simp [hf, ha, hb, Option.isNone_iff_eq_none]
  · intro j
    simp only [countedBefore, RANSACPixel.nanRejected]
    rcases Bool.eq_false_or_eq_true (RANSACPixel.fRejected envP j) with hf | hf <;>
      by_cases ha : (RANSACPixel.trialGeo envP j).a = none <;>
      by_cases hb : (RANSACPixel.trialGeo envP j).b = none <;>
      simp [hf, ha, hb, Option.isNone_iff_eq_none]

/-! ## C7: termination of the estimators -/

/-- C7 (claim as stated fails): when every sample yields `F > 0` and not-a-number
semi-axes, neither estimator returns, whatever the fuel: every execution of the
body ends with `--i; continue;` and the counter never reaches `numRuns = 1`. -/
theorem nan_axes_never_terminate :
    (∀ fuel, RANSAC.get RANSAC.nanEnv RANSAC.oneRunCfg [] ⟨0, 0⟩ fuel = none) ∧
    (∀ fuel, RANSACPixel.get RANSACPixel.nanEnv RANSACPixel.oneRunCfg fuel = none) := by
  constructor
  · intro fuel
    have hredo : ∀ k, RANSAC.nanRejected RANSAC.nanEnv k = true := by
      intro k
      simp [RANSAC.nanRejected, RANSAC.fRejected, RANSAC.trialParams, RANSAC.trialGeo,
        RANSAC.nanEnv, RANSAC.tableEnv, getParams_columnSVD, countingSample,
        Estimation.toEllipse_mk]
    have hzero : ∀ k, countedBefore (RANSAC.nanRejected RANSAC.nanEnv) k = 0 := by
      intro k
      induction k with
      | zero => rfl
      | succ k ih => simp [countedBefore, ih, hredo]
    unfold RANSAC.get
    rw [forLoop_none_of_never _ _ _ (RANSAC.body_fst RANSAC.nanEnv RANSAC.oneRunCfg []) _
      (fun k => by rw [hzero]; simp [RANSAC.oneRunCfg])]
    rfl
  · intro fuel
    have hredo : ∀ k, RANSACPixel.nanRejected RANSACPixel.nanEnv k = true := by
      intro k
      norm_num [RANSACPixel.nanRejected, RANSACPixel.fRejected, RANSACPixel.trialCanon,
        RANSACPixel.trialParams, RANSACPixel.trialGeo,
        RANSACPixel.nanEnv, RANSACPixel.tableEnv, getParams_columnSVD, countingSample,
        Estimation.toEllipse_mk, CanonicalParams.fixF]
    have hzero : ∀ k, countedBefore (RANSACPixel.nanRejected RANSACPixel.nanEnv) k = 0 := by
      intro k
      induction k with
      | zero => rfl
      | succ k ih => simp [countedBefore, ih, hredo]
    unfold RANSACPixel.get
    rw [forLoop_none_of_never _ _ _ (RANSACPixel.pixelBody_fst RANSACPixel.nanEnv RANSACPixel.oneRunCfg)
      _ (fun k => by rw [hzero]; simp [RANSACPixel.oneRunCfg])]
    rfl

/-- C7 (amended): if within the first `n` samples at least `numRuns` are not
rejected for a not-a-number semi-axis, each estimator returns after a number `k ≤ n`
of executions of its loop body, for every fuel of at least `k`, and `k` is the
configured number of trials plus the number of executions that were redone. -/
theorem estimators_terminate [FloorRing R] (env : RANSAC.Env R) (cfg : RANSAC.Config R)
    (allPoints : List (Point2 R)) (bestStats0 : RANSAC.MatchStats R)
    (envP : RANSACPixel.Env R) (cfgP : RANSACPixel.Config R) (n : ℕ)
    (h : cfg.numRuns ≤ (countedBefore (RANSAC.nanRejected env) n : ℤ))
    (hP : cfgP.numRuns ≤ (countedBefore (RANSACPixel.nanRejected envP) n : ℤ)) :
    (∃ (k : ℕ) (r : CanonicalParams R × RANSAC.MatchStats R), k ≤ n ∧
      (k : ℤ) = max cfg.numRuns 0 + redoneBefore (RANSAC.nanRejected env) k ∧
      ∀ fuel, k ≤ fuel → RANSAC.get env cfg allPoints bestStats0 fuel = some (k, r)) ∧
    (∃ (k : ℕ) (r : CanonicalParams R × ImageMatchStats R), k ≤ n ∧
      (k : ℤ) = max cfgP.numRuns 0 + redoneBefore (RANSACPixel.nanRejected envP) k ∧
      ∀ fuel, k ≤ fuel → RANSACPixel.get envP cfgP fuel = some (k, r)) := by
  constructor
  · obtain ⟨k, hk, hstop, hcount⟩ := stopsAt_of_le cfg.numRuns _ n h
    refine ⟨k, ((stateAfter (RANSAC.body env cfg allPoints)
        ⟨0, Estimation.default, bestStats0⟩ k).bestParams.toEllipse,
      (stateAfter (RANSAC.body env cfg allPoints)
        ⟨0, Estimation.default, bestStats0⟩ k).bestStats), hk, hcount, fun fuel hfuel => ?_⟩
    exact (RANSAC.get_eq_some_iff env cfg allPoints bestStats0 fuel k _ _).mpr
      ⟨hstop, hfuel, rfl, rfl⟩
  · obtain ⟨k, hk, hstop, hcount⟩ := stopsAt_of_le cfgP.numRuns _ n hP
    refine ⟨k, ((stateAfter (RANSACPixel.body envP cfgP)
        ⟨ImageMatchStats.zero, Estimation.default⟩ k).bestParams.toEllipse,
      (stateAfter (RANSACPixel.body envP cfgP)
        ⟨ImageMatchStats.zero, Estimation.default⟩ k).bestStats), hk, hcount, fun fuel hfuel => ?_⟩
    exact (RANSACPixel.pixelGet_eq_some_iff envP cfgP fuel k _ _).mpr ⟨hstop, hfuel, rfl, rfl⟩

/-- C7 witness: in the tie runs the first two samples are both counted, which
meets `numRuns = 2`. -/
theorem estimators_terminate_witness :
    RANSAC.twoRunsCfg.numRuns ≤ (countedBefore (RANSAC.nanRejected RANSAC.tieEnv) 2 : ℤ) ∧
    RANSACPixel.twoRunsCfg.numRuns
      ≤ (countedBefore (RANSACPixel.nanRejected RANSACPixel.tieEnv) 2 : ℤ) ∧
    ((∃ (k : ℕ) (r : CanonicalParams ℚ × RANSAC.MatchStats ℚ), k ≤ 2 ∧
        (k : ℤ) = max RANSAC.twoRunsCfg.numRuns 0
          + redoneBefore (RANSAC.nanRejected RANSAC.tieEnv) k ∧
      ∀ fuel, k ≤ fuel →
        RANSAC.get RANSAC.tieEnv RANSAC.twoRunsCfg [] ⟨0, 0⟩ fuel = some (k, r)) ∧
    (∃ (k : ℕ) (r : CanonicalParams ℚ × ImageMatchStats ℚ), k ≤ 2 ∧
        (k : ℤ) = max RANSACPixel.twoRunsCfg.numRuns 0
          + redoneBefore (RANSACPixel.nanRejected RANSACPixel.tieEnv) k ∧
      ∀ fuel, k ≤ fuel →
        RANSACPixel.get RANSACPixel.tieEnv RANSACPixel.twoRunsCfg fuel = some (k, r))) :=
  ⟨RANSAC.tieEnv_stopsAt.1, RANSACPixel.pixelTieEnv_stopsAt.1,
    estimators_terminate RANSAC.tieEnv RANSAC.twoRunsCfg [] ⟨0, 0⟩ RANSACPixel.tieEnv
      RANSACPixel.twoRunsCfg 2 RANSAC.tieEnv_stopsAt.1 RANSACPixel.pixelTieEnv_stopsAt.1⟩

/-! ## C8: the loop bound of the iterative trim -/

theorem removePerRun_eq_zero_of_lt {n : ℕ} (h : n < 25) : removePerRun n = 0 := by
  unfold removePerRun truncToInt
  have h0 : (0 : ℚ) ≤ (n : ℚ) * (4 / 100) := by positivity
  rw [if_pos h0, Int.floor_eq_zero_iff]
  refine ⟨h0, ?_⟩
  have : (n : ℚ) < 25 := by exact_mod_cast h
  linarith

/-- C8: for every list of fewer than 25 points `removePerRun` is 0, so the loop
bound `toRemove/removePerRun` is a division by zero and `getRemoveWorst` has no
defined result. -/
theorem getRemoveWorst_undefined_of_lt_25
    (svd : (n : ℕ) → Matrix (Fin n) (Fin 6) R → JacobiSVD R)
    (sort : (Point2 R → Point2 R → Bool) → List (Point2 R) → List (Point2 R))
    (params0 : CanonicalParams R) (points : List (Point2 R)) (h : points.length < 25) :
    getRemoveWorst svd sort params0 points = none := by
  unfold getRemoveWorst intDiv
  rw [removePerRun_eq_zero_of_lt h]
  rfl

/-- C8 witness: a list of ten points. -/
theorem getRemoveWorst_undefined_of_lt_25_witness :
    (List.replicate 10 (⟨1, 2⟩ : Point2 ℚ)).length < 25 ∧
    getRemoveWorst (columnSVD fun _ => ![1, 0, 1, 0, 0, -1]) insertionStdSort
      ⟨0, 0, 0, 0, 0, 1⟩ (List.replicate 10 (⟨1, 2⟩ : Point2 ℚ)) = none :=
  ⟨by simp, getRemoveWorst_undefined_of_lt_25 _ _ _ _ (by simp)⟩

/-! ## C9: which points a round removes -/

/-- C9: in a round of `getRemoveWorst` whose sort returned a list ordered by the
comparator, every removed point has a residual `getError` that is at most the
residual of every kept point; so whenever a removed and a kept point differ in
residual, the removed one has the smaller residual. -/
theorem removeWorstRound_removes_smallest
    (svd : (n : ℕ) → Matrix (Fin n) (Fin 6) R → JacobiSVD R)
    (sort : (Point2 R → Point2 R → Bool) → List (Point2 R) → List (Point2 R))
    (perRun : ℤ) (points : List (Point2 R))
    (hsorted : (sort (errorComp (get svd points)) points).Pairwise
      fun a b => errorComp (get svd points) b a = false) :
    ∀ p ∈ removedInRound svd sort perRun points,
      ∀ q ∈ (removeWorstRound svd sort perRun points).2,
        (get svd points).getError p.x p.y ≤ (get svd points).getError q.x q.y ∧
        ((get svd points).getError p.x p.y ≠ (get svd points).getError q.x q.y →
          ¬ (get svd points).getError q.x q.y ≤ (get svd points).getError p.x p.y) := by
  intro p hp q hq
  unfold removedInRound at hp
  unfold removeWorstRound at hq
  simp only at hp hq
  rw [← List.take_append_drop
    ((sort (errorComp (get svd points)) points).length - perRun.toNat)
    (sort (errorComp (get svd points)) points)] at hsorted
  have h := (List.pairwise_append.mp hsorted).2.2 q hq p hp
  unfold errorComp at h
  have hle : (get svd points).getError p.x p.y ≤ (get svd points).getError q.x q.y := by
    simpa using h
  exact ⟨hle, fun hne hge => hne (le_antisymm hle hge)⟩

theorem get_circleSVD (points : List (Point2 ℚ)) :
    get circleSVD points = ⟨1, 0, 1, 0, 0, -1⟩ := by
  unfold get circleSVD
  rw [getParams_columnSVD, Estimation.toEllipse_mk]

theorem sort_threePoints :
    insertionStdSort (errorComp (get circleSVD threePoints)) threePoints
      = [⟨2, 0⟩, ⟨1, 0⟩, ⟨0, 0⟩] := by
  rw [get_circleSVD]
  norm_num [insertionStdSort, threePoints, List.insertionSort, List.orderedInsert, errorComp,
    CanonicalParams.getError]

theorem threePoints_sorted :
    (insertionStdSort (errorComp (get circleSVD threePoints)) threePoints).Pairwise
      fun a b => errorComp (get circleSVD threePoints) b a = false := by
  rw [sort_threePoints, get_circleSVD]
  norm_num [errorComp, CanonicalParams.getError]

/-- C9 witness: one round on three points with residuals -1, 0 and 3 against the
fitted circle; the sort postcondition holds and the theorem applies. -/
theorem removeWorstRound_removes_smallest_witness :
    ((insertionStdSort (errorComp (get circleSVD threePoints)) threePoints).Pairwise
      fun a b => errorComp (get circleSVD threePoints) b a = false) ∧
    ∀ p ∈ removedInRound circleSVD insertionStdSort 1 threePoints,
      ∀ q ∈ (removeWorstRound circleSVD insertionStdSort 1 threePoints).2,
        (get circleSVD threePoints).getError p.x p.y
            ≤ (get circleSVD threePoints).getError q.x q.y ∧
        ((get circleSVD threePoints).getError p.x p.y
            ≠ (get circleSVD threePoints).getError q.x q.y →
          ¬ (get circleSVD threePoints).getError q.x q.y
            ≤ (get circleSVD threePoints).getError p.x p.y) :=
  ⟨threePoints_sorted,
    removeWorstRound_removes_smallest circleSVD insertionStdSort 1 threePoints threePoints_sorted⟩

/-- The round of the C9 witness evaluated: the point removed is the origin, whose
residual -1 is the smallest; the point `(2, 0)` with the largest residual 3 is kept. -/
theorem removeWorstRound_threePoints :
    removedInRound circleSVD insertionStdSort 1 threePoints = [⟨0, 0⟩] ∧
    (removeWorstRound circleSVD insertionStdSort 1 threePoints).2 = [⟨2, 0⟩, ⟨1, 0⟩] ∧
    (get circleSVD threePoints).getError 0 0 = -1 ∧
    (get circleSVD threePoints).getError 2 0 = 3 := by
  refine ⟨?_, ?_, ?_, ?_⟩
  · unfold removedInRound
    simp only [sort_threePoints]
    rfl
  · unfold removeWorstRound
    simp only [sort_threePoints]
    rfl
  · rw [get_circleSVD]; norm_num [CanonicalParams.getError]
  · rw [get_circleSVD]; norm_num [CanonicalParams.getError]

/-! ## C10: which point set the returned conic is fitted to -/

theorem removeWorstLoop_succ_fst
    (svd : (n : ℕ) → Matrix (Fin n) (Fin 6) R → JacobiSVD R)
    (sort : (Point2 R → Point2 R → Bool) → List (Point2 R) → List (Point2 R))
    (perRun : ℤ) (rounds : ℕ) (st : CanonicalParams R × List (Point2 R)) :
    (removeWorstLoop svd sort perRun (rounds + 1) st).1
      = get svd (removeWorstLoop svd sort perRun rounds st).2 := rfl

theorem getRemoveWorst_of_bound
    (svd : (n : ℕ) → Matrix (Fin n) (Fin 6) R → JacobiSVD R)
    (sort : (Point2 R → Point2 R → Bool) → List (Point2 R) → List (Point2 R))
    (params0 : CanonicalParams R) (points : List (Point2 R)) (bound : ℤ)
    (hbound : intDiv (toRemove points.length) (removePerRun points.length) = some bound)
    (hpos : 1 ≤ bound) :
    getRemoveWorst svd sort params0 points
      = some (get svd (removeWorstLoop svd sort (removePerRun points.length)
          (bound.toNat - 1) (params0, points)).2) := by
  unfold getRemoveWorst
  rw [hbound]
  have h : bound.toNat = (bound.toNat - 1) + 1 := by omega
  simp only
  rw [h, removeWorstLoop_succ_fst]
  simp

/-- C10: when the loop bound `toRemove/removePerRun` is defined and at least 1,
`getRemoveWorst` returns the fit of the point list as it is at the start of the
last round, that is, before the last removal; the list that remains after the
last removal, `(removeWorstLoop … bound …).2`, is not fitted. -/
theorem getRemoveWorst_returns_fit_before_last_removal
    (svd : (n : ℕ) → Matrix (Fin n) (Fin 6) R → JacobiSVD R)
    (sort : (Point2 R → Point2 R → Bool) → List (Point2 R) → List (Point2 R))
    (params0 : CanonicalParams R) (points : List (Point2 R)) (bound : ℤ)
    (hbound : intDiv (toRemove points.length) (removePerRun points.length) = some bound)
    (hpos : 1 ≤ bound) :
    getRemoveWorst svd sort params0 points
      = some (get svd (removeWorstLoop svd sort (removePerRun points.length)
          (bound.toNat - 1) (params0, points)).2) :=
  getRemoveWorst_of_bound svd sort params0 points bound hbound hpos

theorem toRemove_25 : toRemove 25 = 3 := by
  norm_num [toRemove, truncToInt, Int.floor_eq_iff]

theorem removePerRun_25 : removePerRun 25 = 1 := by
  norm_num [removePerRun, truncToInt, Int.floor_eq_iff]

theorem gridPoints_length : gridPoints.length = 25 := by
  simp only [gridPoints, List.length_map, List.length_range]

theorem gridPoints_bound :
    intDiv (toRemove gridPoints.length) (removePerRun gridPoints.length) = some 3 := by
  rw [gridPoints_length, toRemove_25, removePerRun_25]
  rfl

/-- C10 witness: on the 25 grid points the loop bound is `3 / 1 = 3`. -/
theorem getRemoveWorst_returns_fit_before_last_removal_witness :
    intDiv (toRemove gridPoints.length) (removePerRun gridPoints.length) = some 3 ∧
    (1 : ℤ) ≤ 3 ∧
    getRemoveWorst sizeSVD insertionStdSort ⟨0, 0, 0, 0, 0, 1⟩ gridPoints
      = some (get sizeSVD (removeWorstLoop sizeSVD insertionStdSort
          (removePerRun gridPoints.length) ((3 : ℤ).toNat - 1)
          (⟨0, 0, 0, 0, 0, 1⟩, gridPoints)).2) :=
  ⟨gridPoints_bound, by decide,
    getRemoveWorst_returns_fit_before_last_removal sizeSVD insertionStdSort ⟨0, 0, 0, 0, 0, 1⟩
      gridPoints 3 gridPoints_bound (by decide)⟩

theorem insertionStdSort_length (comp : Point2 ℚ → Point2 ℚ → Bool) (l : List (Point2 ℚ)) :
    (insertionStdSort comp l).length = l.length := by
  unfold insertionStdSort
  exact List.length_insertionSort _ l

theorem removeWorstLoop_length (svd : (n : ℕ) → Matrix (Fin n) (Fin 6) ℚ → JacobiSVD ℚ)
    (perRun : ℤ) (rounds : ℕ) (st : CanonicalParams ℚ × List (Point2 ℚ)) :
    (removeWorstLoop svd insertionStdSort perRun rounds st).2.length
      = st.2.length - rounds * perRun.toNat := by
  induction rounds with
  | zero => simp [removeWorstLoop]
  | succ rounds ih =>
    simp only [removeWorstLoop, removeWorstRound, List.length_take, insertionStdSort_length, ih]
    rw [Nat.succ_mul]
    omega

theorem get_sizeSVD (points : List (Point2 ℚ)) :
    get sizeSVD points = ⟨(points.length : ℚ), 0, 1, 0, 0, -1⟩ := by
  unfold get sizeSVD
  rw [getParams_columnSVD, Estimation.toEllipse_mk]

/-- C10 (failing input evaluated): on the 25 grid points, with a fitter that
returns the conic with `A = n` on `n` points, `getRemoveWorst` returns the conic
with `A = 23`, the fit of the 23 points present at the start of the third round.
The 22 points that remain after the last removal have the fit with `A = 22`. -/
theorem getRemoveWorst_on_grid :
    getRemoveWorst sizeSVD insertionStdSort ⟨0, 0, 0, 0, 0, 1⟩ gridPoints
      = some ⟨23, 0, 1, 0, 0, -1⟩ ∧
    get sizeSVD (removeWorstLoop sizeSVD insertionStdSort (removePerRun gridPoints.length) 3
        (⟨0, 0, 0, 0, 0, 1⟩, gridPoints)).2
      = ⟨22, 0, 1, 0, 0, -1⟩ := by
  constructor
  · rw [getRemoveWorst_of_bound sizeSVD insertionStdSort _ gridPoints 3
      gridPoints_bound (by decide), get_sizeSVD, removeWorstLoop_length,
      gridPoints_length, removePerRun_25, show (3 : ℤ).toNat = 3 from rfl,
      show (1 : ℤ).toNat = 1 from rfl]
    norm_num
  · rw [get_sizeSVD, removeWorstLoop_length, gridPoints_length, removePerRun_25,
      show (1 : ℤ).toNat = 1 from rfl]
    norm_num

/-! ## C1, C2: the least-squares fit -/

section Fit

open Matrix

theorem list_sum_map_eq_sum_get {α : Type} (l : List α) (f : α → R) :
    (l.map f).sum = ∑ i : Fin l.length, f (l.get i) := by
  conv_lhs => rw [← List.ofFn_get l]
  rw [List.map_ofFn, List.sum_ofFn]
  rfl

theorem designMatrix_mulVec (points : List (Point2 R)) (c : CanonicalParams R)
    (i : Fin points.length) :
    (designMatrix points).mulVec c.toVec i = c.getError (points.get i).x (points.get i).y := by
  simp [designMatrix, Matrix.mulVec, Matrix.dotProduct, Fin.sum_univ_succ, designRow,
    CanonicalParams.toVec, CanonicalParams.getError]
  ring

theorem residual_eq (points : List (Point2 R)) (c : CanonicalParams R) :
    residual points c
      = (designMatrix points).mulVec c.toVec ⬝ᵥ (designMatrix points).mulVec c.toVec := by
  unfold residual
  rw [list_sum_map_eq_sum_get]
  unfold Matrix.dotProduct
  refine Finset.sum_congr rfl fun i _ => ?_
  rw [designMatrix_mulVec, sq]

theorem normSq_eq (c : CanonicalParams R) : c.normSq = c.toVec ⬝ᵥ c.toVec := by
  simp [CanonicalParams.normSq, CanonicalParams.toVec, Matrix.dotProduct, Fin.sum_univ_succ]
  ring

theorem mulVec_dot_self {n m : ℕ} (A : Matrix (Fin n) (Fin m) R) (u : Fin m → R) :
    A.mulVec u ⬝ᵥ A.mulVec u = u ⬝ᵥ (Aᵀ * A).mulVec u := by
  rw [← Matrix.mulVec_mulVec, Matrix.dotProduct_mulVec, Matrix.mulVec_transpose, Matrix.dotProduct_comm]

theorem dot_diagonal (d u : Fin 6 → R) :
    u ⬝ᵥ (Matrix.diagonal d).mulVec u = ∑ i, d i * u i ^ 2 := by
  unfold Matrix.dotProduct
  refine Finset.sum_congr rfl fun i _ => ?_
  rw [Matrix.mulVec_diagonal]
  ring

/-- A factorisation `M = U Σ Vᵀ` with orthonormal columns of `U` and of `V` and
sorted non-negative singular values meets the contract `IsSVD`. -/
theorem isSVD_of_factorisation {n : ℕ} (M U : Matrix (Fin n) (Fin 6) R) (r : JacobiSVD R)
    (hU : Uᵀ * U = 1) (hV : r.matrixVᵀ * r.matrixV = 1) (h0 : ∀ i, 0 ≤ r.singularValues i)
    (hanti : ∀ i j, i ≤ j → r.singularValues j ≤ r.singularValues i)
    (hM : M = U * Matrix.diagonal r.singularValues * r.matrixVᵀ) : IsSVD M r := by
  refine ⟨hV, h0, hanti, ?_⟩
  have hMV : M * r.matrixV = U * Matrix.diagonal r.singularValues := by
    rw [hM, Matrix.mul_assoc, hV, Matrix.mul_one]
  rw [hMV, Matrix.transpose_mul, Matrix.diagonal_transpose, Matrix.mul_assoc,
    ← Matrix.mul_assoc Uᵀ, hU, Matrix.one_mul, Matrix.diagonal_mul_diagonal]
  simp only [sq]

theorem isSVD_mul_transpose {n : ℕ} {M : Matrix (Fin n) (Fin 6) R} {r : JacobiSVD R}
    (h : IsSVD M r) : r.matrixV * r.matrixVᵀ = 1 :=
  mul_eq_one_comm.mp h.1

/-- the squared length of `M w` in the basis of the right singular vectors -/
theorem isSVD_dot {n : ℕ} {M : Matrix (Fin n) (Fin 6) R} {r : JacobiSVD R}
    (h : IsSVD M r) (w : Fin 6 → R) :
    M.mulVec w ⬝ᵥ M.mulVec w
      = ∑ i, r.singularValues i ^ 2 * (r.matrixVᵀ.mulVec w) i ^ 2 := by
  have hw : w = r.matrixV.mulVec (r.matrixVᵀ.mulVec w) := by
    rw [Matrix.mulVec_mulVec, isSVD_mul_transpose h, Matrix.one_mulVec]
  conv_lhs => rw [hw, Matrix.mulVec_mulVec]
  rw [mulVec_dot_self, h.2.2.2, dot_diagonal]

theorem isSVD_norm {n : ℕ} {M : Matrix (Fin n) (Fin 6) R} {r : JacobiSVD R}
    (h : IsSVD M r) (w : Fin 6 → R) :
    r.matrixVᵀ.mulVec w ⬝ᵥ r.matrixVᵀ.mulVec w = w ⬝ᵥ w := by
  rw [mulVec_dot_self, Matrix.transpose_transpose, isSVD_mul_transpose h, Matrix.one_mulVec]

theorem isSVD_col5 {n : ℕ} {M : Matrix (Fin n) (Fin 6) R} {r : JacobiSVD R}
    (h : IsSVD M r) :
    r.matrixVᵀ.mulVec (fun j => r.matrixV j 5) = Pi.single 5 1 := by
  funext i
  have := congrFun (congrFun h.1 i) 5
  simp only [Matrix.mul_apply, Matrix.one_apply] at this
  simp only [Matrix.mulVec, Matrix.dotProduct, Pi.single_apply]
  rw [this]

theorem toVec_get (svd : (n : ℕ) → Matrix (Fin n) (Fin 6) R → JacobiSVD R)
    (points : List (Point2 R)) :
    (get svd points).toVec = fun j => (svd points.length (designMatrix points)).matrixV j 5 := by
  funext j
  fin_cases j <;> rfl

theorem residual_get_of_isSVD (svd : (n : ℕ) → Matrix (Fin n) (Fin 6) R → JacobiSVD R)
    (points : List (Point2 R))
    (h : IsSVD (designMatrix points) (svd points.length (designMatrix points))) :
    residual points (get svd points)
      = (svd points.length (designMatrix points)).singularValues 5 ^ 2 := by
  rw [residual_eq, isSVD_dot h, toVec_get, isSVD_col5 h]
  rw [Finset.sum_eq_single (5 : Fin 6)]
  · simp
  · intro i _ hi
    simp [Pi.single_apply, hi]
  · intro h5
    exact absurd (Finset.mem_univ _) h5

theorem normSq_get_of_isSVD (svd : (n : ℕ) → Matrix (Fin n) (Fin 6) R → JacobiSVD R)
    (points : List (Point2 R))
    (h : IsSVD (designMatrix points) (svd points.length (designMatrix points))) :
    (get svd points).normSq = 1 := by
  rw [normSq_eq, ← isSVD_norm h, toVec_get, isSVD_col5 h]
  simp [Matrix.dotProduct, Pi.single_apply]

theorem residual_ge_of_isSVD (svd : (n : ℕ) → Matrix (Fin n) (Fin 6) R → JacobiSVD R)
    (points : List (Point2 R))
    (h : IsSVD (designMatrix points) (svd points.length (designMatrix points)))
    (c : CanonicalParams R) :
    (svd points.length (designMatrix points)).singularValues 5 ^ 2 * c.normSq
      ≤ residual points c := by
  rw [residual_eq, isSVD_dot h, normSq_eq, ← isSVD_norm h]
  unfold Matrix.dotProduct
  rw [Finset.mul_sum]
  refine Finset.sum_le_sum fun i _ => ?_
  have h5 : (svd points.length (designMatrix points)).singularValues 5
      ≤ (svd points.length (designMatrix points)).singularValues i :=
    h.2.2.1 i 5 (Fin.le_last i)
  have h0 := h.2.1 5
  have hsq : (svd points.length (designMatrix points)).singularValues 5 ^ 2
      ≤ (svd points.length (designMatrix points)).singularValues i ^ 2 :=
    pow_le_pow_left₀ h0 h5 2
  rw [← sq]
  exact mul_le_mul_of_nonneg_right hsq (sq_nonneg _)

/-- C1: for every list of at least 6 points and every SVD of its design matrix
(singular values in decreasing order), `getParams` returns column 5 of `V`, the
returned vector has unit norm, and its total squared algebraic residual is
minimal among all unit-norm coefficient vectors. -/
theorem getParams_minimises_residual
    (svd : (n : ℕ) → Matrix (Fin n) (Fin 6) R → JacobiSVD R)
    (points : List (Point2 R)) (_hN : 6 ≤ points.length)
    (hsvd : IsSVD (designMatrix points) (svd points.length (designMatrix points))) :
    (getParams svd points).params
        = (fun j => (svd points.length (designMatrix points)).matrixV j 5) ∧
    (getParams svd points).toEllipse.normSq = 1 ∧
    ∀ c : CanonicalParams R, c.normSq = 1 →
      residual points (getParams svd points).toEllipse ≤ residual points c := by
  refine ⟨rfl, normSq_get_of_isSVD svd points hsvd, fun c hc => ?_⟩
  have h1 := residual_get_of_isSVD svd points hsvd
  have h2 := residual_ge_of_isSVD svd points hsvd c
  rw [hc, mul_one] at h2
  unfold get at h1
  rw [h1]
  exact h2

/-! conics through five points of an ellipse -/

theorem conic_form_definite (c : CanonicalParams R) (hdisc : c.B ^ 2 - 4 * c.A * c.C < 0)
    (dx dy : R) (h : c.A * dx * dx + c.B * dx * dy + c.C * dy * dy = 0) : dx = 0 ∧ dy = 0 := by
  have hpos : 0 < 4 * c.A * c.C - c.B ^ 2 := by linarith
  have hid : (2 * c.A * dx + c.B * dy) ^ 2 + (4 * c.A * c.C - c.B ^ 2) * dy ^ 2 = 0 := by
    linear_combination 4 * c.A * h
  have h1 : 0 ≤ (2 * c.A * dx + c.B * dy) ^ 2 := sq_nonneg _
  have h2 : 0 ≤ (4 * c.A * c.C - c.B ^ 2) * dy ^ 2 := mul_nonneg hpos.le (sq_nonneg _)
  have h3 : (4 * c.A * c.C - c.B ^ 2) * dy ^ 2 = 0 := by linarith
  have h4 : (2 * c.A * dx + c.B * dy) ^ 2 = 0 := by linarith
  have hdy : dy = 0 := by
    rcases mul_eq_zero.mp h3 with h5 | h5
    · exact absurd h5 hpos.ne'
    · exact pow_eq_zero_iff (two_ne_zero) |>.mp h5
  have hA : c.A ≠ 0 := by
    intro hA
    rw [hA] at hpos
    nlinarith [sq_nonneg c.B]
  have h6 : 2 * c.A * dx + c.B * dy = 0 := pow_eq_zero_iff (two_ne_zero) |>.mp h4
  rw [hdy] at h6
  have h7 : c.A * dx = 0 := by linarith
  rcases mul_eq_zero.mp h7 with h8 | h8
  · exact absurd h8 hA
  · exact ⟨h8, hdy⟩

/-- a line meets an ellipse in at most two points -/
theorem ellipse_line_two (c : CanonicalParams R) (hdisc : c.B ^ 2 - 4 * c.A * c.C < 0)
    (px py dx dy τ : R) (hd : ¬ (dx = 0 ∧ dy = 0))
    (h0 : c.getError px py = 0) (h1 : c.getError (px + dx) (py + dy) = 0)
    (hτ : c.getError (px + τ * dx) (py + τ * dy) = 0) : τ = 0 ∨ τ = 1 := by
  have hQ : c.A * dx * dx + c.B * dx * dy + c.C * dy * dy ≠ 0 :=
    fun h => hd (conic_form_definite c hdisc dx dy h)
  have hprod : (c.A * dx * dx + c.B * dx * dy + c.C * dy * dy) * (τ * (τ - 1)) = 0 := by
    unfold CanonicalParams.getError at h0 h1 hτ
    linear_combination hτ - τ * h1 - (1 - τ) * h0
  rcases mul_eq_zero.mp hprod with h | h
  · exact absurd h hQ
  · rcases mul_eq_zero.mp h with h | h
    · exact Or.inl h
    · exact Or.inr (by linarith)

/-- a conic in the coordinates `(t, s)` of the frame `P + t d + s d⊥` -/
theorem conic_in_frame (h : CanonicalParams R) (px py dx dy : R) :
    ∃ α β γ : R, ∀ t s : R,
      h.getError (px + t * dx - s * dy) (py + t * dy + s * dx)
        = s * (α + β * t + γ * s) + (1 - 3 * t + 2 * t ^ 2) * h.getError px py
          + (4 * t - 4 * t ^ 2) * h.getError (px + dx / 2) (py + dy / 2)
          + (2 * t ^ 2 - t) * h.getError (px + dx) (py + dy) := by
  refine ⟨-(2 * h.A * px + h.B * py + h.D) * dy + (h.B * px + 2 * h.C * py + h.E) * dx,
    h.B * (dx ^ 2 - dy ^ 2) + 2 * (h.C - h.A) * dx * dy,
    h.A * dy ^ 2 - h.B * dx * dy + h.C * dx ^ 2, ?_⟩
  intro t s
  unfold CanonicalParams.getError
  ring

theorem frame_coords (px py dx dy : R) (hd : ¬ (dx = 0 ∧ dy = 0)) (x y : R) :
    ∃ t s : R, x = px + t * dx - s * dy ∧ y = py + t * dy + s * dx := by
  have hN : dx ^ 2 + dy ^ 2 ≠ 0 := by
    intro h
    have h1 : dx ^ 2 = 0 := by nlinarith [sq_nonneg dx, sq_nonneg dy]
    have h2 : dy ^ 2 = 0 := by nlinarith [sq_nonneg dx, sq_nonneg dy]
    exact hd ⟨pow_eq_zero_iff (two_ne_zero) |>.mp h1, pow_eq_zero_iff (two_ne_zero) |>.mp h2⟩
  refine ⟨((x - px) * dx + (y - py) * dy) / (dx ^ 2 + dy ^ 2),
    (-(x - px) * dy + (y - py) * dx) / (dx ^ 2 + dy ^ 2), ?_, ?_⟩
  · field_simp
    ring
  · field_simp
    ring

theorem cramer_three (α β γ t3 s3 t4 s4 t5 s5 : R)
    (hdet : t4 * s5 - t5 * s4 - (t3 * s5 - t5 * s3) + (t3 * s4 - t4 * s3) ≠ 0)
    (h3 : α + β * t3 + γ * s3 = 0) (h4 : α + β * t4 + γ * s4 = 0)
    (h5 : α + β * t5 + γ * s5 = 0) : α = 0 ∧ β = 0 ∧ γ = 0 := by
  have hα : α * (t4 * s5 - t5 * s4 - (t3 * s5 - t5 * s3) + (t3 * s4 - t4 * s3)) = 0 := by
    linear_combination (t4 * s5 - t5 * s4) * h3 - (t3 * s5 - t5 * s3) * h4
      + (t3 * s4 - t4 * s3) * h5
  have hβ : β * (t4 * s5 - t5 * s4 - (t3 * s5 - t5 * s3) + (t3 * s4 - t4 * s3)) = 0 := by
    linear_combination -(s5 - s4) * h3 + (s5 - s3) * h4 - (s4 - s3) * h5
  have hγ : γ * (t4 * s5 - t5 * s4 - (t3 * s5 - t5 * s3) + (t3 * s4 - t4 * s3)) = 0 := by
    linear_combination (t5 - t4) * h3 - (t5 - t3) * h4 + (t4 - t3) * h5
  exact ⟨(mul_eq_zero.mp hα).resolve_right hdet, (mul_eq_zero.mp hβ).resolve_right hdet,
    (mul_eq_zero.mp hγ).resolve_right hdet⟩

/-- three distinct points of an ellipse are not collinear -/
theorem ellipse_not_collinear (c : CanonicalParams R) (hdisc : c.B ^ 2 - 4 * c.A * c.C < 0)
    (x3 y3 x4 y4 x5 y5 : R) (h34 : ¬ (x4 = x3 ∧ y4 = y3)) (h35 : ¬ (x5 = x3 ∧ y5 = y3))
    (h45 : ¬ (x5 = x4 ∧ y5 = y4))
    (h3 : c.getError x3 y3 = 0) (h4 : c.getError x4 y4 = 0) (h5 : c.getError x5 y5 = 0) :
    (x4 - x3) * (y5 - y3) - (y4 - y3) * (x5 - x3) ≠ 0 := by
  intro hcross
  have hd : ¬ (x4 - x3 = 0 ∧ y4 - y3 = 0) := fun h => h34 ⟨by linarith [h.1], by linarith [h.2]⟩
  have hN : (x4 - x3) ^ 2 + (y4 - y3) ^ 2 ≠ 0 := by
    intro h
    have h1 : (x4 - x3) ^ 2 = 0 := by nlinarith [sq_nonneg (x4 - x3), sq_nonneg (y4 - y3)]
    have h2 : (y4 - y3) ^ 2 = 0 := by nlinarith [sq_nonneg (x4 - x3), sq_nonneg (y4 - y3)]
    exact hd ⟨pow_eq_zero_iff (two_ne_zero) |>.mp h1, pow_eq_zero_iff (two_ne_zero) |>.mp h2⟩
  have hx : x5 = x3 + ((x5 - x3) * (x4 - x3) + (y5 - y3) * (y4 - y3))
      / ((x4 - x3) ^ 2 + (y4 - y3) ^ 2) * (x4 - x3) := by
    field_simp
    linear_combination -(y4 - y3) * hcross
  have hy : y5 = y3 + ((x5 - x3) * (x4 - x3) + (y5 - y3) * (y4 - y3))
      / ((x4 - x3) ^ 2 + (y4 - y3) ^ 2) * (y4 - y3) := by
    field_simp
    linear_combination (x4 - x3) * hcross
  have h4' : c.getError (x3 + (x4 - x3)) (y3 + (y4 - y3)) = 0 := by
    rw [show x3 + (x4 - x3) = x4 by ring, show y3 + (y4 - y3) = y4 by ring]; exact h4
  have h5' : c.getError (x3 + ((x5 - x3) * (x4 - x3) + (y5 - y3) * (y4 - y3))
      / ((x4 - x3) ^ 2 + (y4 - y3) ^ 2) * (x4 - x3))
      (y3 + ((x5 - x3) * (x4 - x3) + (y5 - y3) * (y4 - y3))
      / ((x4 - x3) ^ 2 + (y4 - y3) ^ 2) * (y4 - y3)) = 0 := by
    rw [← hx, ← hy]; exact h5
  rcases ellipse_line_two c hdisc x3 y3 (x4 - x3) (y4 - y3) _ hd h3 h4' h5' with h | h
  · rw [h] at hx hy
    exact h35 ⟨by linarith, by linarith⟩
  · rw [h] at hx hy
    exact h45 ⟨by linarith, by linarith⟩

theorem conic_zero_of_vanishes (h : CanonicalParams R) (hz : ∀ x y, h.getError x y = 0) :
    h.A = 0 ∧ h.B = 0 ∧ h.C = 0 ∧ h.D = 0 ∧ h.E = 0 ∧ h.F = 0 := by
  have h00 := hz 0 0
  have h10 := hz 1 0
  have hm10 := hz (-1) 0
  have h01 := hz 0 1
  have h0m1 := hz 0 (-1)
  have h11 := hz 1 1
  unfold CanonicalParams.getError at h00 h10 hm10 h01 h0m1 h11
  refine ⟨?_, ?_, ?_, ?_, ?_, ?_⟩
  · linear_combination (1 / 2 : R) * h10 + (1 / 2 : R) * hm10 - h00
  · linear_combination h11 - h10 - h01 + h00
  · linear_combination (1 / 2 : R) * h01 + (1 / 2 : R) * h0m1 - h00
  · linear_combination (1 / 2 : R) * h10 - (1 / 2 : R) * hm10
  · linear_combination (1 / 2 : R) * h01 - (1 / 2 : R) * h0m1
  · linear_combination h00

/-- a conic that vanishes at five distinct points of an ellipse and at the midpoint of two of
them vanishes everywhere -/
theorem conic_vanishes_of_six (e h : CanonicalParams R) (hdisc : e.B ^ 2 - 4 * e.A * e.C < 0)
    (x1 y1 x2 y2 x3 y3 x4 y4 x5 y5 : R)
    (n12 : ¬ (x2 = x1 ∧ y2 = y1)) (n13 : ¬ (x3 = x1 ∧ y3 = y1)) (n14 : ¬ (x4 = x1 ∧ y4 = y1))
    (n15 : ¬ (x5 = x1 ∧ y5 = y1)) (n23 : ¬ (x3 = x2 ∧ y3 = y2)) (n24 : ¬ (x4 = x2 ∧ y4 = y2))
    (n25 : ¬ (x5 = x2 ∧ y5 = y2)) (n34 : ¬ (x4 = x3 ∧ y4 = y3)) (n35 : ¬ (x5 = x3 ∧ y5 = y3))
    (n45 : ¬ (x5 = x4 ∧ y5 = y4))
    (e1 : e.getError x1 y1 = 0) (e2 : e.getError x2 y2 = 0) (e3 : e.getError x3 y3 = 0)
    (e4 : e.getError x4 y4 = 0) (e5 : e.getError x5 y5 = 0)
    (h1 : h.getError x1 y1 = 0) (h2 : h.getError x2 y2 = 0) (h3 : h.getError x3 y3 = 0)
    (h4 : h.getError x4 y4 = 0) (h5 : h.getError x5 y5 = 0)
    (hm : h.getError (x1 + (x2 - x1) / 2) (y1 + (y2 - y1) / 2) = 0) :
    ∀ x y, h.getError x y = 0 := by
  have hd : ¬ (x2 - x1 = 0 ∧ y2 - y1 = 0) := fun k => n12 ⟨by linarith [k.1], by linarith [k.2]⟩
  have e2' : e.getError (x1 + (x2 - x1)) (y1 + (y2 - y1)) = 0 := by
    rw [show x1 + (x2 - x1) = x2 by ring, show y1 + (y2 - y1) = y2 by ring]; exact e2
  have h2' : h.getError (x1 + (x2 - x1)) (y1 + (y2 - y1)) = 0 := by
    rw [show x1 + (x2 - x1) = x2 by ring, show y1 + (y2 - y1) = y2 by ring]; exact h2
  obtain ⟨α, β, γ, hframe⟩ := conic_in_frame h x1 y1 (x2 - x1) (y2 - y1)
  have hframe' : ∀ t s : R,
      h.getError (x1 + t * (x2 - x1) - s * (y2 - y1)) (y1 + t * (y2 - y1) + s * (x2 - x1))
        = s * (α + β * t + γ * s) := by
    intro t s
    rw [hframe t s, h1, hm, h2']
    ring
  -- the frame coordinates of a point of the ellipse off the two base points
  have off : ∀ x y : R, e.getError x y = 0 → ¬ (x = x1 ∧ y = y1) → ¬ (x = x2 ∧ y = y2) →
      h.getError x y = 0 →
      ∃ t s : R, x = x1 + t * (x2 - x1) - s * (y2 - y1) ∧
        y = y1 + t * (y2 - y1) + s * (x2 - x1) ∧ α + β * t + γ * s = 0 := by
    intro x y ex nx1 nx2 hx
    obtain ⟨t, s, hxt, hyt⟩ := frame_coords x1 y1 (x2 - x1) (y2 - y1) hd x y
    refine ⟨t, s, hxt, hyt, ?_⟩
    have hs : s ≠ 0 := by
      intro hs
      rw [hs] at hxt hyt
      have ex' : e.getError (x1 + t * (x2 - x1)) (y1 + t * (y2 - y1)) = 0 := by
        rw [show x1 + t * (x2 - x1) = x by rw [hxt]; ring,
          show y1 + t * (y2 - y1) = y by rw [hyt]; ring]
        exact ex
      rcases ellipse_line_two e hdisc x1 y1 (x2 - x1) (y2 - y1) t hd e1 e2' ex' with k | k
      · rw [k] at hxt hyt
        exact nx1 ⟨by rw [hxt]; ring, by rw [hyt]; ring⟩
      · rw [k] at hxt hyt
        exact nx2 ⟨by rw [hxt]; ring, by rw [hyt]; ring⟩
    have hval := hframe' t s
    rw [← hxt, ← hyt, hx] at hval
    exact (mul_eq_zero.mp hval.symm).resolve_left hs
  obtain ⟨t3, s3, hx3, hy3, k3⟩ := off x3 y3 e3 n13 n23 h3
  obtain ⟨t4, s4, hx4, hy4, k4⟩ := off x4 y4 e4 n14 n24 h4
  obtain ⟨t5, s5, hx5, hy5, k5⟩ := off x5 y5 e5 n15 n25 h5
  have hcross := ellipse_not_collinear e hdisc x3 y3 x4 y4 x5 y5 n34 n35 n45 e3 e4 e5
  have hdet : t4 * s5 - t5 * s4 - (t3 * s5 - t5 * s3) + (t3 * s4 - t4 * s3) ≠ 0 := by
    intro hdet
    apply hcross
    rw [hx3, hy3, hx4, hy4, hx5, hy5]
    linear_combination ((x2 - x1) ^ 2 + (y2 - y1) ^ 2) * hdet
  obtain ⟨hα, hβ, hγ⟩ := cramer_three α β γ t3 s3 t4 s4 t5 s5 hdet k3 k4 k5
  intro x y
  obtain ⟨t, s, hxt, hyt⟩ := frame_coords x1 y1 (x2 - x1) (y2 - y1) hd x y
  rw [hxt, hyt, hframe' t s, hα, hβ, hγ]
  ring

theorem proportional_of_combination (e q : CanonicalParams R) (em qm : R) (hem : em ≠ 0)
    (zA : em * q.A - qm * e.A = 0) (zB : em * q.B - qm * e.B = 0)
    (zC : em * q.C - qm * e.C = 0) (zD : em * q.D - qm * e.D = 0)
    (zE : em * q.E - qm * e.E = 0) (zF : em * q.F - qm * e.F = 0) :
    q = ⟨qm / em * e.A, qm / em * e.B, qm / em * e.C, qm / em * e.D, qm / em * e.E,
      qm / em * e.F⟩ := by
  cases q with
  | mk qA qB qC qD qE qF =>
    simp only at zA zB zC zD zE zF
    simp only [CanonicalParams.mk.injEq]
    refine ⟨?_, ?_, ?_, ?_, ?_, ?_⟩ <;> field_simp <;> linarith

/-- a conic through five distinct points of an ellipse is a multiple of the ellipse -/
theorem conic_through_five (e q : CanonicalParams R) (hdisc : e.B ^ 2 - 4 * e.A * e.C < 0)
    (x1 y1 x2 y2 x3 y3 x4 y4 x5 y5 : R)
    (n12 : ¬ (x2 = x1 ∧ y2 = y1)) (n13 : ¬ (x3 = x1 ∧ y3 = y1)) (n14 : ¬ (x4 = x1 ∧ y4 = y1))
    (n15 : ¬ (x5 = x1 ∧ y5 = y1)) (n23 : ¬ (x3 = x2 ∧ y3 = y2)) (n24 : ¬ (x4 = x2 ∧ y4 = y2))
    (n25 : ¬ (x5 = x2 ∧ y5 = y2)) (n34 : ¬ (x4 = x3 ∧ y4 = y3)) (n35 : ¬ (x5 = x3 ∧ y5 = y3))
    (n45 : ¬ (x5 = x4 ∧ y5 = y4))
    (e1 : e.getError x1 y1 = 0) (e2 : e.getError x2 y2 = 0) (e3 : e.getError x3 y3 = 0)
    (e4 : e.getError x4 y4 = 0) (e5 : e.getError x5 y5 = 0)
    (q1 : q.getError x1 y1 = 0) (q2 : q.getError x2 y2 = 0) (q3 : q.getError x3 y3 = 0)
    (q4 : q.getError x4 y4 = 0) (q5 : q.getError x5 y5 = 0) :
    ∃ t : R, q = ⟨t * e.A, t * e.B, t * e.C, t * e.D, t * e.E, t * e.F⟩ := by
  have hd : ¬ (x2 - x1 = 0 ∧ y2 - y1 = 0) := fun k => n12 ⟨by linarith [k.1], by linarith [k.2]⟩
  have e2' : e.getError (x1 + (x2 - x1)) (y1 + (y2 - y1)) = 0 := by
    rw [show x1 + (x2 - x1) = x2 by ring, show y1 + (y2 - y1) = y2 by ring]; exact e2
  -- the ellipse does not pass through the midpoint of the first two points
  have hmid : e.getError (x1 + (x2 - x1) / 2) (y1 + (y2 - y1) / 2) ≠ 0 := by
    intro hmid
    have hmid' : e.getError (x1 + (1 / 2) * (x2 - x1)) (y1 + (1 / 2) * (y2 - y1)) = 0 := by
      rw [show x1 + (1 / 2) * (x2 - x1) = x1 + (x2 - x1) / 2 by ring,
        show y1 + (1 / 2) * (y2 - y1) = y1 + (y2 - y1) / 2 by ring]
      exact hmid
    rcases ellipse_line_two e hdisc x1 y1 (x2 - x1) (y2 - y1) (1 / 2) hd e1 e2' hmid' with k | k
    · norm_num at k
    · norm_num at k
  have hval : ∀ x y : R,
      (CanonicalParams.mk
        (e.getError (x1 + (x2 - x1) / 2) (y1 + (y2 - y1) / 2) * q.A
          - q.getError (x1 + (x2 - x1) / 2) (y1 + (y2 - y1) / 2) * e.A)
        (e.getError (x1 + (x2 - x1) / 2) (y1 + (y2 - y1) / 2) * q.B
          - q.getError (x1 + (x2 - x1) / 2) (y1 + (y2 - y1) / 2) * e.B)
        (e.getError (x1 + (x2 - x1) / 2) (y1 + (y2 - y1) / 2) * q.C
          - q.getError (x1 + (x2 - x1) / 2) (y1 + (y2 - y1) / 2) * e.C)
        (e.getError (x1 + (x2 - x1) / 2) (y1 + (y2 - y1) / 2) * q.D
          - q.getError (x1 + (x2 - x1) / 2) (y1 + (y2 - y1) / 2) * e.D)
        (e.getError (x1 + (x2 - x1) / 2) (y1 + (y2 - y1) / 2) * q.E
          - q.getError (x1 + (x2 - x1) / 2) (y1 + (y2 - y1) / 2) * e.E)
        (e.getError (x1 + (x2 - x1) / 2) (y1 + (y2 - y1) / 2) * q.F
          - q.getError (x1 + (x2 - x1) / 2) (y1 + (y2 - y1) / 2) * e.F)).getError x y
      = e.getError (x1 + (x2 - x1) / 2) (y1 + (y2 - y1) / 2) * q.getError x y
        - q.getError (x1 + (x2 - x1) / 2) (y1 + (y2 - y1) / 2) * e.getError x y := by
    intro x y
    simp only [CanonicalParams.getError]
    ring
  have hzero := conic_vanishes_of_six e _ hdisc x1 y1 x2 y2 x3 y3 x4 y4 x5 y5
    n12 n13 n14 n15 n23 n24 n25 n34 n35 n45 e1 e2 e3 e4 e5
    (by rw [hval, e1, q1]; ring) (by rw [hval, e2, q2]; ring) (by rw [hval, e3, q3]; ring)
    (by rw [hval, e4, q4]; ring) (by rw [hval, e5, q5]; ring) (by rw [hval]; ring)
  obtain ⟨zA, zB, zC, zD, zE, zF⟩ := conic_zero_of_vanishes _ hzero
  simp only at zA zB zC zD zE zF
  exact ⟨_, proportional_of_combination e q _ _ hmid zA zB zC zD zE zF⟩

theorem residual_nonneg (points : List (Point2 R)) (c : CanonicalParams R) :
    0 ≤ residual points c := by
  unfold residual
  apply List.sum_nonneg
  intro x hx
  obtain ⟨p, _, rfl⟩ := List.mem_map.mp hx
  exact sq_nonneg _

theorem residual_eq_zero_iff (points : List (Point2 R)) (c : CanonicalParams R) :
    residual points c = 0 ↔ ∀ p ∈ points, c.getError p.x p.y = 0 := by
  induction points with
  | nil => simp [residual]
  | cons p ps ih =>
    have hcons : residual (p :: ps) c = c.getError p.x p.y ^ 2 + residual ps c := by
      simp [residual]
    rw [hcons]
    constructor
    · intro h
      have h1 : 0 ≤ c.getError p.x p.y ^ 2 := sq_nonneg _
      have h2 := residual_nonneg ps c
      have h3 : c.getError p.x p.y ^ 2 = 0 := by linarith
      have h4 : residual ps c = 0 := by linarith
      intro p' hp'
      rcases List.mem_cons.mp hp' with rfl | hmem
      · exact pow_eq_zero_iff (two_ne_zero) |>.mp h3
      · exact ih.mp h4 p' hmem
    · intro h
      have h1 := h p (List.mem_cons_self p ps)
      have h2 := ih.mpr fun p' hp' => h p' (List.mem_cons_of_mem p hp')
      rw [h1, h2]
      norm_num

theorem getError_smul (t : R) (e : CanonicalParams R) (x y : R) :
    (CanonicalParams.mk (t * e.A) (t * e.B) (t * e.C) (t * e.D) (t * e.E) (t * e.F)).getError x y
      = t * e.getError x y := by
  simp only [CanonicalParams.getError]
  ring

/-- C2: for every conic with negative discriminant (an ellipse) and every list of
at least 6 points that lie exactly on it, at least 5 of them distinct, the conic
returned by `get` is a nonzero scalar multiple of the ellipse's coefficient
vector, and hence has the same zero set. -/
theorem get_recovers_ellipse
    (svd : (n : ℕ) → Matrix (Fin n) (Fin 6) R → JacobiSVD R)
    (points : List (Point2 R)) (e : CanonicalParams R) (_hN : 6 ≤ points.length)
    (hdisc : e.B ^ 2 - 4 * e.A * e.C < 0)
    (hon : ∀ p ∈ points, e.getError p.x p.y = 0)
    (hdistinct : ∃ l : List (Point2 R), l.Nodup ∧ l.length = 5 ∧ ∀ p ∈ l, p ∈ points)
    (hsvd : IsSVD (designMatrix points) (svd points.length (designMatrix points))) :
    ∃ t : R, t ≠ 0 ∧
      get svd points = ⟨t * e.A, t * e.B, t * e.C, t * e.D, t * e.E, t * e.F⟩ ∧
      ∀ x y : R, (get svd points).getError x y = 0 ↔ e.getError x y = 0 := by
  -- the fitted conic passes through every point
  have hres_e : residual points e = 0 := (residual_eq_zero_iff points e).mpr hon
  have hA : e.A ≠ 0 := by
    intro hA
    rw [hA] at hdisc
    nlinarith [sq_nonneg e.B]
  have hnorm : 0 < e.normSq := by
    unfold CanonicalParams.normSq
    have : 0 < e.A ^ 2 := by positivity
    nlinarith [sq_nonneg e.B, sq_nonneg e.C, sq_nonneg e.D, sq_nonneg e.E, sq_nonneg e.F]
  have hge := residual_ge_of_isSVD svd points hsvd e
  rw [hres_e] at hge
  have hσ : (svd points.length (designMatrix points)).singularValues 5 ^ 2 = 0 := by
    have h0 : 0 ≤ (svd points.length (designMatrix points)).singularValues 5 ^ 2 := sq_nonneg _
    by_contra hne
    have hpos : 0 < (svd points.length (designMatrix points)).singularValues 5 ^ 2 :=
      lt_of_le_of_ne h0 (Ne.symm hne)
    have := mul_pos hpos hnorm
    linarith
  have hres_q : residual points (get svd points) = 0 := by
    rw [residual_get_of_isSVD svd points hsvd, hσ]
  have hq := (residual_eq_zero_iff points (get svd points)).mp hres_q
  -- five distinct points
  obtain ⟨l, hnodup, hlen, hsub⟩ := hdistinct
  match l, hnodup, hlen, hsub with
  | [p1, p2, p3, p4, p5], hnodup, _, hsub =>
    simp only [List.nodup_cons, List.mem_cons, List.mem_singleton, not_or, List.not_mem_nil,
      not_false_eq_true, List.nodup_nil, and_true] at hnodup
    obtain ⟨⟨n12, n13, n14, n15⟩, ⟨n23, n24, n25⟩, ⟨n34, n35⟩, n45⟩ := hnodup
    have ne_of : ∀ p p' : Point2 R, p ≠ p' → ¬ (p'.x = p.x ∧ p'.y = p.y) := by
      intro p p' hne h
      apply hne
      cases p; cases p'
      simp only [Point2.mk.injEq]
      exact ⟨h.1.symm, h.2.symm⟩
    have m1 : p1 ∈ points := hsub p1 (by simp)
    have m2 : p2 ∈ points := hsub p2 (by simp)
    have m3 : p3 ∈ points := hsub p3 (by simp)
    have m4 : p4 ∈ points := hsub p4 (by simp)
    have m5 : p5 ∈ points := hsub p5 (by simp)
    obtain ⟨t, ht⟩ := conic_through_five e (get svd points) hdisc
      p1.x p1.y p2.x p2.y p3.x p3.y p4.x p4.y p5.x p5.y
      (ne_of _ _ n12) (ne_of _ _ n13) (ne_of _ _ n14) (ne_of _ _ n15) (ne_of _ _ n23)
      (ne_of _ _ n24) (ne_of _ _ n25) (ne_of _ _ n34) (ne_of _ _ n35) (ne_of _ _ n45)
      (hon p1 m1) (hon p2 m2) (hon p3 m3) (hon p4 m4) (hon p5 m5)
      (hq p1 m1) (hq p2 m2) (hq p3 m3) (hq p4 m4) (hq p5 m5)
    have ht0 : t ≠ 0 := by
      intro ht0
      have hone := normSq_get_of_isSVD svd points hsvd
      rw [ht, ht0] at hone
      simp [CanonicalParams.normSq] at hone
    refine ⟨t, ht0, ht, fun x y => ?_⟩
    rw [ht, getError_smul]
    constructor
    · intro h
      exact (mul_eq_zero.mp h).resolve_left ht0
    · intro h
      rw [h, mul_zero]

theorem gramMatrix_eq (points : List (Point2 R)) :
    (designMatrix points)ᵀ * designMatrix points = gramMatrix points := by
  ext a b
  simp only [Matrix.mul_apply, Matrix.transpose_apply, gramMatrix, Matrix.of_apply, designMatrix]
  rw [list_sum_map_eq_sum_get]

theorem isSVD_of_gram (points : List (Point2 R)) (r : JacobiSVD R)
    (hV : r.matrixVᵀ * r.matrixV = 1) (h0 : ∀ i, 0 ≤ r.singularValues i)
    (hanti : ∀ i j, i ≤ j → r.singularValues j ≤ r.singularValues i)
    (hG : r.matrixVᵀ * gramMatrix points * r.matrixV
      = Matrix.diagonal fun i => r.singularValues i ^ 2) :
    IsSVD (designMatrix points) r := by
  refine ⟨hV, h0, hanti, ?_⟩
  rw [Matrix.transpose_mul, Matrix.mul_assoc, ← Matrix.mul_assoc _ (designMatrix points),
    gramMatrix_eq, ← Matrix.mul_assoc]
  exact hG

theorem vec6_five {α : Type} (a : α) (v : Fin 5 → α) :
    Matrix.vecCons a v (5 : Fin 6) = v 4 := rfl

theorem ellipseSample_gram_apply (a b : Fin 6) :
    gramMatrix (ellipseSample : List (Point2 R)) a b
      = 7 * (designRow (⟨2, 0⟩ : Point2 R) a * designRow ⟨2, 0⟩ b)
        + 7 * (designRow (⟨-2, 0⟩ : Point2 R) a * designRow ⟨-2, 0⟩ b)
        + 4 * (designRow (⟨1, 3 / 2⟩ : Point2 R) a * designRow ⟨1, 3 / 2⟩ b)
        + 4 * (designRow (⟨1, -(3 / 2)⟩ : Point2 R) a * designRow ⟨1, -(3 / 2)⟩ b)
        + 4 * (designRow (⟨-1, 3 / 2⟩ : Point2 R) a * designRow ⟨-1, 3 / 2⟩ b)
        + 4 * (designRow (⟨-1, -(3 / 2)⟩ : Point2 R) a * designRow ⟨-1, -(3 / 2)⟩ b) := by
  simp only [gramMatrix, ellipseSample, Matrix.of_apply, List.map_append, List.sum_append,
    List.map_replicate, List.sum_replicate, nsmul_eq_mul]
  norm_num

theorem designRow_0 (p : Point2 R) : designRow p 0 = p.x * p.x := rfl
theorem designRow_1 (p : Point2 R) : designRow p 1 = p.x * p.y := rfl
theorem designRow_2 (p : Point2 R) : designRow p 2 = p.y * p.y := rfl
theorem designRow_3 (p : Point2 R) : designRow p 3 = p.x := rfl
theorem designRow_4 (p : Point2 R) : designRow p 4 = p.y := rfl
theorem designRow_5 (p : Point2 R) : designRow p 5 = 1 := rfl

theorem ellipseSample_gram :
    gramMatrix (ellipseSample : List (Point2 R))
      = !![240, 0, 36, 0, 0, 72;
           0, 36, 0, 0, 0, 0;
           36, 0, 81, 0, 0, 36;
           0, 0, 0, 72, 0, 0;
           0, 0, 0, 0, 36, 0;
           72, 0, 36, 0, 0, 30] := by
  ext a b
  rw [ellipseSample_gram_apply]
  fin_cases a <;> fin_cases b <;>
    simp [designRow_0, designRow_1, designRow_2, designRow_3, designRow_4, designRow_5,
      vec6_five] <;> first | rfl | norm_num

theorem ellipseSampleV_orthogonal :
    (ellipseSampleV : Matrix (Fin 6) (Fin 6) R)ᵀ * ellipseSampleV = 1 := by
  ext a b
  fin_cases a <;> fin_cases b <;>
    simp [ellipseSampleV, Matrix.mul_apply, Fin.sum_univ_succ, vec6_five, Matrix.vecHead,
      Matrix.vecTail] <;> norm_num

theorem ellipseSampleV_eigen :
    (!![240, 0, 36, 0, 0, 72;
        0, 36, 0, 0, 0, 0;
        36, 0, 81, 0, 0, 36;
        0, 0, 0, 72, 0, 0;
        0, 0, 0, 0, 36, 0;
        72, 0, 36, 0, 0, 30] : Matrix (Fin 6) (Fin 6) R) * ellipseSampleV
      = ellipseSampleV * Matrix.diagonal ![273, 78, 72, 36, 36, 0] := by
  ext a b
  rw [Matrix.mul_diagonal]
  fin_cases a <;> fin_cases b <;>
    simp [ellipseSampleV, Matrix.mul_apply, Fin.sum_univ_succ, vec6_five, Matrix.vecHead,
      Matrix.vecTail] <;> first | rfl | norm_num

theorem ellipseSampleV_diagonalises :
    (ellipseSampleV : Matrix (Fin 6) (Fin 6) R)ᵀ
        * !![240, 0, 36, 0, 0, 72;
             0, 36, 0, 0, 0, 0;
             36, 0, 81, 0, 0, 36;
             0, 0, 0, 72, 0, 0;
             0, 0, 0, 0, 36, 0;
             72, 0, 36, 0, 0, 30]
        * ellipseSampleV
      = Matrix.diagonal ![273, 78, 72, 36, 36, 0] := by
  rw [Matrix.mul_assoc, ellipseSampleV_eigen, ← Matrix.mul_assoc, ellipseSampleV_orthogonal,
    Matrix.one_mul]

theorem ellipseSample_isSVD :
    IsSVD (designMatrix (ellipseSample : List (Point2 ℝ)))
      ⟨ellipseSampleV, fun i => Real.sqrt (![273, 78, 72, 36, 36, 0] i)⟩ := by
  apply isSVD_of_gram
  · exact ellipseSampleV_orthogonal
  · intro i
    exact Real.sqrt_nonneg _
  · intro i j hij
    apply Real.sqrt_le_sqrt
    fin_cases i <;> fin_cases j <;> simp [vec6_five] at hij ⊢ <;> norm_num
  · have hd : (fun i : Fin 6 => Real.sqrt (![273, 78, 72, 36, 36, 0] i) ^ 2)
        = ![273, 78, 72, 36, 36, 0] := by
      funext i
      rw [Real.sq_sqrt]
      fin_cases i <;> simp [vec6_five]
    show ellipseSampleVᵀ * gramMatrix ellipseSample * ellipseSampleV
      = Matrix.diagonal fun i : Fin 6 => Real.sqrt (![273, 78, 72, 36, 36, 0] i) ^ 2
    rw [hd, ellipseSample_gram, ellipseSampleV_diagonalises]

theorem ellipseSample_on_ellipse :
    ∀ p ∈ (ellipseSample : List (Point2 ℝ)),
      (⟨3, 0, 4, 0, 0, -12⟩ : CanonicalParams ℝ).getError p.x p.y = 0 := by
  intro p hp
  simp only [ellipseSample, List.mem_append, List.mem_replicate] at hp
  rcases hp with ((((⟨_, rfl⟩ | ⟨_, rfl⟩) | ⟨_, rfl⟩) | ⟨_, rfl⟩) | ⟨_, rfl⟩) | ⟨_, rfl⟩ <;>
    norm_num [CanonicalParams.getError]

theorem ellipseSample_five_distinct :
    ∃ l : List (Point2 ℝ), l.Nodup ∧ l.length = 5 ∧ ∀ p ∈ l, p ∈ ellipseSample := by
  refine ⟨[⟨2, 0⟩, ⟨-2, 0⟩, ⟨1, 3 / 2⟩, ⟨1, -(3 / 2)⟩, ⟨-1, 3 / 2⟩], ?_, rfl, ?_⟩
  · simp only [List.nodup_cons, List.mem_cons, List.mem_singleton, Point2.mk.injEq,
      List.not_mem_nil, not_false_eq_true, List.nodup_nil, and_true]
    norm_num
  · intro p hp
    simp only [List.mem_cons, List.mem_singleton, List.not_mem_nil, or_false] at hp
    simp only [ellipseSample, List.mem_append, List.mem_replicate]
    rcases hp with rfl | rfl | rfl | rfl | rfl <;> simp

/-- C1 witness: the thirty points of `ellipseSample` with the singular vectors
`ellipseSampleV` and the singular values `√273, √78, √72, 6, 6, 0`. -/
theorem getParams_minimises_residual_witness :
    6 ≤ (ellipseSample : List (Point2 ℝ)).length ∧
    IsSVD (designMatrix (ellipseSample : List (Point2 ℝ)))
      ⟨ellipseSampleV, fun i => Real.sqrt (![273, 78, 72, 36, 36, 0] i)⟩ ∧
    ((getParams (fun _ _ => ⟨ellipseSampleV, fun i => Real.sqrt (![273, 78, 72, 36, 36, 0] i)⟩)
        (ellipseSample : List (Point2 ℝ))).params
        = (fun j => (ellipseSampleV : Matrix (Fin 6) (Fin 6) ℝ) j 5) ∧
    (getParams (fun _ _ => ⟨ellipseSampleV, fun i => Real.sqrt (![273, 78, 72, 36, 36, 0] i)⟩)
        (ellipseSample : List (Point2 ℝ))).toEllipse.normSq = 1 ∧
    ∀ c : CanonicalParams ℝ, c.normSq = 1 →
      residual ellipseSample
        (getParams (fun _ _ => ⟨ellipseSampleV,
          fun i => Real.sqrt (![273, 78, 72, 36, 36, 0] i)⟩)
          (ellipseSample : List (Point2 ℝ))).toEllipse ≤ residual ellipseSample c) :=
  ⟨by simp [ellipseSample], ellipseSample_isSVD,
    getParams_minimises_residual _ ellipseSample (by simp [ellipseSample]) ellipseSample_isSVD⟩

/-- C2 witness: the thirty points of `ellipseSample` lie on `3 x² + 4 y² = 12`; the
fit is `1/13` times `(3, 0, 4, 0, 0, -12)`. -/
theorem get_recovers_ellipse_witness :
    6 ≤ (ellipseSample : List (Point2 ℝ)).length ∧
    (0 : ℝ) ^ 2 - 4 * 3 * 4 < 0 ∧
    (∀ p ∈ (ellipseSample : List (Point2 ℝ)),
      (⟨3, 0, 4, 0, 0, -12⟩ : CanonicalParams ℝ).getError p.x p.y = 0) ∧
    (∃ l : List (Point2 ℝ), l.Nodup ∧ l.length = 5 ∧ ∀ p ∈ l, p ∈ ellipseSample) ∧
    IsSVD (designMatrix (ellipseSample : List (Point2 ℝ)))
      ⟨ellipseSampleV, fun i => Real.sqrt (![273, 78, 72, 36, 36, 0] i)⟩ ∧
    ∃ t : ℝ, t ≠ 0 ∧
      get (fun _ _ => ⟨ellipseSampleV, fun i => Real.sqrt (![273, 78, 72, 36, 36, 0] i)⟩)
          (ellipseSample : List (Point2 ℝ))
        = ⟨t * 3, t * 0, t * 4, t * 0, t * 0, t * -12⟩ ∧
      ∀ x y : ℝ,
        (get (fun _ _ => ⟨ellipseSampleV, fun i => Real.sqrt (![273, 78, 72, 36, 36, 0] i)⟩)
          (ellipseSample : List (Point2 ℝ))).getError x y = 0
        ↔ (⟨3, 0, 4, 0, 0, -12⟩ : CanonicalParams ℝ).getError x y = 0 :=
  ⟨by simp [ellipseSample], by norm_num, ellipseSample_on_ellipse, ellipseSample_five_distinct,
    ellipseSample_isSVD,
    get_recovers_ellipse _ ellipseSample ⟨3, 0, 4, 0, 0, -12⟩ (by simp [ellipseSample])
      (by norm_num) ellipseSample_on_ellipse ellipseSample_five_distinct ellipseSample_isSVD⟩

/-! ## C12: the stored form of the fitted vector -/

theorem ellipseSampleV_apply_five (j : Fin 6) :
    (ellipseSampleV : Matrix (Fin 6) (Fin 6) R) j 5
      = ![3 / 13, 0, 4 / 13, 0, 0, -(12 / 13)] j := by
  fin_cases j <;> rfl

theorem get_ellipseSample (σ : Fin 6 → R) :
    get (fun _ _ => ⟨ellipseSampleV, σ⟩) (ellipseSample : List (Point2 R))
      = ⟨3 / 13, 0, 4 / 13, 0, 0, -(12 / 13)⟩ := by
  unfold get getParams Estimation.fromSVD Estimation.toEllipse
  simp only [ellipseSampleV_apply_five]
  rfl

/-- C12 (claim as stated fails): the thirty points of `ellipseSample` with the
singular vectors `ellipseSampleV`, which meet the contract of the SVD.  The
conic returned by `get` is column 5 of `V` as it stands; its F coefficient is
`-12/13`, which is negative. -/
theorem get_sign_not_fixed :
    IsSVD (designMatrix (ellipseSample : List (Point2 ℝ)))
      ⟨ellipseSampleV, fun i => Real.sqrt (![273, 78, 72, 36, 36, 0] i)⟩ ∧
    get (fun _ _ => ⟨ellipseSampleV, fun i => Real.sqrt (![273, 78, 72, 36, 36, 0] i)⟩)
        (ellipseSample : List (Point2 ℝ))
      = ⟨3 / 13, 0, 4 / 13, 0, 0, -(12 / 13)⟩ ∧
    (get (fun _ _ => ⟨ellipseSampleV, fun i => Real.sqrt (![273, 78, 72, 36, 36, 0] i)⟩)
        (ellipseSample : List (Point2 ℝ))).F < 0 := by
  have h : get (fun _ _ => ⟨ellipseSampleV, fun i => Real.sqrt (![273, 78, 72, 36, 36, 0] i)⟩)
        (ellipseSample : List (Point2 ℝ))
      = ⟨3 / 13, 0, 4 / 13, 0, 0, -(12 / 13)⟩ := by
    exact get_ellipseSample _
  refine ⟨ellipseSample_isSVD, h, ?_⟩
  rw [h]
  norm_num

/-- C12 (amended): for every point list and every SVD of its design matrix, the
conic returned by `get` is column 5 of `V`, unchanged, and has Euclidean norm 1;
its sign is the sign the SVD gave the singular vector. -/
theorem get_unit_norm
    (svd : (n : ℕ) → Matrix (Fin n) (Fin 6) R → JacobiSVD R) (points : List (Point2 R))
    (hsvd : IsSVD (designMatrix points) (svd points.length (designMatrix points))) :
    (get svd points).toVec = (fun j => (svd points.length (designMatrix points)).matrixV j 5) ∧
    (get svd points).normSq = 1 :=
  ⟨toVec_get svd points, normSq_get_of_isSVD svd points hsvd⟩

/-- C12 witness: the thirty points of `ellipseSample`. -/
theorem get_unit_norm_witness :
    IsSVD (designMatrix (ellipseSample : List (Point2 ℝ)))
      ⟨ellipseSampleV, fun i => Real.sqrt (![273, 78, 72, 36, 36, 0] i)⟩ ∧
    (get (fun _ _ => ⟨ellipseSampleV, fun i => Real.sqrt (![273, 78, 72, 36, 36, 0] i)⟩)
        (ellipseSample : List (Point2 ℝ))).normSq = 1 :=
  ⟨ellipseSample_isSVD,
    (get_unit_norm
      (fun _ _ => ⟨ellipseSampleV, fun i => Real.sqrt (![273, 78, 72, 36, 36, 0] i)⟩)
      (ellipseSample : List (Point2 ℝ)) ellipseSample_isSVD).2⟩

/-! ## C15: the fit of collinear points -/

/-- if some conic with a nonzero coefficient vector passes through every point,
so does the fitted conic -/
theorem get_vanishes_of_conic (svd : (n : ℕ) → Matrix (Fin n) (Fin 6) R → JacobiSVD R)
    (points : List (Point2 R))
    (hsvd : IsSVD (designMatrix points) (svd points.length (designMatrix points)))
    (c : CanonicalParams R) (hc : 0 < c.normSq) (hon : ∀ p ∈ points, c.getError p.x p.y = 0) :
    ∀ p ∈ points, (get svd points).getError p.x p.y = 0 := by
  have h0 : residual points c = 0 := (residual_eq_zero_iff points c).mpr hon
  have h1 := residual_ge_of_isSVD svd points hsvd c
  rw [h0] at h1
  have h2 : 0 ≤ (svd points.length (designMatrix points)).singularValues 5 ^ 2 := sq_nonneg _
  have h3 : (svd points.length (designMatrix points)).singularValues 5 ^ 2 = 0 := by
    by_contra hne
    have hpos : 0 < (svd points.length (designMatrix points)).singularValues 5 ^ 2 :=
      lt_of_le_of_ne h2 (Ne.symm hne)
    have := mul_pos hpos hc
    linarith
  have h4 := residual_get_of_isSVD svd points hsvd
  rw [h3] at h4
  exact (residual_eq_zero_iff points _).mp h4

/-- the square of a line, as a conic -/
theorem line_square_conic (α β γ : R) (hline : α ≠ 0 ∨ β ≠ 0) :
    0 < (CanonicalParams.mk (α * α) (2 * α * β) (β * β) (2 * α * γ) (2 * β * γ)
        (γ * γ)).normSq ∧
    ∀ x y : R, (CanonicalParams.mk (α * α) (2 * α * β) (β * β) (2 * α * γ) (2 * β * γ)
        (γ * γ)).getError x y = (α * x + β * y + γ) ^ 2 := by
  constructor
  · simp only [CanonicalParams.normSq]
    rcases hline with h | h
    · have : 0 < (α * α) ^ 2 := by positivity
      nlinarith [sq_nonneg (2 * α * β), sq_nonneg (β * β), sq_nonneg (2 * α * γ),
        sq_nonneg (2 * β * γ), sq_nonneg (γ * γ)]
    · have : 0 < (β * β) ^ 2 := by positivity
      nlinarith [sq_nonneg (2 * α * β), sq_nonneg (α * α), sq_nonneg (2 * α * γ),
        sq_nonneg (2 * β * γ), sq_nonneg (γ * γ)]
  · intro x y
    simp only [CanonicalParams.getError]
    ring

/-- a conic through three distinct points of a line has a non-negative
discriminant -/
theorem discriminant_nonneg_of_collinear (h : CanonicalParams R) (α β γ : R)
    (hline : α ≠ 0 ∨ β ≠ 0) (p q r : Point2 R)
    (hp : α * p.x + β * p.y + γ = 0) (hq : α * q.x + β * q.y + γ = 0)
    (hr : α * r.x + β * r.y + γ = 0) (hpq : p ≠ q) (hpr : p ≠ r) (hqr : q ≠ r)
    (h3 : h.getError p.x p.y = 0) (h4 : h.getError q.x q.y = 0)
    (h5 : h.getError r.x r.y = 0) :
    0 ≤ h.B ^ 2 - 4 * h.A * h.C := by
  by_contra hneg
  have hdisc : h.B ^ 2 - 4 * h.A * h.C < 0 := not_le.mp hneg
  have h34 : ¬ (q.x = p.x ∧ q.y = p.y) := by
    rintro ⟨hx, hy⟩
    apply hpq
    cases p; cases q
    simp only [Point2.mk.injEq]
    exact ⟨hx.symm, hy.symm⟩
  have h35 : ¬ (r.x = p.x ∧ r.y = p.y) := by
    rintro ⟨hx, hy⟩
    apply hpr
    cases p; cases r
    simp only [Point2.mk.injEq]
    exact ⟨hx.symm, hy.symm⟩
  have h45 : ¬ (r.x = q.x ∧ r.y = q.y) := by
    rintro ⟨hx, hy⟩
    apply hqr
    cases q; cases r
    simp only [Point2.mk.injEq]
    exact ⟨hx.symm, hy.symm⟩
  have hcross := ellipse_not_collinear h hdisc p.x p.y q.x q.y r.x r.y h34 h35 h45 h3 h4 h5
  apply hcross
  have e1 : α * ((q.x - p.x) * (r.y - p.y) - (q.y - p.y) * (r.x - p.x)) = 0 := by
    linear_combination (r.y - p.y) * hq - (q.y - p.y) * hr + (q.y - r.y) * hp
  have e2 : β * ((q.x - p.x) * (r.y - p.y) - (q.y - p.y) * (r.x - p.x)) = 0 := by
    linear_combination -(r.x - p.x) * hq + (q.x - p.x) * hr + (r.x - q.x) * hp
  rcases hline with ha | hb
  · exact (mul_eq_zero.mp e1).resolve_left ha
  · exact (mul_eq_zero.mp e2).resolve_left hb

/-- a list of points on one straight line that has three different members: the
conic returned by `getParams` passes through every point and has a non-negative
discriminant -/
theorem getParams_collinear_of_three
    (svd : (n : ℕ) → Matrix (Fin n) (Fin 6) R → JacobiSVD R)
    (points : List (Point2 R))
    (α β γ : R) (hline : α ≠ 0 ∨ β ≠ 0) (hon : ∀ p ∈ points, α * p.x + β * p.y + γ = 0)
    (p q r : Point2 R) (hp : p ∈ points) (hq : q ∈ points) (hr : r ∈ points)
    (hpq : p ≠ q) (hpr : p ≠ r) (hqr : q ≠ r)
    (hsvd : IsSVD (designMatrix points) (svd points.length (designMatrix points))) :
    (∀ p ∈ points, (getParams svd points).toEllipse.getError p.x p.y = 0) ∧
    0 ≤ (getParams svd points).toEllipse.B ^ 2
      - 4 * (getParams svd points).toEllipse.A * (getParams svd points).toEllipse.C := by
  obtain ⟨hpos, herr⟩ := line_square_conic α β γ hline
  have hvan : ∀ p ∈ points, (get svd points).getError p.x p.y = 0 :=
    get_vanishes_of_conic svd points hsvd _ hpos fun p hp => by rw [herr, hon p hp]; ring
  exact ⟨hvan, discriminant_nonneg_of_collinear (get svd points) α β γ hline p q r
    (hon p hp) (hon q hq) (hon r hr) hpq hpr hqr (hvan p hp) (hvan q hq) (hvan r hr)⟩

/-- every list of points on one straight line, whatever its length and however
often it repeats a point: the conic returned by `getParams` passes through every
point -/
theorem getParams_collinear_vanishes
    (svd : (n : ℕ) → Matrix (Fin n) (Fin 6) R → JacobiSVD R)
    (points : List (Point2 R))
    (α β γ : R) (hline : α ≠ 0 ∨ β ≠ 0) (hon : ∀ p ∈ points, α * p.x + β * p.y + γ = 0)
    (hsvd : IsSVD (designMatrix points) (svd points.length (designMatrix points))) :
    ∀ p ∈ points, (getParams svd points).toEllipse.getError p.x p.y = 0 := by
  obtain ⟨hpos, herr⟩ := line_square_conic α β γ hline
  exact get_vanishes_of_conic svd points hsvd _ hpos fun p hp => by rw [herr, hon p hp]; ring

/-- every list of `N ≥ 6` pairwise different points on one straight line: the
conic returned by `getParams` passes through every point and has a non-negative
discriminant -/
theorem getParams_collinear_of_nodup
    (svd : (n : ℕ) → Matrix (Fin n) (Fin 6) R → JacobiSVD R)
    (points : List (Point2 R)) (hN : 6 ≤ points.length) (hnd : points.Nodup)
    (α β γ : R) (hline : α ≠ 0 ∨ β ≠ 0) (hon : ∀ p ∈ points, α * p.x + β * p.y + γ = 0)
    (hsvd : IsSVD (designMatrix points) (svd points.length (designMatrix points))) :
    (∀ p ∈ points, (getParams svd points).toEllipse.getError p.x p.y = 0) ∧
    0 ≤ (getParams svd points).toEllipse.B ^ 2
      - 4 * (getParams svd points).toEllipse.A * (getParams svd points).toEllipse.C := by
  obtain ⟨p, q, r, rest, rfl⟩ : ∃ p q r rest, points = p :: q :: r :: rest := by
    match points, hN with
    | [], h => simp at h
    | [_], h => simp at h
    | [_, _], h => simp at h
    | p :: q :: r :: rest, _ => exact ⟨p, q, r, rest, rfl⟩
  have h1 := List.nodup_cons.mp hnd
  have h2 := List.nodup_cons.mp h1.2
  refine getParams_collinear_of_three svd (p :: q :: r :: rest) α β γ hline hon p q r
    (by simp) (by simp) (by simp) ?_ ?_ ?_ hsvd
  · rintro rfl
    exact h1.1 (by simp)
  · rintro rfl
    exact h1.1 (by simp)
  · rintro rfl
    exact h2.1 (by simp)

theorem originSample_gram :
    gramMatrix (originSample : List (Point2 R))
      = !![0, 0, 0, 0, 0, 0;
           0, 0, 0, 0, 0, 0;
           0, 0, 0, 0, 0, 0;
           0, 0, 0, 0, 0, 0;
           0, 0, 0, 0, 0, 0;
           0, 0, 0, 0, 0, 9] := by
  ext a b
  simp only [gramMatrix, originSample, Matrix.of_apply, List.map_replicate, List.sum_replicate,
    nsmul_eq_mul]
  fin_cases a <;> fin_cases b <;>
    simp [designRow_0, designRow_1, designRow_2, designRow_3, designRow_4, designRow_5,
      vec6_five] <;> rfl

theorem originSampleV_orthogonal :
    (originSampleV : Matrix (Fin 6) (Fin 6) R)ᵀ * originSampleV = 1 := by
  ext a b
  fin_cases a <;> fin_cases b <;>
    simp [originSampleV, Matrix.mul_apply, Fin.sum_univ_succ, vec6_five, Matrix.vecHead,
      Matrix.vecTail] <;> norm_num

theorem originSampleV_eigen :
    (!![0, 0, 0, 0, 0, 0;
        0, 0, 0, 0, 0, 0;
        0, 0, 0, 0, 0, 0;
        0, 0, 0, 0, 0, 0;
        0, 0, 0, 0, 0, 0;
        0, 0, 0, 0, 0, 9] : Matrix (Fin 6) (Fin 6) R) * originSampleV
      = originSampleV * Matrix.diagonal ![9, 0, 0, 0, 0, 0] := by
  ext a b
  rw [Matrix.mul_diagonal]
  fin_cases a <;> fin_cases b <;>
    simp [originSampleV, Matrix.mul_apply, Fin.sum_univ_succ, vec6_five, Matrix.vecHead,
      Matrix.vecTail]

theorem originSample_isSVD :
    IsSVD (designMatrix (originSample : List (Point2 ℚ)))
      ⟨originSampleV, ![3, 0, 0, 0, 0, 0]⟩ := by
  apply isSVD_of_gram
  · exact originSampleV_orthogonal
  · intro i
    fin_cases i <;> simp [vec6_five]
  · intro i j hij
    fin_cases i <;> fin_cases j <;> simp [vec6_five] at hij ⊢
  · have hd : (fun i : Fin 6 => (![3, 0, 0, 0, 0, 0] : Fin 6 → ℚ) i ^ 2)
        = ![9, 0, 0, 0, 0, 0] := by
      funext i
      fin_cases i <;> norm_num [vec6_five]
    show originSampleVᵀ * gramMatrix originSample * originSampleV
      = Matrix.diagonal fun i : Fin 6 => (![3, 0, 0, 0, 0, 0] : Fin 6 → ℚ) i ^ 2
    rw [hd, originSample_gram, Matrix.mul_assoc, originSampleV_eigen, ← Matrix.mul_assoc,
      originSampleV_orthogonal, Matrix.one_mul]

theorem originSampleV_apply_five (j : Fin 6) :
    (originSampleV : Matrix (Fin 6) (Fin 6) R) j 5 = ![1 / 3, 0, 2 / 3, 2 / 3, 0, 0] j := by
  fin_cases j <;> rfl

/-- without three different points the contract of the SVD alone does not decide
the sign of the discriminant: nine copies of the origin lie on the straight line
`y = 0`, and the matrix `originSampleV` with the singular values
`3, 0, 0, 0, 0, 0` meets the contract for their design matrix; were it the
decomposition computed, `getParams` would return the unit vector of the ellipse
`x² + 2 y² + 2 x = 0`, whose discriminant is `-8/9`.  Which right singular
vectors `Eigen::JacobiSVD` computes for a repeated singular value is not part of
the embedding. -/
theorem getParams_repeated_point_fits_ellipse :
    6 ≤ (originSample : List (Point2 ℚ)).length ∧
    (∀ p ∈ (originSample : List (Point2 ℚ)), (0 : ℚ) * p.x + 1 * p.y + 0 = 0) ∧
    IsSVD (designMatrix (originSample : List (Point2 ℚ)))
      ⟨originSampleV, ![3, 0, 0, 0, 0, 0]⟩ ∧
    (getParams (fun _ _ => ⟨originSampleV, ![3, 0, 0, 0, 0, 0]⟩)
        (originSample : List (Point2 ℚ))).toEllipse = ⟨1 / 3, 0, 2 / 3, 2 / 3, 0, 0⟩ ∧
    (getParams (fun _ _ => ⟨originSampleV, ![3, 0, 0, 0, 0, 0]⟩)
        (originSample : List (Point2 ℚ))).toEllipse.B ^ 2
      - 4 * (getParams (fun _ _ => ⟨originSampleV, ![3, 0, 0, 0, 0, 0]⟩)
          (originSample : List (Point2 ℚ))).toEllipse.A
        * (getParams (fun _ _ => ⟨originSampleV, ![3, 0, 0, 0, 0, 0]⟩)
          (originSample : List (Point2 ℚ))).toEllipse.C < 0 := by
  have h : (getParams (fun _ _ => ⟨originSampleV, ![3, 0, 0, 0, 0, 0]⟩)
        (originSample : List (Point2 ℚ))).toEllipse = ⟨1 / 3, 0, 2 / 3, 2 / 3, 0, 0⟩ := by
    unfold getParams Estimation.fromSVD Estimation.toEllipse
    simp only [originSampleV_apply_five]
    rfl
  refine ⟨by simp [originSample], ?_, originSample_isSVD, h, ?_⟩
  · intro p hp
    simp only [originSample, List.mem_replicate] at hp
    rw [hp.2]
    norm_num
  · rw [h]
    norm_num

end Fit

/-! ## C11: how many points the iterative trim removes -/

theorem removeWorstRound_length
    (svd : (n : ℕ) → Matrix (Fin n) (Fin 6) R → JacobiSVD R)
    (sort : (Point2 R → Point2 R → Bool) → List (Point2 R) → List (Point2 R))
    (hsort : ∀ comp l, (sort comp l).length = l.length)
    (perRun : ℤ) (points : List (Point2 R)) :
    (removeWorstRound svd sort perRun points).2.length = points.length - perRun.toNat := by
  simp only [removeWorstRound, List.length_take, hsort]
  omega

theorem removeWorstLoop_length_of_sort
    (svd : (n : ℕ) → Matrix (Fin n) (Fin 6) R → JacobiSVD R)
    (sort : (Point2 R → Point2 R → Bool) → List (Point2 R) → List (Point2 R))
    (hsort : ∀ comp l, (sort comp l).length = l.length)
    (perRun : ℤ) (rounds : ℕ) (st : CanonicalParams R × List (Point2 R)) :
    (removeWorstLoop svd sort perRun rounds st).2.length
      = st.2.length - rounds * perRun.toNat := by
  induction rounds with
  | zero => simp [removeWorstLoop]
  | succ rounds ih =>
    simp only [removeWorstLoop, removeWorstRound_length svd sort hsort, ih]
    rw [Nat.succ_mul]
    omega

theorem removePerRun_pos {n : ℕ} (h : 25 ≤ n) : 1 ≤ removePerRun n := by
  unfold removePerRun truncToInt
  have hn : (25 : ℚ) ≤ n := by exact_mod_cast h
  have h0 : (0 : ℚ) ≤ (n : ℚ) * (4 / 100) := by positivity
  rw [if_pos h0, Int.le_floor]
  push_cast
  linarith

theorem toRemove_nonneg (n : ℕ) : 0 ≤ toRemove n := by
  unfold toRemove truncToInt
  have h0 : (0 : ℚ) ≤ (n : ℚ) * (15 / 100) := by positivity
  rw [if_pos h0]
  exact Int.floor_nonneg.mpr h0

theorem toRemove_le (n : ℕ) : toRemove n ≤ n := by
  unfold toRemove truncToInt
  have h0 : (0 : ℚ) ≤ (n : ℚ) * (15 / 100) := by positivity
  rw [if_pos h0]
  have h1 : ((⌊(n : ℚ) * (15 / 100)⌋ : ℤ) : ℚ) ≤ (n : ℚ) * (15 / 100) := Int.floor_le _
  have h2 : ((⌊(n : ℚ) * (15 / 100)⌋ : ℤ) : ℚ) ≤ ((n : ℤ) : ℚ) := by
    push_cast
    linarith
  exact_mod_cast h2

theorem trim_rounds_bounds (t p : ℤ) (ht : 0 ≤ t) (hp : 1 ≤ p) :
    0 ≤ Int.tdiv t p ∧ Int.tdiv t p * p ≤ t ∧ t - p < Int.tdiv t p * p := by
  rw [Int.tdiv_eq_ediv ht (by omega)]
  have h1 := Int.emod_add_ediv t p
  have h2 := Int.emod_nonneg t (show p ≠ 0 by omega)
  have h3 := Int.emod_lt_of_pos t (show 0 < p by omega)
  have h4 : 0 ≤ t / p := Int.ediv_nonneg ht (by omega)
  refine ⟨h4, ?_, ?_⟩ <;> nlinarith

/-- C11: for every list of `N ≥ 25` points and every sorting routine that keeps
the length of the list, `getRemoveWorst` returns after
`rounds = toRemove / removePerRun` rounds, the point count never increases from
one round to the next, and the number of points removed over the whole run is
`rounds * removePerRun`: the largest multiple of `removePerRun` that does not
exceed `toRemove`. -/
theorem getRemoveWorst_removes_whole_rounds
    (svd : (n : ℕ) → Matrix (Fin n) (Fin 6) R → JacobiSVD R)
    (sort : (Point2 R → Point2 R → Bool) → List (Point2 R) → List (Point2 R))
    (hsort : ∀ comp l, (sort comp l).length = l.length)
    (params0 : CanonicalParams R) (points : List (Point2 R)) (hN : 25 ≤ points.length) :
    getRemoveWorst svd sort params0 points
      = some (removeWorstLoop svd sort (removePerRun points.length)
          (Int.tdiv (toRemove points.length) (removePerRun points.length)).toNat
          (params0, points)).1 ∧
    (∀ r, (removeWorstLoop svd sort (removePerRun points.length) (r + 1)
          (params0, points)).2.length
        ≤ (removeWorstLoop svd sort (removePerRun points.length) r
          (params0, points)).2.length) ∧
    (points.length : ℤ) - ((removeWorstLoop svd sort (removePerRun points.length)
          (Int.tdiv (toRemove points.length) (removePerRun points.length)).toNat
          (params0, points)).2.length : ℤ)
      = Int.tdiv (toRemove points.length) (removePerRun points.length)
          * removePerRun points.length ∧
    Int.tdiv (toRemove points.length) (removePerRun points.length)
        * removePerRun points.length ≤ toRemove points.length ∧
    toRemove points.length - removePerRun points.length
      < Int.tdiv (toRemove points.length) (removePerRun points.length)
          * removePerRun points.length := by
  have hp := removePerRun_pos hN
  have ht := toRemove_nonneg points.length
  have hle := toRemove_le points.length
  obtain ⟨hb0, hb1, hb2⟩ := trim_rounds_bounds _ _ ht hp
  refine ⟨?_, ?_, ?_, hb1, hb2⟩
  · unfold getRemoveWorst intDiv
    rw [if_neg (by omega)]
  · intro r
    rw [removeWorstLoop_length_of_sort svd sort hsort, removeWorstLoop_length_of_sort svd sort hsort]
    simp only
    rw [Nat.succ_mul]
    omega
  · rw [removeWorstLoop_length_of_sort svd sort hsort]
    simp only
    have hprod : ((Int.tdiv (toRemove points.length) (removePerRun points.length)).toNat
        * (removePerRun points.length).toNat : ℕ)
        = Int.tdiv (toRemove points.length) (removePerRun points.length)
          * removePerRun points.length := by
      push_cast
      rw [Int.toNat_of_nonneg hb0, Int.toNat_of_nonneg (by omega)]
    have hle2 : (Int.tdiv (toRemove points.length) (removePerRun points.length)).toNat
        * (removePerRun points.length).toNat ≤ points.length := by
      have : (((Int.tdiv (toRemove points.length) (removePerRun points.length)).toNat
        * (removePerRun points.length).toNat : ℕ) : ℤ) ≤ (points.length : ℤ) := by
        rw [hprod]; omega
      exact_mod_cast this
    rw [Nat.cast_sub hle2, hprod]
    ring

/-- C11 witness: the 25 grid points with insertion sort. -/
theorem getRemoveWorst_removes_whole_rounds_witness :
    (∀ (comp : Point2 ℚ → Point2 ℚ → Bool) (l : List (Point2 ℚ)),
      (insertionStdSort comp l).length = l.length) ∧
    25 ≤ gridPoints.length ∧
    (gridPoints.length : ℤ) - ((removeWorstLoop sizeSVD insertionStdSort
          (removePerRun gridPoints.length)
          (Int.tdiv (toRemove gridPoints.length) (removePerRun gridPoints.length)).toNat
          (⟨0, 0, 0, 0, 0, 1⟩, gridPoints)).2.length : ℤ)
      = Int.tdiv (toRemove gridPoints.length) (removePerRun gridPoints.length)
          * removePerRun gridPoints.length :=
  ⟨insertionStdSort_length, by rw [gridPoints_length],
    (getRemoveWorst_removes_whole_rounds sizeSVD insertionStdSort insertionStdSort_length
      ⟨0, 0, 0, 0, 0, 1⟩ gridPoints (by rw [gridPoints_length])).2.2.1⟩

theorem toRemove_51 : toRemove 51 = 7 := by
  norm_num [toRemove, truncToInt, Int.floor_eq_iff]

theorem removePerRun_51 : removePerRun 51 = 2 := by
  norm_num [removePerRun, truncToInt, Int.floor_eq_iff]

theorem parabolaPoints_length : parabolaPoints.length = 51 := by
  simp only [parabolaPoints, List.length_map, List.length_range]

/-- C11 (claim as stated fails): on 51 points `toRemove = 7` and
`removePerRun = 2`, so the loop runs `7 / 2 = 3` rounds; 45 points remain after
the last round, so 6 points are removed, not 7, and the returned conic is the fit
of the 47 points present at the start of the third round. -/
theorem getRemoveWorst_removes_fewer_than_toRemove :
    25 ≤ parabolaPoints.length ∧
    toRemove parabolaPoints.length = 7 ∧
    removePerRun parabolaPoints.length = 2 ∧
    intDiv (toRemove parabolaPoints.length) (removePerRun parabolaPoints.length) = some 3 ∧
    getRemoveWorst sizeSVD insertionStdSort ⟨0, 0, 0, 0, 0, 1⟩ parabolaPoints
      = some ⟨47, 0, 1, 0, 0, -1⟩ ∧
    (removeWorstLoop sizeSVD insertionStdSort (removePerRun parabolaPoints.length) 3
        (⟨0, 0, 0, 0, 0, 1⟩, parabolaPoints)).2.length = 45 ∧
    (parabolaPoints.length : ℤ) - 45 ≠ toRemove parabolaPoints.length := by
  have hb : intDiv (toRemove parabolaPoints.length) (removePerRun parabolaPoints.length)
      = some 3 := by
    rw [parabolaPoints_length, toRemove_51, removePerRun_51]
    rfl
  refine ⟨by rw [parabolaPoints_length]; decide, by rw [parabolaPoints_length, toRemove_51],
    by rw [parabolaPoints_length, removePerRun_51], hb, ?_, ?_, ?_⟩
  · rw [getRemoveWorst_of_bound sizeSVD insertionStdSort _ parabolaPoints 3 hb (by decide),
      get_sizeSVD, removeWorstLoop_length, parabolaPoints_length, removePerRun_51,
      show (3 : ℤ).toNat = 3 from rfl, show (2 : ℤ).toNat = 2 from rfl]
    norm_num
  · rw [removeWorstLoop_length, parabolaPoints_length, removePerRun_51,
      show (2 : ℤ).toNat = 2 from rfl]
  · rw [parabolaPoints_length, toRemove_51]
    decide

/-! ## C13: the sign of the fitted vector in the point-inlier loop -/

theorem CanonicalParams.fixF_neg (c : CanonicalParams R) (hF : c.F ≠ 0) :
    (CanonicalParams.mk (-c.A) (-c.B) (-c.C) (-c.D) (-c.E) (-c.F)).fixF = c.fixF := by
  unfold CanonicalParams.fixF
  rcases lt_or_gt_of_ne hF with h | h
  · have h' : ¬ (-c.F < 0) := by simp; exact h.le
    simp [h, h']
  · have h' : (-c.F < 0) := by simpa using h
    have h'' : ¬ c.F < 0 := not_lt.mpr h.le
    simp [h', h'']

/-- C13 (code diverges): two runs of one trial that differ only in the sign of
the fitted vector, `(2,0,2,0,0,1)` against `(-2,0,-2,0,0,-1)`, with the same
geometry and the same score for both.  The first is accepted and returned; the
second is rejected by the test `canon.F <= 0`, and the default conic is returned
with the caller's stats untouched. -/
theorem RANSAC.get_rejects_negated_fit :
    (RANSAC.trialParams (RANSAC.signEnv 1) 0).toEllipse = ⟨2, 0, 2, 0, 0, 1⟩ ∧
    (RANSAC.trialParams (RANSAC.signEnv (-1)) 0).toEllipse = ⟨-2, 0, -2, 0, 0, -1⟩ ∧
    (RANSAC.signEnv 1).toGeometric ⟨2, 0, 2, 0, 0, 1⟩
      = (RANSAC.signEnv (-1)).toGeometric ⟨-2, 0, -2, 0, 0, -1⟩ ∧
    RANSAC.get (RANSAC.signEnv 1) RANSAC.oneRunCfg [] ⟨0, 0⟩ 1
      = some (1, ⟨2, 0, 2, 0, 0, 1⟩, ⟨3, 1⟩) ∧
    RANSAC.get (RANSAC.signEnv (-1)) RANSAC.oneRunCfg [] ⟨0, 0⟩ 1
      = some (1, ⟨0, 0, 0, 0, 0, 1⟩, ⟨0, 0⟩) := by
  refine ⟨?_, ?_, ?_, ?_, ?_⟩
  · simp [RANSAC.trialParams, RANSAC.signEnv, RANSAC.tableEnv, getParams_columnSVD,
      countingSample, Estimation.toEllipse_mk]
  · simp [RANSAC.trialParams, RANSAC.signEnv, RANSAC.tableEnv, getParams_columnSVD,
      countingSample, Estimation.toEllipse_mk]
  · simp [RANSAC.signEnv, RANSAC.tableEnv]
  · have h : forLoop RANSAC.oneRunCfg.numRuns
        (RANSAC.body (RANSAC.signEnv 1) RANSAC.oneRunCfg []) 1 0 0
        ⟨0, Estimation.default, ⟨0, 0⟩⟩
        = some (1, ⟨3, ⟨![2, 0, 2, 0, 0, 1]⟩, ⟨3, 1⟩⟩) := by
      simp [forLoop, RANSAC.body, RANSAC.signEnv, RANSAC.oneRunCfg, RANSAC.tableEnv,
        getParams_columnSVD, countingSample, Estimation.toEllipse_mk, RANSAC.minInliers_nil]
      norm_num
    unfold RANSAC.get
    rw [h]
    rfl
  · have h : forLoop RANSAC.oneRunCfg.numRuns
        (RANSAC.body (RANSAC.signEnv (-1)) RANSAC.oneRunCfg []) 1 0 0
        ⟨0, Estimation.default, ⟨0, 0⟩⟩
        = some (1, ⟨0, Estimation.default, ⟨0, 0⟩⟩) := by
      norm_num [forLoop, RANSAC.body, RANSAC.signEnv, RANSAC.oneRunCfg, RANSAC.tableEnv,
        getParams_columnSVD, countingSample, Estimation.toEllipse_mk, RANSAC.minInliers_nil]
    unfold RANSAC.get
    rw [h]
    simp [Estimation.toEllipse_default]

/-! ## C14: trials with a not-a-number semi-axis -/

theorem RANSAC.get_returns_valid_or_default [FloorRing R] (env : RANSAC.Env R)
    (cfg : RANSAC.Config R) (allPoints : List (Point2 R)) (bestStats0 : RANSAC.MatchStats R)
    (fuel k : ℕ) (c : CanonicalParams R) (s : RANSAC.MatchStats R)
    (h : RANSAC.get env cfg allPoints bestStats0 fuel = some (k, c, s)) :
    c = ⟨0, 0, 0, 0, 0, 1⟩ ∨
    ∃ j, j < k ∧ c = (RANSAC.trialParams env j).toEllipse ∧ RANSAC.Valid env j := by
  obtain ⟨_, _, hc, _⟩ := (RANSAC.get_eq_some_iff env cfg allPoints bestStats0 fuel k c s).mp h
  rcases RANSAC.stateAfter_best env cfg allPoints bestStats0 k with
    ⟨_, hst⟩ | ⟨j, hj, hqj, hst, _⟩
  · left
    rw [hc, hst]
    exact Estimation.toEllipse_default
  · right
    refine ⟨j, hj, ?_, hqj.1⟩
    rw [hc, hst]

theorem RANSACPixel.pixelGet_returns_accepted_or_default (env : RANSACPixel.Env R)
    (cfg : RANSACPixel.Config R) (fuel k : ℕ) (c : CanonicalParams R) (s : ImageMatchStats R)
    (h : RANSACPixel.get env cfg fuel = some (k, c, s)) :
    (c = ⟨0, 0, 0, 0, 0, 1⟩ ∧ s = ImageMatchStats.zero) ∨
    ∃ j, j < k ∧ c = (RANSACPixel.trialParams env j).toEllipse ∧
      s = RANSACPixel.trialStats env cfg j ∧ RANSACPixel.Accepted env cfg j := by
  obtain ⟨_, _, hc, hs⟩ := (RANSACPixel.pixelGet_eq_some_iff env cfg fuel k c s).mp h
  rcases RANSACPixel.pixelStateAfter_best env cfg k with
    ⟨_, hst⟩ | ⟨j, hj, hqj, _, hst, _⟩
  · left
    rw [hc, hs, hst]
    exact ⟨Estimation.toEllipse_default, rfl⟩
  · right
    refine ⟨j, hj, ?_, ?_, hqj⟩
    · rw [hc, hst]
    · rw [hs, hst]

/-- C14: in `RANSAC::get` and in `RANSACPixel::get`, an execution of the loop
body whose trial has a not-a-number semi-axis `a` or `b` leaves the best
candidate as it was, and the conic a call returns is either the default conic
`(0,0,0,0,0,1)` (no trial ever replaced the best) or the fit of an executed
trial whose semi-axes are both numbers. -/
theorem nan_trial_never_selected [FloorRing R] (env : RANSAC.Env R) (cfg : RANSAC.Config R)
    (allPoints : List (Point2 R)) (bestStats0 : RANSAC.MatchStats R)
    (envP : RANSACPixel.Env R) (cfgP : RANSACPixel.Config R) :
    (∀ k st, ((RANSAC.trialGeo env k).a = none ∨ (RANSAC.trialGeo env k).b = none) →
      (RANSAC.body env cfg allPoints k st).2 = st) ∧
    (∀ fuel k c s, RANSAC.get env cfg allPoints bestStats0 fuel = some (k, c, s) →
      c = ⟨0, 0, 0, 0, 0, 1⟩ ∨
      ∃ j, j < k ∧ c = (RANSAC.trialParams env j).toEllipse ∧
        (RANSAC.trialGeo env j).a ≠ none ∧ (RANSAC.trialGeo env j).b ≠ none) ∧
    (∀ k st, ((RANSACPixel.trialGeo envP k).a = none ∨ (RANSACPixel.trialGeo envP k).b = none) →
      (RANSACPixel.body envP cfgP k st).2 = st) ∧
    (∀ fuel k c s, RANSACPixel.get envP cfgP fuel = some (k, c, s) →
      c = ⟨0, 0, 0, 0, 0, 1⟩ ∨
      ∃ j, j < k ∧ c = (RANSACPixel.trialParams envP j).toEllipse ∧
        (RANSACPixel.trialGeo envP j).a ≠ none ∧ (RANSACPixel.trialGeo envP j).b ≠ none) := by
  refine ⟨?_, ?_, ?_, ?_⟩
  · intro k st h
    apply RANSAC.body_snd_of_not_valid
    rintro ⟨_, ha, hb⟩
    rcases h with h | h
    · exact ha h
    · exact hb h
  · intro fuel k c s h
    rcases RANSAC.get_returns_valid_or_default env cfg allPoints bestStats0 fuel k c s h with
      h | ⟨j, hj, hc, hv⟩
    · exact Or.inl h
    · exact Or.inr ⟨j, hj, hc, hv.2.1, hv.2.2⟩
  · intro k st h
    apply RANSACPixel.pixelBody_snd_of_not_accepted
    rintro ⟨_, a, b, ha, hb, _⟩
    rcases h with h | h
    · rw [ha] at h; exact Option.some_ne_none a h
    · rw [hb] at h; exact Option.some_ne_none b h
  · intro fuel k c s h
    rcases RANSACPixel.pixelGet_returns_accepted_or_default envP cfgP fuel k c s h with
      h | ⟨j, hj, hc, _, _, a, b, ha, hb, _⟩
    · exact Or.inl h.1
    · refine Or.inr ⟨j, hj, hc, ?_, ?_⟩
      · rw [ha]; exact Option.some_ne_none a
      · rw [hb]; exact Option.some_ne_none b

/-- C14 (example): runs of one counted trial whose first sample has not-a-number
semi-axes.  The body is executed twice, and the conic returned is the fit of the
second sample (`A = 2`), not of the first (`A = 1`). -/
theorem nan_trial_skipped_example :
    (RANSAC.trialGeo RANSAC.nanFirstEnv 0).a = none ∧
    (RANSAC.trialParams RANSAC.nanFirstEnv 0).toEllipse = ⟨1, 0, 2, 0, 0, 1⟩ ∧
    RANSAC.get RANSAC.nanFirstEnv RANSAC.oneRunCfg [] ⟨0, 0⟩ 2
      = some (2, ⟨2, 0, 2, 0, 0, 1⟩, ⟨3, 1⟩) ∧
    (RANSACPixel.trialGeo RANSACPixel.nanFirstEnv 0).a = none ∧
    (RANSACPixel.trialParams RANSACPixel.nanFirstEnv 0).toEllipse = ⟨1, 0, 2, 0, 0, 1⟩ ∧
    RANSACPixel.get RANSACPixel.nanFirstEnv RANSACPixel.oneRunCfg 2
      = some (2, ⟨2, 0, 2, 0, 0, 1⟩, ⟨1, 10⟩) := by
  refine ⟨?_, ?_, ?_, ?_, ?_, ?_⟩
  · simp [RANSAC.trialGeo, RANSAC.trialParams, RANSAC.nanFirstEnv, RANSAC.tableEnv,
      getParams_columnSVD, countingSample, Estimation.toEllipse_mk]
  · simp [RANSAC.trialParams, RANSAC.nanFirstEnv, RANSAC.tableEnv, getParams_columnSVD,
      countingSample, Estimation.toEllipse_mk]
  · have h : forLoop RANSAC.oneRunCfg.numRuns
        (RANSAC.body RANSAC.nanFirstEnv RANSAC.oneRunCfg []) 2 0 0
        ⟨0, Estimation.default, ⟨0, 0⟩⟩
        = some (2, ⟨3, ⟨![2, 0, 2, 0, 0, 1]⟩, ⟨3, 1⟩⟩) := by
      simp [forLoop, RANSAC.body, RANSAC.nanFirstEnv, RANSAC.oneRunCfg, RANSAC.tableEnv,
        getParams_columnSVD, countingSample, Estimation.toEllipse_mk, RANSAC.minInliers_nil]
      norm_num
    unfold RANSAC.get
    rw [h]
    rfl
  · simp [RANSACPixel.trialGeo, RANSACPixel.trialCanon, RANSACPixel.trialParams,
      RANSACPixel.nanFirstEnv, RANSACPixel.tableEnv, getParams_columnSVD, countingSample,
      Estimation.toEllipse_mk, CanonicalParams.fixF]
    norm_num
  · simp [RANSACPixel.trialParams, RANSACPixel.nanFirstEnv, RANSACPixel.tableEnv,
      getParams_columnSVD, countingSample, Estimation.toEllipse_mk]
  · have h : forLoop RANSACPixel.oneRunCfg.numRuns
        (RANSACPixel.body RANSACPixel.nanFirstEnv RANSACPixel.oneRunCfg) 2 0 0
        ⟨ImageMatchStats.zero, Estimation.default⟩
        = some (2, ⟨⟨1, 10⟩, ⟨![2, 0, 2, 0, 0, 1]⟩⟩) := by
      simp [forLoop, RANSACPixel.body, RANSACPixel.nanFirstEnv, RANSACPixel.oneRunCfg,
        RANSACPixel.tableEnv, RANSACPixel.IGNORE, getParams_columnSVD, countingSample,
        Estimation.toEllipse_mk, CanonicalParams.fixF, ImageMatchStats.zero]
      norm_num
    unfold RANSACPixel.get
    rw [h]
    rfl

/-! ## C19: the constraints of the image-brightness loop -/

theorem RANSACPixel.accepted_iff (env : RANSACPixel.Env R) (cfg : RANSACPixel.Config R)
    (k : ℕ) :
    RANSACPixel.Accepted env cfg k ↔
      0 < (RANSACPixel.trialCanon env k).F ∧
      ∃ a b, (RANSACPixel.trialGeo env k).a = some a ∧ (RANSACPixel.trialGeo env k).b = some b ∧
        (cfg.minRatio ≠ RANSACPixel.IGNORE →
          cfg.minRatio ≤ env.getRatio (RANSACPixel.trialGeo env k)) ∧
        (cfg.maxRatio ≠ RANSACPixel.IGNORE →
          env.getRatio (RANSACPixel.trialGeo env k) ≤ cfg.maxRatio) ∧
        (cfg.minSize ≠ RANSACPixel.IGNORE → cfg.minSize ≤ a + b) ∧
        (cfg.maxSize ≠ RANSACPixel.IGNORE → a + b ≤ cfg.maxSize) ∧
        (cfg.minCoverage ≠ RANSACPixel.IGNORE →
          cfg.minCoverage ≤ (RANSACPixel.trialStats env cfg k).outlineCoverage) := by
  unfold RANSACPixel.Accepted
  simp only [not_and, not_lt, gt_iff_lt]

/-- C19: an execution of the loop body of `RANSACPixel::get` that changes the
best candidate belongs to a trial with `F > 0` and numeric semi-axes that meets
every constraint not set to `IGNORE`: `minRatio ≤ ratio`, `ratio ≤ maxRatio`,
`minSize ≤ a + b`, `a + b ≤ maxSize`, `minCoverage ≤ outlineCoverage`, each
guarded by its own sentinel test.  Conversely a trial with `F > 0` and numeric
semi-axes that meets every constraint not set to `IGNORE` replaces the best
candidate unless its `matchValue` is lower than the best one's.  The conic and
stats a call returns are the initial ones or those of such a trial. -/
theorem RANSACPixel.constraints_enforced (env : RANSACPixel.Env R)
    (cfg : RANSACPixel.Config R) :
    (∀ k st, (RANSACPixel.body env cfg k st).2 ≠ st →
      ∃ a b, (RANSACPixel.trialGeo env k).a = some a ∧ (RANSACPixel.trialGeo env k).b = some b ∧
        (cfg.minRatio ≠ RANSACPixel.IGNORE →
          cfg.minRatio ≤ env.getRatio (RANSACPixel.trialGeo env k)) ∧
        (cfg.maxRatio ≠ RANSACPixel.IGNORE →
          env.getRatio (RANSACPixel.trialGeo env k) ≤ cfg.maxRatio) ∧
        (cfg.minSize ≠ RANSACPixel.IGNORE → cfg.minSize ≤ a + b) ∧
        (cfg.maxSize ≠ RANSACPixel.IGNORE → a + b ≤ cfg.maxSize) ∧
        (cfg.minCoverage ≠ RANSACPixel.IGNORE →
          cfg.minCoverage ≤ (RANSACPixel.trialStats env cfg k).outlineCoverage)) ∧
    (∀ k st a b, 0 < (RANSACPixel.trialCanon env k).F →
      (RANSACPixel.trialGeo env k).a = some a → (RANSACPixel.trialGeo env k).b = some b →
      (cfg.minRatio ≠ RANSACPixel.IGNORE →
        cfg.minRatio ≤ env.getRatio (RANSACPixel.trialGeo env k)) →
      (cfg.maxRatio ≠ RANSACPixel.IGNORE →
        env.getRatio (RANSACPixel.trialGeo env k) ≤ cfg.maxRatio) →
      (cfg.minSize ≠ RANSACPixel.IGNORE → cfg.minSize ≤ a + b) →
      (cfg.maxSize ≠ RANSACPixel.IGNORE → a + b ≤ cfg.maxSize) →
      (cfg.minCoverage ≠ RANSACPixel.IGNORE →
        cfg.minCoverage ≤ (RANSACPixel.trialStats env cfg k).outlineCoverage) →
      st.bestStats.matchValue ≤ (RANSACPixel.trialStats env cfg k).matchValue →
      (RANSACPixel.body env cfg k st).2
        = ⟨RANSACPixel.trialStats env cfg k, RANSACPixel.trialParams env k⟩) ∧
    (∀ fuel k c s, RANSACPixel.get env cfg fuel = some (k, c, s) →
      (c = ⟨0, 0, 0, 0, 0, 1⟩ ∧ s = ImageMatchStats.zero) ∨
      ∃ j a b, j < k ∧ c = (RANSACPixel.trialParams env j).toEllipse ∧
        s = RANSACPixel.trialStats env cfg j ∧
        (RANSACPixel.trialGeo env j).a = some a ∧ (RANSACPixel.trialGeo env j).b = some b ∧
        (cfg.minRatio ≠ RANSACPixel.IGNORE →
          cfg.minRatio ≤ env.getRatio (RANSACPixel.trialGeo env j)) ∧
        (cfg.maxRatio ≠ RANSACPixel.IGNORE →
          env.getRatio (RANSACPixel.trialGeo env j) ≤ cfg.maxRatio) ∧
        (cfg.minSize ≠ RANSACPixel.IGNORE → cfg.minSize ≤ a + b) ∧
        (cfg.maxSize ≠ RANSACPixel.IGNORE → a + b ≤ cfg.maxSize) ∧
        (cfg.minCoverage ≠ RANSACPixel.IGNORE → cfg.minCoverage ≤ s.outlineCoverage)) := by
  refine ⟨?_, ?_, ?_⟩
  · intro k st h
    by_cases hacc : RANSACPixel.Accepted env cfg k
    · exact ((RANSACPixel.accepted_iff env cfg k).mp hacc).2
    · exact absurd (RANSACPixel.pixelBody_snd_of_not_accepted env cfg k st hacc) h
  · intro k st a b hF ha hb h1 h2 h3 h4 h5 hm
    have hacc : RANSACPixel.Accepted env cfg k :=
      (RANSACPixel.accepted_iff env cfg k).mpr ⟨hF, a, b, ha, hb, h1, h2, h3, h4, h5⟩
    rw [RANSACPixel.pixelBody_snd_of_accepted env cfg k st hacc, if_neg (not_lt.mpr hm)]
  · intro fuel k c s h
    rcases RANSACPixel.pixelGet_returns_accepted_or_default env cfg fuel k c s h with
      h | ⟨j, hj, hc, hs, hacc⟩
    · exact Or.inl h
    · obtain ⟨_, a, b, ha, hb, h1, h2, h3, h4, h5⟩ := (RANSACPixel.accepted_iff env cfg j).mp hacc
      exact Or.inr ⟨j, a, b, hj, hc, hs, ha, hb, h1, h2, h3, h4, hs ▸ h5⟩

/-- C19 (example): one trial with `a + b = 6`, all constraints but `maxSize` and
`minCoverage` switched off.  With `maxSize = 8` the trial becomes the best
candidate and is returned; with `maxSize = 5` it is skipped and the default conic
is returned. -/
theorem RANSACPixel.max_size_example :
    RANSACPixel.get RANSACPixel.sizeSixEnv (RANSACPixel.sizeCfg 8) 1
      = some (1, ⟨3, 0, 3, 0, 0, 1⟩, ⟨1, 10⟩) ∧
    RANSACPixel.get RANSACPixel.sizeSixEnv (RANSACPixel.sizeCfg 5) 1
      = some (1, ⟨0, 0, 0, 0, 0, 1⟩, ⟨0, 0⟩) := by
  constructor
  · have h : forLoop (RANSACPixel.sizeCfg 8).numRuns
        (RANSACPixel.body RANSACPixel.sizeSixEnv (RANSACPixel.sizeCfg 8)) 1 0 0
        ⟨ImageMatchStats.zero, Estimation.default⟩
        = some (1, ⟨⟨1, 10⟩, ⟨![3, 0, 3, 0, 0, 1]⟩⟩) := by
      simp [forLoop, RANSACPixel.body, RANSACPixel.sizeSixEnv, RANSACPixel.sizeCfg,
        RANSACPixel.tableEnv, RANSACPixel.IGNORE, getParams_columnSVD, countingSample,
        Estimation.toEllipse_mk, CanonicalParams.fixF, ImageMatchStats.zero]
      norm_num
    unfold RANSACPixel.get
    rw [h]
    rfl
  · have h : forLoop (RANSACPixel.sizeCfg 5).numRuns
        (RANSACPixel.body RANSACPixel.sizeSixEnv (RANSACPixel.sizeCfg 5)) 1 0 0
        ⟨ImageMatchStats.zero, Estimation.default⟩
        = some (1, ⟨ImageMatchStats.zero, Estimation.default⟩) := by
      simp [forLoop, RANSACPixel.body, RANSACPixel.sizeSixEnv, RANSACPixel.sizeCfg,
        RANSACPixel.tableEnv, RANSACPixel.IGNORE, getParams_columnSVD, countingSample,
        Estimation.toEllipse_mk, CanonicalParams.fixF, ImageMatchStats.zero]
      norm_num
    unfold RANSACPixel.get
    rw [h]
    simp [Estimation.toEllipse_default, ImageMatchStats.zero]

/-! ## C18: the segment index in `getStats` -/

theorem RANSAC.normalisedDeg_mem_iff (deg : ℤ) :
    (0 ≤ RANSAC.normalisedDeg deg ∧ RANSAC.normalisedDeg deg < 360)
      ↔ (-360 ≤ deg ∧ deg ≠ 360) := by
  unfold RANSAC.normalisedDeg
  by_cases h1 : deg < 0
  · simp only [h1, if_true]
    have h2 : ¬ (360 + deg > 360) := by omega
    simp only [h2, if_false]
    omega
  · simp only [h1, if_false]
    by_cases h2 : deg > 360
    · simp only [h2, if_true]
      rw [Int.tmod_eq_emod (by omega) (by omega)]
      omega
    · simp only [h2, if_false]
      omega

theorem RANSAC.segments_mem (apx : ℤ) : 1 ≤ RANSAC.segments apx ∧ RANSAC.segments apx ≤ 200 := by
  unfold RANSAC.segments
  constructor
  · exact le_min (by norm_num) (le_max_left _ _)
  · exact min_le_left _ _

theorem RANSAC.seg_mem_of_normalised (deg n : ℤ) (hn : 1 ≤ n)
    (h : 0 ≤ RANSAC.normalisedDeg deg ∧ RANSAC.normalisedDeg deg < 360) :
    0 ≤ RANSAC.seg deg n ∧ RANSAC.seg deg n < n := by
  unfold RANSAC.seg
  obtain ⟨h0, h1⟩ := h
  have hprod : 0 ≤ RANSAC.normalisedDeg deg * n := mul_nonneg h0 (by omega)
  rw [Int.tdiv_eq_ediv hprod (by omega)]
  constructor
  · exact Int.ediv_nonneg hprod (by omega)
  · apply Int.ediv_lt_of_lt_mul (by omega)
    nlinarith

/-- C18 (code diverges): the degree 360 is left at 360 (the test is `deg > 360`)
and yields `seg = segments`, one past the end of `degCovered`; the degree -720
becomes -360 and yields `seg = -segments`, before the start; the degree -361
becomes -1, outside `[0, 360)`. -/
theorem RANSAC.seg_out_of_bounds :
    RANSAC.normalisedDeg 360 = 360 ∧ (∀ n, RANSAC.seg 360 n = n) ∧
    RANSAC.normalisedDeg (-720) = -360 ∧ (∀ n, RANSAC.seg (-720) n = -n) ∧
    RANSAC.normalisedDeg (-361) = -1 := by
  refine ⟨by decide, ?_, by decide, ?_, by decide⟩
  · intro n
    unfold RANSAC.seg
    rw [show RANSAC.normalisedDeg 360 = 360 from by decide]
    exact Int.mul_tdiv_cancel_left n (by norm_num)
  · intro n
    unfold RANSAC.seg
    rw [show RANSAC.normalisedDeg (-720) = -360 from by decide,
      show (-360 : ℤ) * n = 360 * (-n) from by ring]
    exact Int.mul_tdiv_cancel_left (-n) (by norm_num)

/-! ## C16: the coverage reported by `getStats` -/

theorem count_set_true (l : List Bool) (i : ℕ) (h : l[i]? = some false) :
    (l.set i true).count true = l.count true + 1 := by
  obtain ⟨hi, hget⟩ := List.getElem?_eq_some.mp h
  rw [List.count_set true true l i hi, hget]
  simp

/-- the summand of the coverage for one segment is 1 -/
theorem RANSAC.coverageShare_one [FloorRing R] : RANSAC.coverageShare (1 : ℤ) = (1 : R) := by
  unfold RANSAC.coverageShare
  simp [roundFloat_one]

theorem RANSAC.floatSum_nonneg [FloorRing R] (t : R) (ht : 0 ≤ t) (n : ℕ) :
    0 ≤ RANSAC.floatSum t n := by
  induction n with
  | zero => exact le_rfl
  | succ n ih => exact roundFloat_nonneg _ (add_nonneg ih ht)

/-- the loop body of `getStats` for an inlier whose degree is `deg` -/
theorem RANSAC.countPoint_of_deg [FloorRing R] (res : RANSAC.DistanceResult R)
    (distance : R) (n : ℤ) (st : RANSAC.MatchStats R × List Bool) (deg : ℤ)
    (hd : res.distance < distance) (hdeg : RANSAC.degOf res.origRad = some deg) :
    RANSAC.countPoint res distance n st =
      if RANSAC.seg deg n < 0 then none else
      match st.2[(RANSAC.seg deg n).toNat]? with
      | none => none
      | some true => some (⟨st.1.numInliers + 1, st.1.outlineCoverage⟩, st.2)
      | some false =>
        some (⟨st.1.numInliers + 1,
            roundFloat (st.1.outlineCoverage + RANSAC.coverageShare n)⟩,
          st.2.set (RANSAC.seg deg n).toNat true) := by
  unfold RANSAC.countPoint
  simp only [hd, if_true, hdeg]

/-- the invariant of the loop of `getStats`: `degCovered` has `segments`
entries and the coverage is the `float` sum of one summand `1.0f / segments` for
every covered segment -/
theorem RANSAC.countPoint_invariant [FloorRing R] (res : RANSAC.DistanceResult R)
    (distance : R) (n : ℤ) (st st' : RANSAC.MatchStats R × List Bool)
    (h : RANSAC.countPoint res distance n st = some st')
    (hinv : st.2.length = n.toNat ∧
      st.1.outlineCoverage = RANSAC.floatSum (RANSAC.coverageShare n) (st.2.count true)) :
    st'.2.length = n.toNat ∧
      st'.1.outlineCoverage = RANSAC.floatSum (RANSAC.coverageShare n) (st'.2.count true) := by
  unfold RANSAC.countPoint at h
  by_cases hd : res.distance < distance
  · simp only [hd, if_true] at h
    cases hdeg : RANSAC.degOf res.origRad with
    | none => simp [hdeg] at h
    | some deg =>
      simp only [hdeg] at h
      by_cases hs : RANSAC.seg deg n < 0
      · simp [hs] at h
      · simp only [hs, if_false] at h
        cases hget : st.2[(RANSAC.seg deg n).toNat]? with
        | none => simp [hget] at h
        | some covered =>
          cases covered with
          | true =>
            simp only [hget, Option.some.injEq] at h
            rw [← h]
            exact hinv
          | false =>
            simp only [hget, Option.some.injEq] at h
            rw [← h]
            refine ⟨by simp [hinv.1], ?_⟩
            simp only
            rw [count_set_true _ _ hget, hinv.2]
            rfl
  · simp only [hd, if_false, Option.some.injEq] at h
    rw [← h]
    exact hinv

theorem RANSAC.foldlM_countPoint_invariant [FloorRing R]
    (getBest : GeometricParams R → Point2 R → RANSAC.DistanceResult R)
    (geo : GeometricParams R) (distance : R) (n : ℤ) (ps : List (Point2 R))
    (st st' : RANSAC.MatchStats R × List Bool)
    (h : ps.foldlM (fun st p => RANSAC.countPoint (getBest geo p) distance n st) st = some st')
    (hinv : st.2.length = n.toNat ∧
      st.1.outlineCoverage = RANSAC.floatSum (RANSAC.coverageShare n) (st.2.count true)) :
    st'.2.length = n.toNat ∧
      st'.1.outlineCoverage = RANSAC.floatSum (RANSAC.coverageShare n) (st'.2.count true) := by
  induction ps generalizing st with
  | nil =>
    simp only [List.foldlM_nil, pure, Option.some.injEq] at h
    rw [← h]
    exact hinv
  | cons p ps ih =>
    rw [List.foldlM_cons] at h
    cases hstep : RANSAC.countPoint (getBest geo p) distance n st with
    | none => simp [hstep] at h
    | some st1 =>
      rw [hstep] at h
      exact ih st1 h (RANSAC.countPoint_invariant _ _ _ _ _ hstep hinv)

/-- whenever `getStats` has a result, its `outlineCoverage` is the `float` sum
of one summand `1.0f / segments` for each of `c` covered segments, with
`c ≤ segments`; it is not negative -/
theorem RANSAC.getStats_coverage_eq [FloorRing R]
    (getBest : GeometricParams R → Point2 R → RANSAC.DistanceResult R)
    (geo : GeometricParams R) (distance : R) (points : List (Point2 R)) (stepSize : ℤ)
    (stats : RANSAC.MatchStats R)
    (h : RANSAC.getStats getBest geo distance points stepSize = some stats) :
    ∃ (apx : ℤ) (c : ℕ), RANSAC.outlinePixelsApx geo = some apx ∧
      (c : ℤ) ≤ RANSAC.segments apx ∧
      stats.outlineCoverage = RANSAC.floatSum (RANSAC.coverageShare (RANSAC.segments apx)) c ∧
      0 ≤ stats.outlineCoverage := by
  unfold RANSAC.getStats at h
  cases hapx : RANSAC.outlinePixelsApx geo with
  | none => simp [hapx] at h
  | some apx =>
    cases hvis : RANSAC.visited points stepSize with
    | none => simp [hapx, hvis] at h
    | some ps =>
      simp only [hapx, hvis, Option.map_eq_some'] at h
      obtain ⟨st', hfold, rfl⟩ := h
      obtain ⟨h1, h200⟩ := RANSAC.segments_mem apx
      have hinv := RANSAC.foldlM_countPoint_invariant getBest geo distance (RANSAC.segments apx)
        ps _ st' hfold
        ⟨by simp, by simp [RANSAC.MatchStats.zero, List.count_replicate, RANSAC.floatSum]⟩
      have hc : st'.2.count true ≤ st'.2.length := List.count_le_length _ _
      have hlen : ((st'.2.length : ℕ) : ℤ) = RANSAC.segments apx := by
        rw [hinv.1, Int.toNat_of_nonneg (by omega)]
      refine ⟨apx, st'.2.count true, rfl, ?_, hinv.2, ?_⟩
      · rw [← hlen]
        exact_mod_cast hc
      · rw [hinv.2]
        apply RANSAC.floatSum_nonneg
        unfold RANSAC.coverageShare
        apply roundFloat_nonneg
        apply div_nonneg zero_le_one
        apply roundFloat_nonneg
        exact_mod_cast (by omega : (0 : ℤ) ≤ RANSAC.segments apx)

theorem RANSAC.visited_subset {α : Type} (points ps : List α) (stepSize : ℤ)
    (h : RANSAC.visited points stepSize = some ps) : ∀ p ∈ ps, p ∈ points := by
  cases points with
  | nil =>
    simp only [RANSAC.visited, Option.some.injEq] at h
    rw [← h]
    intro p hp
    exact absurd hp (List.not_mem_nil p)
  | cons q qs =>
    simp only [RANSAC.visited] at h
    by_cases hs : stepSize ≤ 0
    · simp [hs] at h
    · simp only [hs, if_false, Option.some.injEq] at h
      rw [← h]
      intro p hp
      obtain ⟨i, _, hi⟩ := List.mem_filterMap.mp hp
      by_cases hmod : i % stepSize.toNat = 0
      · simp only [hmod, if_true] at hi
        exact List.getElem?_mem hi
      · simp [hmod] at hi

theorem RANSAC.visited_isSome {α : Type} (points : List α) (stepSize : ℤ) (hs : 1 ≤ stepSize) :
    ∃ ps, RANSAC.visited points stepSize = some ps := by
  cases points with
  | nil => exact ⟨[], rfl⟩
  | cons q qs =>
    simp only [RANSAC.visited]
    rw [if_neg (by omega)]
    exact ⟨_, rfl⟩

theorem RANSAC.countPoint_isSome [FloorRing R] (res : RANSAC.DistanceResult R)
    (distance : R) (n : ℤ) (hn : 1 ≤ n) (st : RANSAC.MatchStats R × List Bool)
    (hlen : st.2.length = n.toNat)
    (hdeg : res.distance < distance →
      ∃ deg, RANSAC.degOf res.origRad = some deg ∧ -360 ≤ deg ∧ deg ≠ 360) :
    ∃ st', RANSAC.countPoint res distance n st = some st' := by
  unfold RANSAC.countPoint
  by_cases hd : res.distance < distance
  · simp only [hd, if_true]
    obtain ⟨deg, hdegv, hlo, hne⟩ := hdeg hd
    simp only [hdegv]
    obtain ⟨h0, h1⟩ := RANSAC.seg_mem_of_normalised deg n hn
      ((RANSAC.normalisedDeg_mem_iff _).mpr ⟨hlo, hne⟩)
    rw [if_neg (by omega)]
    have hi : (RANSAC.seg deg n).toNat < st.2.length := by
      rw [hlen]
      omega
    rw [List.getElem?_eq_getElem hi]
    cases st.2[(RANSAC.seg deg n).toNat] with
    | true => exact ⟨_, rfl⟩
    | false => exact ⟨_, rfl⟩
  · simp only [hd, if_false]
    exact ⟨_, rfl⟩

theorem RANSAC.foldlM_countPoint_isSome [FloorRing R]
    (getBest : GeometricParams R → Point2 R → RANSAC.DistanceResult R)
    (geo : GeometricParams R) (distance : R) (n : ℤ) (hn : 1 ≤ n) (ps : List (Point2 R))
    (hdeg : ∀ p ∈ ps, (getBest geo p).distance < distance →
      ∃ deg, RANSAC.degOf (getBest geo p).origRad = some deg ∧ -360 ≤ deg ∧ deg ≠ 360)
    (st : RANSAC.MatchStats R × List Bool)
    (hlen : st.2.length = n.toNat) :
    ∃ st', ps.foldlM (fun st p => RANSAC.countPoint (getBest geo p) distance n st) st
      = some st' := by
  induction ps generalizing st with
  | nil => exact ⟨st, rfl⟩
  | cons p ps ih =>
    obtain ⟨st1, h1⟩ := RANSAC.countPoint_isSome (getBest geo p) distance n hn st hlen
      (hdeg p (List.mem_cons_self p ps))
    rw [List.foldlM_cons, h1]
    have hlen1 : st1.2.length = n.toNat := by
      unfold RANSAC.countPoint at h1
      by_cases hd : (getBest geo p).distance < distance
      · simp only [hd, if_true] at h1
        cases hdegv : RANSAC.degOf (getBest geo p).origRad with
        | none => simp [hdegv] at h1
        | some deg =>
          simp only [hdegv] at h1
          by_cases hs : RANSAC.seg deg n < 0
          · simp [hs] at h1
          · simp only [hs, if_false] at h1
            cases hget : st.2[(RANSAC.seg deg n).toNat]? with
            | none => simp [hget] at h1
            | some covered =>
              cases covered with
              | true =>
                simp only [hget, Option.some.injEq] at h1
                rw [← h1]
                exact hlen
              | false =>
                simp only [hget, Option.some.injEq] at h1
                rw [← h1]
                simp [hlen]
      · simp only [hd, if_false, Option.some.injEq] at h1
        rw [← h1]
        exact hlen
    exact ih (fun q hq => hdeg q (List.mem_cons_of_mem p hq)) st1 hlen1

/-- for a stride of at least 1 and a geometry whose outline length has a value,
`getStats` has a result whenever the degree of every inlier has a value that is
at least -360 and different from 360 -/
theorem RANSAC.getStats_defined [FloorRing R]
    (getBest : GeometricParams R → Point2 R → RANSAC.DistanceResult R)
    (geo : GeometricParams R) (distance : R) (points : List (Point2 R)) (stepSize : ℤ)
    (hs : 1 ≤ stepSize) (apx : ℤ) (hapx : RANSAC.outlinePixelsApx geo = some apx)
    (hdeg : ∀ p ∈ points, (getBest geo p).distance < distance →
      ∃ deg, RANSAC.degOf (getBest geo p).origRad = some deg ∧ -360 ≤ deg ∧ deg ≠ 360) :
    ∃ stats, RANSAC.getStats getBest geo distance points stepSize = some stats := by
  obtain ⟨ps, hvis⟩ := RANSAC.visited_isSome points stepSize hs
  obtain ⟨st', hfold⟩ := RANSAC.foldlM_countPoint_isSome getBest geo distance
    (RANSAC.segments apx) (RANSAC.segments_mem apx).1 ps
    (fun p hp => hdeg p (RANSAC.visited_subset points ps stepSize hvis p hp))
    (RANSAC.MatchStats.zero, List.replicate (RANSAC.segments apx).toNat false)
    (by simp)
  have hres : RANSAC.getStats getBest geo distance points stepSize = some st'.1 := by
    unfold RANSAC.getStats
    simp only [hapx, hvis, hfold, Option.map_some']
  exact ⟨st'.1, hres⟩

/-- the outline length of the unit circle: `2.0f * (float)M_PI` truncates to 6 -/
theorem outlinePixelsApx_unitCircle : RANSAC.outlinePixelsApx unitCircle = some 6 := by
  have h : roundFloat (roundFloat (2 * floatPi : ℚ) * 1) = 2 * floatPi := by
    rw [roundFloat_two_floatPi, mul_one, roundFloat_two_floatPi]
  simp only [RANSAC.outlinePixelsApx, unitCircle, RANSAC.stdMax, lt_self_iff_false, if_false,
    Option.some_bind, h]
  exact intOfFloat_eq_some _ 6
    (truncToInt_of_nonneg _ 6 (by norm_num [floatPi]) (by norm_num [floatPi])
      (by norm_num [floatPi])) (by decide)

/-- the degree of the outline angle 0 is 0 -/
theorem degOf_zero : RANSAC.degOf (0 : ℚ) = some 0 := by
  unfold RANSAC.degOf
  rw [zero_mul, roundFloat_zero, zero_div, roundFloat_zero]
  exact intOfFloat_eq_some _ 0 truncToInt_zero (by decide)

/-- the degree of the outline angle 1: `180 / (float)M_PI` rounds to
`469367 / 8192 = 57.2957...` and truncates to 57 -/
theorem degOf_one : RANSAC.degOf (1 : ℚ) = some 57 := by
  have h1 : roundFloat ((1 : ℚ) * 180) = 180 := by
    simpa using roundFloat_natCast (R := ℚ) 180 (by norm_num)
  have h2 : roundFloat ((180 : ℚ) / floatPi) = 469367 / 8192 :=
    roundFloat_eval_pos _ _ 5 15019744 (by norm_num) (by norm_num [floatPi]) (by norm_num [floatPi]) (by norm_num [floatPi]) (by norm_num [floatPi]) (by norm_num)
  unfold RANSAC.degOf
  rw [h1, h2]
  exact intOfFloat_eq_some _ 57
    (truncToInt_of_nonneg _ 57 (by norm_num) (by norm_num) (by norm_num)) (by decide)

/-- the degree of the outline angle `2 * (float)M_PI`: the product with 180
rounds to `4632467/4096` and the quotient by `(float)M_PI` rounds to 360 -/
theorem degOf_full_turn : RANSAC.degOf (2 * floatPi : ℚ) = some 360 := by
  have h1 : roundFloat ((2 * floatPi : ℚ) * 180) = (4632467 / 4096) :=
    roundFloat_eval_pos _ _ 10 9264934 (by norm_num) (by norm_num [floatPi]) (by norm_num [floatPi]) (by norm_num [floatPi]) (by norm_num [floatPi]) (by norm_num)
  have h2 : roundFloat (((4632467 / 4096) : ℚ) / floatPi) = 360 :=
    roundFloat_eval_pos _ _ 8 11796480 (by norm_num) (by norm_num [floatPi]) (by norm_num [floatPi]) (by norm_num [floatPi]) (by norm_num [floatPi]) (by norm_num)
  unfold RANSAC.degOf
  rw [h1, h2]
  exact intOfFloat_eq_some _ 360 (by simpa using truncToInt_intCast (R := ℚ) 360) (by decide)

/-- `getStats` on the unit circle (one segment) with two inliers at the outline
angles 0 and 1 (0 and 57 degrees): both fall into segment 0, which is counted once -/
theorem RANSAC.getStats_example :
    RANSAC.getStats angleOracle unitCircle 1 [⟨0, 0⟩, ⟨1, 0⟩] 1 = some ⟨2, 1⟩ := by
  have hapx := outlinePixelsApx_unitCircle
  have hseg : RANSAC.segments 6 = 1 := by decide
  have hvis : RANSAC.visited [(⟨0, 0⟩ : Point2 ℚ), ⟨1, 0⟩] 1 = some [⟨0, 0⟩, ⟨1, 0⟩] := by
    simp [RANSAC.visited, List.range_succ]
  have hshare : roundFloat ((0 : ℚ) + RANSAC.coverageShare 1) = 1 := by
    rw [RANSAC.coverageShare_one, zero_add, roundFloat_one]
  have hor0 : angleOracle unitCircle ⟨0, 0⟩ = ⟨0, 0⟩ := rfl
  have hor1 : angleOracle unitCircle ⟨1, 0⟩ = ⟨0, 1⟩ := rfl
  have hd0 : (⟨0, 0⟩ : RANSAC.DistanceResult ℚ).distance < 1 := by norm_num
  have hd1 : (⟨0, 1⟩ : RANSAC.DistanceResult ℚ).distance < 1 := by norm_num
  have hdeg0 : RANSAC.degOf (⟨0, 0⟩ : RANSAC.DistanceResult ℚ).origRad = some 0 := degOf_zero
  have hdeg1 : RANSAC.degOf (⟨0, 1⟩ : RANSAC.DistanceResult ℚ).origRad = some 57 := degOf_one
  have hc0 : RANSAC.countPoint (angleOracle unitCircle ⟨0, 0⟩) 1 1
      (RANSAC.MatchStats.zero, [false]) = some (⟨1, 1⟩, [true]) := by
    rw [hor0, RANSAC.countPoint_of_deg _ _ _ _ 0 hd0 hdeg0,
      show RANSAC.seg 0 1 = 0 from by decide]
    simp only [RANSAC.MatchStats.zero, hshare]
    rfl
  have hc1 : RANSAC.countPoint (angleOracle unitCircle ⟨1, 0⟩) 1 1
      (⟨1, 1⟩, [true]) = some (⟨2, 1⟩, [true]) := by
    rw [hor1, RANSAC.countPoint_of_deg _ _ _ _ 57 hd1 hdeg1,
      show RANSAC.seg 57 1 = 0 from by decide]
    rfl
  unfold RANSAC.getStats
  rw [hapx]
  simp only [hvis, hseg]
  rw [show (1 : ℤ).toNat = 1 from rfl]
  simp only [List.replicate, List.foldlM_cons, List.foldlM_nil, hc0, Option.bind_eq_bind,
    Option.some_bind, hc1]
  rfl

/-- C16 (code diverges): the unit circle (one segment), the single point whose
oracle result is distance 0 at the outline angle `2 * (float)M_PI`, threshold 1,
stride 1.  The point is an inlier with `deg = 360` and `seg = 1`, and
`degCovered` has the single entry `degCovered[0]`: the access is out of bounds and
`getStats` has no defined result. -/
theorem RANSAC.getStats_undefined_at_full_turn :
    RANSAC.outlinePixelsApx unitCircle = some 6 ∧ RANSAC.segments 6 = 1 ∧
    truncToInt ((2 * floatPi : ℚ) * 180 / floatPi) = 360 ∧
    RANSAC.getStats angleOracle unitCircle 1 [⟨2 * floatPi, 0⟩] 1 = none := by
  have hapx := outlinePixelsApx_unitCircle
  have hseg : RANSAC.segments 6 = 1 := by decide
  have hdeg : truncToInt ((2 * floatPi : ℚ) * 180 / floatPi) = 360 := by
    norm_num [truncToInt, floatPi]
  refine ⟨hapx, hseg, hdeg, ?_⟩
  have hvis : RANSAC.visited [(⟨2 * floatPi, 0⟩ : Point2 ℚ)] 1 = some [⟨2 * floatPi, 0⟩] := by
    simp [RANSAC.visited, List.range_succ]
  have hor : angleOracle unitCircle ⟨2 * floatPi, 0⟩ = ⟨0, 2 * floatPi⟩ := rfl
  have hd : (⟨0, 2 * floatPi⟩ : RANSAC.DistanceResult ℚ).distance < 1 := by norm_num
  have hdeg360 : RANSAC.degOf (⟨0, 2 * floatPi⟩ : RANSAC.DistanceResult ℚ).origRad = some 360 :=
    degOf_full_turn
  have hcount : RANSAC.countPoint (angleOracle unitCircle ⟨2 * floatPi, 0⟩) 1 1
      (RANSAC.MatchStats.zero, [false]) = none := by
    rw [hor, RANSAC.countPoint_of_deg _ _ _ _ 360 hd hdeg360,
      show RANSAC.seg 360 1 = 1 from by decide]
    rfl
  unfold RANSAC.getStats
  rw [hapx]
  simp only [hvis, hseg]
  rw [show (1 : ℤ).toNat = 1 from rfl]
  simp only [List.replicate, List.foldlM_cons, hcount]
  rfl

/-! ## C17: the coverage reported by `getImageStats` -/

theorem Helper.sampleStep_coverage (getPointFor : GeometricParams R → R → Point2 R)
    (geo : GeometricParams R) (img : Helper.ImageChannel R) (threshold : R)
    (stats : ImageMatchStats R) (step : ℕ) :
    stats.outlineCoverage
        ≤ (Helper.sampleStep getPointFor geo img threshold stats step).outlineCoverage ∧
    (Helper.sampleStep getPointFor geo img threshold stats step).outlineCoverage
        ≤ stats.outlineCoverage + 1 := by
  unfold Helper.sampleStep
  simp only
  split_ifs <;> constructor <;> simp

theorem Helper.foldl_sampleStep_coverage (getPointFor : GeometricParams R → R → Point2 R)
    (geo : GeometricParams R) (img : Helper.ImageChannel R) (threshold : R)
    (steps : List ℕ) (stats : ImageMatchStats R) :
    stats.outlineCoverage
        ≤ (steps.foldl (Helper.sampleStep getPointFor geo img threshold) stats).outlineCoverage ∧
    (steps.foldl (Helper.sampleStep getPointFor geo img threshold) stats).outlineCoverage
        ≤ stats.outlineCoverage + steps.length := by
  induction steps generalizing stats with
  | nil => simp
  | cons step steps ih =>
    obtain ⟨h1, h2⟩ := Helper.sampleStep_coverage getPointFor geo img threshold stats step
    obtain ⟨h3, h4⟩ := ih (Helper.sampleStep getPointFor geo img threshold stats step)
    simp only [List.foldl_cons, List.length_cons, Nat.cast_add, Nat.cast_one]
    constructor <;> linarith

/-- C17: for every outline parametrisation, geometry, image and threshold, the
`outlineCoverage` returned by `Helper::getImageStats` lies in `[0, 1]`. -/
theorem Helper.getImageStats_coverage_mem (getPointFor : GeometricParams R → R → Point2 R)
    (geo : GeometricParams R) (img : Helper.ImageChannel R) (threshold : R) :
    0 ≤ (Helper.getImageStats getPointFor geo img threshold).outlineCoverage ∧
    (Helper.getImageStats getPointFor geo img threshold).outlineCoverage ≤ 1 := by
  obtain ⟨h1, h2⟩ := Helper.foldl_sampleStep_coverage getPointFor geo img threshold
    (List.range 360) ImageMatchStats.zero
  simp only [List.length_range, ImageMatchStats.zero, zero_add, Nat.cast_ofNat] at h1 h2
  unfold Helper.getImageStats
  simp only [ImageMatchStats.zero]
  constructor
  · exact div_nonneg h1 (by norm_num)
  · rw [div_le_one (by norm_num)]
    exact h2

theorem Helper.foldl_sampleStep_full (getPointFor : GeometricParams R → R → Point2 R)
    (geo : GeometricParams R) (img : Helper.ImageChannel R) (threshold : R)
    (hin : ∀ x y, img.contains x y = true) (hval : ∀ x y, threshold ≤ img.get x y)
    (steps : List ℕ) (stats : ImageMatchStats R) :
    (steps.foldl (Helper.sampleStep getPointFor geo img threshold) stats).outlineCoverage
      = stats.outlineCoverage + steps.length := by
  induction steps generalizing stats with
  | nil => simp
  | cons step steps ih =>
    rw [List.foldl_cons, ih]
    simp only [Helper.sampleStep, hin, ge_iff_le, hval, if_true, List.length_cons,
      Nat.cast_add, Nat.cast_one]
    simp only [Bool.true_eq_false, if_false]
    ring

/-- on an image that contains every sample and is nowhere darker than the
threshold the reported coverage is 1 -/
theorem Helper.getImageStats_full (getPointFor : GeometricParams R → R → Point2 R)
    (geo : GeometricParams R) (img : Helper.ImageChannel R) (threshold : R)
    (hin : ∀ x y, img.contains x y = true) (hval : ∀ x y, threshold ≤ img.get x y) :
    (Helper.getImageStats getPointFor geo img threshold).outlineCoverage = 1 := by
  unfold Helper.getImageStats
  simp only [Helper.foldl_sampleStep_full getPointFor geo img threshold hin hval,
    List.length_range, ImageMatchStats.zero, zero_add, Nat.cast_ofNat]
  norm_num

/-! ## C21: the point-inlier score and its reference definition -/

theorem filterMap_range_of_none {α : Type} (g : ℕ → Option α) (c m : ℕ) (hcm : c ≤ m)
    (hnone : ∀ j, c ≤ j → g j = none) :
    (List.range m).filterMap g = (List.range c).filterMap g := by
  induction m with
  | zero =>
    have : c = 0 := by omega
    rw [this]
  | succ m ih =>
    rcases Nat.eq_or_lt_of_le hcm with h | h
    · rw [h]
    · have hle : c ≤ m := by omega
      rw [List.range_succ, List.filterMap_append, ih hle]
      simp [hnone m hle]

theorem multiples_below {α : Type} (l : List α) (k : ℕ) (hk : 1 ≤ k) (n : ℕ) :
    ∃ c, n ≤ c * k ∧ (c = 0 ∨ (c - 1) * k < n) ∧
      (List.range n).filterMap (fun i => if i % k = 0 then l[i]? else none)
        = (List.range c).filterMap fun j => l[j * k]? := by
  induction n with
  | zero => exact ⟨0, by simp, Or.inl rfl, rfl⟩
  | succ n ih =>
    obtain ⟨c, h1, h2, h3⟩ := ih
    by_cases hmod : n % k = 0
    · obtain ⟨q, hq⟩ := Nat.dvd_of_mod_eq_zero hmod
      have hcq : c = q := by
        have hle : q ≤ c := by
          apply Nat.le_of_mul_le_mul_right _ hk
          rw [Nat.mul_comm q k, ← hq]
          exact h1
        rcases h2 with h0 | hlt
        · omega
        · have : c - 1 < q := by
            apply Nat.lt_of_mul_lt_mul_right (a := k)
            rw [Nat.mul_comm q k, ← hq]
            exact hlt
          omega
      have hn : n = c * k := by rw [hcq, hq, Nat.mul_comm]
      refine ⟨c + 1, ?_, Or.inr ?_, ?_⟩
      · rw [Nat.add_mul]; omega
      · simp only [Nat.add_sub_cancel]; omega
      · rw [List.range_succ, List.filterMap_append, h3, List.range_succ, List.filterMap_append]
        simp only [List.filterMap_cons, List.filterMap_nil, hn, Nat.mul_mod_left, if_true]
    · refine ⟨c, ?_, ?_, ?_⟩
      · rcases Nat.eq_or_lt_of_le h1 with h | h
        · exfalso
          apply hmod
          rw [h]
          exact Nat.mul_mod_left c k
        · omega
      · rcases h2 with h0 | hlt
        · exfalso
          apply hmod
          rw [h0] at h1
          have : n = 0 := by omega
          rw [this]
          exact Nat.zero_mod k
        · exact Or.inr (by omega)
      · rw [List.range_succ, List.filterMap_append, h3]
        simp [hmod]

theorem RANSAC.visited_eq_everyKth {α : Type} (points : List α) (stepSize : ℤ)
    (hs : 1 ≤ stepSize) :
    RANSAC.visited points stepSize = some (RANSAC.everyKth stepSize.toNat points) := by
  have hk : 1 ≤ stepSize.toNat := by omega
  cases points with
  | nil => rfl
  | cons p ps =>
    simp only [RANSAC.visited]
    rw [if_neg (by omega)]
    congr 1
    obtain ⟨c, h1, h2, h3⟩ := multiples_below (p :: ps) stepSize.toNat hk (p :: ps).length
    rw [h3]
    unfold RANSAC.everyKth
    symm
    apply filterMap_range_of_none
    · rcases h2 with h0 | hlt
      · omega
      · have : c - 1 ≤ (c - 1) * stepSize.toNat := Nat.le_mul_of_pos_right _ (by omega)
        omega
    · intro j hj
      apply List.getElem?_eq_none
      have : c * stepSize.toNat ≤ j * stepSize.toNat := Nat.mul_le_mul_right _ hj
      omega

/-- one execution of the loop body of `getStats` for an inlier with segment
`seg deg n` in range, on a state whose covered segments are the set `S`: one more
inlier is counted and the segment is added to `S` -/
theorem RANSAC.countPoint_covered [FloorRing R] (res : RANSAC.DistanceResult R)
    (distance : R) (n : ℤ) (st : RANSAC.MatchStats R × List Bool) (S : Finset ℤ) (deg : ℤ)
    (hlen : st.2.length = n.toNat)
    (hflag : ∀ s : ℤ, 0 ≤ s → s < n → (st.2[s.toNat]? = some true ↔ s ∈ S))
    (hcov : st.1.outlineCoverage = RANSAC.floatSum (RANSAC.coverageShare n) S.card)
    (hd : res.distance < distance) (hdeg : RANSAC.degOf res.origRad = some deg)
    (h0 : 0 ≤ RANSAC.seg deg n) (h1 : RANSAC.seg deg n < n) :
    ∃ st', RANSAC.countPoint res distance n st = some st' ∧
      st'.2.length = n.toNat ∧
      (∀ s : ℤ, 0 ≤ s → s < n →
        (st'.2[s.toNat]? = some true ↔ s ∈ insert (RANSAC.seg deg n) S)) ∧
      st'.1.outlineCoverage
        = RANSAC.floatSum (RANSAC.coverageShare n) (insert (RANSAC.seg deg n) S).card ∧
      st'.1.numInliers = st.1.numInliers + 1 := by
  rw [RANSAC.countPoint_of_deg res distance n st deg hd hdeg, if_neg (by omega)]
  have hi : (RANSAC.seg deg n).toNat < st.2.length := by
    rw [hlen]
    omega
  cases hget : st.2[(RANSAC.seg deg n).toNat]? with
  | none =>
    rw [List.getElem?_eq_getElem hi] at hget
    exact absurd hget (by simp)
  | some covered =>
    cases covered with
    | true =>
      have hmem : RANSAC.seg deg n ∈ S := (hflag _ h0 h1).mp hget
      refine ⟨_, rfl, hlen, ?_, ?_, rfl⟩
      · intro s hs0 hs1
        rw [Finset.insert_eq_of_mem hmem]
        exact hflag s hs0 hs1
      · rw [Finset.insert_eq_of_mem hmem]
        exact hcov
    | false =>
      have hnmem : RANSAC.seg deg n ∉ S := by
        intro hmem
        have := (hflag _ h0 h1).mpr hmem
        rw [hget] at this
        exact absurd this (by simp)
      refine ⟨_, rfl, by simp [hlen], ?_, ?_, rfl⟩
      · intro s hs0 hs1
        simp only [Finset.mem_insert]
        by_cases hs : s = RANSAC.seg deg n
        · rw [hs]
          simp only [true_or, iff_true]
          rw [List.getElem?_set_self hi]
        · have hne : (RANSAC.seg deg n).toNat ≠ s.toNat := by omega
          rw [List.getElem?_set_ne hne]
          simp only [hs, false_or]
          exact hflag s hs0 hs1
      · simp only
        rw [Finset.card_insert_of_not_mem hnmem, hcov]
        rfl

theorem RANSAC.foldlM_countPoint_covered [FloorRing R]
    (getBest : GeometricParams R → Point2 R → RANSAC.DistanceResult R)
    (geo : GeometricParams R) (distance : R) (n : ℤ) (ps : List (Point2 R))
    (hrange : ∀ p ∈ ps, (getBest geo p).distance < distance →
      ∃ s, RANSAC.segmentOf getBest geo n p = some s ∧ 0 ≤ s ∧ s < n)
    (st : RANSAC.MatchStats R × List Bool) (S : Finset ℤ)
    (hlen : st.2.length = n.toNat)
    (hflag : ∀ s : ℤ, 0 ≤ s → s < n → (st.2[s.toNat]? = some true ↔ s ∈ S))
    (hcov : st.1.outlineCoverage = RANSAC.floatSum (RANSAC.coverageShare n) S.card) :
    ∃ st', ps.foldlM (fun st p => RANSAC.countPoint (getBest geo p) distance n st) st
        = some st' ∧
      st'.1.outlineCoverage
        = RANSAC.floatSum (RANSAC.coverageShare n)
          (S ∪ ((ps.filter fun p => decide ((getBest geo p).distance < distance)).filterMap
            (RANSAC.segmentOf getBest geo n)).toFinset).card ∧
      st'.1.numInliers = st.1.numInliers
        + ((ps.filter fun p => decide ((getBest geo p).distance < distance)).length : ℤ) ∧
      (S ∪ ((ps.filter fun p => decide ((getBest geo p).distance < distance)).filterMap
            (RANSAC.segmentOf getBest geo n)).toFinset).card ≤ S.card + ps.length := by
  induction ps generalizing st S with
  | nil => exact ⟨st, rfl, by simpa using hcov, by simp, by simp⟩
  | cons p ps ih =>
    by_cases hd : (getBest geo p).distance < distance
    · obtain ⟨s, hs, hs0, hs1⟩ := hrange p (List.mem_cons_self p ps) hd
      unfold RANSAC.segmentOf at hs
      obtain ⟨deg, hdeg, rfl⟩ := Option.map_eq_some'.mp hs
      obtain ⟨st1, h1, hlen1, hflag1, hcov1, hnum1⟩ :=
        RANSAC.countPoint_covered (getBest geo p) distance n st S deg hlen hflag hcov hd hdeg
          hs0 hs1
      obtain ⟨st2, h2, hcov2, hnum2, hcard2⟩ :=
        ih (fun q hq => hrange q (List.mem_cons_of_mem p hq)) st1 _ hlen1 hflag1 hcov1
      have hset : S ∪ (((p :: ps).filter fun p =>
            decide ((getBest geo p).distance < distance)).filterMap
            (RANSAC.segmentOf getBest geo n)).toFinset
          = insert (RANSAC.seg deg n) S ∪ ((ps.filter fun p =>
            decide ((getBest geo p).distance < distance)).filterMap
            (RANSAC.segmentOf getBest geo n)).toFinset := by
        have hseg : RANSAC.segmentOf getBest geo n p = some (RANSAC.seg deg n) := by
          unfold RANSAC.segmentOf
          rw [hdeg]
          rfl
        rw [List.filter_cons, if_pos (by simpa using hd), List.filterMap_cons, hseg]
        ext x
        simp only [List.toFinset_cons, Finset.mem_union, Finset.mem_insert]
        tauto
      refine ⟨st2, ?_, ?_, ?_, ?_⟩
      · rw [List.foldlM_cons, h1]
        exact h2
      · rw [hcov2, hset]
      · rw [hnum2, hnum1, List.filter_cons, if_pos (by simpa using hd), List.length_cons]
        push_cast
        ring
      · rw [hset]
        have := Finset.card_insert_le (RANSAC.seg deg n) S
        rw [List.length_cons]
        omega
    · have hstep : RANSAC.countPoint (getBest geo p) distance n st = some st := by
        unfold RANSAC.countPoint
        rw [if_neg hd]
      obtain ⟨st2, h2, hcov2, hnum2, hcard2⟩ :=
        ih (fun q hq => hrange q (List.mem_cons_of_mem p hq)) st S hlen hflag hcov
      have hfilter : ((p :: ps).filter fun p => decide ((getBest geo p).distance < distance))
          = ps.filter fun p => decide ((getBest geo p).distance < distance) := by
        rw [List.filter_cons, if_neg (by simpa using hd)]
      refine ⟨st2, ?_, ?_, ?_, ?_⟩
      · rw [List.foldlM_cons, hstep]
        exact h2
      · rw [hcov2, hfilter]
      · rw [hnum2, hfilter]
      · rw [hfilter, List.length_cons]
        omega

/-- the result of `getStats` when every conversion has a value and every segment
index is in range: the score with the coverage accumulated in `float` -/
theorem RANSAC.getStats_eq_floatSpec_of_range [FloorRing R]
    (getBest : GeometricParams R → Point2 R → RANSAC.DistanceResult R)
    (geo : GeometricParams R) (distance : R) (points : List (Point2 R)) (stepSize : ℤ)
    (hs : 1 ≤ stepSize) (apx : ℤ) (hapx : RANSAC.outlinePixelsApx geo = some apx)
    (hrange : ∀ p ∈ RANSAC.everyKth stepSize.toNat points,
      (getBest geo p).distance < distance →
      ∃ s, RANSAC.segmentOf getBest geo (RANSAC.segments apx) p = some s ∧
        0 ≤ s ∧ s < RANSAC.segments apx) :
    RANSAC.getStats getBest geo distance points stepSize
      = some (RANSAC.getStatsFloatSpec getBest geo distance points stepSize.toNat
          (RANSAC.segments apx)) := by
  obtain ⟨h1, _⟩ := RANSAC.segments_mem apx
  obtain ⟨st', hfold, hcov, hnum, _⟩ := RANSAC.foldlM_countPoint_covered getBest geo distance
    (RANSAC.segments apx) (RANSAC.everyKth stepSize.toNat points) hrange
    (RANSAC.MatchStats.zero, List.replicate (RANSAC.segments apx).toNat false) ∅
    (by simp)
    (by
      intro s hs0 hs1
      have hlt : s.toNat < (List.replicate (RANSAC.segments apx).toNat false).length := by
        rw [List.length_replicate]; omega
      rw [List.getElem?_eq_getElem hlt]
      simp)
    (by simp [RANSAC.MatchStats.zero, RANSAC.floatSum])
  unfold RANSAC.getStats
  simp only [hapx, RANSAC.visited_eq_everyKth points stepSize hs, hfold, Option.map_some']
  congr 1
  cases hst : st'.1 with
  | mk num cov =>
    rw [hst] at hcov hnum
    simp only at hcov hnum
    simp only [RANSAC.getStatsFloatSpec, RANSAC.segmentsHit, RANSAC.inliersOf,
      RANSAC.MatchStats.mk.injEq]
    refine ⟨?_, ?_⟩
    · rw [hnum]
      simp [RANSAC.MatchStats.zero]
    · rw [hcov]
      simp

theorem filterMap_getElem_range {α : Type} (l : List α) :
    (List.range l.length).filterMap (fun i => l[i]?) = l := by
  induction l using List.reverseRecOn with
  | nil => rfl
  | append_singleton l a ih =>
    rw [List.length_append, List.length_singleton, List.range_succ, List.filterMap_append]
    have h : (List.range l.length).filterMap (fun i => (l ++ [a])[i]?)
        = (List.range l.length).filterMap (fun i => l[i]?) := by
      apply List.filterMap_congr
      intro i hi
      rw [List.mem_range] at hi
      exact List.getElem?_append_left hi
    rw [h, ih]
    simp

theorem RANSAC.everyKth_one {α : Type} (points : List α) :
    RANSAC.everyKth 1 points = points := by
  unfold RANSAC.everyKth
  simp only [Nat.mul_one]
  exact filterMap_getElem_range points


theorem RANSAC.floatSum_succ [FloorRing R] (t : R) (n : ℕ) :
    RANSAC.floatSum t (n + 1) = roundFloat (RANSAC.floatSum t n + t) := rfl

theorem RANSAC.coverageShare_eq [FloorRing R] (n : ℤ) (h1 : 1 ≤ n) (h200 : n ≤ 200) :
    RANSAC.coverageShare n = roundFloat (1 / (n : R)) := by
  unfold RANSAC.coverageShare
  rw [roundFloat_intCast n (by rw [abs_of_nonneg (by omega)]; omega)]

theorem RANSAC.coverageShare_bounds [FloorRing R] (n : ℤ) (h1 : 1 ≤ n) (h200 : n ≤ 200) :
    0 ≤ (RANSAC.coverageShare n : R) ∧ (RANSAC.coverageShare n : R) ≤ 1 ∧
      |(RANSAC.coverageShare n : R) - 1 / (n : R)| ≤ 2 ^ (-24 : ℤ) + 2 ^ (-150 : ℤ) := by
  have hn : (1 : R) ≤ (n : R) := by exact_mod_cast h1
  have hpos : (0 : R) < (n : R) := by linarith
  have hq0 : (0 : R) ≤ 1 / (n : R) := by positivity
  have hq1 : 1 / (n : R) ≤ 1 := by
    rw [div_le_one hpos]
    exact hn
  rw [RANSAC.coverageShare_eq n h1 h200]
  refine ⟨roundFloat_nonneg _ hq0, ?_, ?_⟩
  · have := roundFloat_le_natCast 1 (by norm_num) (1 / (n : R)) hq0 (by simpa using hq1)
    simpa using this
  · have h := abs_roundFloat_sub_le (1 / (n : R))
    rw [abs_of_nonneg hq0] at h
    have h24 : (0 : R) < 2 ^ (-24 : ℤ) := zpow_pos (by norm_num) _
    have : 1 / (n : R) * 2 ^ (-24 : ℤ) ≤ 1 * 2 ^ (-24 : ℤ) :=
      mul_le_mul_of_nonneg_right hq1 h24.le
    linarith

/-- the `float` sum of `j ≤ n` summands `1.0f / n` differs from `j / n` by at
most `j * 2^(-22)`, for `1 ≤ n ≤ 200` -/
theorem RANSAC.floatSum_coverage_error [FloorRing R] (n : ℤ) (h1 : 1 ≤ n) (h200 : n ≤ 200)
    (j : ℕ) (hj : (j : ℤ) ≤ n) :
    |RANSAC.floatSum (RANSAC.coverageShare n : R) j - (j : R) / (n : R)|
      ≤ (j : R) * 2 ^ (-22 : ℤ) := by
  obtain ⟨ht0, ht1, hterr⟩ := RANSAC.coverageShare_bounds (R := R) n h1 h200
  have hn : (1 : R) ≤ (n : R) := by exact_mod_cast h1
  have hpos : (0 : R) < (n : R) := by linarith
  have c22 : (2 : R) ^ (-22 : ℤ) = 4 * 2 ^ (-24 : ℤ) := by norm_num
  have c24 : (2 : R) ^ (-24 : ℤ) ≤ 1 / 16000000 := by norm_num
  have c24pos : (0 : R) < 2 ^ (-24 : ℤ) := zpow_pos (by norm_num) _
  have c150pos : (0 : R) < 2 ^ (-150 : ℤ) := zpow_pos (by norm_num) _
  have c150 : (2 : R) ^ (-150 : ℤ) ≤ 2 ^ (-24 : ℤ) / 4 := by
    have : (2 : R) ^ (-150 : ℤ) ≤ 2 ^ (-26 : ℤ) := zpow_le_zpow_right₀ (by norm_num) (by norm_num)
    have e : (2 : R) ^ (-26 : ℤ) = 2 ^ (-24 : ℤ) / 4 := by norm_num
    linarith
  induction j with
  | zero => simp [RANSAC.floatSum]
  | succ j ih =>
    have hjn : (j : ℤ) ≤ n := by push_cast at hj; omega
    have ih := ih hjn
    have hj1 : ((j : R) + 1) / (n : R) ≤ 1 := by
      rw [div_le_one hpos]
      have : ((j + 1 : ℕ) : ℤ) ≤ n := hj
      exact_mod_cast this
    have hj200 : (j : R) ≤ 200 := by
      have : (j : ℤ) ≤ 200 := by omega
      exact_mod_cast this
    have hs0 : 0 ≤ RANSAC.floatSum (RANSAC.coverageShare n : R) j :=
      RANSAC.floatSum_nonneg _ ht0 j
    have herr := abs_roundFloat_sub_le
      (RANSAC.floatSum (RANSAC.coverageShare n : R) j + RANSAC.coverageShare n)
    rw [abs_of_nonneg (add_nonneg hs0 ht0)] at herr
    show |roundFloat (RANSAC.floatSum (RANSAC.coverageShare n : R) j + RANSAC.coverageShare n)
        - ((j + 1 : ℕ) : R) / (n : R)| ≤ ((j + 1 : ℕ) : R) * 2 ^ (-22 : ℤ)
    push_cast
    rw [c22] at ih ⊢
    generalize RANSAC.floatSum (RANSAC.coverageShare n : R) j = s at *
    generalize (RANSAC.coverageShare n : R) = t at *
    generalize (2 : R) ^ (-24 : ℤ) = c at *
    generalize (2 : R) ^ (-150 : ℤ) = d at *
    have e1 : ((j : R) + 1) / (n : R) = (j : R) / (n : R) + 1 / (n : R) := by ring
    rw [e1] at hj1 ⊢
    generalize (j : R) / (n : R) = u at *
    generalize 1 / (n : R) = w at *
    obtain ⟨ih1, ih2⟩ := abs_le.mp ih
    obtain ⟨ht1a, ht2a⟩ := abs_le.mp hterr
    obtain ⟨hr1, hr2⟩ := abs_le.mp herr
    have hjc : (j : R) * (4 * c) ≤ 200 * (4 * c) :=
      mul_le_mul_of_nonneg_right hj200 (by linarith)
    have hx2 : s + t ≤ 2 := by linarith
    have hxc : (s + t) * c ≤ 2 * c := mul_le_mul_of_nonneg_right hx2 c24pos.le
    rw [abs_le]
    constructor <;> linarith

/-- the number of distinct segments hit is at most the number of segments when
every segment index is in range -/
theorem RANSAC.segmentsHit_le [FloorRing R]
    (getBest : GeometricParams R → Point2 R → RANSAC.DistanceResult R)
    (geo : GeometricParams R) (distance : R) (points : List (Point2 R)) (k : ℕ) (n : ℤ)
    (hrange : ∀ p ∈ RANSAC.everyKth k points, (getBest geo p).distance < distance →
      ∃ s, RANSAC.segmentOf getBest geo n p = some s ∧ 0 ≤ s ∧ s < n) :
    (RANSAC.segmentsHit getBest geo distance points k n : ℤ) ≤ max n 0 := by
  unfold RANSAC.segmentsHit RANSAC.inliersOf
  have hsub : ((List.filter (fun p => decide ((getBest geo p).distance < distance))
      (RANSAC.everyKth k points)).filterMap (RANSAC.segmentOf getBest geo n)).toFinset
      ⊆ Finset.Ico 0 n := by
    intro s hs
    rw [List.mem_toFinset, List.mem_filterMap] at hs
    obtain ⟨p, hp, hps⟩ := hs
    rw [List.mem_filter] at hp
    obtain ⟨s', hs', h0, h1⟩ := hrange p hp.1 (by simpa using hp.2)
    rw [hps] at hs'
    obtain rfl := Option.some.inj hs'
    exact Finset.mem_Ico.mpr ⟨h0, h1⟩
  have := Finset.card_le_card hsub
  rw [Int.card_Ico] at this
  have h2 : ((n - 0).toNat : ℤ) = max n 0 := by
    rw [sub_zero, Int.toNat_eq_max]
  omega

/-- C21 (amended claim): for every distance oracle, geometry whose outline length
has a value, threshold, point list and stride `k ≥ 1` such that every inlier among
the visited points has a segment index in range, `getStats` returns `numInliers`
= the number of points at the indices `0, k, 2k, …` with a distance strictly below
the threshold, and `outlineCoverage` = the `float` sum of one summand
`1.0f / segments` for each distinct segment hit by such an inlier (further inliers
in a covered segment add nothing).  The number `d` of distinct segments is at most
`segments`, and the coverage differs from the quotient `d / segments` of the
reference definition by at most `d * 2^(-22)`. -/
theorem RANSAC.getStats_eq_floatSpec [FloorRing R]
    (getBest : GeometricParams R → Point2 R → RANSAC.DistanceResult R)
    (geo : GeometricParams R) (distance : R) (points : List (Point2 R)) (stepSize : ℤ)
    (hs : 1 ≤ stepSize) (apx : ℤ) (hapx : RANSAC.outlinePixelsApx geo = some apx)
    (hrange : ∀ p ∈ RANSAC.everyKth stepSize.toNat points,
      (getBest geo p).distance < distance →
      ∃ s, RANSAC.segmentOf getBest geo (RANSAC.segments apx) p = some s ∧
        0 ≤ s ∧ s < RANSAC.segments apx) :
    RANSAC.getStats getBest geo distance points stepSize
      = some (RANSAC.getStatsFloatSpec getBest geo distance points stepSize.toNat
          (RANSAC.segments apx)) ∧
    (RANSAC.getStatsFloatSpec getBest geo distance points stepSize.toNat
        (RANSAC.segments apx)).numInliers
      = (RANSAC.getStatsSpec getBest geo distance points stepSize.toNat
        (RANSAC.segments apx)).numInliers ∧
    (RANSAC.segmentsHit getBest geo distance points stepSize.toNat (RANSAC.segments apx) : ℤ)
      ≤ RANSAC.segments apx ∧
    |(RANSAC.getStatsFloatSpec getBest geo distance points stepSize.toNat
        (RANSAC.segments apx)).outlineCoverage
      - (RANSAC.getStatsSpec getBest geo distance points stepSize.toNat
        (RANSAC.segments apx)).outlineCoverage|
      ≤ (RANSAC.segmentsHit getBest geo distance points stepSize.toNat
          (RANSAC.segments apx) : R) * 2 ^ (-22 : ℤ) := by
  obtain ⟨h1, h200⟩ := RANSAC.segments_mem apx
  have hle := RANSAC.segmentsHit_le getBest geo distance points stepSize.toNat
    (RANSAC.segments apx) hrange
  rw [max_eq_left (by omega)] at hle
  refine ⟨RANSAC.getStats_eq_floatSpec_of_range getBest geo distance points stepSize hs apx
    hapx hrange, rfl, hle, ?_⟩
  exact RANSAC.floatSum_coverage_error (RANSAC.segments apx) h1 h200 _ hle

theorem segmentOf_angleOracle (geo : GeometricParams ℚ) (n : ℤ) (p : Point2 ℚ) :
    RANSAC.segmentOf angleOracle geo n p = (RANSAC.degOf p.x).map fun deg => RANSAC.seg deg n := by
  unfold RANSAC.segmentOf angleOracle
  rfl

theorem degOf_tenPoints_0 : RANSAC.degOf (5 / 16 : ℚ) = some 17 := by
  have h1 : roundFloat ((5 / 16 : ℚ) * 180) = (225 / 4) := by
    have h := roundFloat_int_mul_zpow (R := ℚ) 225 (-2) (by norm_num) (by norm_num)
    have e : ((5 / 16 : ℚ) * 180) = ((225 : ℤ) : ℚ) * 2 ^ (-2 : ℤ) := by
      norm_num
    rw [e, h]
    norm_num
  have h2 : roundFloat ((225 / 4) / floatPi : ℚ) = (2346835 / 131072) :=
    roundFloat_eval_pos _ _ 4 9387340 (by norm_num) (by norm_num [floatPi]) (by norm_num [floatPi]) (by norm_num [floatPi]) (by norm_num [floatPi]) (by norm_num)
  unfold RANSAC.degOf
  rw [h1, h2]
  exact intOfFloat_eq_some _ 17
    (truncToInt_of_nonneg _ 17 (by norm_num) (by norm_num) (by norm_num)) (by decide)

theorem degOf_tenPoints_1 : RANSAC.degOf (15 / 16 : ℚ) = some 53 := by
  have h1 : roundFloat ((15 / 16 : ℚ) * 180) = (675 / 4) := by
    have h := roundFloat_int_mul_zpow (R := ℚ) 675 (-2) (by norm_num) (by norm_num)
    have e : ((15 / 16 : ℚ) * 180) = ((675 : ℤ) : ℚ) * 2 ^ (-2 : ℤ) := by
      norm_num
    rw [e, h]
    norm_num
  have h2 : roundFloat ((675 / 4) / floatPi : ℚ) = (7040505 / 131072) :=
    roundFloat_eval_pos _ _ 5 14081010 (by norm_num) (by norm_num [floatPi]) (by norm_num [floatPi]) (by norm_num [floatPi]) (by norm_num [floatPi]) (by norm_num)
  unfold RANSAC.degOf
  rw [h1, h2]
  exact intOfFloat_eq_some _ 53
    (truncToInt_of_nonneg _ 53 (by norm_num) (by norm_num) (by norm_num)) (by decide)

theorem degOf_tenPoints_2 : RANSAC.degOf (25 / 16 : ℚ) = some 89 := by
  have h1 : roundFloat ((25 / 16 : ℚ) * 180) = (1125 / 4) := by
    have h := roundFloat_int_mul_zpow (R := ℚ) 1125 (-2) (by norm_num) (by norm_num)
    have e : ((25 / 16 : ℚ) * 180) = ((1125 : ℤ) : ℚ) * 2 ^ (-2 : ℤ) := by
      norm_num
    rw [e, h]
    norm_num
  have h2 : roundFloat ((1125 / 4) / floatPi : ℚ) = (11734175 / 131072) :=
    roundFloat_eval_pos _ _ 6 11734175 (by norm_num) (by norm_num [floatPi]) (by norm_num [floatPi]) (by norm_num [floatPi]) (by norm_num [floatPi]) (by norm_num)
  unfold RANSAC.degOf
  rw [h1, h2]
  exact intOfFloat_eq_some _ 89
    (truncToInt_of_nonneg _ 89 (by norm_num) (by norm_num) (by norm_num)) (by decide)

theorem degOf_tenPoints_3 : RANSAC.degOf (35 / 16 : ℚ) = some 125 := by
  have h1 : roundFloat ((35 / 16 : ℚ) * 180) = (1575 / 4) := by
    have h := roundFloat_int_mul_zpow (R := ℚ) 1575 (-2) (by norm_num) (by norm_num)
    have e : ((35 / 16 : ℚ) * 180) = ((1575 : ℤ) : ℚ) * 2 ^ (-2 : ℤ) := by
      norm_num
    rw [e, h]
    norm_num
  have h2 : roundFloat ((1575 / 4) / floatPi : ℚ) = (16427845 / 131072) :=
    roundFloat_eval_pos _ _ 6 16427845 (by norm_num) (by norm_num [floatPi]) (by norm_num [floatPi]) (by norm_num [floatPi]) (by norm_num [floatPi]) (by norm_num)
  unfold RANSAC.degOf
  rw [h1, h2]
  exact intOfFloat_eq_some _ 125
    (truncToInt_of_nonneg _ 125 (by norm_num) (by norm_num) (by norm_num)) (by decide)

theorem degOf_tenPoints_4 : RANSAC.degOf (45 / 16 : ℚ) = some 161 := by
  have h1 : roundFloat ((45 / 16 : ℚ) * 180) = (2025 / 4) := by
    have h := roundFloat_int_mul_zpow (R := ℚ) 2025 (-2) (by norm_num) (by norm_num)
    have e : ((45 / 16 : ℚ) * 180) = ((2025 : ℤ) : ℚ) * 2 ^ (-2 : ℤ) := by
      norm_num
    rw [e, h]
    norm_num
  have h2 : roundFloat ((2025 / 4) / floatPi : ℚ) = (5280379 / 32768) :=
    roundFloat_eval_pos _ _ 7 10560758 (by norm_num) (by norm_num [floatPi]) (by norm_num [floatPi]) (by norm_num [floatPi]) (by norm_num [floatPi]) (by norm_num)
  unfold RANSAC.degOf
  rw [h1, h2]
  exact intOfFloat_eq_some _ 161
    (truncToInt_of_nonneg _ 161 (by norm_num) (by norm_num) (by norm_num)) (by decide)

theorem degOf_tenPoints_5 : RANSAC.degOf (55 / 16 : ℚ) = some 196 := by
  have h1 : roundFloat ((55 / 16 : ℚ) * 180) = (2475 / 4) := by
    have h := roundFloat_int_mul_zpow (R := ℚ) 2475 (-2) (by norm_num) (by norm_num)
    have e : ((55 / 16 : ℚ) * 180) = ((2475 : ℤ) : ℚ) * 2 ^ (-2 : ℤ) := by
      norm_num
    rw [e, h]
    norm_num
  have h2 : roundFloat ((2475 / 4) / floatPi : ℚ) = (12907593 / 65536) :=
    roundFloat_eval_pos _ _ 7 12907593 (by norm_num) (by norm_num [floatPi]) (by norm_num [floatPi]) (by norm_num [floatPi]) (by norm_num [floatPi]) (by norm_num)
  unfold RANSAC.degOf
  rw [h1, h2]
  exact intOfFloat_eq_some _ 196
    (truncToInt_of_nonneg _ 196 (by norm_num) (by norm_num) (by norm_num)) (by decide)

theorem degOf_tenPoints_6 : RANSAC.degOf (65 / 16 : ℚ) = some 232 := by
  have h1 : roundFloat ((65 / 16 : ℚ) * 180) = (2925 / 4) := by
    have h := roundFloat_int_mul_zpow (R := ℚ) 2925 (-2) (by norm_num) (by norm_num)
    have e : ((65 / 16 : ℚ) * 180) = ((2925 : ℤ) : ℚ) * 2 ^ (-2 : ℤ) := by
      norm_num
    rw [e, h]
    norm_num
  have h2 : roundFloat ((2925 / 4) / floatPi : ℚ) = (3813607 / 16384) :=
    roundFloat_eval_pos _ _ 7 15254428 (by norm_num) (by norm_num [floatPi]) (by norm_num [floatPi]) (by norm_num [floatPi]) (by norm_num [floatPi]) (by norm_num)
  unfold RANSAC.degOf
  rw [h1, h2]
  exact intOfFloat_eq_some _ 232
    (truncToInt_of_nonneg _ 232 (by norm_num) (by norm_num) (by norm_num)) (by decide)

theorem degOf_tenPoints_7 : RANSAC.degOf (75 / 16 : ℚ) = some 268 := by
  have h1 : roundFloat ((75 / 16 : ℚ) * 180) = (3375 / 4) := by
    have h := roundFloat_int_mul_zpow (R := ℚ) 3375 (-2) (by norm_num) (by norm_num)
    have e : ((75 / 16 : ℚ) * 180) = ((3375 : ℤ) : ℚ) * 2 ^ (-2 : ℤ) := by
      norm_num
    rw [e, h]
    norm_num
  have h2 : roundFloat ((3375 / 4) / floatPi : ℚ) = (8800631 / 32768) :=
    roundFloat_eval_pos _ _ 8 8800631 (by norm_num) (by norm_num [floatPi]) (by norm_num [floatPi]) (by norm_num [floatPi]) (by norm_num [floatPi]) (by norm_num)
  unfold RANSAC.degOf
  rw [h1, h2]
  exact intOfFloat_eq_some _ 268
    (truncToInt_of_nonneg _ 268 (by norm_num) (by norm_num) (by norm_num)) (by decide)

theorem degOf_tenPoints_8 : RANSAC.degOf (85 / 16 : ℚ) = some 304 := by
  have h1 : roundFloat ((85 / 16 : ℚ) * 180) = (3825 / 4) := by
    have h := roundFloat_int_mul_zpow (R := ℚ) 3825 (-2) (by norm_num) (by norm_num)
    have e : ((85 / 16 : ℚ) * 180) = ((3825 : ℤ) : ℚ) * 2 ^ (-2 : ℤ) := by
      norm_num
    rw [e, h]
    norm_num
  have h2 : roundFloat ((3825 / 4) / floatPi : ℚ) = (9974049 / 32768) :=
    roundFloat_eval_pos _ _ 8 9974049 (by norm_num) (by norm_num [floatPi]) (by norm_num [floatPi]) (by norm_num [floatPi]) (by norm_num [floatPi]) (by norm_num)
  unfold RANSAC.degOf
  rw [h1, h2]
  exact intOfFloat_eq_some _ 304
    (truncToInt_of_nonneg _ 304 (by norm_num) (by norm_num) (by norm_num)) (by decide)

theorem degOf_tenPoints_9 : RANSAC.degOf (95 / 16 : ℚ) = some 340 := by
  have h1 : roundFloat ((95 / 16 : ℚ) * 180) = (4275 / 4) := by
    have h := roundFloat_int_mul_zpow (R := ℚ) 4275 (-2) (by norm_num) (by norm_num)
    have e : ((95 / 16 : ℚ) * 180) = ((4275 : ℤ) : ℚ) * 2 ^ (-2 : ℤ) := by
      norm_num
    rw [e, h]
    norm_num
  have h2 : roundFloat ((4275 / 4) / floatPi : ℚ) = (11147467 / 32768) :=
    roundFloat_eval_pos _ _ 8 11147467 (by norm_num) (by norm_num [floatPi]) (by norm_num [floatPi]) (by norm_num [floatPi]) (by norm_num [floatPi]) (by norm_num)
  unfold RANSAC.degOf
  rw [h1, h2]
  exact intOfFloat_eq_some _ 340
    (truncToInt_of_nonneg _ 340 (by norm_num) (by norm_num) (by norm_num)) (by decide)

theorem degOf_three : RANSAC.degOf (3 : ℚ) = some 171 := by
  have h1 : roundFloat ((3 : ℚ) * 180) = 540 := by
    rw [show ((3 : ℚ) * 180) = ((540 : ℕ) : ℚ) from by norm_num]
    exact roundFloat_natCast 540 (by norm_num)
  have h2 : roundFloat ((540 : ℚ) / floatPi) = (1408101 / 8192) :=
    roundFloat_eval_pos _ _ 7 11264808 (by norm_num) (by norm_num [floatPi]) (by norm_num [floatPi]) (by norm_num [floatPi]) (by norm_num [floatPi]) (by norm_num)
  unfold RANSAC.degOf
  rw [h1, h2]
  exact intOfFloat_eq_some _ 171
    (truncToInt_of_nonneg _ 171 (by norm_num) (by norm_num) (by norm_num)) (by decide)

/-- the outline length of the circle of radius 2: `4 * (float)M_PI` truncates to 12 -/
theorem outlinePixelsApx_circleTwo : RANSAC.outlinePixelsApx circleTwo = some 12 := by
  have h : roundFloat (roundFloat (2 * floatPi : ℚ) * 2) = 4 * floatPi := by
    rw [roundFloat_two_floatPi]
    have h := roundFloat_int_mul_zpow (R := ℚ) 13176795 (-20) (by norm_num) (by norm_num)
    have e : ((13176795 : ℤ) : ℚ) * 2 ^ (-20 : ℤ) = 2 * floatPi * 2 := by
      unfold floatPi
      norm_num
    rw [e] at h
    rw [h]
    ring
  simp only [RANSAC.outlinePixelsApx, circleTwo, RANSAC.stdMax, lt_self_iff_false, if_false,
    Option.some_bind, h]
  exact intOfFloat_eq_some _ 12
    (truncToInt_of_nonneg _ 12 (by norm_num [floatPi]) (by norm_num [floatPi])
      (by norm_num [floatPi])) (by decide)

theorem everyKth_anglePoints :
    RANSAC.everyKth 2 anglePoints = [⟨0, 0⟩, ⟨3, 0⟩, ⟨1, 0⟩] := by
  simp [RANSAC.everyKth, anglePoints, List.range_succ]

theorem segmentOf_anglePoints :
    RANSAC.segmentOf angleOracle circleTwo 3 ⟨0, 0⟩ = some 0 ∧
    RANSAC.segmentOf angleOracle circleTwo 3 ⟨3, 0⟩ = some 1 ∧
    RANSAC.segmentOf angleOracle circleTwo 3 ⟨1, 0⟩ = some 0 := by
  refine ⟨?_, ?_, ?_⟩
  · rw [segmentOf_angleOracle, degOf_zero]; rfl
  · rw [segmentOf_angleOracle, degOf_three]; rfl
  · rw [segmentOf_angleOracle, degOf_one]; rfl

theorem anglePoints_in_range :
    ∀ p ∈ RANSAC.everyKth (2 : ℤ).toNat anglePoints,
      (angleOracle circleTwo p).distance < 1 →
      ∃ s, RANSAC.segmentOf angleOracle circleTwo (RANSAC.segments 12) p = some s ∧
        0 ≤ s ∧ s < RANSAC.segments 12 := by
  rw [show (2 : ℤ).toNat = 2 from rfl, everyKth_anglePoints,
    show RANSAC.segments 12 = 3 from by decide]
  obtain ⟨h0, h3, h1⟩ := segmentOf_anglePoints
  intro p hp _
  simp only [List.mem_cons, List.mem_singleton, List.not_mem_nil, or_false] at hp
  rcases hp with rfl | rfl | rfl
  · exact ⟨0, h0, by decide, by decide⟩
  · exact ⟨1, h3, by decide, by decide⟩
  · exact ⟨0, h1, by decide, by decide⟩

theorem inliersOf_anglePoints :
    RANSAC.inliersOf angleOracle circleTwo 1 anglePoints 2 = [⟨0, 0⟩, ⟨3, 0⟩, ⟨1, 0⟩] := by
  unfold RANSAC.inliersOf
  rw [everyKth_anglePoints]
  simp [angleOracle]

/-- the score of the example: stride 2 visits the angles 0, 3 and 1; the three
inliers hit the segments 0, 1 and 0 of three; the coverage is the `float` sum
`1.0f/3 + 1.0f/3 = 11184811 / 2^24`, where the quotient is `2/3` -/
theorem getStatsFloatSpec_anglePoints :
    RANSAC.getStatsFloatSpec angleOracle circleTwo 1 anglePoints 2 3
      = ⟨3, 11184811 / 16777216⟩ ∧
    RANSAC.getStatsSpec angleOracle circleTwo 1 anglePoints 2 3 = ⟨3, 2 / 3⟩ := by
  obtain ⟨h0, h3, h1⟩ := segmentOf_anglePoints
  have hhit : RANSAC.segmentsHit angleOracle circleTwo 1 anglePoints 2 3 = 2 := by
    unfold RANSAC.segmentsHit
    rw [inliersOf_anglePoints]
    simp only [List.filterMap_cons, List.filterMap_nil, h0, h3, h1]
    decide
  have hshare : RANSAC.coverageShare (3 : ℤ) = ((11184811 / 33554432) : ℚ) := by
    rw [RANSAC.coverageShare_eq 3 (by norm_num) (by norm_num)]
    exact roundFloat_eval_pos ((1 : ℚ) / ((3 : ℤ) : ℚ)) _ (-2) 11184811 (by norm_num) (by norm_num) (by norm_num) (by norm_num) (by norm_num) (by norm_num)
  have hsum : roundFloat (((11184811 / 33554432) : ℚ) + (11184811 / 33554432)) = (11184811 / 16777216) :=
    roundFloat_eval_pos _ _ (-1) 11184811 (by norm_num) (by norm_num) (by norm_num) (by norm_num) (by norm_num) (by norm_num)
  constructor
  · unfold RANSAC.getStatsFloatSpec
    rw [hhit, inliersOf_anglePoints, hshare]
    simp only [RANSAC.floatSum, zero_add]
    rw [show roundFloat ((11184811 / 33554432) : ℚ) = (11184811 / 33554432) from roundFloat_eval_pos _ _ (-2) 11184811 (by norm_num) (by norm_num) (by norm_num) (by norm_num) (by norm_num) (by norm_num), hsum]
    rfl
  · unfold RANSAC.getStatsSpec
    rw [hhit, inliersOf_anglePoints]
    norm_num

/-- C21 witness: the circle of radius 2 (three segments), the five points of
`anglePoints`, threshold 1 and stride 2. -/
theorem RANSAC.getStats_eq_floatSpec_witness :
    (1 : ℤ) ≤ 2 ∧ RANSAC.outlinePixelsApx circleTwo = some 12 ∧
    RANSAC.getStats angleOracle circleTwo 1 anglePoints 2
      = some (RANSAC.getStatsFloatSpec angleOracle circleTwo 1 anglePoints (2 : ℤ).toNat
          (RANSAC.segments 12)) :=
  ⟨by decide, outlinePixelsApx_circleTwo,
    (RANSAC.getStats_eq_floatSpec angleOracle circleTwo 1 anglePoints 2 (by decide) 12
      outlinePixelsApx_circleTwo anglePoints_in_range).1⟩

/-- the outline length of the circle of radius 7: the product rounds to
`360303/8192` and truncates to 43 -/
theorem outlinePixelsApx_circleSeven : RANSAC.outlinePixelsApx circleSeven = some 43 := by
  have h : roundFloat (roundFloat (2 * floatPi : ℚ) * 7) = (360303 / 8192) := by
    rw [roundFloat_two_floatPi]
    exact roundFloat_eval_pos _ _ 5 11529696 (by norm_num) (by norm_num [floatPi]) (by norm_num [floatPi]) (by norm_num [floatPi]) (by norm_num [floatPi]) (by norm_num)
  simp only [RANSAC.outlinePixelsApx, circleSeven, RANSAC.stdMax, lt_self_iff_false, if_false,
    Option.some_bind, h]
  exact intOfFloat_eq_some _ 43
    (truncToInt_of_nonneg _ 43 (by norm_num) (by norm_num) (by norm_num)) (by decide)

theorem segmentOf_tenPoints :
    tenPoints.map (RANSAC.segmentOf angleOracle circleSeven 10)
      = [some 0, some 1, some 2, some 3, some 4, some 5, some 6, some 7, some 8, some 9] := by
  simp only [tenPoints, List.map_cons, List.map_nil, segmentOf_angleOracle, degOf_tenPoints_0,
    degOf_tenPoints_1, degOf_tenPoints_2, degOf_tenPoints_3, degOf_tenPoints_4, degOf_tenPoints_5, degOf_tenPoints_6, degOf_tenPoints_7, degOf_tenPoints_8, degOf_tenPoints_9,
    Option.map_some']
  decide

theorem tenPoints_in_range :
    ∀ p ∈ RANSAC.everyKth (1 : ℤ).toNat tenPoints,
      (angleOracle circleSeven p).distance < 1 →
      ∃ s, RANSAC.segmentOf angleOracle circleSeven (RANSAC.segments 43) p = some s ∧
        0 ≤ s ∧ s < RANSAC.segments 43 := by
  rw [show (1 : ℤ).toNat = 1 from rfl, RANSAC.everyKth_one,
    show RANSAC.segments 43 = 10 from by decide]
  have h := segmentOf_tenPoints
  simp only [tenPoints, List.map_cons, List.map_nil, List.cons.injEq, and_true] at h
  obtain ⟨h0, h1, h2, h3, h4, h5, h6, h7, h8, h9⟩ := h
  intro p hp _
  simp only [tenPoints, List.mem_cons, List.mem_singleton, List.not_mem_nil, or_false] at hp
  rcases hp with rfl | rfl | rfl | rfl | rfl | rfl | rfl | rfl | rfl | rfl
  · exact ⟨0, h0, by decide, by decide⟩
  · exact ⟨1, h1, by decide, by decide⟩
  · exact ⟨2, h2, by decide, by decide⟩
  · exact ⟨3, h3, by decide, by decide⟩
  · exact ⟨4, h4, by decide, by decide⟩
  · exact ⟨5, h5, by decide, by decide⟩
  · exact ⟨6, h6, by decide, by decide⟩
  · exact ⟨7, h7, by decide, by decide⟩
  · exact ⟨8, h8, by decide, by decide⟩
  · exact ⟨9, h9, by decide, by decide⟩

theorem inliersOf_tenPoints :
    RANSAC.inliersOf angleOracle circleSeven 1 tenPoints 1 = tenPoints := by
  unfold RANSAC.inliersOf
  rw [RANSAC.everyKth_one]
  simp [angleOracle, tenPoints]

theorem segmentsHit_tenPoints :
    RANSAC.segmentsHit angleOracle circleSeven 1 tenPoints 1 10 = 10 := by
  unfold RANSAC.segmentsHit
  rw [inliersOf_tenPoints]
  have e : tenPoints.filterMap (RANSAC.segmentOf angleOracle circleSeven 10)
      = [0, 1, 2, 3, 4, 5, 6, 7, 8, 9] := by
    have h2 : tenPoints.filterMap (RANSAC.segmentOf angleOracle circleSeven 10)
        = (tenPoints.map (RANSAC.segmentOf angleOracle circleSeven 10)).filterMap id := by
      rw [List.filterMap_map]
      rfl
    rw [h2, segmentOf_tenPoints]
    rfl
  rw [e, List.toFinset_card_of_nodup (by simp)]
  rfl

/-- the `float` sum of ten summands `1.0f / 10` is `1 + 2^(-23)` -/
theorem floatSum_ten_tenths :
    RANSAC.floatSum (RANSAC.coverageShare 10 : ℚ) 10 = 8388609 / 8388608 := by
  have hshare : RANSAC.coverageShare (10 : ℤ) = ((13421773 / 134217728) : ℚ) := by
    rw [RANSAC.coverageShare_eq 10 (by norm_num) (by norm_num)]
    exact roundFloat_eval_pos ((1 : ℚ) / ((10 : ℤ) : ℚ)) _ (-4) 13421773 (by norm_num) (by norm_num) (by norm_num) (by norm_num) (by norm_num) (by norm_num)
  have h1 : roundFloat ((0 : ℚ) + (13421773 / 134217728)) = (13421773 / 134217728) :=
    roundFloat_eval_pos _ _ (-4) 13421773 (by norm_num) (by norm_num) (by norm_num) (by norm_num) (by norm_num) (by norm_num)
  have h2 : roundFloat (((13421773 / 134217728) : ℚ) + (13421773 / 134217728)) = (13421773 / 67108864) :=
    roundFloat_eval_pos _ _ (-3) 13421773 (by norm_num) (by norm_num) (by norm_num) (by norm_num) (by norm_num) (by norm_num)
  have h3 : roundFloat (((13421773 / 67108864) : ℚ) + (13421773 / 134217728)) = (5033165 / 16777216) :=
    roundFloat_eval_pos _ _ (-2) 10066330 (by norm_num) (by norm_num) (by norm_num) (by norm_num) (by norm_num) (by norm_num)
  have h4 : roundFloat (((5033165 / 16777216) : ℚ) + (13421773 / 134217728)) = (13421773 / 33554432) :=
    roundFloat_eval_pos _ _ (-2) 13421773 (by norm_num) (by norm_num) (by norm_num) (by norm_num) (by norm_num) (by norm_num)
  have h5 : roundFloat (((13421773 / 33554432) : ℚ) + (13421773 / 134217728)) = (1 / 2) :=
    roundFloat_eval_pos _ _ (-1) 8388608 (by norm_num) (by norm_num) (by norm_num) (by norm_num) (by norm_num) (by norm_num)
  have h6 : roundFloat (((1 / 2) : ℚ) + (13421773 / 134217728)) = (5033165 / 8388608) :=
    roundFloat_eval_pos _ _ (-1) 10066330 (by norm_num) (by norm_num) (by norm_num) (by norm_num) (by norm_num) (by norm_num)
  have h7 : roundFloat (((5033165 / 8388608) : ℚ) + (13421773 / 134217728)) = (2936013 / 4194304) :=
    roundFloat_eval_pos _ _ (-1) 11744052 (by norm_num) (by norm_num) (by norm_num) (by norm_num) (by norm_num) (by norm_num)
  have h8 : roundFloat (((2936013 / 4194304) : ℚ) + (13421773 / 134217728)) = (6710887 / 8388608) :=
    roundFloat_eval_pos _ _ (-1) 13421774 (by norm_num) (by norm_num) (by norm_num) (by norm_num) (by norm_num) (by norm_num)
  have h9 : roundFloat (((6710887 / 8388608) : ℚ) + (13421773 / 134217728)) = (1887437 / 2097152) :=
    roundFloat_eval_pos _ _ (-1) 15099496 (by norm_num) (by norm_num) (by norm_num) (by norm_num) (by norm_num) (by norm_num)
  have h10 : roundFloat (((1887437 / 2097152) : ℚ) + (13421773 / 134217728)) = (8388609 / 8388608) :=
    roundFloat_eval_pos _ _ 0 8388609 (by norm_num) (by norm_num) (by norm_num) (by norm_num) (by norm_num) (by norm_num)
  rw [hshare]
  have s0 : RANSAC.floatSum ((13421773 / 134217728) : ℚ) 0 = 0 := rfl
  have s1 : RANSAC.floatSum ((13421773 / 134217728) : ℚ) 1 = (13421773 / 134217728) :=
    (RANSAC.floatSum_succ _ 0).trans (by rw [s0, h1])
  have s2 : RANSAC.floatSum ((13421773 / 134217728) : ℚ) 2 = (13421773 / 67108864) :=
    (RANSAC.floatSum_succ _ 1).trans (by rw [s1, h2])
  have s3 : RANSAC.floatSum ((13421773 / 134217728) : ℚ) 3 = (5033165 / 16777216) :=
    (RANSAC.floatSum_succ _ 2).trans (by rw [s2, h3])
  have s4 : RANSAC.floatSum ((13421773 / 134217728) : ℚ) 4 = (13421773 / 33554432) :=
    (RANSAC.floatSum_succ _ 3).trans (by rw [s3, h4])
  have s5 : RANSAC.floatSum ((13421773 / 134217728) : ℚ) 5 = (1 / 2) :=
    (RANSAC.floatSum_succ _ 4).trans (by rw [s4, h5])
  have s6 : RANSAC.floatSum ((13421773 / 134217728) : ℚ) 6 = (5033165 / 8388608) :=
    (RANSAC.floatSum_succ _ 5).trans (by rw [s5, h6])
  have s7 : RANSAC.floatSum ((13421773 / 134217728) : ℚ) 7 = (2936013 / 4194304) :=
    (RANSAC.floatSum_succ _ 6).trans (by rw [s6, h7])
  have s8 : RANSAC.floatSum ((13421773 / 134217728) : ℚ) 8 = (6710887 / 8388608) :=
    (RANSAC.floatSum_succ _ 7).trans (by rw [s7, h8])
  have s9 : RANSAC.floatSum ((13421773 / 134217728) : ℚ) 9 = (1887437 / 2097152) :=
    (RANSAC.floatSum_succ _ 8).trans (by rw [s8, h9])
  have s10 : RANSAC.floatSum ((13421773 / 134217728) : ℚ) 10 = (8388609 / 8388608) :=
    (RANSAC.floatSum_succ _ 9).trans (by rw [s9, h10])
  exact s10

/-- C21 (claim as stated fails): the circle of radius 7 (ten segments) and ten
inliers, one in each segment, with stride 1 and threshold 1.  All ten segments are
hit, so the claim gives the coverage `10 / 10 = 1`; `getStats` returns the `float`
sum of ten summands `1.0f / 10`, which is `8388609 / 8388608 = 1 + 2^(-23)`. -/
theorem RANSAC.getStats_coverage_differs :
    RANSAC.getStats angleOracle circleSeven 1 tenPoints 1
      = some ⟨10, 8388609 / 8388608⟩ ∧
    RANSAC.getStatsSpec angleOracle circleSeven 1 tenPoints 1 10 = ⟨10, 1⟩ := by
  constructor
  · rw [RANSAC.getStats_eq_floatSpec_of_range angleOracle circleSeven 1 tenPoints 1 (by decide)
      43 outlinePixelsApx_circleSeven tenPoints_in_range,
      show (1 : ℤ).toNat = 1 from rfl, show RANSAC.segments 43 = 10 from by decide]
    unfold RANSAC.getStatsFloatSpec
    rw [segmentsHit_tenPoints, inliersOf_tenPoints, floatSum_ten_tenths]
    rfl
  · unfold RANSAC.getStatsSpec
    rw [segmentsHit_tenPoints, inliersOf_tenPoints]
    norm_num [tenPoints]

/-! ## C22: the image-brightness score and its reference definition -/

theorem Helper.foldl_sampleStep_eq (getPointFor : GeometricParams R → R → Point2 R)
    (geo : GeometricParams R) (img : Helper.ImageChannel R) (threshold : R)
    (steps : List ℕ) (stats : ImageMatchStats R) :
    steps.foldl (Helper.sampleStep getPointFor geo img threshold) stats
      = ⟨stats.outlineCoverage
          + ((((steps.map fun (step : ℕ) => getPointFor geo (2 * floatPi * (step : R) / 360)).filter
              fun pt => img.contains pt.x pt.y && decide (threshold ≤ img.get pt.x pt.y)).length
              : ℕ) : R),
        stats.matchValue
          + ((((steps.map fun (step : ℕ) => getPointFor geo (2 * floatPi * (step : R) / 360)).filter
              fun pt => img.contains pt.x pt.y && decide (threshold ≤ img.get pt.x pt.y)).map
              fun pt => img.get pt.x pt.y).sum)⟩ := by
  induction steps generalizing stats with
  | nil => simp
  | cons step steps ih =>
    rw [List.foldl_cons, ih]
    simp only [Helper.sampleStep, List.map_cons, List.filter_cons, ge_iff_le]
    by_cases hin : img.contains (getPointFor geo (2 * floatPi * (step : R) / 360)).x
        (getPointFor geo (2 * floatPi * (step : R) / 360)).y = true
    · by_cases hval : threshold ≤ img.get (getPointFor geo (2 * floatPi * (step : R) / 360)).x
          (getPointFor geo (2 * floatPi * (step : R) / 360)).y
      · simp only [hin, hval, Bool.true_eq_false, if_false, if_true, decide_True, Bool.and_self,
          List.length_cons, List.map_cons, List.sum_cons, Nat.cast_add, Nat.cast_one]
        congr 1 <;> ring
      · simp [hin, hval]
    · have hin' : img.contains (getPointFor geo (2 * floatPi * (step : R) / 360)).x
          (getPointFor geo (2 * floatPi * (step : R) / 360)).y = false := by
        simpa using hin
      simp [hin']

/-- C22: for every outline parametrisation, geometry, image and threshold,
`Helper::getImageStats` returns the score of the reference definition: of the
360 samples at the angles `2 * pi * step / 360` (`pi` the constant of the
program) those inside the image with a brightness of at least the threshold are
counted, `outlineCoverage` is their number over 360, whatever the number of
samples inside the image, and `matchValue` is the sum of their brightness. -/
theorem Helper.getImageStats_eq_spec (getPointFor : GeometricParams R → R → Point2 R)
    (geo : GeometricParams R) (img : Helper.ImageChannel R) (threshold : R) :
    Helper.getImageStats getPointFor geo img threshold
      = Helper.getImageStatsSpec getPointFor geo img threshold := by
  unfold Helper.getImageStats Helper.getImageStatsSpec
  rw [Helper.foldl_sampleStep_eq]
  simp [ImageMatchStats.zero]

/-- the score of an image that contains only the samples with `x ≥ 0`: the
samples at steps below 180 have `x = 1` and the brightness `step`, the others
have `x = -1`; with the threshold 175 the steps 175 to 179 are counted -/
theorem Helper.getImageStats_example :
    Helper.getImageStats
        (fun _ rad => if rad < floatPi then ⟨1, rad * 360 / (2 * floatPi)⟩ else ⟨-1, 1000⟩)
        unitCircle halfPlaneImage 175
      = ⟨5 / 360, 175 + 176 + 177 + 178 + 179⟩ := by
  rw [Helper.getImageStats_eq_spec]
  unfold Helper.getImageStatsSpec
  have hpi : (floatPi : ℚ) ≠ 0 := by norm_num [floatPi]
  have hsample : ∀ step : ℕ,
      (if 2 * floatPi * (step : ℚ) / 360 < floatPi
        then (⟨1, 2 * floatPi * (step : ℚ) / 360 * 360 / (2 * floatPi)⟩ : Point2 ℚ)
        else ⟨-1, 1000⟩)
      = if step < 180 then ⟨1, (step : ℚ)⟩ else ⟨-1, 1000⟩ := by
    intro step
    have hiff : 2 * floatPi * (step : ℚ) / 360 < floatPi ↔ step < 180 := by
      have hpos : (0 : ℚ) < floatPi := by norm_num [floatPi]
      constructor
      · intro h
        have : (step : ℚ) < 180 := by
          by_contra hge
          push_neg at hge
          have : floatPi ≤ 2 * floatPi * (step : ℚ) / 360 := by
            rw [le_div_iff₀ (by norm_num)]
            nlinarith
          linarith
        exact_mod_cast this
      · intro h
        have h' : (step : ℚ) < 180 := by exact_mod_cast h
        rw [div_lt_iff₀ (by norm_num)]
        nlinarith
    by_cases hs : step < 180
    · rw [if_pos (hiff.mpr hs), if_pos hs]
      congr 1
      field_simp
    · rw [if_neg (fun h => hs (hiff.mp h)), if_neg hs]
  simp only [hsample]
  have hfilter : List.filter
      (fun pt : Point2 ℚ => halfPlaneImage.contains pt.x pt.y
        && decide ((175 : ℚ) ≤ halfPlaneImage.get pt.x pt.y))
      (List.map (fun (step : ℕ) => if step < 180 then (⟨1, (step : ℚ)⟩ : Point2 ℚ)
        else ⟨-1, 1000⟩) (List.range 360))
      = [⟨1, 175⟩, ⟨1, 176⟩, ⟨1, 177⟩, ⟨1, 178⟩, ⟨1, 179⟩] := by
    rw [List.filter_map]
    have hrange : List.filter
        ((fun pt : Point2 ℚ => halfPlaneImage.contains pt.x pt.y
          && decide ((175 : ℚ) ≤ halfPlaneImage.get pt.x pt.y)) ∘
          fun (step : ℕ) => if step < 180 then (⟨1, (step : ℚ)⟩ : Point2 ℚ) else ⟨-1, 1000⟩)
        (List.range 360) = List.filter (fun step => decide (175 ≤ step ∧ step < 180))
          (List.range 360) := by
      apply List.filter_congr
      intro step _
      simp only [Function.comp, halfPlaneImage]
      by_cases hs : step < 180
      · simp only [hs, if_true, and_true]
        have : (175 : ℚ) ≤ (step : ℚ) ↔ 175 ≤ step := by exact_mod_cast Iff.rfl
        simp [this]
      · simp [hs]
    rw [hrange]
    have : List.filter (fun step => decide (175 ≤ step ∧ step < 180)) (List.range 360)
        = [175, 176, 177, 178, 179] := by decide
    rw [this]
    simp
  rw [hfilter]
  norm_num [halfPlaneImage]

/-! ## C23: the number of segments -/

theorem RANSAC.stdMax_some (a b : R) : RANSAC.stdMax (some a) (some b) = some (max a b) := by
  unfold RANSAC.stdMax
  by_cases h : a < b
  · simp only [h, if_true]
    rw [max_eq_right h.le]
  · simp only [h, if_false]
    rw [max_eq_left (not_lt.mp h)]

/-- the outline length for semi-axes that are numbers: the `float` product,
truncated, when that is a value of `int` -/
theorem RANSAC.outlinePixelsApx_some [FloorRing R] (a b : R) :
    RANSAC.outlinePixelsApx ⟨some a, some b⟩
      = intOfFloat (roundFloat (2 * floatPi * max a b)) := by
  unfold RANSAC.outlinePixelsApx
  simp only [RANSAC.stdMax_some, Option.some_bind, roundFloat_two_floatPi]

/-- the truncated `float` product lies between the floor of the exact product
and the floor plus one, for a product in `[0, 2^24 - 1)` -/
theorem truncToInt_roundFloat_mem [FloorRing R] (p : R) (h0 : 0 ≤ p) (N : ℕ)
    (hN : N + 1 < 2 ^ 24) (hfloor : ⌊p⌋ = (N : ℤ)) :
    truncToInt (roundFloat p) = N ∨ truncToInt (roundFloat p) = N + 1 := by
  have h1 : (N : R) ≤ p := by
    have := Int.floor_le p
    rw [hfloor] at this
    exact_mod_cast this
  have h2 : p ≤ ((N + 1 : ℕ) : R) := by
    have := (Int.lt_floor_add_one p).le
    rw [hfloor] at this
    push_cast at this ⊢
    exact this
  have hlo := natCast_le_roundFloat N (by omega) p h1
  have hhi := roundFloat_le_natCast (N + 1) hN p h0 h2
  have hnn : 0 ≤ roundFloat p := roundFloat_nonneg p h0
  unfold truncToInt
  rw [if_pos hnn]
  have hf1 : (N : ℤ) ≤ ⌊roundFloat p⌋ := Int.le_floor.mpr (by exact_mod_cast hlo)
  have hf2 : ⌊roundFloat p⌋ ≤ (N : ℤ) + 1 :=
    Int.floor_le_iff.mpr (by push_cast at hhi ⊢; linarith)
  omega

/-- the number of segments for semi-axes that are numbers, whenever the outline
length has a value: the value of the formula with the exact product, or one more -/
theorem RANSAC.segments_eq_spec_or_succ [FloorRing R] (a b : R) (apx : ℤ)
    (hapx : RANSAC.outlinePixelsApx ⟨some a, some b⟩ = some apx) :
    RANSAC.segments apx = RANSAC.segmentsSpec floatPi a b ∨
      RANSAC.segments apx = RANSAC.segmentsSpec floatPi a b + 1 := by
  rw [RANSAC.outlinePixelsApx_some, intOfFloat_eq_some_iff] at hapx
  obtain ⟨hval, _⟩ := hapx
  unfold RANSAC.segments RANSAC.segmentsSpec
  by_cases hneg : 2 * floatPi * max a b < 0
  · have hfl : roundFloat (2 * floatPi * max a b) ≤ 0 := roundFloat_nonpos _ hneg.le
    have hapx0 : apx ≤ 0 := by
      rw [← hval]
      unfold truncToInt
      split_ifs
      · exact Int.floor_le_iff.mpr (by simpa using lt_of_le_of_lt hfl one_pos)
      · exact Int.ceil_le.mpr (by simpa using hfl)
    have hfloor : ⌊2 * floatPi * max a b⌋ < 0 := Int.floor_lt.mpr (by simpa using hneg)
    have h1 : Int.tdiv apx 4 ≤ 0 := by
      have := Int.tdiv_nonneg (show 0 ≤ -apx by omega) (show (0 : ℤ) ≤ 4 by norm_num)
      rw [Int.neg_tdiv] at this
      omega
    left
    omega
  · have h0 : 0 ≤ 2 * floatPi * max a b := not_lt.mp hneg
    have hfloor0 : 0 ≤ ⌊2 * floatPi * max a b⌋ := Int.floor_nonneg.mpr h0
    by_cases hbig : (800 : R) ≤ 2 * floatPi * max a b
    · have hfl : ((800 : ℕ) : R) ≤ roundFloat (2 * floatPi * max a b) :=
        natCast_le_roundFloat 800 (by norm_num) _ (by simpa using hbig)
      have hapx800 : 800 ≤ apx := by
        rw [← hval]
        unfold truncToInt
        rw [if_pos (le_trans (by norm_num) hfl)]
        exact Int.le_floor.mpr (by simpa using hfl)
      have hfloor : 800 ≤ ⌊2 * floatPi * max a b⌋ := Int.le_floor.mpr (by simpa using hbig)
      rw [Int.tdiv_eq_ediv (by omega) (by norm_num)]
      left
      omega
    · have hlt : 2 * floatPi * max a b < 800 := not_le.mp hbig
      have hfloor : ⌊2 * floatPi * max a b⌋ < 800 := Int.floor_lt.mpr (by simpa using hlt)
      obtain ⟨N, hN⟩ : ∃ N : ℕ, ⌊2 * floatPi * max a b⌋ = (N : ℤ) :=
        ⟨⌊2 * floatPi * max a b⌋.toNat, (Int.toNat_of_nonneg hfloor0).symm⟩
      have hN800 : N < 800 := by omega
      have hmem := truncToInt_roundFloat_mem (2 * floatPi * max a b) h0 N
        (by norm_num; omega) hN
      rw [hval] at hmem
      rw [hN, Int.tdiv_eq_ediv (by omega) (by norm_num)]
      rcases hmem with h | h <;> rw [h] <;> omega

/-- the outline length has a value when the larger semi-axis has a magnitude of
at most `300000000` -/
theorem RANSAC.outlinePixelsApx_defined [FloorRing R] (a b : R)
    (h : |max a b| ≤ 300000000) :
    ∃ apx, RANSAC.outlinePixelsApx ⟨some a, some b⟩ = some apx := by
  rw [RANSAC.outlinePixelsApx_some]
  have hpabs : |2 * floatPi * max a b| ≤ 1900000000 := by
    rw [abs_mul, abs_of_pos (by norm_num [floatPi] : (0 : R) < 2 * floatPi)]
    calc 2 * floatPi * |max a b| ≤ 6.3 * 300000000 :=
          mul_le_mul (by norm_num [floatPi]) h (abs_nonneg _) (by norm_num)
      _ ≤ 1900000000 := by norm_num
  have herr := abs_roundFloat_sub_le (2 * floatPi * max a b)
  have hrabs : |roundFloat (2 * floatPi * max a b)| ≤ 2000000000 := by
    have h24 : (2 : R) ^ (-24 : ℤ) ≤ 1 / 100 := by norm_num
    have h150 : (2 : R) ^ (-150 : ℤ) ≤ 1 := by
      apply zpow_le_one_of_nonpos₀ (by norm_num) (by norm_num)
    have hprod : |2 * floatPi * max a b| * 2 ^ (-24 : ℤ) ≤ 1900000000 * (1 / 100) :=
      mul_le_mul hpabs h24 (zpow_pos (by norm_num) _).le (by norm_num)
    have htri : |roundFloat (2 * floatPi * max a b)|
        ≤ |roundFloat (2 * floatPi * max a b) - 2 * floatPi * max a b|
          + |2 * floatPi * max a b| := by
      have := abs_add (roundFloat (2 * floatPi * max a b) - 2 * floatPi * max a b)
        (2 * floatPi * max a b)
      simpa using this
    generalize (2 : R) ^ (-150 : ℤ) = c at h150 herr
    generalize |2 * floatPi * max a b| * (2 : R) ^ (-24 : ℤ) = d at hprod herr
    linarith
  obtain ⟨hlo, hhi⟩ := abs_le.mp hrabs
  refine ⟨truncToInt (roundFloat (2 * floatPi * max a b)), ?_⟩
  apply intOfFloat_eq_some _ _ rfl
  rw [fitsInt_iff]
  unfold truncToInt
  split_ifs with hnn
  · constructor
    · have : 0 ≤ ⌊roundFloat (2 * floatPi * max a b)⌋ := Int.floor_nonneg.mpr hnn
      omega
    · have : ⌊roundFloat (2 * floatPi * max a b)⌋ ≤ 2000000000 :=
        Int.floor_le_iff.mpr (by push_cast; linarith)
      omega
  · constructor
    · have : (-2000000000 : ℤ) ≤ ⌈roundFloat (2 * floatPi * max a b)⌉ :=
        Int.le_ceil_iff.mpr (by push_cast; linarith)
      omega
    · have : ⌈roundFloat (2 * floatPi * max a b)⌉ ≤ 0 :=
        Int.ceil_le.mpr (by push_cast; linarith [not_le.mp hnn])
      omega

/-- C23 (amended claim): for every geometry whose semi-axes are numbers, the
larger one of a magnitude of at most `300000000`, the outline length of
`getStats` has a value: the `float` product `2.0f * (float)M_PI * max(a, b)`,
rounded to `float` and truncated.  The number of segments lies in `[1, 200]`, and
it is the value `min(200, max(1, floor(2 * pi * max(a, b)) / 4))` of the formula
with the exact product (`pi` the constant `(float)M_PI`) or that value plus
one. -/
theorem RANSAC.segments_of_float_product [FloorRing R] (a b : R)
    (h : |max a b| ≤ 300000000) :
    ∃ apx, RANSAC.outlinePixelsApx ⟨some a, some b⟩ = some apx ∧
      apx = truncToInt (roundFloat (2 * floatPi * max a b)) ∧
      1 ≤ RANSAC.segments apx ∧ RANSAC.segments apx ≤ 200 ∧
      (RANSAC.segments apx = RANSAC.segmentsSpec floatPi a b ∨
        RANSAC.segments apx = RANSAC.segmentsSpec floatPi a b + 1) := by
  obtain ⟨apx, hapx⟩ := RANSAC.outlinePixelsApx_defined a b h
  refine ⟨apx, hapx, ?_, (RANSAC.segments_mem apx).1, (RANSAC.segments_mem apx).2,
    RANSAC.segments_eq_spec_or_succ a b apx hapx⟩
  rw [RANSAC.outlinePixelsApx_some, intOfFloat_eq_some_iff] at hapx
  exact hapx.1.symm

/-- C23 witness: the circle of radius 2, with 12 outline pixels and 3 segments. -/
theorem RANSAC.segments_of_float_product_witness :
    |max (2 : ℚ) 2| ≤ 300000000 ∧
    ∃ apx, RANSAC.outlinePixelsApx (⟨some 2, some 2⟩ : GeometricParams ℚ) = some apx ∧
      apx = truncToInt (roundFloat (2 * floatPi * max (2 : ℚ) 2)) ∧
      1 ≤ RANSAC.segments apx ∧ RANSAC.segments apx ≤ 200 ∧
      (RANSAC.segments apx = RANSAC.segmentsSpec floatPi (2 : ℚ) 2 ∨
        RANSAC.segments apx = RANSAC.segmentsSpec floatPi (2 : ℚ) 2 + 1) :=
  ⟨by norm_num, RANSAC.segments_of_float_product (2 : ℚ) 2 (by norm_num)⟩

/-- C23 (claim as stated fails): for `a = b = 10680707 / 2^23` (the `float`
`1.27323949`) the exact product `2 * pi * a` is below 8, for the constant
`(float)M_PI` and for the number π alike, so the formula of the claim gives
`floor(..) / 4 = 7 / 4 = 1` segment; the `float` product rounds to 8 and the code
uses `8 / 4 = 2` segments.  For `a = b = 400000000` the product rounds to
`2513274112`, which is not a value of `int`: the conversion has no value. -/
theorem RANSAC.segments_differs_from_formula :
    RANSAC.outlinePixelsApx (⟨some (10680707 / 8388608), some (10680707 / 8388608)⟩ :
      GeometricParams ℝ) = some 8 ∧
    RANSAC.segments 8 = 2 ∧
    RANSAC.segmentsSpec floatPi (10680707 / 8388608 : ℝ) (10680707 / 8388608) = 1 ∧
    RANSAC.segmentsSpec Real.pi (10680707 / 8388608 : ℝ) (10680707 / 8388608) = 1 ∧
    RANSAC.outlinePixelsApx (⟨some 400000000, some 400000000⟩ : GeometricParams ℝ) = none := by
  have hr8 : roundFloat (2 * floatPi * (10680707 / 8388608) : ℝ) = 8 :=
    roundFloat_eval_pos _ _ 2 16777216 (by norm_num) (by norm_num [floatPi]) (by norm_num [floatPi]) (by norm_num [floatPi]) (by norm_num [floatPi]) (by norm_num)
  have hrbig : roundFloat (2 * floatPi * 400000000 : ℝ) = 2513274112 :=
    roundFloat_eval_pos _ _ 31 9817477 (by norm_num) (by norm_num [floatPi]) (by norm_num [floatPi]) (by norm_num [floatPi]) (by norm_num [floatPi]) (by norm_num)
  refine ⟨?_, by decide, ?_, ?_, ?_⟩
  · rw [RANSAC.outlinePixelsApx_some, max_self, hr8]
    exact intOfFloat_eq_some _ 8 (by simpa using truncToInt_intCast (R := ℝ) 8) (by decide)
  · unfold RANSAC.segmentsSpec
    rw [max_self]
    have : ⌊(2 * floatPi * (10680707 / 8388608) : ℝ)⌋ = 7 := by
      rw [Int.floor_eq_iff]
      constructor <;> norm_num [floatPi]
    rw [this]
    decide
  · unfold RANSAC.segmentsSpec
    rw [max_self]
    have : ⌊(2 * Real.pi * (10680707 / 8388608) : ℝ)⌋ = 7 := by
      rw [Int.floor_eq_iff]
      have h1 := Real.pi_gt_d6
      have h2 := Real.pi_lt_d20
      constructor
      · norm_num at h1 ⊢
        linarith
      · norm_num at h2 ⊢
        linarith
    rw [this]
    decide
  · rw [RANSAC.outlinePixelsApx_some, max_self, hrbig]
    unfold intOfFloat
    have : truncToInt (2513274112 : ℝ) = 2513274112 := by
      simpa using truncToInt_intCast (R := ℝ) 2513274112
    rw [this]
    rfl

end EllipseEstimator

namespace Kernel

variable {R : Type} [LinearOrderedField R]

/-! ## C20: the sum of a normalised kernel -/

theorem sum_map_div (l : List R) (s : R) : (l.map fun x => x / s).sum = l.sum / s := by
  induction l with
  | nil => simp
  | cons a l ih => simp only [List.map_cons, List.sum_cons, ih, add_div]

theorem take_map_take_append_drop {α : Type} (l : List α) (n : ℕ) (f : α → α) :
    ((l.take n).map f ++ l.drop n).take n = (l.take n).map f := by
  rcases Nat.lt_or_ge l.length n with h | h
  · rw [List.drop_eq_nil_of_le h.le, List.append_nil, List.take_of_length_le]
    simp only [List.length_map, List.length_take]
    omega
  · have hlen : ((l.take n).map f).length = n := by
      simp only [List.length_map, List.length_take]
      omega
    rw [List.take_append_of_le_length (by omega), List.take_of_length_le (by omega)]

/-- C20 (amended): for every kernel whose values sum to a nonzero number (such a
kernel is non-empty), `normalize()` has a result, the dimensions are unchanged,
and `getSum()` of the result is 1. -/
theorem getSum_normalize (k : Kernel R) (h : k.getSum ≠ 0) :
    0 < k.width * k.height ∧
    ∃ k', k.normalize = some k' ∧ k'.width = k.width ∧ k'.height = k.height ∧
      k'.getSum = 1 := by
  have hne : k.width * k.height ≠ 0 := by
    intro h0
    apply h
    unfold getSum
    rw [h0]
    simp
  refine ⟨Nat.pos_of_ne_zero hne,
    { k with data := (k.data.take (k.width * k.height)).map (fun x => x / k.getSum)
        ++ k.data.drop (k.width * k.height) }, ?_, rfl, rfl, ?_⟩
  · unfold normalize
    rw [if_neg hne, if_neg h]
  · show (List.take (k.width * k.height)
      ((k.data.take (k.width * k.height)).map (fun x => x / k.getSum)
        ++ k.data.drop (k.width * k.height))).sum = 1
    rw [take_map_take_append_drop, sum_map_div]
    exact div_self h

theorem getSum_binomial3 : binomial3.getSum = 4 := by
  norm_num [getSum, binomial3]

/-- C20 witness: the kernel `1 2 1` has the sum 4. -/
theorem getSum_normalize_witness :
    binomial3.getSum ≠ 0 ∧
    ∃ k', binomial3.normalize = some k' ∧ k'.width = binomial3.width ∧
      k'.height = binomial3.height ∧ k'.getSum = 1 :=
  ⟨by rw [getSum_binomial3]; norm_num,
    (getSum_normalize binomial3 (by rw [getSum_binomial3]; norm_num)).2⟩

/-- C20 (claim as stated fails): the derivative kernel `-1 0 1` is non-empty and
its values sum to 0; `normalize()` divides every value by 0, so there is no
normalised kernel and no sum of 1. -/
theorem normalize_zero_sum :
    0 < derivative3.width * derivative3.height ∧ derivative3.getSum = 0 ∧
    derivative3.normalize = none := by
  have hs : derivative3.getSum = 0 := by norm_num [getSum, derivative3]
  refine ⟨by decide, hs, ?_⟩
  unfold normalize
  rw [if_neg (by decide), if_pos hs]

end Kernel

namespace StructuredLight

variable {R : Type} [LinearOrderedField R] [FloorRing R]

/-! ## C24: line numbers -/

theorem DataMatrix_foldl_set {α : Type} (y : ℕ) (f : ℕ → α) (xs : List ℕ) (m : DataMatrix α) :
    (xs.foldl (fun m x => m.set x y (f x)) m).width = m.width ∧
    (xs.foldl (fun m x => m.set x y (f x)) m).height = m.height ∧
    ∀ x' y', (xs.foldl (fun m x => m.set x y (f x)) m).get x' y'
      = if x' ∈ xs ∧ y' = y then f x' else m.get x' y' := by
  induction xs generalizing m with
  | nil => simp
  | cons x xs ih =>
    obtain ⟨hw, hh, hget⟩ := ih (m.set x y (f x))
    refine ⟨hw, hh, fun x' y' => ?_⟩
    rw [List.foldl_cons, hget]
    by_cases hmem : x' ∈ xs ∧ y' = y
    · rw [if_pos hmem, if_pos ⟨List.mem_cons_of_mem _ hmem.1, hmem.2⟩]
    · rw [if_neg hmem]
      simp only [DataMatrix.get, DataMatrix.set]
      by_cases hxy : x' = x ∧ y' = y
      · rw [if_pos hxy, if_pos ⟨by rw [hxy.1]; exact List.mem_cons_self _ _, hxy.2⟩, hxy.1]
      · rw [if_neg hxy, if_neg]
        rintro ⟨h1, h2⟩
        rcases List.mem_cons.mp h1 with h | h
        · exact hxy ⟨h, h2⟩
        · exact hmem ⟨h, h2⟩

theorem DataMatrix_foldl_rows {α : Type} (xs : List ℕ) (f : ℕ → ℕ → α) (ys : List ℕ)
    (m : DataMatrix α) :
    (ys.foldl (fun m y => xs.foldl (fun m x => m.set x y (f x y)) m) m).width = m.width ∧
    (ys.foldl (fun m y => xs.foldl (fun m x => m.set x y (f x y)) m) m).height = m.height ∧
    ∀ x' y', (ys.foldl (fun m y => xs.foldl (fun m x => m.set x y (f x y)) m) m).get x' y'
      = if x' ∈ xs ∧ y' ∈ ys then f x' y' else m.get x' y' := by
  induction ys generalizing m with
  | nil => simp
  | cons y ys ih =>
    obtain ⟨hw, hh, hget⟩ := ih (xs.foldl (fun m x => m.set x y (f x y)) m)
    obtain ⟨hw1, hh1, hget1⟩ := DataMatrix_foldl_set y (fun x => f x y) xs m
    refine ⟨hw.trans hw1, hh.trans hh1, fun x' y' => ?_⟩
    rw [List.foldl_cons, hget]
    by_cases hmem : x' ∈ xs ∧ y' ∈ ys
    · rw [if_pos hmem, if_pos ⟨hmem.1, List.mem_cons_of_mem _ hmem.2⟩]
    · rw [if_neg hmem, hget1]
      by_cases hxy : x' ∈ xs ∧ y' = y
      · rw [if_pos hxy, if_pos ⟨hxy.1, by rw [hxy.2]; exact List.mem_cons_self _ _⟩, hxy.2]
      · rw [if_neg hxy, if_neg]
        rintro ⟨h1, h2⟩
        rcases List.mem_cons.mp h2 with h | h
        · exact hxy ⟨h1, h⟩
        · exact hmem ⟨h1, h⟩

theorem getLineNumbers_get (ref : DataMatrix R) (images : List (DataMatrix R)) :
    (getLineNumbers ref images).width = ref.width ∧
    (getLineNumbers ref images).height = ref.height ∧
    ∀ x y, x < ref.width → y < ref.height →
      (getLineNumbers ref images).get x y = lineNumberAt ref images x y := by
  obtain ⟨hw, hh, hget⟩ := DataMatrix_foldl_rows (List.range ref.width)
    (lineNumberAt ref images) (List.range ref.height) ⟨ref.width, ref.height, fun _ _ => 0⟩
  refine ⟨hw, hh, fun x y hx hy => ?_⟩
  unfold getLineNumbers
  rw [hget, if_pos ⟨List.mem_range.mpr hx, List.mem_range.mpr hy⟩]

theorem int_lor_zero (n : ℤ) : Int.lor n 0 = n := by
  cases n with
  | ofNat m => simp [Int.lor]
  | negSucc m =>
    show Int.lor (Int.negSucc m) (Int.ofNat 0) = _
    simp [Int.lor, Nat.ldiff]

theorem int_shiftLeft_one (n : ℤ) : n <<< (1 : ℤ) = 2 * n := by
  have := Int.shiftLeft_eq_mul_pow n 1
  simp only [Nat.cast_one, pow_one, Nat.cast_ofNat] at this
  rw [this, mul_comm]

theorem int_lor_one_of_even (n : ℤ) : Int.lor (2 * n) 1 = 2 * n + 1 := by
  have h := Int.lor_bit false n true 0
  rw [int_lor_zero] at h
  simpa [Int.bit] using h

theorem wrapInt_of_mem (n : ℤ) (h1 : -2147483648 ≤ n) (h2 : n ≤ 2147483647) : wrapInt n = n := by
  unfold wrapInt
  omega

theorem wrapInt_mem (n : ℤ) : -2147483648 ≤ wrapInt n ∧ wrapInt n ≤ 2147483647 := by
  unfold wrapInt
  omega

theorem wrapInt_modEq (n : ℤ) : wrapInt n ≡ n [ZMOD 4294967296] := by
  unfold wrapInt Int.ModEq
  omega

theorem wrapInt_eq_of_modEq (a b : ℤ) (h : a ≡ b [ZMOD 4294967296]) : wrapInt a = wrapInt b := by
  unfold Int.ModEq at h
  unfold wrapInt
  omega

/-- the shifted `lineNr` is even, so that `lineNr |= 1` adds one -/
theorem lor_wrapInt_double (n : ℤ) :
    Int.lor (wrapInt (2 * n)) 1 = wrapInt (2 * n) + 1 ∧
    -2147483648 ≤ wrapInt (2 * n) + 1 ∧ wrapInt (2 * n) + 1 ≤ 2147483647 := by
  obtain ⟨m, hm⟩ : ∃ m, wrapInt (2 * n) = 2 * m :=
    ⟨(n + 1073741824) % 2147483648 - 1073741824, by unfold wrapInt; omega⟩
  have := wrapInt_mem (2 * n)
  rw [hm] at this ⊢
  exact ⟨int_lor_one_of_even m, by omega, by omega⟩

/-- `getNumLines(L) = 2^L` for at most 30 levels -/
theorem getNumLines_eq (numLevels : ℕ) (h : numLevels ≤ 30) :
    getNumLines numLevels = some (2 ^ numLevels) := by
  unfold getNumLines
  rw [if_pos (by omega), Int.shiftLeft_eq_mul_pow, one_mul]
  push_cast
  have h1 : (2 : ℤ) ^ numLevels ≤ 2 ^ 30 := pow_le_pow_right₀ (by norm_num) h
  have h0 : (0 : ℤ) < 2 ^ numLevels := by positivity
  rw [wrapInt_of_mem _ (by linarith) (by norm_num at h1 ⊢; linarith)]

/-- `1 << 31` is the least `int`, and `1 << 32` has no value -/
theorem getNumLines_overflow :
    getNumLines 31 = some (-2147483648) ∧ getNumLines 32 = none := by
  constructor
  · unfold getNumLines
    rw [if_pos (by norm_num), Int.shiftLeft_eq_mul_pow]
    rfl
  · rfl

theorem bitsToNumber_cons (b : Bool) (bits : List Bool) :
    bitsToNumber (b :: bits) = (if b then 2 ^ bits.length else 0) + bitsToNumber bits := by
  unfold bitsToNumber
  rw [List.length_cons, Finset.sum_range_succ', add_comm]
  congr 1
  apply Finset.sum_congr rfl
  intro i _
  simp only [List.getD_cons_succ, Nat.add_sub_cancel]
  congr 2
  omega

theorem bitsToNumber_bounds (bits : List Bool) :
    0 ≤ bitsToNumber bits ∧ bitsToNumber bits < 2 ^ bits.length := by
  induction bits with
  | nil => simp [bitsToNumber]
  | cons b bits ih =>
    rw [bitsToNumber_cons, List.length_cons, pow_succ]
    have hpos : (0 : ℤ) < 2 ^ bits.length := by positivity
    cases b <;> simp <;> constructor <;> linarith [ih.1, ih.2]

theorem levelLoop_eq (refVal : R) (x y : ℕ) (images : List (DataMatrix R)) (lineNr : ℤ)
    (h1 : -2147483648 ≤ lineNr) (h2 : lineNr ≤ 2147483647) :
    levelLoop refVal x y images lineNr
      = if ∃ img ∈ images, brightnessDiff (img.get x y) refVal > dSame then -1
        else wrapInt (lineNr * 2 ^ images.length
          + bitsToNumber
              (images.map fun img => decide (brightnessDiff (img.get x y) refVal < -dDarker))) := by
  induction images generalizing lineNr with
  | nil => simp [levelLoop, bitsToNumber, wrapInt_of_mem lineNr h1 h2]
  | cons img images ih =>
    have hD : (0 : R) < dDarker := by norm_num [dDarker]
    have hS : (0 : R) < dSame := by norm_num [dSame]
    obtain ⟨hlor, hl1, hl2⟩ := lor_wrapInt_double lineNr
    obtain ⟨hw1, hw2⟩ := wrapInt_mem (2 * lineNr)
    have hmod := wrapInt_modEq (2 * lineNr)
    simp only [levelLoop, getBest, int_shiftLeft_one, List.map_cons,
      bitsToNumber_cons, List.length_cons, List.length_map, List.mem_cons, exists_eq_or_imp]
    simp only [brightnessDiff] at ih ⊢
    by_cases hdark : roundFloat (img.get x y - refVal) < -dDarker
    · have hnb : ¬ (roundFloat (img.get x y - refVal) > dSame) := by
        intro h
        linarith
      rw [if_pos hdark, hlor, ih _ hl1 hl2]
      by_cases hex : ∃ img ∈ images, roundFloat (img.get x y - refVal) > dSame
      · rw [if_pos hex, if_pos (Or.inr hex)]
      · rw [if_neg hex, if_neg (by rintro (h | h); exact hnb h; exact hex h)]
        simp only [hdark, decide_True, if_true]
        apply wrapInt_eq_of_modEq
        have e : lineNr * 2 ^ (images.length + 1)
            + (2 ^ images.length + bitsToNumber (images.map fun img =>
                decide (roundFloat (img.get x y - refVal) < -dDarker)))
            = (2 * lineNr + 1) * 2 ^ images.length + bitsToNumber (images.map fun img =>
                decide (roundFloat (img.get x y - refVal) < -dDarker)) := by
          ring
        rw [e]
        exact ((hmod.add_right 1).mul_right _).add_right _
    · rw [if_neg hdark]
      by_cases hb : roundFloat (img.get x y - refVal) > dSame
      · rw [if_pos hb, if_pos (Or.inl hb)]
        rfl
      · rw [if_neg hb, ih _ hw1 hw2]
        by_cases hex : ∃ img ∈ images, roundFloat (img.get x y - refVal) > dSame
        · rw [if_pos hex, if_pos (Or.inr hex)]
        · rw [if_neg hex, if_neg (by rintro (h | h); exact hb h; exact hex h)]
          simp only [hdark, decide_False, Bool.false_eq_true, if_false]
          apply wrapInt_eq_of_modEq
          have e : lineNr * 2 ^ (images.length + 1)
              + (0 + bitsToNumber (images.map fun img =>
                  decide (roundFloat (img.get x y - refVal) < -dDarker)))
              = (2 * lineNr) * 2 ^ images.length + bitsToNumber (images.map fun img =>
                  decide (roundFloat (img.get x y - refVal) < -dDarker)) := by
            ring
          rw [e]
          exact (hmod.mul_right _).add_right _

/-- the value stored for a pixel, for any number of levels: the number of the
reference definition, wrapped to the 32-bit `int` -/
theorem lineNumberAt_eq_wrapped (ref : DataMatrix R) (images : List (DataMatrix R)) (x y : ℕ) :
    lineNumberAt ref images x y
      = if ref.get x y < minBrightness
            ∨ ∃ img ∈ images, brightnessDiff (img.get x y) (ref.get x y) > dSame then -1
        else wrapInt (bitsToNumber (images.map fun img =>
          decide (brightnessDiff (img.get x y) (ref.get x y) < -dDarker))) := by
  unfold lineNumberAt
  by_cases hdark : ref.get x y < minBrightness
  · simp only [hdark, if_true, true_or]
    rfl
  · simp only [hdark, if_false, false_or]
    rw [levelLoop_eq _ _ _ _ _ (by norm_num) (by norm_num)]
    simp

/-- with at most 31 levels no shift overflows -/
theorem lineNumberAt_eq_floatSpec (ref : DataMatrix R) (images : List (DataMatrix R)) (x y : ℕ)
    (hL : images.length ≤ 31) :
    lineNumberAt ref images x y = lineNumberFloatSpec ref images x y := by
  rw [lineNumberAt_eq_wrapped]
  unfold lineNumberFloatSpec
  split_ifs with h
  · rfl
  · have hb := bitsToNumber_bounds (images.map fun img =>
      decide (brightnessDiff (img.get x y) (ref.get x y) < -dDarker))
    rw [List.length_map] at hb
    have h1 : (2 : ℤ) ^ images.length ≤ 2 ^ 31 := pow_le_pow_right₀ (by norm_num) hL
    exact wrapInt_of_mem _ (by linarith [hb.1]) (by norm_num at h1; linarith [hb.2])

/-- for `float` brightness values and a reference that is not dark, the `float`
difference exceeds `dSame` exactly when the exact difference does -/
theorem brightnessDiff_gt_dSame_iff (l r : R) (hl : IsFloat l) (hr : IsFloat r)
    (hmin : minBrightness ≤ r) : brightnessDiff l r > dSame ↔ l - r > dSame := by
  have hS : (dSame : R) = ((16106127 : ℕ) : R) * 2 ^ (-29 : ℤ) := by norm_num [dSame]
  have hSpos : (0 : R) < dSame := by norm_num [dSame]
  have hr3 : (2 : R) ^ (-3 : ℤ) ≤ r := le_trans (by norm_num [minBrightness]) hmin
  unfold brightnessDiff
  constructor
  · intro h
    by_contra hcon
    have hle : l - r ≤ dSame := not_lt.mp hcon
    have : roundFloat (l - r) ≤ dSame := by
      rcases le_or_lt (l - r) 0 with h0 | h0
      · exact le_trans (roundFloat_nonpos _ h0) hSpos.le
      · rw [hS]
        exact roundFloat_le_of_float 16106127 (-29) (by norm_num) (by norm_num) _ h0
          (by rw [← hS]; exact hle)
    exact absurd h (not_lt.mpr this)
  · intro h
    have hd : (0 : R) < l - r := lt_trans hSpos h
    rcases le_or_lt ((2 : R) ^ (-2 : ℤ)) (l - r) with hbig | hsmall
    · have := le_roundFloat_of_float 1 (-2) (by norm_num) (by norm_num) (l - r) hd
        (by simpa using hbig)
      have h4 : (dSame : R) < ((1 : ℕ) : R) * 2 ^ (-2 : ℤ) := by norm_num [dSame]
      exact lt_of_lt_of_le h4 this
    · obtain ⟨mr, hmr⟩ := isFloat_grid r hr (-3) (by rwa [abs_of_pos (by linarith [zpow_pos (show (0 : R) < 2 by norm_num) (-3)])])
      have hl3 : (2 : R) ^ (-3 : ℤ) ≤ l := by linarith
      obtain ⟨ml, hml⟩ := isFloat_grid l hl (-3) (by rwa [abs_of_pos (by linarith [zpow_pos (show (0 : R) < 2 by norm_num) (-3)])])
      have hgrid : l - r = ((ml - mr : ℤ) : R) * 2 ^ (-26 : ℤ) := by
        rw [hml, hmr]
        push_cast
        norm_num
        ring
      have hm : |ml - mr| < 2 ^ 24 := by
        have h1 : ((ml - mr : ℤ) : R) < 2 ^ 24 := by
          rw [hgrid] at hsmall
          norm_num at hsmall ⊢
          linarith
        have h2 : (0 : R) < ((ml - mr : ℤ) : R) := by
          rw [hgrid] at hd
          norm_num at hd ⊢
          linarith
        have h1' : ml - mr < 2 ^ 24 := by exact_mod_cast h1
        have h2' : 0 < ml - mr := by exact_mod_cast h2
        rw [abs_of_pos h2']
        exact h1'
      rw [hgrid, roundFloat_int_mul_zpow _ _ hm (by norm_num), ← hgrid]
      exact h

/-- for `float` brightness values and a reference that is not dark, the `float`
difference is below `-dDarker` exactly when the exact difference is -/
theorem brightnessDiff_lt_dDarker_iff (l r : R) (hl : IsFloat l) (hr : IsFloat r)
    (hmin : minBrightness ≤ r) : brightnessDiff l r < -dDarker ↔ r - l > dDarker := by
  have hD : (dDarker : R) = ((13421773 : ℕ) : R) * 2 ^ (-27 : ℤ) := by norm_num [dDarker]
  have hDpos : (0 : R) < dDarker := by norm_num [dDarker]
  have hr3 : (2 : R) ^ (-3 : ℤ) ≤ r := le_trans (by norm_num [minBrightness]) hmin
  have hneg : roundFloat (l - r) = -roundFloat (r - l) := by
    rw [← roundFloat_neg, neg_sub]
  unfold brightnessDiff
  rw [hneg, neg_lt_neg_iff]
  constructor
  · intro h
    by_contra hcon
    have hle : r - l ≤ dDarker := not_lt.mp hcon
    have : roundFloat (r - l) ≤ dDarker := by
      rcases le_or_lt (r - l) 0 with h0 | h0
      · exact le_trans (roundFloat_nonpos _ h0) hDpos.le
      · rw [hD]
        exact roundFloat_le_of_float 13421773 (-27) (by norm_num) (by norm_num) _ h0
          (by rw [← hD]; exact hle)
    exact absurd h (not_lt.mpr this)
  · intro h
    have hd : (0 : R) < r - l := lt_trans hDpos h
    rcases le_or_lt (((7 : ℕ) : R) * 2 ^ (-6 : ℤ)) (r - l) with hbig | hsmall
    · have := le_roundFloat_of_float 7 (-6) (by norm_num) (by norm_num) (r - l) hd hbig
      have h4 : (dDarker : R) < ((7 : ℕ) : R) * 2 ^ (-6 : ℤ) := by norm_num [dDarker]
      exact lt_of_lt_of_le h4 this
    · have hmin' : (5033165 / 33554432 : R) ≤ r := hmin
      have hl5 : (2 : R) ^ (-5 : ℤ) ≤ l := by
        norm_num at hsmall ⊢
        linarith
      obtain ⟨mr, hmr⟩ := isFloat_grid r hr (-3) (by rwa [abs_of_pos (by linarith [zpow_pos (show (0 : R) < 2 by norm_num) (-3)])])
      obtain ⟨ml, hml⟩ := isFloat_grid l hl (-5) (by rwa [abs_of_pos (by linarith [zpow_pos (show (0 : R) < 2 by norm_num) (-5)])])
      have hgrid : r - l = ((4 * mr - ml : ℤ) : R) * 2 ^ (-28 : ℤ) := by
        rw [hml, hmr]
        push_cast
        norm_num
        ring
      have hm1 : 26843546 < 4 * mr - ml := by
        have h1 : ((26843546 : ℤ) : R) < ((4 * mr - ml : ℤ) : R) := by
          rw [hgrid, hD] at h
          norm_num at h ⊢
          linarith
        exact_mod_cast h1
      rcases (show 4 * mr - ml = 26843547 ∨ 26843548 ≤ 4 * mr - ml by omega) with htie | hge
      · have hval : r - l = (26843547 / 268435456 : R) := by
          rw [hgrid, htie]
          norm_num
        have hrf : roundFloat (26843547 / 268435456 : R) = 13421774 / 134217728 :=
          roundFloat_eval_tie _ _ (-4) 13421773 13421774 (by norm_num) (by norm_num)
            (by norm_num) (by norm_num) (by norm_num) (by norm_num)
        rw [hval, hrf]
        norm_num [dDarker]
      · have hc : ((13421774 : ℕ) : R) * 2 ^ (-27 : ℤ) ≤ r - l := by
          have h1 : ((26843548 : ℤ) : R) ≤ ((4 * mr - ml : ℤ) : R) := by exact_mod_cast hge
          rw [hgrid]
          norm_num at h1 ⊢
          linarith
        have := le_roundFloat_of_float 13421774 (-27) (by norm_num) (by norm_num) (r - l) hd hc
        have h4 : (dDarker : R) < ((13421774 : ℕ) : R) * 2 ^ (-27 : ℤ) := by
          norm_num [dDarker]
        exact lt_of_lt_of_le h4 this

/-- for `float` brightness values the two reference definitions agree -/
theorem lineNumberFloatSpec_eq_spec (ref : DataMatrix R) (images : List (DataMatrix R))
    (x y : ℕ) (href : IsFloat (ref.get x y)) (himg : ∀ img ∈ images, IsFloat (img.get x y)) :
    lineNumberFloatSpec ref images x y = lineNumberSpec ref images x y := by
  unfold lineNumberFloatSpec lineNumberSpec
  by_cases hdark : ref.get x y < minBrightness
  · simp only [hdark, true_or, if_true]
  · have hmin : minBrightness ≤ ref.get x y := not_lt.mp hdark
    have hex : (∃ img ∈ images, brightnessDiff (img.get x y) (ref.get x y) > dSame)
        ↔ ∃ img ∈ images, img.get x y - ref.get x y > dSame := by
      constructor
      · rintro ⟨img, hmem, h⟩
        exact ⟨img, hmem, (brightnessDiff_gt_dSame_iff _ _ (himg img hmem) href hmin).mp h⟩
      · rintro ⟨img, hmem, h⟩
        exact ⟨img, hmem, (brightnessDiff_gt_dSame_iff _ _ (himg img hmem) href hmin).mpr h⟩
    have hbits : (images.map fun img =>
          decide (brightnessDiff (img.get x y) (ref.get x y) < -dDarker))
        = images.map fun img => decide (ref.get x y - img.get x y > dDarker) := by
      apply List.map_congr_left
      intro img hmem
      exact decide_eq_decide.mpr
        (brightnessDiff_lt_dDarker_iff _ _ (himg img hmem) href hmin)
    simp only [hdark, false_or, hex, hbits]

/-- the decoding and its range, for at most 30 levels -/
theorem getLineNumbers_spec_of_le (ref : DataMatrix R) (images : List (DataMatrix R))
    (x y : ℕ) (hx : x < ref.width) (hy : y < ref.height) (hL : images.length ≤ 30) :
    (getLineNumbers ref images).get x y = lineNumberFloatSpec ref images x y ∧
    (IsFloat (ref.get x y) → (∀ img ∈ images, IsFloat (img.get x y)) →
      (getLineNumbers ref images).get x y = lineNumberSpec ref images x y) ∧
    getNumLines images.length = some (2 ^ images.length) ∧
    ((getLineNumbers ref images).get x y = UNKNOWN_LINE_NUMBER ∨
      (0 ≤ (getLineNumbers ref images).get x y ∧
        (getLineNumbers ref images).get x y < 2 ^ images.length)) := by
  have hget := (getLineNumbers_get ref images).2.2 x y hx hy
  rw [hget, lineNumberAt_eq_floatSpec ref images x y (by omega)]
  refine ⟨rfl, fun href himg => lineNumberFloatSpec_eq_spec ref images x y href himg,
    getNumLines_eq _ hL, ?_⟩
  unfold lineNumberFloatSpec
  split_ifs with h
  · exact Or.inl rfl
  · right
    have := bitsToNumber_bounds
      (images.map fun img => decide (brightnessDiff (img.get x y) (ref.get x y) < -dDarker))
    rw [List.length_map] at this
    exact this

/-- C24 (amended): for every reference image, every list of `L ≤ 30` level
images and every pixel `(x, y)` of the reference image, the line number that
`getLineNumbers` stores is the one of the reference definition, with the
thresholds `minBrightness = 0.15f`, `dSame = 0.03f`, `dDarker = 0.10f`: `-1` when
the reference is darker than `minBrightness` or some level is brighter than the
reference by more than `dSame`, otherwise the `L`-digit binary number, first
level most significant, whose digit `i` is 1 exactly when level `i` is darker
than the reference by more than `dDarker`.  This holds with the differences
`level - ref` taken in `float` arithmetic, as the program takes them, and, when
the brightness values at the pixel are `float` values, with the exact
differences as well.  `getNumLines(L)` has the value `2^L`, and every result is
`-1` or lies in `[0, getNumLines(L))`. -/
theorem getLineNumbers_eq_spec (ref : DataMatrix R) (images : List (DataMatrix R)) (x y : ℕ)
    (hx : x < ref.width) (hy : y < ref.height) (hL : images.length ≤ 30) :
    (getLineNumbers ref images).get x y = lineNumberFloatSpec ref images x y ∧
    (IsFloat (ref.get x y) → (∀ img ∈ images, IsFloat (img.get x y)) →
      (getLineNumbers ref images).get x y = lineNumberSpec ref images x y) ∧
    getNumLines images.length = some (2 ^ images.length) ∧
    ((getLineNumbers ref images).get x y = UNKNOWN_LINE_NUMBER ∨
      (0 ≤ (getLineNumbers ref images).get x y ∧
        (getLineNumbers ref images).get x y < 2 ^ images.length)) :=
  getLineNumbers_spec_of_le ref images x y hx hy hL

theorem brightnessDiff_zero_one : brightnessDiff (0 : ℚ) 1 = -1 := by
  unfold brightnessDiff
  have h := roundFloat_intCast (R := ℚ) (-1) (by norm_num)
  norm_num at h ⊢
  exact h

theorem brightnessDiff_one_one : brightnessDiff (1 : ℚ) 1 = 0 := by
  unfold brightnessDiff
  rw [sub_self, roundFloat_zero]

theorem brightnessDiff_two_one : brightnessDiff (2 : ℚ) 1 = 1 := by
  unfold brightnessDiff
  have h : (2 : ℚ) - 1 = 1 := by norm_num
  rw [h, roundFloat_one]

/-- the line numbers of the example along a row: `0, 2, 1, -1, 0` -/
theorem lineNumberFloatSpec_stripeData (y : ℕ) :
    lineNumberFloatSpec whiteRef [stripe, stripeTwo] 0 y = 0 ∧
    lineNumberFloatSpec whiteRef [stripe, stripeTwo] 1 y = 2 ∧
    lineNumberFloatSpec whiteRef [stripe, stripeTwo] 2 y = 1 ∧
    lineNumberFloatSpec whiteRef [stripe, stripeTwo] 3 y = -1 ∧
    lineNumberFloatSpec whiteRef [stripe, stripeTwo] 4 y = 0 := by
  refine ⟨?_, ?_, ?_, ?_, ?_⟩ <;>
    norm_num [lineNumberFloatSpec, whiteRef, stripe, stripeTwo, DataMatrix.get, minBrightness, dSame,
      dDarker, bitsToNumber, Finset.sum_range_succ, brightnessDiff_zero_one,
      brightnessDiff_one_one, brightnessDiff_two_one]

theorem isFloat_zero : IsFloat (0 : ℚ) := roundFloat_zero

theorem isFloat_one : IsFloat (1 : ℚ) := roundFloat_one

theorem isFloat_two : IsFloat (2 : ℚ) := by
  have h := roundFloat_natCast (R := ℚ) 2 (by norm_num)
  exact_mod_cast h

/-- the exact reference definition along a row of the example: `0, 2, 1, -1, 0` -/
theorem lineNumberSpec_stripeData (y : ℕ) :
    lineNumberSpec whiteRef [stripe, stripeTwo] 0 y = 0 ∧
    lineNumberSpec whiteRef [stripe, stripeTwo] 1 y = 2 ∧
    lineNumberSpec whiteRef [stripe, stripeTwo] 2 y = 1 ∧
    lineNumberSpec whiteRef [stripe, stripeTwo] 3 y = -1 ∧
    lineNumberSpec whiteRef [stripe, stripeTwo] 4 y = 0 := by
  refine ⟨?_, ?_, ?_, ?_, ?_⟩ <;>
    norm_num [lineNumberSpec, whiteRef, stripe, stripeTwo, DataMatrix.get, minBrightness, dSame,
      dDarker, bitsToNumber, Finset.sum_range_succ]

/-- C24 witness: the pixel `(1, 2)` of the 5×5 example with two levels, whose
brightness values 1, 0 and 1 are `float` values and whose line number is 2 (first
level dark, second level as bright as the reference). -/
theorem getLineNumbers_eq_spec_witness :
    1 < whiteRef.width ∧ 2 < whiteRef.height ∧ [stripe, stripeTwo].length ≤ 30 ∧
    (getLineNumbers whiteRef [stripe, stripeTwo]).get 1 2
      = lineNumberFloatSpec whiteRef [stripe, stripeTwo] 1 2 ∧
    (getLineNumbers whiteRef [stripe, stripeTwo]).get 1 2
      = lineNumberSpec whiteRef [stripe, stripeTwo] 1 2 ∧
    lineNumberSpec whiteRef [stripe, stripeTwo] 1 2 = 2 :=
  ⟨by decide, by decide, by decide,
    (getLineNumbers_eq_spec whiteRef [stripe, stripeTwo] 1 2 (by decide) (by decide)
      (by decide)).1,
    (getLineNumbers_eq_spec whiteRef [stripe, stripeTwo] 1 2 (by decide) (by decide)
      (by decide)).2.1 isFloat_one (by
        intro img himg
        simp only [List.mem_cons, List.mem_singleton, List.not_mem_nil, or_false] at himg
        rcases himg with rfl | rfl
        · exact isFloat_zero
        · exact isFloat_one),
    (lineNumberSpec_stripeData 2).2.1⟩

theorem bitsToNumber_replicate_true (n : ℕ) :
    bitsToNumber (List.replicate n true) = 2 ^ n - 1 := by
  induction n with
  | zero => simp [bitsToNumber]
  | succ n ih =>
    rw [List.replicate_succ, bitsToNumber_cons, ih, List.length_replicate, pow_succ]
    simp only [if_true]
    ring

theorem bitsToNumber_replicate_false (n : ℕ) :
    bitsToNumber (List.replicate n false) = 0 := by
  induction n with
  | zero => simp [bitsToNumber]
  | succ n ih =>
    rw [List.replicate_succ, bitsToNumber_cons, ih]
    simp

/-- the value stored for a pixel of brightness 1 whose `n` levels all have the
brightness 0, and the one of the reference definition -/
theorem lineNumberAt_all_dark (n : ℕ) :
    lineNumberAt whitePixel (List.replicate n darkPixel) 0 0 = wrapInt (2 ^ n - 1) ∧
    lineNumberSpec whitePixel (List.replicate n darkPixel) 0 0 = 2 ^ n - 1 := by
  have hd : (-1 : ℚ) < -dDarker := by norm_num [dDarker]
  have hs : ¬ ((-1 : ℚ) > dSame) := by norm_num [dSame]
  have hm : ¬ ((1 : ℚ) < minBrightness) := by norm_num [minBrightness]
  have hex : ¬ (whitePixel.get 0 0 < minBrightness
      ∨ ∃ img ∈ List.replicate n darkPixel,
        brightnessDiff (img.get 0 0) (whitePixel.get 0 0) > dSame) := by
    rintro (h | ⟨img, himg, h⟩)
    · exact hm h
    · rw [(List.mem_replicate.mp himg).2] at h
      simp only [DataMatrix.get, whitePixel, darkPixel, brightnessDiff_zero_one] at h
      exact hs h
  have hbits : (List.replicate n darkPixel).map
      (fun img => decide (brightnessDiff (img.get 0 0) (whitePixel.get 0 0) < -dDarker))
      = List.replicate n true := by
    rw [List.map_replicate]
    simp only [DataMatrix.get, whitePixel, darkPixel, brightnessDiff_zero_one, hd, decide_True]
  constructor
  · rw [lineNumberAt_eq_wrapped, if_neg hex, hbits, bitsToNumber_replicate_true]
  · unfold lineNumberSpec
    have hex' : ¬ (whitePixel.get 0 0 < minBrightness
        ∨ ∃ img ∈ List.replicate n darkPixel, img.get 0 0 - whitePixel.get 0 0 > dSame) := by
      rintro (h | ⟨img, himg, h⟩)
      · exact hm h
      · rw [(List.mem_replicate.mp himg).2] at h
        norm_num [DataMatrix.get, whitePixel, darkPixel, dSame] at h
    have hbits' : (List.replicate n darkPixel).map
        (fun img => decide (whitePixel.get 0 0 - img.get 0 0 > dDarker))
        = List.replicate n true := by
      rw [List.map_replicate]
      norm_num [DataMatrix.get, whitePixel, darkPixel, dDarker]
    rw [if_neg hex', hbits', bitsToNumber_replicate_true]

/-- the value stored for a pixel of brightness 1 whose `n` levels all have the
brightness 1 -/
theorem lineNumberAt_all_same (n : ℕ) :
    lineNumberAt whitePixel (List.replicate n whitePixel) 0 0 = 0 := by
  have hd : ¬ ((0 : ℚ) < -dDarker) := by norm_num [dDarker]
  have hs : ¬ ((0 : ℚ) > dSame) := by norm_num [dSame]
  have hm : ¬ ((1 : ℚ) < minBrightness) := by norm_num [minBrightness]
  have hex : ¬ (whitePixel.get 0 0 < minBrightness
      ∨ ∃ img ∈ List.replicate n whitePixel,
        brightnessDiff (img.get 0 0) (whitePixel.get 0 0) > dSame) := by
    rintro (h | ⟨img, himg, h⟩)
    · exact hm h
    · rw [(List.mem_replicate.mp himg).2] at h
      simp only [DataMatrix.get, whitePixel, brightnessDiff_one_one] at h
      exact hs h
  have hbits : (List.replicate n whitePixel).map
      (fun img => decide (brightnessDiff (img.get 0 0) (whitePixel.get 0 0) < -dDarker))
      = List.replicate n false := by
    rw [List.map_replicate]
    simp only [DataMatrix.get, whitePixel, brightnessDiff_one_one, hd, decide_False]
  rw [lineNumberAt_eq_wrapped, if_neg hex, hbits, bitsToNumber_replicate_false]
  rfl

/-- C24 (claim as stated fails): the claim covers every number `L` of levels.
With `L = 31` levels `getNumLines(31) = 1 << 31` is the least `int`, not `2^31`,
and the line number 0 of a pixel whose levels are all as bright as the
reference is not below it.  With `L = 32` levels `1 << 32` has no value, and a
pixel of brightness 1 whose 32 levels all have the brightness 0 (reference not
dark, no level brighter) gets `-1`, where the 32-digit number of the claim is
`2^32 - 1`. -/
theorem getLineNumbers_overflow :
    getNumLines (List.replicate 31 whitePixel).length = some (-2147483648) ∧
    (getLineNumbers whitePixel (List.replicate 31 whitePixel)).get 0 0 = 0 ∧
    getNumLines (List.replicate 32 darkPixel).length = none ∧
    (getLineNumbers whitePixel (List.replicate 32 darkPixel)).get 0 0 = UNKNOWN_LINE_NUMBER ∧
    lineNumberSpec whitePixel (List.replicate 32 darkPixel) 0 0 = 4294967295 := by
  have h31 := (getLineNumbers_get whitePixel (List.replicate 31 whitePixel)).2.2 0 0
    (by decide) (by decide)
  have h32 := (getLineNumbers_get whitePixel (List.replicate 32 darkPixel)).2.2 0 0
    (by decide) (by decide)
  obtain ⟨hat, hspec⟩ := lineNumberAt_all_dark 32
  refine ⟨?_, ?_, ?_, ?_, ?_⟩
  · rw [List.length_replicate]
    exact getNumLines_overflow.1
  · rw [h31]
    exact lineNumberAt_all_same 31
  · rw [List.length_replicate]
    exact getNumLines_overflow.2
  · rw [h32, hat]
    rfl
  · rw [hspec]
    norm_num

/-- the thresholds are the `float` constants: for the reference `0.2f` and the
level `0.1f` the `float` difference is `-0.1f`, which is not below `-dDarker`,
so the digit is 0, although the level is darker than the reference by more than
the decimal 0.1 -/
theorem lineNumberAt_fifth_tenth :
    lineNumberAt fifthPixel [tenthPixel] 0 0 = 0 ∧
    fifthPixel.get 0 0 - tenthPixel.get 0 0 > (1 / 10 : ℚ) := by
  have hdiff : brightnessDiff (13421773 / 134217728 : ℚ) (13421773 / 67108864)
      = -(13421773 / 134217728) := by
    unfold brightnessDiff
    have h := roundFloat_int_mul_zpow (R := ℚ) (-13421773) (-27) (by norm_num) (by norm_num)
    have e : (13421773 / 134217728 : ℚ) - 13421773 / 67108864
        = ((-13421773 : ℤ) : ℚ) * 2 ^ (-27 : ℤ) := by
      norm_num
    rw [e, h]
    norm_num
  constructor
  · rw [lineNumberAt_eq_wrapped]
    simp only [DataMatrix.get, fifthPixel, tenthPixel, List.mem_singleton, exists_eq_left,
      List.map_cons, List.map_nil, hdiff]
    norm_num [minBrightness, dSame, dDarker, bitsToNumber, wrapInt]
  · norm_num [DataMatrix.get, fifthPixel, tenthPixel]

/-! ## C25: gap fixing -/

theorem fixGapAt_get (y : ℕ) (m : DataMatrix ℤ) (x : ℕ) :
    (fixGapAt y m x).width = m.width ∧ (fixGapAt y m x).height = m.height ∧
    ∀ x' y', (fixGapAt y m x).get x' y'
      = if x' = x ∧ y' = y then max (m.get x y) (m.get (x - 1) y) else m.get x' y' := by
  unfold fixGapAt
  simp only
  split_ifs with h
  · refine ⟨rfl, rfl, fun x' y' => ?_⟩
    simp only [DataMatrix.get, DataMatrix.set]
    simp only [DataMatrix.get] at h
    split_ifs
    · rw [max_eq_right h.le]
    · rfl
  · refine ⟨rfl, rfl, fun x' y' => ?_⟩
    split_ifs with hxy
    · rw [hxy.1, hxy.2, max_eq_left (not_lt.mp h)]
    · rfl

/-- one row of the gap fixing, over the columns `s, …, s + n - 1` -/
theorem fixGaps_row (y s : ℕ) (hs : 1 ≤ s) (n : ℕ) (m : DataMatrix ℤ) :
    ((List.range' s n).foldl (fixGapAt y) m).width = m.width ∧
    ((List.range' s n).foldl (fixGapAt y) m).height = m.height ∧
    (∀ x' y', (y' ≠ y ∨ x' < s ∨ s + n ≤ x') →
      ((List.range' s n).foldl (fixGapAt y) m).get x' y' = m.get x' y') ∧
    ∀ x', s ≤ x' → x' < s + n →
      ((List.range' s n).foldl (fixGapAt y) m).get x' y
        = max (m.get x' y) (((List.range' s n).foldl (fixGapAt y) m).get (x' - 1) y) := by
  induction n with
  | zero =>
    refine ⟨rfl, rfl, fun _ _ _ => rfl, fun x' h1 h2 => ?_⟩
    omega
  | succ n ih =>
    obtain ⟨hw, hh, hout, hin⟩ := ih
    obtain ⟨hw1, hh1, hget1⟩ := fixGapAt_get y ((List.range' s n).foldl (fixGapAt y) m) (s + n)
    rw [List.range'_concat, List.foldl_append, List.foldl_cons, List.foldl_nil, Nat.one_mul]
    refine ⟨hw1.trans hw, hh1.trans hh, ?_, ?_⟩
    · intro x' y' hcase
      rw [hget1, if_neg (by omega)]
      exact hout x' y' (by omega)
    · intro x' h1 h2
      rw [hget1, hget1, if_neg (show ¬ (x' - 1 = s + n ∧ y = y) by omega)]
      by_cases hx : x' = s + n
      · rw [if_pos ⟨hx, rfl⟩, hx, hout (s + n) y (by omega)]
      · rw [if_neg (by omega)]
        exact hin x' h1 (by omega)

/-- the gap fixing over the rows of a duplicate-free list `ys` -/
theorem fixGaps_rows (ys : List ℕ) (hnd : ys.Nodup) (m : DataMatrix ℤ) :
    (ys.foldl (fun m y => (List.range' 2 (m.width - 4)).foldl (fixGapAt y) m) m).width
      = m.width ∧
    (ys.foldl (fun m y => (List.range' 2 (m.width - 4)).foldl (fixGapAt y) m) m).height
      = m.height ∧
    (∀ x y, (y ∉ ys ∨ x < 2 ∨ 2 + (m.width - 4) ≤ x) →
      (ys.foldl (fun m y => (List.range' 2 (m.width - 4)).foldl (fixGapAt y) m) m).get x y
        = m.get x y) ∧
    ∀ x y, y ∈ ys → 2 ≤ x → x < 2 + (m.width - 4) →
      (ys.foldl (fun m y => (List.range' 2 (m.width - 4)).foldl (fixGapAt y) m) m).get x y
        = max (m.get x y)
          ((ys.foldl (fun m y => (List.range' 2 (m.width - 4)).foldl (fixGapAt y) m) m).get
            (x - 1) y) := by
  induction ys generalizing m with
  | nil =>
    refine ⟨rfl, rfl, fun _ _ _ => rfl, fun x y hy _ _ => ?_⟩
    exact absurd hy (List.not_mem_nil y)
  | cons y0 ys ih =>
    obtain ⟨hy0, hnd'⟩ := List.nodup_cons.mp hnd
    obtain ⟨hw1, hh1, hout1, hin1⟩ := fixGaps_row y0 2 (by norm_num) (m.width - 4) m
    obtain ⟨hw, hh, hout, hin⟩ := ih hnd' ((List.range' 2 (m.width - 4)).foldl (fixGapAt y0) m)
    rw [hw1] at hout hin
    rw [List.foldl_cons]
    refine ⟨hw.trans hw1, hh.trans hh1, ?_, ?_⟩
    · intro x y hcase
      rw [hout x y (by
        rcases hcase with h | h | h
        · exact Or.inl fun hmem => h (List.mem_cons_of_mem _ hmem)
        · exact Or.inr (Or.inl h)
        · exact Or.inr (Or.inr h))]
      apply hout1
      rcases hcase with h | h | h
      · left
        intro hy
        apply h
        rw [hy]
        exact List.mem_cons_self _ _
      · exact Or.inr (Or.inl h)
      · exact Or.inr (Or.inr h)
    · intro x y hy h1 h2
      rcases List.mem_cons.mp hy with rfl | hmem
      · rw [hout x y (Or.inl hy0), hout (x - 1) y (Or.inl hy0)]
        exact hin1 x h1 h2
      · rw [hin x y hmem h1 h2, hout1 x y (Or.inl fun h => hy0 (h ▸ hmem))]

/-- the gap-fixing pass on any matrix of line numbers -/
theorem fixGaps_get (m : DataMatrix ℤ) (x y : ℕ) (hy : 2 ≤ y) (hy' : y + 2 < m.height)
    (hx : 2 ≤ x) (hx' : x + 2 < m.width) :
    (fixGaps m).get x y = max (m.get x y) ((fixGaps m).get (x - 1) y) := by
  unfold fixGaps
  exact (fixGaps_rows (List.range' 2 (m.height - 4)) (List.nodup_range' 2 _) m).2.2.2 x y
    (by rw [List.mem_range'_1]; omega) hx (by omega)

/-- the gap-fixing pass leaves the columns 0 and 1 as they are -/
theorem fixGaps_get_of_lt (m : DataMatrix ℤ) (x y : ℕ) (hx : x < 2) :
    (fixGaps m).get x y = m.get x y := by
  unfold fixGaps
  exact (fixGaps_rows (List.range' 2 (m.height - 4)) (List.nodup_range' 2 _) m).2.2.1 x y
    (Or.inr (Or.inl hx))

/-- C25: after the gap-fixing pass of `calibrate`, in every processed row `y`
(`2 ≤ y < height - 2`) and for every `x` with `2 ≤ x < width - 2`, the entry
`xyToLineNr(x, y)` is the maximum of its original value (the result of
`getLineNumbers`) and the final value of its left neighbour, hence at least
`xyToLineNr(x - 1, y)`. -/
theorem calibrate_rows_monotone (ds : Dataset R) (x y : ℕ)
    (hy : 2 ≤ y) (hy' : y + 2 < ds.ref.height) (hx : 2 ≤ x) (hx' : x + 2 < ds.ref.width) :
    (calibrate ds).get x y
      = max ((getLineNumbers ds.ref ds.levels).get x y) ((calibrate ds).get (x - 1) y) ∧
    (calibrate ds).get (x - 1) y ≤ (calibrate ds).get x y := by
  obtain ⟨hw, hh, _⟩ := getLineNumbers_get ds.ref ds.levels
  have h := fixGaps_get (getLineNumbers ds.ref ds.levels) x y hy (by rw [hh]; exact hy') hx
    (by rw [hw]; exact hx')
  unfold calibrate
  refine ⟨h, ?_⟩
  rw [h]
  exact le_max_right _ _

/-- C25 witness: the entry `(2, 2)` of the 5×5 example: its original line number
1 is below its left neighbour's 2 and is raised to 2. -/
theorem calibrate_rows_monotone_witness :
    (2 : ℕ) ≤ 2 ∧ 2 + 2 < stripeData.ref.height ∧ 2 + 2 < stripeData.ref.width ∧
    (calibrate stripeData).get 2 2
      = max ((getLineNumbers stripeData.ref stripeData.levels).get 2 2)
          ((calibrate stripeData).get (2 - 1) 2) ∧
    (calibrate stripeData).get (2 - 1) 2 ≤ (calibrate stripeData).get 2 2 :=
  ⟨le_rfl, by decide, by decide,
    calibrate_rows_monotone stripeData 2 2 le_rfl (by decide) le_rfl (by decide)⟩

/-- the example evaluated: the entry `(2, 2)` has the original line number 1, its
left neighbour has 2, and the gap fixing raises the entry to 2 -/
theorem calibrate_stripeData :
    (getLineNumbers stripeData.ref stripeData.levels).get 1 2 = 2 ∧
    (getLineNumbers stripeData.ref stripeData.levels).get 2 2 = 1 ∧
    (calibrate stripeData).get 2 2 = 2 := by
  obtain ⟨_, h1, h2, _, _⟩ := lineNumberFloatSpec_stripeData 2
  have e1 : (getLineNumbers stripeData.ref stripeData.levels).get 1 2 = 2 := by
    have h := (getLineNumbers_get whiteRef [stripe, stripeTwo]).2.2 1 2 (by decide) (by decide)
    rw [lineNumberAt_eq_floatSpec _ _ _ _ (by decide), h1] at h
    exact h
  have e2 : (getLineNumbers stripeData.ref stripeData.levels).get 2 2 = 1 := by
    have h := (getLineNumbers_get whiteRef [stripe, stripeTwo]).2.2 2 2 (by decide) (by decide)
    rw [lineNumberAt_eq_floatSpec _ _ _ _ (by decide), h2] at h
    exact h
  refine ⟨e1, e2, ?_⟩
  obtain ⟨hw, hh, _⟩ := getLineNumbers_get stripeData.ref stripeData.levels
  have h := fixGaps_get (getLineNumbers stripeData.ref stripeData.levels) 2 2 le_rfl
    (by rw [hh]; decide) le_rfl (by rw [hw]; decide)
  unfold calibrate
  rw [h, fixGaps_get_of_lt _ _ _ (by decide), e1, e2]
  decide

end StructuredLight

namespace Interpolation

variable {R : Type} [LinearOrderedField R]

/-! ## C26: bilinear interpolation -/

theorem ceil_sub_self_cases [FloorRing R] (x : R) :
    (⌈x⌉ = ⌊x⌋ ∧ (⌊x⌋ : R) = x) ∨ (⌈x⌉ = ⌊x⌋ + 1 ∧ (⌊x⌋ : R) < x) := by
  by_cases h : (⌊x⌋ : R) = x
  · left
    refine ⟨?_, h⟩
    rw [← h, Int.ceil_intCast, Int.floor_intCast]
  · right
    have hlt : (⌊x⌋ : R) < x := lt_of_le_of_ne (Int.floor_le x) h
    refine ⟨?_, hlt⟩
    rw [Int.ceil_eq_iff]
    push_cast
    constructor
    · linarith
    · linarith [Int.lt_floor_add_one x]

theorem lerp_mem (a b t : R) (h0 : 0 ≤ t) (h1 : t ≤ 1) :
    min a b ≤ a * t + b * (1 - t) ∧ a * t + b * (1 - t) ≤ max a b := by
  have hm1 : min a b ≤ a := min_le_left a b
  have hm2 : min a b ≤ b := min_le_right a b
  have hM1 : a ≤ max a b := le_max_left a b
  have hM2 : b ≤ max a b := le_max_right a b
  constructor
  · nlinarith
  · nlinarith

/-- the conversion `(int)` of a whole number in the range of `int` -/
theorem intOfFloat_intCast [FloorRing R] (n : ℤ) (h0 : -2147483648 ≤ n)
    (h1 : n ≤ 2147483647) : intOfFloat (n : R) = some n := by
  unfold intOfFloat
  rw [truncToInt_intCast, if_pos ((fitsInt_iff n).mpr ⟨h0, h1⟩)]

/-- the conversion `(int)` of a whole number outside the range of `int` -/
theorem intOfFloat_intCast_none [FloorRing R] (n : ℤ)
    (h : n < -2147483648 ∨ 2147483647 < n) : intOfFloat (n : R) = none := by
  unfold intOfFloat
  rw [truncToInt_intCast, if_neg]
  rw [fitsInt_iff]
  omega

/-- `Bilinear::get` and `bilinear` are the same function -/
theorem Bilinear_get_eq_bilinear [FloorRing R] (getClamped : ℤ → ℤ → R) (x y : R) :
    Bilinear.get getClamped x y = bilinear getClamped x y := rfl

/-- the value of `bilinear` where the four conversions have values -/
theorem bilinear_eq_some [FloorRing R] (getClamped : ℤ → ℤ → R) (x y : R)
    (hx0 : -2147483648 ≤ ⌊x⌋) (hx1 : ⌈x⌉ ≤ 2147483647)
    (hy0 : -2147483648 ≤ ⌊y⌋) (hy1 : ⌈y⌉ ≤ 2147483647) :
    bilinear getClamped x y
      = some ((getClamped ⌊x⌋ ⌊y⌋ * ((⌈x⌉ : R) - x)
            + getClamped ⌈x⌉ ⌊y⌋ * (1 - ((⌈x⌉ : R) - x))) * ((⌈y⌉ : R) - y)
          + (getClamped ⌊x⌋ ⌈y⌉ * ((⌈x⌉ : R) - x)
            + getClamped ⌈x⌉ ⌈y⌉ * (1 - ((⌈x⌉ : R) - x))) * (1 - ((⌈y⌉ : R) - y))) := by
  have hxle : ⌊x⌋ ≤ ⌈x⌉ := Int.floor_le_ceil x
  have hyle : ⌊y⌋ ≤ ⌈y⌉ := Int.floor_le_ceil y
  unfold bilinear
  rw [intOfFloat_intCast ⌊x⌋ hx0 (by omega), intOfFloat_intCast ⌈x⌉ (by omega) hx1,
    intOfFloat_intCast ⌊y⌋ hy0 (by omega), intOfFloat_intCast ⌈y⌉ (by omega) hy1]
  rfl

/-- the interpolant of `bilinear` is the one with `fx = x - floor(x)`,
`fy = y - floor(y)` -/
theorem bilinear_value_eq_spec [FloorRing R] (getClamped : ℤ → ℤ → R) (x y : R) :
    (getClamped ⌊x⌋ ⌊y⌋ * ((⌈x⌉ : R) - x)
        + getClamped ⌈x⌉ ⌊y⌋ * (1 - ((⌈x⌉ : R) - x))) * ((⌈y⌉ : R) - y)
      + (getClamped ⌊x⌋ ⌈y⌉ * ((⌈x⌉ : R) - x)
        + getClamped ⌈x⌉ ⌈y⌉ * (1 - ((⌈x⌉ : R) - x))) * (1 - ((⌈y⌉ : R) - y))
      = bilinearSpec getClamped x y := by
  unfold bilinearSpec
  simp only
  rcases ceil_sub_self_cases x with ⟨hx, hx'⟩ | ⟨hx, _⟩ <;>
    rcases ceil_sub_self_cases y with ⟨hy, hy'⟩ | ⟨hy, _⟩
  · rw [hx, hy]
    simp only [hx', hy']
    ring
  · rw [hx, hy]
    simp only [hx']
    push_cast
    ring
  · rw [hx, hy]
    simp only [hy']
    push_cast
    ring
  · rw [hx, hy]
    push_cast
    ring

/-- the interpolant lies between the least and the greatest of its four samples -/
theorem bilinearSpec_mem [FloorRing R] (getClamped : ℤ → ℤ → R) (x y : R) :
    min (min (getClamped ⌊x⌋ ⌊y⌋) (getClamped ⌈x⌉ ⌊y⌋))
        (min (getClamped ⌊x⌋ ⌈y⌉) (getClamped ⌈x⌉ ⌈y⌉)) ≤ bilinearSpec getClamped x y ∧
    bilinearSpec getClamped x y
      ≤ max (max (getClamped ⌊x⌋ ⌊y⌋) (getClamped ⌈x⌉ ⌊y⌋))
          (max (getClamped ⌊x⌋ ⌈y⌉) (getClamped ⌈x⌉ ⌈y⌉)) := by
  rw [← bilinear_value_eq_spec]
  have hx0 : (0 : R) ≤ (⌈x⌉ : R) - x := sub_nonneg.mpr (Int.le_ceil x)
  have hx1 : (⌈x⌉ : R) - x ≤ 1 := by linarith [Int.ceil_lt_add_one x]
  have hy0 : (0 : R) ≤ (⌈y⌉ : R) - y := sub_nonneg.mpr (Int.le_ceil y)
  have hy1 : (⌈y⌉ : R) - y ≤ 1 := by linarith [Int.ceil_lt_add_one y]
  obtain ⟨a1, a2⟩ := lerp_mem (getClamped ⌊x⌋ ⌊y⌋) (getClamped ⌈x⌉ ⌊y⌋) _ hx0 hx1
  obtain ⟨b1, b2⟩ := lerp_mem (getClamped ⌊x⌋ ⌈y⌉) (getClamped ⌈x⌉ ⌈y⌉) _ hx0 hx1
  obtain ⟨c1, c2⟩ := lerp_mem
    (getClamped ⌊x⌋ ⌊y⌋ * ((⌈x⌉ : R) - x) + getClamped ⌈x⌉ ⌊y⌋ * (1 - ((⌈x⌉ : R) - x)))
    (getClamped ⌊x⌋ ⌈y⌉ * ((⌈x⌉ : R) - x) + getClamped ⌈x⌉ ⌈y⌉ * (1 - ((⌈x⌉ : R) - x)))
    _ hy0 hy1
  constructor
  · exact le_trans (min_le_min a1 b1) c1
  · exact le_trans c2 (max_le_max a2 b2)

/-- the interpolant at whole coordinates is the pixel value -/
theorem bilinearSpec_intCast [FloorRing R] (getClamped : ℤ → ℤ → R) (n m : ℤ) :
    bilinearSpec getClamped (n : R) (m : R) = getClamped n m := by
  unfold bilinearSpec
  simp only [Int.floor_intCast, Int.ceil_intCast]
  ring

/-- `bilinear` where the four conversions have values -/
theorem bilinear_spec_of_mem [FloorRing R] (getClamped : ℤ → ℤ → R) (x y : R)
    (hx0 : -2147483648 ≤ ⌊x⌋) (hx1 : ⌈x⌉ ≤ 2147483647)
    (hy0 : -2147483648 ≤ ⌊y⌋) (hy1 : ⌈y⌉ ≤ 2147483647) :
    Bilinear.get getClamped x y = bilinear getClamped x y ∧
    bilinear getClamped x y = some (bilinearSpec getClamped x y) ∧
    (∀ n m : ℤ, x = (n : R) → y = (m : R) → bilinear getClamped x y = some (getClamped n m)) ∧
    min (min (getClamped ⌊x⌋ ⌊y⌋) (getClamped ⌈x⌉ ⌊y⌋))
        (min (getClamped ⌊x⌋ ⌈y⌉) (getClamped ⌈x⌉ ⌈y⌉)) ≤ bilinearSpec getClamped x y ∧
    bilinearSpec getClamped x y
      ≤ max (max (getClamped ⌊x⌋ ⌊y⌋) (getClamped ⌈x⌉ ⌊y⌋))
          (max (getClamped ⌊x⌋ ⌈y⌉) (getClamped ⌈x⌉ ⌈y⌉)) := by
  have h := bilinear_eq_some getClamped x y hx0 hx1 hy0 hy1
  rw [bilinear_value_eq_spec] at h
  refine ⟨rfl, h, ?_, (bilinearSpec_mem getClamped x y).1, (bilinearSpec_mem getClamped x y).2⟩
  intro n m hn hm
  rw [h, hn, hm, bilinearSpec_intCast]

/-- C26 (amended): for every image and every `(x, y)` whose `floor` and `ceil`
are values of the 32-bit `int`, `Bilinear::get` and `bilinear` agree and return
the standard four-sample bilinear interpolant over clamped pixel lookups (exact
arithmetic on the brightness values); at integer coordinates the result is the
pixel value itself, and the result lies between the minimum and the maximum of
the four samples. -/
theorem bilinear_eq_spec [FloorRing R] (getClamped : ℤ → ℤ → R) (x y : R)
    (hx0 : -2147483648 ≤ ⌊x⌋) (hx1 : ⌈x⌉ ≤ 2147483647)
    (hy0 : -2147483648 ≤ ⌊y⌋) (hy1 : ⌈y⌉ ≤ 2147483647) :
    Bilinear.get getClamped x y = bilinear getClamped x y ∧
    bilinear getClamped x y = some (bilinearSpec getClamped x y) ∧
    (∀ n m : ℤ, x = (n : R) → y = (m : R) → bilinear getClamped x y = some (getClamped n m)) ∧
    min (min (getClamped ⌊x⌋ ⌊y⌋) (getClamped ⌈x⌉ ⌊y⌋))
        (min (getClamped ⌊x⌋ ⌈y⌉) (getClamped ⌈x⌉ ⌈y⌉)) ≤ bilinearSpec getClamped x y ∧
    bilinearSpec getClamped x y
      ≤ max (max (getClamped ⌊x⌋ ⌊y⌋) (getClamped ⌈x⌉ ⌊y⌋))
          (max (getClamped ⌊x⌋ ⌈y⌉) (getClamped ⌈x⌉ ⌈y⌉)) :=
  bilinear_spec_of_mem getClamped x y hx0 hx1 hy0 hy1

theorem floor_ceil_half_quarter :
    ⌊(1 / 2 : ℚ)⌋ = 0 ∧ ⌈(1 / 2 : ℚ)⌉ = 1 ∧ ⌊(1 / 4 : ℚ)⌋ = 0 ∧ ⌈(1 / 4 : ℚ)⌉ = 1 := by
  refine ⟨?_, ?_, ?_, ?_⟩
  · norm_num [Int.floor_eq_iff]
  · norm_num [Int.ceil_eq_iff]
  · norm_num [Int.floor_eq_iff]
  · norm_num [Int.ceil_eq_iff]

/-- the interpolant of the ramp image at `(1/2, 1/4)` -/
theorem bilinearSpec_example : bilinearSpec rampImage (1 / 2) (1 / 4) = 3 := by
  obtain ⟨hf2, hc2, hf4, hc4⟩ := floor_ceil_half_quarter
  unfold bilinearSpec
  simp only [hf2, hc2, hf4, hc4]
  norm_num [rampImage]

/-- bilinear interpolation of the ramp image at `(1/2, 1/4)` -/
theorem bilinear_example : bilinear rampImage (1 / 2) (1 / 4) = some 3 := by
  obtain ⟨hf2, hc2, hf4, hc4⟩ := floor_ceil_half_quarter
  have h := (bilinear_spec_of_mem rampImage (1 / 2) (1 / 4) (by rw [hf2]; norm_num)
    (by rw [hc2]; norm_num) (by rw [hf4]; norm_num) (by rw [hc4]; norm_num)).2.1
  rw [h, bilinearSpec_example]

/-- C26 witness: the ramp image at `(1/2, 1/4)`, where the interpolant is 3. -/
theorem bilinear_eq_spec_witness :
    -2147483648 ≤ ⌊(1 / 2 : ℚ)⌋ ∧ ⌈(1 / 2 : ℚ)⌉ ≤ 2147483647 ∧
    -2147483648 ≤ ⌊(1 / 4 : ℚ)⌋ ∧ ⌈(1 / 4 : ℚ)⌉ ≤ 2147483647 ∧
    bilinear rampImage (1 / 2) (1 / 4) = some (bilinearSpec rampImage (1 / 2) (1 / 4)) ∧
    bilinearSpec rampImage (1 / 2) (1 / 4) = 3 :=
  ⟨by rw [floor_ceil_half_quarter.1]; norm_num,
    by rw [floor_ceil_half_quarter.2.1]; norm_num,
    by rw [floor_ceil_half_quarter.2.2.1]; norm_num,
    by rw [floor_ceil_half_quarter.2.2.2]; norm_num,
    (bilinear_eq_spec rampImage (1 / 2) (1 / 4)
      (by rw [floor_ceil_half_quarter.1]; norm_num)
      (by rw [floor_ceil_half_quarter.2.1]; norm_num)
      (by rw [floor_ceil_half_quarter.2.2.1]; norm_num)
      (by rw [floor_ceil_half_quarter.2.2.2]; norm_num)).2.1,
    bilinearSpec_example⟩

/-- C26 (claim as stated fails): the claim covers every `(x, y)`.  At the
coordinates `(3000000000, 0)`, which are `float` values, the conversion
`(int) std::floor(x)` has no value, so neither `Bilinear::get` nor `bilinear` has
a defined result, while the interpolant of the claim is the pixel value
`3000000000` of the ramp image. -/
theorem bilinear_undefined_beyond_int :
    Bilinear.get rampImage 3000000000 0 = none ∧
    bilinear rampImage 3000000000 0 = none ∧
    bilinearSpec rampImage 3000000000 0 = 3000000000 := by
  have hn : intOfFloat (((⌊(3000000000 : ℚ)⌋ : ℤ)) : ℚ) = none := by
    have hf : ⌊(3000000000 : ℚ)⌋ = 3000000000 := by
      rw [Int.floor_eq_iff]
      norm_num
    rw [hf]
    exact intOfFloat_intCast_none 3000000000 (by norm_num)
  have hb : bilinear rampImage 3000000000 0 = none := by
    unfold bilinear
    rw [hn]
    rfl
  refine ⟨hb, hb, ?_⟩
  have h := bilinearSpec_intCast rampImage 3000000000 0
  simp only [Int.cast_ofNat, Int.cast_zero] at h
  rw [h]
  norm_num [rampImage]

/-! ## C27: cubic interpolation -/

theorem cubicInterpolate_zero (p : Fin 4 → R) : cubicInterpolate p 0 = p 1 := by
  unfold cubicInterpolate
  ring

theorem cubicInterpolate_one (p : Fin 4 → R) : cubicInterpolate p 1 = p 2 := by
  unfold cubicInterpolate
  ring

theorem bicubicInterpolate_zero (p : Fin 4 → Fin 4 → R) : bicubicInterpolate p 0 0 = p 1 1 := by
  unfold bicubicInterpolate
  simp only [cubicInterpolate_zero]
  rfl

/-- `bicubic` at whole coordinates whose neighbours `n - 1`, `n + 3`, `m - 1`,
`m + 3` are values of `int` -/
theorem bicubic_intCast [FloorRing R] (getClamped : ℤ → ℤ → R) (n m : ℤ)
    (hn0 : -2147483647 ≤ n) (hn1 : n ≤ 2147483644)
    (hm0 : -2147483647 ≤ m) (hm1 : m ≤ 2147483644) :
    bicubic getClamped (n : R) (m : R) = some (clamp (getClamped n m) 0 1) := by
  have hfit : (fitsInt (n - 1) && fitsInt (n + 3) && fitsInt (m - 1) && fitsInt (m + 3))
      = true := by
    simp only [Bool.and_eq_true, fitsInt_iff]
    omega
  unfold bicubic
  rw [Int.floor_intCast, Int.floor_intCast, intOfFloat_intCast n (by omega) (by omega),
    intOfFloat_intCast m (by omega) (by omega)]
  simp only [Option.some_bind, hfit, if_true, sub_self, bicubicInterpolate_zero]
  congr 2
  simp

/-- C27 (amended): `cubicInterpolate(p, 0) = p[1]` and
`cubicInterpolate(p, 1) = p[2]` for every four values;
`bicubicInterpolate(p, 0, 0) = p[1][1]`; and `bicubic` at integer coordinates
`(n, m)` with `-2^31 < n, m ≤ 2^31 - 4`, for which the lookups `ix+x1-1`,
`iy+y1-1` are values of the 32-bit `int`, returns the pixel value clamped to
`[0, 1]` (exact arithmetic). -/
theorem cubic_through_samples [FloorRing R] :
    (∀ p : Fin 4 → R, cubicInterpolate p 0 = p 1 ∧ cubicInterpolate p 1 = p 2) ∧
    (∀ p : Fin 4 → Fin 4 → R, bicubicInterpolate p 0 0 = p 1 1) ∧
    ∀ (getClamped : ℤ → ℤ → R) (n m : ℤ),
      -2147483647 ≤ n → n ≤ 2147483644 → -2147483647 ≤ m → m ≤ 2147483644 →
      bicubic getClamped (n : R) (m : R) = some (clamp (getClamped n m) 0 1) :=
  ⟨fun p => ⟨cubicInterpolate_zero p, cubicInterpolate_one p⟩, bicubicInterpolate_zero,
    bicubic_intCast⟩

/-- C27 witness: `bicubic` on the ramp image at the pixel `(2, 0)` returns the
pixel value 2 clamped to 1. -/
theorem cubic_through_samples_witness :
    bicubic rampImage ((2 : ℤ) : ℚ) ((0 : ℤ) : ℚ) = some (clamp (rampImage 2 0) 0 1) ∧
    clamp (rampImage 2 0) 0 1 = 1 :=
  ⟨(cubic_through_samples (R := ℚ)).2.2 rampImage 2 0 (by norm_num) (by norm_num)
      (by norm_num) (by norm_num),
    by norm_num [clamp, rampImage]⟩

/-- C27 (claim as stated fails): the claim covers all integer coordinates.  At
`(3000000000, 0)`, which are `float` values, the conversion `(int) std::floor(x)`
has no value and `bicubic` has no defined result, while the pixel value clamped
to `[0, 1]` is 1.  At `(-2147483648, 0)` the conversion gives the least `int`,
and the lookup `ix+0-1` goes below it. -/
theorem bicubic_undefined_beyond_int :
    bicubic rampImage ((3000000000 : ℤ) : ℚ) ((0 : ℤ) : ℚ) = none ∧
    clamp (rampImage 3000000000 0) 0 1 = 1 ∧
    bicubic rampImage ((-2147483648 : ℤ) : ℚ) ((0 : ℤ) : ℚ) = none := by
  refine ⟨?_, by norm_num [clamp, rampImage], ?_⟩
  · unfold bicubic
    rw [Int.floor_intCast, intOfFloat_intCast_none 3000000000 (by norm_num)]
    rfl
  · unfold bicubic
    rw [Int.floor_intCast, Int.floor_intCast,
      intOfFloat_intCast (-2147483648) (by norm_num) (by norm_num),
      intOfFloat_intCast 0 (by norm_num) (by norm_num)]
    rfl

/-- cubic interpolation half way between the samples `p[1]` and `p[2]` -/
theorem cubicInterpolate_example : cubicInterpolate (![0, 1, 3, 4] : Fin 4 → ℚ) (1 / 2) = 2 := by
  norm_num [cubicInterpolate]

end Interpolation

namespace BufferedInputStream

/-! ## C28: the bytes handed out by a buffered stream -/

/-- `fillBuffer` appends to the buffer exactly what the underlying stream
delivers, and sets `eof` only when the underlying stream reports a failure -/
theorem fillBuffer_spec (is : Underlying) (blockSize needed : ℕ) (st : State) :
    ∃ extra : List Byte,
      (fillBuffer is blockSize needed st).buffer = st.buffer ++ extra ∧
      delivered is (fillBuffer is blockSize needed st).requests
        = delivered is st.requests ++ extra ∧
      ((fillBuffer is blockSize needed st).eof = true →
        st.eof = true ∨ failureReported is (fillBuffer is blockSize needed st).requests = true) ∧
      (failureReported is st.requests = true →
        failureReported is (fillBuffer is blockSize needed st).requests = true) := by
  unfold fillBuffer
  by_cases h : st.buffer.length ≥ needed
  · rw [if_pos h]
    exact ⟨[], by simp, by simp, fun h => Or.inl h, fun h => h⟩
  · rw [if_neg h]
    simp only
    cases hf : is st.requests.length (if needed < blockSize then blockSize else needed) with
    | bytes data hlen =>
      refine ⟨data, rfl, ?_, fun h => Or.inl h, fun h => ?_⟩
      · simp only [delivered, hf, Fetched.data]
      · simp only [failureReported, hf, Fetched.isFailed, Bool.false_or]
        exact h
    | failed =>
      refine ⟨[], by simp, ?_, fun _ => Or.inr ?_, fun _ => ?_⟩
      · simp only [delivered, hf, Fetched.data, List.append_nil]
      · simp only [failureReported, hf, Fetched.isFailed, Bool.true_or]
      · simp only [failureReported, hf, Fetched.isFailed, Bool.true_or]
    | tryAgain =>
      refine ⟨[], by simp, ?_, fun h => Or.inl h, fun h => ?_⟩
      · simp only [delivered, hf, Fetched.data, List.append_nil]
      · simp only [failureReported, hf, Fetched.isFailed, Bool.false_or]
        exact h

/-- the invariant of a buffered stream: what was handed out followed by the
buffer is what the underlying stream delivered, and `eof` is set only after a
reported failure -/
theorem step_invariant (is : Underlying) (blockSize : ℕ) (c : Call) (st : State)
    (pre : List Byte) (hinv : pre ++ st.buffer = delivered is st.requests)
    (heof : st.eof = true → failureReported is st.requests = true) :
    pre ++ consumedBy (c, (step is blockSize c st).1) ++ (step is blockSize c st).2.buffer
      = delivered is (step is blockSize c st).2.requests ∧
    ((step is blockSize c st).2.eof = true →
      failureReported is (step is blockSize c st).2.requests = true) := by
  have key : ∀ needed, delivered is (fillBuffer is blockSize needed st).requests
      = pre ++ (fillBuffer is blockSize needed st).buffer ∧
      ((fillBuffer is blockSize needed st).eof = true →
        failureReported is (fillBuffer is blockSize needed st).requests = true) := by
    intro needed
    obtain ⟨extra, hbuf, hdel, he, hf⟩ := fillBuffer_spec is blockSize needed st
    refine ⟨?_, fun h => (he h).elim (fun h' => hf (heof h')) id⟩
    rw [hdel, ← hinv, hbuf, List.append_assoc]
  cases c with
  | read =>
    obtain ⟨hdel, he⟩ := key 1
    simp only [step, read]
    cases hb : (fillBuffer is blockSize 1 st).buffer with
    | nil =>
      simp only
      refine ⟨?_, he⟩
      rw [hdel, hb]
      split_ifs <;> simp [consumedBy]
    | cons b rest =>
      simp only [consumedBy]
      refine ⟨?_, he⟩
      rw [hdel, hb]
      simp
  | peek =>
    obtain ⟨hdel, he⟩ := key 1
    simp only [step, peek]
    cases hb : (fillBuffer is blockSize 1 st).buffer with
    | nil =>
      simp only
      refine ⟨?_, he⟩
      rw [hdel, hb]
      split_ifs <;> simp [consumedBy]
    | cons b rest =>
      simp only [consumedBy]
      refine ⟨?_, he⟩
      rw [hdel, hb]
      simp
  | readInto len =>
    obtain ⟨hdel, he⟩ := key len
    simp only [step, readInto]
    cases hb : (fillBuffer is blockSize len st).buffer with
    | nil =>
      simp only
      refine ⟨?_, he⟩
      rw [hdel, hb]
      split_ifs <;> simp [consumedBy]
    | cons b rest =>
      simp only [consumedBy]
      refine ⟨?_, he⟩
      rw [hdel, hb, List.append_assoc, List.take_append_drop]

theorem run_invariant (is : Underlying) (blockSize : ℕ) (calls : List Call) (st : State)
    (pre : List Byte) (hinv : pre ++ st.buffer = delivered is st.requests)
    (heof : st.eof = true → failureReported is st.requests = true) :
    pre ++ consumed (run is blockSize calls st).1 ++ (run is blockSize calls st).2.buffer
      = delivered is (run is blockSize calls st).2.requests ∧
    ((run is blockSize calls st).2.eof = true →
      failureReported is (run is blockSize calls st).2.requests = true) := by
  induction calls generalizing st pre with
  | nil => simpa [run, consumed] using ⟨hinv, heof⟩
  | cons c cs ih =>
    obtain ⟨h1, h2⟩ := step_invariant is blockSize c st pre hinv heof
    obtain ⟨h3, h4⟩ := ih (step is blockSize c st).2 _ h1 h2
    simp only [run, consumed, List.map_cons, List.flatten_cons]
    refine ⟨?_, h4⟩
    rw [← h3]
    simp [consumed, List.append_assoc]

theorem fillBuffer_of_le (is : Underlying) (blockSize needed : ℕ) (st : State)
    (h : needed ≤ st.buffer.length) : fillBuffer is blockSize needed st = st := by
  unfold fillBuffer
  rw [if_pos h]

theorem peek_then_read (is : Underlying) (blockSize : ℕ) (st : State) (b : Byte)
    (h : (peek is blockSize st).1 = .byte b) :
    (∃ rest, (peek is blockSize st).2.buffer = b :: rest ∧
      read is blockSize (peek is blockSize st).2
        = (.byte b, { (peek is blockSize st).2 with buffer := rest })) ∧
    (read is blockSize st).1 = .byte b := by
  cases hb : (fillBuffer is blockSize 1 st).buffer with
  | nil =>
    simp only [peek, hb] at h
    split_ifs at h
  | cons b' rest =>
    have hpeek : peek is blockSize st = (.byte b', fillBuffer is blockSize 1 st) := by
      simp only [peek, hb]
    rw [hpeek] at h ⊢
    simp only [Result.byte.injEq] at h
    subst h
    have hfill : fillBuffer is blockSize 1 (fillBuffer is blockSize 1 st)
        = fillBuffer is blockSize 1 st :=
      fillBuffer_of_le is blockSize 1 _ (by rw [hb]; simp)
    refine ⟨⟨rest, hb, ?_⟩, ?_⟩
    · simp only [read, hfill, hb]
    · simp only [read, hb]

theorem readInto_length (is : Underlying) (blockSize len : ℕ) (st : State) (data : List Byte)
    (h : (readInto is blockSize len st).1 = .bytes data) : data.length ≤ len := by
  unfold readInto at h
  cases hb : (fillBuffer is blockSize len st).buffer with
  | nil =>
    simp only [hb] at h
    split_ifs at h
    simp only [Result.bytes.injEq] at h
    rw [← h]
    simp
  | cons b rest =>
    simp only [hb, Result.bytes.injEq] at h
    rw [← h, List.length_take]
    split_ifs <;> omega

theorem step_failed (is : Underlying) (blockSize : ℕ) (c : Call) (st : State)
    (h : (step is blockSize c st).1 = .failed) :
    (step is blockSize c st).2.buffer = [] ∧ (step is blockSize c st).2.eof = true := by
  cases c with
  | read =>
    simp only [step, read] at h ⊢
    cases hb : (fillBuffer is blockSize 1 st).buffer with
    | nil =>
      simp only [hb] at h ⊢
      split_ifs at h with he
      simp [he]
    | cons b rest => simp [hb] at h
  | peek =>
    simp only [step, peek] at h ⊢
    cases hb : (fillBuffer is blockSize 1 st).buffer with
    | nil =>
      simp only [hb] at h ⊢
      split_ifs at h with he
      simp [he]
    | cons b rest => simp [hb] at h
  | readInto len =>
    simp only [step, readInto] at h ⊢
    cases hb : (fillBuffer is blockSize len st).buffer with
    | nil =>
      simp only [hb] at h ⊢
      split_ifs at h with he
      simp [he]
    | cons b rest => simp [hb] at h

/-- `fillBuffer(needed)` asks the underlying stream exactly when the buffer holds
fewer than `needed` bytes, once, for `max(needed, blockSize)` bytes -/
theorem fillBuffer_requests (is : Underlying) (blockSize needed : ℕ) (st : State) :
    (fillBuffer is blockSize needed st).requests
      = if needed ≤ st.buffer.length then st.requests
        else max needed blockSize :: st.requests := by
  have hmax : (if needed < blockSize then blockSize else needed) = max needed blockSize := by
    split_ifs with h
    · exact (max_eq_right h.le).symm
    · exact (max_eq_left (not_lt.mp h)).symm
  unfold fillBuffer
  by_cases h : st.buffer.length ≥ needed
  · rw [if_pos h, if_pos h]
  · rw [if_neg h, if_neg h, hmax]
    simp only
    cases is st.requests.length (max needed blockSize) <;> rfl

/-- `eof` is set exactly when the underlying stream has reported a failure -/
theorem fillBuffer_eof (is : Underlying) (blockSize needed : ℕ) (st : State)
    (heof : st.eof = failureReported is st.requests) :
    (fillBuffer is blockSize needed st).eof
      = failureReported is (fillBuffer is blockSize needed st).requests := by
  unfold fillBuffer
  by_cases h : st.buffer.length ≥ needed
  · rw [if_pos h]
    exact heof
  · rw [if_neg h]
    simp only
    cases hf : is st.requests.length (if needed < blockSize then blockSize else needed) with
    | bytes data hlen => simp only [failureReported, hf, Fetched.isFailed, Bool.false_or, heof]
    | failed => simp only [failureReported, hf, Fetched.isFailed, Bool.true_or]
    | tryAgain => simp only [failureReported, hf, Fetched.isFailed, Bool.false_or, heof]

/-- a call leaves the requests and the flag `eof` as its `fillBuffer` leaves
them, and its result is the one of the reference definition for the buffer
after `fillBuffer` -/
theorem step_eq (is : Underlying) (blockSize : ℕ) (c : Call) (st : State) :
    (step is blockSize c st).2.requests = (fillBuffer is blockSize c.needed st).requests ∧
    (step is blockSize c st).2.eof = (fillBuffer is blockSize c.needed st).eof ∧
    (step is blockSize c st).1
      = resultSpec c (fillBuffer is blockSize c.needed st).buffer
          (fillBuffer is blockSize c.needed st).eof := by
  cases c with
  | read =>
    simp only [step, read, Call.needed]
    cases hb : (fillBuffer is blockSize 1 st).buffer <;> simp [resultSpec]
  | peek =>
    simp only [step, peek, Call.needed]
    cases hb : (fillBuffer is blockSize 1 st).buffer <;> simp [resultSpec]
  | readInto len =>
    simp only [step, readInto, Call.needed]
    cases hb : (fillBuffer is blockSize len st).buffer with
    | nil => simp [resultSpec]
    | cons b rest =>
      simp only [resultSpec, true_and]
      split_ifs with h
      · rfl
      · rw [List.take_of_length_le (not_lt.mp h), List.take_of_length_le le_rfl]

theorem run_eof (is : Underlying) (blockSize : ℕ) (calls : List Call) (st : State)
    (heof : st.eof = failureReported is st.requests) :
    (run is blockSize calls st).2.eof = failureReported is (run is blockSize calls st).2.requests := by
  induction calls generalizing st with
  | nil => exact heof
  | cons c cs ih =>
    simp only [run]
    apply ih
    obtain ⟨hr, he, _⟩ := step_eq is blockSize c st
    rw [hr, he]
    exact fillBuffer_eof is blockSize c.needed st heof

/-- the result of a call is the one of the reference definition, for the bytes
delivered up to and including this call that no earlier read has returned -/
theorem step_result (is : Underlying) (blockSize : ℕ) (c : Call) (st : State)
    (pre : List Byte) (hinv : pre ++ st.buffer = delivered is st.requests)
    (heof : st.eof = failureReported is st.requests) :
    (step is blockSize c st).1
      = resultSpec c ((delivered is (step is blockSize c st).2.requests).drop pre.length)
          (failureReported is (step is blockSize c st).2.requests) := by
  obtain ⟨hr, _, hres⟩ := step_eq is blockSize c st
  obtain ⟨extra, hbuf, hdel, _, _⟩ := fillBuffer_spec is blockSize c.needed st
  rw [hres, hr, fillBuffer_eof is blockSize c.needed st heof, hdel, ← hinv, hbuf,
    List.append_assoc, List.drop_left]

/-- on a stream that answers every request of at least one byte with at least
one byte, `read()` returns a byte -/
theorem read_of_productive (is : Underlying) (blockSize : ℕ) (st : State)
    (hprod : ∀ k len, 1 ≤ len → (is k len).data ≠ []) :
    ∃ b, (read is blockSize st).1 = .byte b := by
  obtain ⟨extra, hbuf, hdel, _, _⟩ := fillBuffer_spec is blockSize 1 st
  have hreq := fillBuffer_requests is blockSize 1 st
  have hne : (fillBuffer is blockSize 1 st).buffer ≠ [] := by
    by_cases h : 1 ≤ st.buffer.length
    · rw [hbuf]
      intro h0
      have := congrArg List.length h0
      simp only [List.length_append, List.length_nil] at this
      omega
    · rw [if_neg h] at hreq
      rw [hreq] at hdel
      simp only [delivered] at hdel
      have hx := List.append_cancel_left hdel
      rw [hbuf, ← hx]
      intro h0
      exact hprod _ _ (le_max_left 1 blockSize) (List.append_eq_nil.mp h0).2
  simp only [read]
  cases hb : (fillBuffer is blockSize 1 st).buffer with
  | nil => exact absurd hb hne
  | cons b rest => exact ⟨b, rfl⟩

/-- the properties of a buffered stream after any sequence of calls -/
theorem run_spec (is : Underlying) (blockSize : ℕ) (calls : List Call) :
    consumed (run is blockSize calls State.init).1
        ++ (run is blockSize calls State.init).2.buffer
      = delivered is (run is blockSize calls State.init).2.requests ∧
    consumed (run is blockSize calls State.init).1
      <+: delivered is (run is blockSize calls State.init).2.requests ∧
    (∀ b, (peek is blockSize (run is blockSize calls State.init).2).1 = .byte b →
      (∃ rest, (peek is blockSize (run is blockSize calls State.init).2).2.buffer = b :: rest) ∧
      (read is blockSize (peek is blockSize (run is blockSize calls State.init).2).2).1
        = .byte b ∧
      (read is blockSize (run is blockSize calls State.init).2).1 = .byte b) ∧
    (∀ len data, (readInto is blockSize len (run is blockSize calls State.init).2).1
      = .bytes data → data.length ≤ len) ∧
    (∀ c, (step is blockSize c (run is blockSize calls State.init).2).1 = .failed →
      (step is blockSize c (run is blockSize calls State.init).2).2.buffer = [] ∧
      failureReported is (step is blockSize c (run is blockSize calls State.init).2).2.requests
        = true) ∧
    (∀ c, (step is blockSize c (run is blockSize calls State.init).2).2.requests
      = if c.needed ≤ (run is blockSize calls State.init).2.buffer.length
        then (run is blockSize calls State.init).2.requests
        else max c.needed blockSize :: (run is blockSize calls State.init).2.requests) ∧
    (∀ c, (step is blockSize c (run is blockSize calls State.init).2).1
      = resultSpec c
          ((delivered is (step is blockSize c (run is blockSize calls State.init).2).2.requests).drop
            (consumed (run is blockSize calls State.init).1).length)
          (failureReported is
            (step is blockSize c (run is blockSize calls State.init).2).2.requests)) ∧
    ((∀ k len, 1 ≤ len → (is k len).data ≠ []) →
      ∃ b, (read is blockSize (run is blockSize calls State.init).2).1 = .byte b) := by
  obtain ⟨h1, h2⟩ := run_invariant is blockSize calls State.init [] rfl
    (fun h => absurd h (by simp [State.init]))
  have h3 := run_eof is blockSize calls State.init rfl
  rw [List.nil_append] at h1
  refine ⟨h1, ⟨_, h1⟩, ?_, ?_, ?_, ?_, ?_, ?_⟩
  · intro b hb
    obtain ⟨⟨rest, hrest, hread⟩, hread'⟩ := peek_then_read is blockSize _ b hb
    exact ⟨⟨rest, hrest⟩, by rw [hread], hread'⟩
  · intro len data h
    exact readInto_length is blockSize len _ data h
  · intro c hc
    obtain ⟨hb, he⟩ := step_failed is blockSize c _ hc
    refine ⟨hb, ?_⟩
    exact (step_invariant is blockSize c _ _ h1 h2).2 he
  · intro c
    rw [(step_eq is blockSize c _).1, fillBuffer_requests]
  · intro c
    exact step_result is blockSize c _ _ h1 h3
  · intro hprod
    exact read_of_productive is blockSize _ hprod

/-- C28: for every behaviour of the underlying stream, every block size and every
sequence of `read()`, `read(data, len)` and `peek()` calls on a fresh
`BufferedInputStream`: the bytes returned by the read calls, followed by the
buffered bytes, are exactly the bytes the underlying stream has delivered, in
order, so the returned bytes are a prefix of the delivered ones; a `peek()` that
returns a byte leaves it at the front of the buffer, and the next `read()`
returns that byte; `read(data, len)` returns at most `len` bytes; and a call
returns `ERR_FAILED` only with an empty buffer and after the underlying stream
has reported a failure.  Nothing is held back: a call asks the underlying
stream, once and for `max(needed, blockSize)` bytes, exactly when the buffer
holds fewer bytes than it needs; its result is the one of the reference
definition `resultSpec` for the bytes delivered so far, this request included,
that no earlier read has returned (the first of them for `read()` and `peek()`,
the first `len` of them for `read(data, len)`, an error code only when there is
none); and on a stream that answers every request with at least one byte,
`read()` returns a byte. -/
theorem reads_in_order (is : Underlying) (blockSize : ℕ) (calls : List Call) :
    consumed (run is blockSize calls State.init).1
        ++ (run is blockSize calls State.init).2.buffer
      = delivered is (run is blockSize calls State.init).2.requests ∧
    consumed (run is blockSize calls State.init).1
      <+: delivered is (run is blockSize calls State.init).2.requests ∧
    (∀ b, (peek is blockSize (run is blockSize calls State.init).2).1 = .byte b →
      (∃ rest, (peek is blockSize (run is blockSize calls State.init).2).2.buffer = b :: rest) ∧
      (read is blockSize (peek is blockSize (run is blockSize calls State.init).2).2).1
        = .byte b ∧
      (read is blockSize (run is blockSize calls State.init).2).1 = .byte b) ∧
    (∀ len data, (readInto is blockSize len (run is blockSize calls State.init).2).1
      = .bytes data → data.length ≤ len) ∧
    (∀ c, (step is blockSize c (run is blockSize calls State.init).2).1 = .failed →
      (step is blockSize c (run is blockSize calls State.init).2).2.buffer = [] ∧
      failureReported is (step is blockSize c (run is blockSize calls State.init).2).2.requests
        = true) ∧
    (∀ c, (step is blockSize c (run is blockSize calls State.init).2).2.requests
      = if c.needed ≤ (run is blockSize calls State.init).2.buffer.length
        then (run is blockSize calls State.init).2.requests
        else max c.needed blockSize :: (run is blockSize calls State.init).2.requests) ∧
    (∀ c, (step is blockSize c (run is blockSize calls State.init).2).1
      = resultSpec c
          ((delivered is (step is blockSize c (run is blockSize calls State.init).2).2.requests).drop
            (consumed (run is blockSize calls State.init).1).length)
          (failureReported is
            (step is blockSize c (run is blockSize calls State.init).2).2.requests)) ∧
    ((∀ k len, 1 ≤ len → (is k len).data ≠ []) →
      ∃ b, (read is blockSize (run is blockSize calls State.init).2).1 = .byte b) :=
  run_spec is blockSize calls

/-- on a stream that answers every request with at least one byte, `n` calls of
`read()` return the first `n` bytes that the underlying stream delivered -/
theorem reads_of_productive (is : Underlying) (blockSize : ℕ)
    (hprod : ∀ k len, 1 ≤ len → (is k len).data ≠ []) (n : ℕ) :
    (consumed (run is blockSize (List.replicate n .read) State.init).1).length = n ∧
    consumed (run is blockSize (List.replicate n .read) State.init).1
      = (delivered is (run is blockSize (List.replicate n .read) State.init).2.requests).take n := by
  have key : ∀ (n : ℕ) (st : State),
      (consumed (run is blockSize (List.replicate n .read) st).1).length = n := by
    intro n
    induction n with
    | zero => intro st; rfl
    | succ n ih =>
      intro st
      obtain ⟨b, hb⟩ := read_of_productive is blockSize st hprod
      simp only [List.replicate_succ, run, step, consumed, List.map_cons, List.flatten_cons,
        List.length_append, hb, consumedBy, List.length_singleton]
      have := ih (read is blockSize st).2
      simp only [consumed] at this
      omega
  refine ⟨key n State.init, ?_⟩
  obtain ⟨pre, _⟩ := run_spec is blockSize (List.replicate n .read)
  have hlen := key n State.init
  rw [← pre, List.take_left' hlen]

/-- a run on a stream that delivers the bytes 1, 2, 3 and then fails, with the
block size 4: the peek and the first read return 1, the read of up to five bytes
returns 2, 3, and the last read fails -/
theorem run_threeBytes :
    (run threeBytes 4 [.peek, .read, .readInto 5, .read] State.init).1
      = [(.peek, .byte 1), (.read, .byte 1), (.readInto 5, .bytes [2, 3]), (.read, .failed)] ∧
    consumed (run threeBytes 4 [.peek, .read, .readInto 5, .read] State.init).1 = [1, 2, 3] ∧
    delivered threeBytes (run threeBytes 4 [.peek, .read, .readInto 5, .read] State.init).2.requests
      = [1, 2, 3] := by
  refine ⟨by decide, by decide, by decide⟩

/-- a run on the stream that delivers one byte per request, with the block size
4: three calls of `read()` return the bytes 0, 1, 2 -/
theorem run_counting :
    (run counting 4 [.read, .read, .read] State.init).1
      = [(.read, .byte 0), (.read, .byte 1), (.read, .byte 2)] := by
  decide

end BufferedInputStream
